import Mathlib

/-! # SampleIterator and MediaSampleWriter

A shallow embedding of `media/libstagefright/SampleIterator.cpp` (the seekable
cursor over the sample index tables of a container) and of
`media/libmediatranscoding/transcoder/MediaSampleWriter.cpp` (the interleaving
writer), followed by theorems about them.

Conventions of the embedding.

* `uint32_t` values are natural numbers; every `uint32_t` operation of the
  source is reduced modulo `2^32` by `u32` (subtraction by `sub32`).
* `off64_t` and `int64_t` values are integers; every addition the source does
  in that type is reduced to the two's complement range by `wrap64`.
* `size_t` is 32 bits wide, as the cast in `case 32` of
  `getSampleSizeDirect` assumes.
* A function of the source that can abort (`CHECK`), divide by zero or index
  outside an array returns `none` there; otherwise it returns the status
  together with the state it leaves behind.
-/

namespace android

/-! ## Machine arithmetic -/

/-- Reduction of a natural number to a `uint32_t`. -/
def u32 (x : Nat) : Nat := x % 4294967296

/-- The `uint32_t` subtraction `a - b`. -/
def sub32 (a b : Nat) : Nat := (a % 4294967296 + 4294967296 - b % 4294967296) % 4294967296

/-- The largest `uint32_t`. -/
def UINT32_MAX : Nat := 4294967295

/-- Reduction of an integer to the two's complement range of `int64_t`. -/
def wrap64 (x : Int) : Int :=
  if x % 18446744073709551616 < 9223372036854775808 then x % 18446744073709551616
  else x % 18446744073709551616 - 18446744073709551616

/-- The byte stored at position `i` of a buffer, `none` outside the buffer. -/
def byteAt (buf : List Nat) (i : Nat) : Option Nat := buf[i]?.map (fun b => b % 256)

/-- Big-endian value of a sequence of bytes (`ntohs`, `ntohl`, `ntoh64` of the
bytes as they lie in memory). -/
def bigEndian (bs : List Nat) : Nat := bs.foldl (fun acc b => acc * 256 + b % 256) 0

/-- Big-endian value of the `n` bytes of `buf` that start at position `off`,
`none` when one of them lies outside the buffer. -/
def readBE (buf : List Nat) (off : Nat) : Nat → Option Nat
  | 0 => some 0
  | n + 1 =>
    match readBE buf off n, byteAt buf (off + n) with
    | some hi, some b => some (hi * 256 + b)
    | _, _ => none

/-! ## Status codes -/

/-- The `status_t` values `SampleIterator` returns. -/
inductive status_t where
  | OK
  | ERROR_END_OF_STREAM
  | ERROR_MALFORMED
  | ERROR_OUT_OF_RANGE
  | ERROR_IO
  deriving DecidableEq, Repr

/-! ## SampleTable (the part `SampleIterator` reads) -/

/-- One `SampleTable::SampleToChunkEntry`. -/
structure SampleToChunkEntry where
  startChunk : Nat
  samplesPerChunk : Nat
  chunkDesc : Nat
  deriving DecidableEq, Repr

/-- `SampleTable::kChunkOffsetType32`, the fourcc `'stco'`. -/
def kChunkOffsetType32 : Nat := 0x7374636f

/-- `SampleTable::kChunkOffsetType64`, the fourcc `'co64'`. -/
def kChunkOffsetType64 : Nat := 0x636f3634

/-- The members of `SampleTable` that `SampleIterator.cpp` reads.

`readAt off size` is `mDataSource->readAt(off, buf, size)`: `some bs` when the
call delivered the bytes `bs` (its return value is their number, and a return
value below `size` is a short read), `none` when it returned an error code.
`mSampleToChunkEntries` is `none` for a null pointer, and
`mNumSampleToChunkOffsets` is the length of the array.  `mTimeToSample` is the
flat array of `(count, duration)` words and `mTimeToSampleCount` is half its
length.

`uninitialised size k` is not a member of `SampleTable`: it is byte `k` of a
buffer of `size` bytes as `new uint8_t[size]` hands it out.  The source does
not initialise that buffer, so what it holds is given with the environment,
like the bytes of the data source (every buffer of one size is taken to start
with the same bytes); a table that does not say otherwise runs where such
memory holds zero bytes. -/
structure SampleTable where
  readAt : Int → Nat → Option (List Nat)
  mChunkOffsetOffset : Int
  mChunkOffsetType : Nat
  mNumChunkOffsets : Nat
  mSampleToChunkOffset : Int
  mSampleToChunkEntries : Option (List SampleToChunkEntry)
  mSampleSizeOffset : Int
  mSampleSizeFieldSize : Nat
  mDefaultSampleSize : Nat
  mNumSampleSizes : Nat
  mTimeToSample : List Nat
  getCompositionTimeOffset : Nat → Nat
  uninitialised : Nat → Nat → Nat := fun _ _ => 0

/-- Number of entries of the sample-to-chunk array. -/
def SampleTable.mNumSampleToChunkOffsets (t : SampleTable) : Nat :=
  match t.mSampleToChunkEntries with
  | none => 0
  | some es => es.length

/-- Number of `(count, duration)` pairs of the time-to-sample array. -/
def SampleTable.mTimeToSampleCount (t : SampleTable) : Nat := t.mTimeToSample.length / 2

/-- A data source backed by the bytes `file`: a read beyond the end delivers
the bytes that are there, a read at a negative offset fails. -/
def fileSource (file : List Nat) (off : Int) (size : Nat) : Option (List Nat) :=
  if off < 0 then none else some ((file.drop off.toNat).take size)

/-! ## SampleIterator -/

/-- `kMaxSampleCacheSize`. -/
def kMaxSampleCacheSize : Nat := 4096

/-- The members of `SampleIterator`.  `mSampleCache` is `none` for a null
pointer and otherwise the bytes of the allocated buffer. -/
structure SampleIterator where
  mInitialized : Bool
  mSampleToChunkIndex : Nat
  mFirstChunk : Nat
  mFirstChunkSampleIndex : Nat
  mStopChunk : Nat
  mStopChunkSampleIndex : Nat
  mSamplesPerChunk : Nat
  mChunkDesc : Nat
  mCurrentChunkIndex : Nat
  mCurrentChunkOffset : Int
  mCurrentChunkSampleSizes : List Nat
  mTimeToSampleIndex : Nat
  mTTSSampleIndex : Nat
  mTTSSampleTime : Nat
  mTTSCount : Nat
  mTTSDuration : Nat
  mCurrentSampleIndex : Nat
  mCurrentSampleOffset : Int
  mCurrentSampleSize : Nat
  mCurrentSampleTime : Nat
  mCurrentSampleDuration : Nat
  mSampleCache : Option (List Nat)
  mSampleCacheSize : Nat
  mCurrentSampleCacheStartIndex : Nat
  deriving DecidableEq, Repr

/-- `SampleIterator::reset`. -/
def SampleIterator.reset (s : SampleIterator) : SampleIterator :=
  { s with
    mSampleToChunkIndex := 0
    mFirstChunk := 0
    mFirstChunkSampleIndex := 0
    mStopChunk := 0
    mStopChunkSampleIndex := 0
    mSamplesPerChunk := 0
    mChunkDesc := 0
    mSampleCache := none
    mSampleCacheSize := 0
    mCurrentSampleCacheStartIndex := 0 }

/-- The constructor `SampleIterator::SampleIterator`.  The members the
constructor leaves uninitialised keep the values they have in `junk`; the
vector of sample sizes is constructed empty. -/
def SampleIterator.create (junk : SampleIterator) : SampleIterator :=
  SampleIterator.reset
    { junk with
      mInitialized := false
      mTimeToSampleIndex := 0
      mTTSSampleIndex := 0
      mTTSSampleTime := 0
      mTTSCount := 0
      mTTSDuration := 0
      mSampleCache := none
      mCurrentChunkSampleSizes := [] }

/-- A cursor all of whose members are zero. -/
def SampleIterator.zero : SampleIterator :=
  { mInitialized := false, mSampleToChunkIndex := 0, mFirstChunk := 0,
    mFirstChunkSampleIndex := 0, mStopChunk := 0, mStopChunkSampleIndex := 0,
    mSamplesPerChunk := 0, mChunkDesc := 0, mCurrentChunkIndex := 0,
    mCurrentChunkOffset := 0, mCurrentChunkSampleSizes := [], mTimeToSampleIndex := 0,
    mTTSSampleIndex := 0, mTTSSampleTime := 0, mTTSCount := 0, mTTSDuration := 0,
    mCurrentSampleIndex := 0, mCurrentSampleOffset := 0, mCurrentSampleSize := 0,
    mCurrentSampleTime := 0, mCurrentSampleDuration := 0, mSampleCache := none,
    mSampleCacheSize := 0, mCurrentSampleCacheStartIndex := 0 }

/-- One evaluation of the loop body of `SampleIterator::findChunkRange`, entered
with `sampleIndex >= mStopChunkSampleIndex`: `some (some err, s)` when the body
returns `err`, `some (none, s)` when it reaches the end of the body, `none`
when it divides by zero or reads outside the entry array. -/
def findChunkRangeBody (t : SampleTable) (s : SampleIterator) :
    Option (Option status_t × SampleIterator) :=
  if s.mSampleToChunkIndex = t.mNumSampleToChunkOffsets then
    some (some .ERROR_OUT_OF_RANGE, s)
  else
    match (t.mSampleToChunkEntries.getD [])[s.mSampleToChunkIndex]? with
    | none => none
    | some entry =>
      let s1 := { s with
        mFirstChunkSampleIndex := s.mStopChunkSampleIndex
        mFirstChunk := u32 entry.startChunk
        mSamplesPerChunk := u32 entry.samplesPerChunk
        mChunkDesc := u32 entry.chunkDesc }
      if s.mSampleToChunkIndex + 1 < t.mNumSampleToChunkOffsets then
        match (t.mSampleToChunkEntries.getD [])[s.mSampleToChunkIndex + 1]? with
        | none => none
        | some next =>
          let s2 := { s1 with mStopChunk := u32 next.startChunk }
          if s2.mStopChunk < s2.mFirstChunk then
            some (some .ERROR_OUT_OF_RANGE, s2)
          else if s2.mSamplesPerChunk = 0 then
            none
          else if sub32 s2.mStopChunk s2.mFirstChunk > UINT32_MAX / s2.mSamplesPerChunk then
            some (some .ERROR_OUT_OF_RANGE, s2)
          else if u32 (sub32 s2.mStopChunk s2.mFirstChunk * s2.mSamplesPerChunk)
              > sub32 UINT32_MAX s2.mFirstChunkSampleIndex then
            some (some .ERROR_OUT_OF_RANGE, s2)
          else
            some (none, { s2 with
              mStopChunkSampleIndex :=
                u32 (s2.mFirstChunkSampleIndex
                  + u32 (sub32 s2.mStopChunk s2.mFirstChunk * s2.mSamplesPerChunk))
              mSampleToChunkIndex := u32 (s.mSampleToChunkIndex + 1) })
      else
        some (none, { s1 with
          mStopChunk := 0xffffffff
          mStopChunkSampleIndex := 0xffffffff
          mSampleToChunkIndex := u32 (s.mSampleToChunkIndex + 1) })

/-- The `while` loop of `SampleIterator::findChunkRange`, run for at most
`fuel` iterations (`none` as well when the iterations are used up). -/
def findChunkRangeLoop (t : SampleTable) (sampleIndex : Nat) :
    Nat → SampleIterator → Option (status_t × SampleIterator)
  | 0, _ => none
  | fuel + 1, s =>
    if sampleIndex ≥ s.mStopChunkSampleIndex then
      match findChunkRangeBody t s with
      | none => none
      | some (some err, s1) => some (err, s1)
      | some (none, s1) => findChunkRangeLoop t sampleIndex fuel s1
    else
      some (.OK, s)

/-- `SampleIterator::findChunkRange`.  Every iteration of the loop that does
not return moves `mSampleToChunkIndex` one entry closer to the end of the
array, which bounds the number of iterations. -/
def findChunkRange (t : SampleTable) (s : SampleIterator) (sampleIndex : Nat) :
    Option (status_t × SampleIterator) :=
  if ¬ (sampleIndex ≥ s.mFirstChunkSampleIndex) then
    none
  else if t.mSampleToChunkEntries = none then
    some (.ERROR_MALFORMED, s)
  else
    findChunkRangeLoop t sampleIndex
      (t.mNumSampleToChunkOffsets + 2 - s.mSampleToChunkIndex) s

/-- `SampleIterator::getChunkOffset`: the status and the value stored through
`offset`. -/
def getChunkOffset (t : SampleTable) (chunk : Nat) : Option (status_t × Int) :=
  if chunk ≥ t.mNumChunkOffsets then
    some (.ERROR_OUT_OF_RANGE, 0)
  else if t.mChunkOffsetType = kChunkOffsetType32 then
    match t.readAt (wrap64 (wrap64 (t.mChunkOffsetOffset + 8) + u32 (4 * chunk))) 4 with
    | none => some ( status_t.ERROR_IO, 0)
    | some bs =>
      if bs.length < 4 then some ( status_t.ERROR_IO, 0)
      else some (.OK, (bigEndian (bs.take 4) : Int))
  else if t.mChunkOffsetType = kChunkOffsetType64 then
    match t.readAt (wrap64 (wrap64 (t.mChunkOffsetOffset + 8) + u32 (8 * chunk))) 8 with
    | none => some ( status_t.ERROR_IO, 0)
    | some bs =>
      if bs.length < 8 then some ( status_t.ERROR_IO, 0)
      else some (.OK, wrap64 (bigEndian (bs.take 8) : Int))
  else
    none

/-- The test of `getSampleSizeDirect` that decides whether a new cache window
is read ("Check if current sample is inside cache, otherwise read new
cache"). -/
def readNewSampleCache (t : SampleTable) (s : SampleIterator) (sampleIndex : Nat) : Bool :=
  decide (sampleIndex < s.mCurrentSampleCacheStartIndex ∨
    u32 (u32 (sub32 sampleIndex s.mCurrentSampleCacheStartIndex
      * t.mSampleSizeFieldSize) + 4) / 8 ≥ s.mSampleCacheSize)

/-- The block of `getSampleSizeDirect` that sets up a new cache window at
`sampleIndex`.  A buffer obtained from `new` holds the bytes
`uninitialised` gives for its size. -/
def newSampleCacheWindow (t : SampleTable) (s : SampleIterator) (sampleIndex : Nat) :
    SampleIterator :=
  let size0 := u32 (u32 (sub32 t.mNumSampleSizes sampleIndex * t.mSampleSizeFieldSize) + 4) / 8
  let size1 := if size0 > kMaxSampleCacheSize then kMaxSampleCacheSize else size0
  { s with
    mSampleCacheSize := size1
    mCurrentSampleCacheStartIndex := sampleIndex
    mSampleCache :=
      if size1 ≠ s.mSampleCacheSize then some ((List.range size1).map (t.uninitialised size1))
      else s.mSampleCache }

/-- The `readAt` call of `getSampleSizeDirect` that fills the cache buffer
`cache0` of `size` bytes: whether the read was complete, and the buffer
afterwards (after a short read the bytes that were delivered overwrite the
front of the buffer). -/
def fillSampleCache (t : SampleTable) (sampleIndex size : Nat) (cache0 : List Nat) :
    Bool × List Nat :=
  match t.readAt
      (wrap64 (wrap64 (t.mSampleSizeOffset + 12)
        + u32 (t.mSampleSizeFieldSize * sampleIndex) / 8))
      size with
  | none => (false, cache0)
  | some bs =>
    if bs.length < size then (false, bs ++ cache0.drop bs.length)
    else (true, bs.take size)

/-- The `switch` of `getSampleSizeDirect`: the size decoded from the cache for
the sample at distance `rel` from the start of the window, `none` when the
bytes read lie outside the buffer. -/
def decodeSampleSize (t : SampleTable) (cache : List Nat) (rel : Nat) : Option Nat :=
  let cacheReadOffset := u32 (rel * t.mSampleSizeFieldSize) / 8
  if t.mSampleSizeFieldSize = 32 then readBE cache cacheReadOffset 4
  else if t.mSampleSizeFieldSize = 16 then readBE cache cacheReadOffset 2
  else if t.mSampleSizeFieldSize = 8 then byteAt cache cacheReadOffset
  else
    (byteAt cache cacheReadOffset).map (fun b =>
      if rel % 2 = 1 then b % 16 else (b / 16) % 16)

/-- `SampleIterator::getSampleSizeDirect`: the status, the value stored through
`size` and the cursor afterwards. -/
def getSampleSizeDirect (t : SampleTable) (s : SampleIterator) (sampleIndex : Nat) :
    Option (status_t × Nat × SampleIterator) :=
  if sampleIndex ≥ t.mNumSampleSizes then
    some (.ERROR_OUT_OF_RANGE, 0, s)
  else if t.mDefaultSampleSize > 0 then
    some (.OK, t.mDefaultSampleSize, s)
  else
    let s1 : SampleIterator :=
      if readNewSampleCache t s sampleIndex = true then newSampleCacheWindow t s sampleIndex
      else s
    match s1.mSampleCache with
    | none => some ( status_t.ERROR_IO, 0, s1)
    | some cache0 =>
      if t.mSampleSizeFieldSize ≠ 32 ∧ t.mSampleSizeFieldSize ≠ 16 ∧
          t.mSampleSizeFieldSize ≠ 8 ∧ t.mSampleSizeFieldSize ≠ 4 then
        some ( status_t.ERROR_IO, 0, s1)
      else
        let loaded : Bool × List Nat :=
          if readNewSampleCache t s sampleIndex = true then
            fillSampleCache t sampleIndex s1.mSampleCacheSize cache0
          else (true, cache0)
        if loaded.1 = false then
          some ( status_t.ERROR_IO, 0, { s1 with mSampleCache := some loaded.2 })
        else
          (decodeSampleSize t loaded.2 (sub32 sampleIndex s1.mCurrentSampleCacheStartIndex)).map
            (fun size => (status_t.OK, size, { s1 with mSampleCache := some loaded.2 }))

/-- The `while` loop of `SampleIterator::findSampleTimeAndDuration`, run for at
most `fuel` iterations. -/
def findSampleTimeAndDurationLoop (t : SampleTable) (sampleIndex : Nat) :
    Nat → SampleIterator → Option (status_t × SampleIterator)
  | 0, _ => none
  | fuel + 1, s =>
    if sampleIndex ≥ u32 (s.mTTSSampleIndex + s.mTTSCount) then
      if s.mTimeToSampleIndex = t.mTimeToSampleCount then
        some (.ERROR_OUT_OF_RANGE, s)
      else
        match t.mTimeToSample[2 * s.mTimeToSampleIndex]?,
              t.mTimeToSample[2 * s.mTimeToSampleIndex + 1]? with
        | some count, some duration =>
          findSampleTimeAndDurationLoop t sampleIndex fuel
            { s with
              mTTSSampleIndex := u32 (s.mTTSSampleIndex + s.mTTSCount)
              mTTSSampleTime := u32 (s.mTTSSampleTime + u32 (s.mTTSCount * s.mTTSDuration))
              mTTSCount := u32 count
              mTTSDuration := u32 duration
              mTimeToSampleIndex := u32 (s.mTimeToSampleIndex + 1) }
        | _, _ => none
    else
      some (.OK, s)

/-- `SampleIterator::findSampleTimeAndDuration`, called by `seekTo` with
`&mCurrentSampleTime` and `&mCurrentSampleDuration`: on `OK` the two members
are stored.  Every iteration that does not return moves `mTimeToSampleIndex`
one pair closer to the end of the array. -/
def findSampleTimeAndDuration (t : SampleTable) (s : SampleIterator) (sampleIndex : Nat) :
    Option (status_t × SampleIterator) :=
  if sampleIndex ≥ t.mNumSampleSizes then
    some (.ERROR_OUT_OF_RANGE, s)
  else
    match findSampleTimeAndDurationLoop t sampleIndex
        (t.mTimeToSampleCount + 2 - s.mTimeToSampleIndex) s with
    | none => none
    | some (.OK, s1) =>
      let time0 := u32 (s1.mTTSSampleTime
        + u32 (s1.mTTSDuration * sub32 sampleIndex s1.mTTSSampleIndex))
      some (.OK, { s1 with
        mCurrentSampleTime := u32 (time0 + t.getCompositionTimeOffset sampleIndex)
        mCurrentSampleDuration := s1.mTTSDuration })
    | some (err, s1) => some (err, s1)

/-- The loop of `seekTo` that fills `mCurrentChunkSampleSizes`: `remaining`
iterations are left, the next one has loop counter `i`. -/
def loadChunkSampleSizes (t : SampleTable) (firstChunkSampleIndex : Nat) :
    Nat → Nat → SampleIterator → Option (status_t × SampleIterator)
  | 0, _, s => some (.OK, s)
  | remaining + 1, i, s =>
    match getSampleSizeDirect t s (u32 (firstChunkSampleIndex + i)) with
    | none => none
    | some (.OK, sampleSize, s1) =>
      loadChunkSampleSizes t firstChunkSampleIndex remaining (i + 1)
        { s1 with mCurrentChunkSampleSizes := s1.mCurrentChunkSampleSizes ++ [sampleSize] }
    | some (err, _, s1) => some (err, s1)

/-- The loop of `seekTo` that adds the sizes of the samples preceding the
target to `offset`: `none` when it indexes the vector outside its bounds. -/
def addSampleSizes (sizes : List Nat) : Nat → Int → Option Int
  | 0, offset => some offset
  | n + 1, offset =>
    match addSampleSizes sizes n offset, sizes[n]? with
    | some acc, some size => some (wrap64 (acc + size))
    | _, _ => none

/-- The part of `seekTo` that brings the chunk range to `sampleIndex`: the
`reset()` for a cursor that is not initialised or lies beyond `sampleIndex`,
then `findChunkRange` when `sampleIndex` is not below
`mStopChunkSampleIndex`. -/
def seekToChunkRange (t : SampleTable) (s : SampleIterator) (sampleIndex : Nat) :
    Option (status_t × SampleIterator) :=
  let s1 :=
    if s.mInitialized = false ∨ sampleIndex < s.mFirstChunkSampleIndex then s.reset else s
  if sampleIndex ≥ s1.mStopChunkSampleIndex then findChunkRange t s1 sampleIndex
  else some (.OK, s1)

/-- The block `if (!mInitialized || chunk != mCurrentChunkIndex) { ... }` of
`seekTo`, which fetches the offset of `chunk` and decodes the sizes of its
samples. -/
def seekToChunk (t : SampleTable) (s : SampleIterator) (chunk : Nat) :
    Option (status_t × SampleIterator) :=
  if s.mInitialized = false ∨ chunk ≠ s.mCurrentChunkIndex then
    let s3 := { s with mCurrentChunkIndex := chunk }
    match getChunkOffset t chunk with
    | none => none
    | some (.OK, offset) =>
      let s4 := { s3 with mCurrentChunkOffset := offset, mCurrentChunkSampleSizes := [] }
      let firstChunkSampleIndex :=
        u32 (s4.mFirstChunkSampleIndex
          + u32 (s4.mSamplesPerChunk * sub32 s4.mCurrentChunkIndex s4.mFirstChunk))
      loadChunkSampleSizes t firstChunkSampleIndex s4.mSamplesPerChunk 0 s4
    | some (err, offset) => some (err, { s3 with mCurrentChunkOffset := offset })
  else some (.OK, s)

/-- The part of `seekTo` that follows the chunk block: the offset and size of
the sample, the reset of the time-to-sample cursor for a sample before it,
`findSampleTimeAndDuration`, and the final assignments. -/
def seekToSample (t : SampleTable) (s : SampleIterator) (sampleIndex : Nat) :
    Option (status_t × SampleIterator) :=
  let chunkRelativeSampleIndex :=
    sub32 sampleIndex s.mFirstChunkSampleIndex % s.mSamplesPerChunk
  match addSampleSizes s.mCurrentChunkSampleSizes chunkRelativeSampleIndex
          s.mCurrentChunkOffset,
        s.mCurrentChunkSampleSizes[chunkRelativeSampleIndex]? with
  | some offset, some size =>
    let s6 := { s with mCurrentSampleOffset := offset, mCurrentSampleSize := size }
    let s7 :=
      if sampleIndex < s6.mTTSSampleIndex then
        { s6 with
          mTimeToSampleIndex := 0
          mTTSSampleIndex := 0
          mTTSSampleTime := 0
          mTTSCount := 0
          mTTSDuration := 0 }
      else s6
    match findSampleTimeAndDuration t s7 sampleIndex with
    | none => none
    | some (.OK, s8) =>
      some (.OK, { s8 with mCurrentSampleIndex := sampleIndex, mInitialized := true })
    | some (err, s8) => some (err, s8)
  | _, _ => none

/-- `SampleIterator::seekTo`. -/
def seekTo (t : SampleTable) (s : SampleIterator) (sampleIndex : Nat) :
    Option (status_t × SampleIterator) :=
  if sampleIndex ≥ t.mNumSampleSizes then
    some (.ERROR_END_OF_STREAM, s)
  else if t.mSampleToChunkOffset < 0 ∨ t.mChunkOffsetOffset < 0
      ∨ t.mSampleSizeOffset < 0 ∨ t.mTimeToSampleCount = 0 then
    some (.ERROR_MALFORMED, s)
  else if s.mInitialized = true ∧ s.mCurrentSampleIndex = sampleIndex then
    some (.OK, s)
  else
    match seekToChunkRange t s sampleIndex with
    | none => none
    | some (.OK, s2) =>
      if ¬ (sampleIndex < s2.mStopChunkSampleIndex) then none
      else if s2.mSamplesPerChunk = 0 then none
      else
        let chunk :=
          u32 (sub32 sampleIndex s2.mFirstChunkSampleIndex / s2.mSamplesPerChunk
            + s2.mFirstChunk)
        match seekToChunk t s2 chunk with
        | none => none
        | some (.OK, s5) => seekToSample t s5 sampleIndex
        | some (err, s5) => some (err, s5)
    | some (err, s2) => some (err, s2)

/-- The cursor after a sequence of `seekTo` calls all of which return `OK`;
`none` when one of them does not. -/
def seekAll (t : SampleTable) : SampleIterator → List Nat → Option SampleIterator
  | s, [] => some s
  | s, i :: is =>
    match seekTo t s i with
    | some (.OK, s1) => seekAll t s1 is
    | _ => none


/-- The loop-head states of one call `findChunkRange(sampleIndex)` started in
`s`: `FindChunkRangeConsults t sampleIndex s h` holds when the loop evaluates
its body in state `h`, that is, consults the run `h.mSampleToChunkIndex`. -/
inductive FindChunkRangeConsults (t : SampleTable) (sampleIndex : Nat) :
    SampleIterator → SampleIterator → Prop where
  | head (s : SampleIterator) (hs : sampleIndex ≥ s.mStopChunkSampleIndex) :
      FindChunkRangeConsults t sampleIndex s s
  | step (s s1 h : SampleIterator) (hs : sampleIndex ≥ s.mStopChunkSampleIndex)
      (hbody : findChunkRangeBody t s = some (none, s1))
      (hrest : FindChunkRangeConsults t sampleIndex s1 h) :
      FindChunkRangeConsults t sampleIndex s h

/-- A table whose first run spans `65536` chunks of `65536` samples. -/
def overflowTable : SampleTable :=
  { readAt := fileSource [], mChunkOffsetOffset := 0, mChunkOffsetType := kChunkOffsetType32,
    mNumChunkOffsets := 65537, mSampleToChunkOffset := 0,
    mSampleToChunkEntries := some [⟨0, 65536, 0⟩, ⟨65536, 1, 0⟩],
    mSampleSizeOffset := 0, mSampleSizeFieldSize := 32, mDefaultSampleSize := 1,
    mNumSampleSizes := 10, mTimeToSample := [10, 1], getCompositionTimeOffset := fun _ => 0 }

/-- A file that holds a chunk-offset box at offset 0 (four 32-bit offsets
`100`, `200`, `256`, `512`) and a compact sample-size box at offset 24 whose
two bytes `0xAB`, `0xCD` pack the 4-bit sizes of four samples. -/
def fourBitFile : List Nat :=
  [0, 0, 0, 0, 0, 0, 0, 0,
   0, 0, 0, 100, 0, 0, 0, 200, 0, 0, 1, 0, 0, 0, 2, 0,
   0, 0, 0, 0, 0, 0, 0, 0, 0, 0, 0, 0,
   0xAB, 0xCD]

/-- A table over `fourBitFile`: four samples with 4-bit sizes, one sample per
chunk, every sample of duration 10. -/
def fourBitTable : SampleTable :=
  { readAt := fileSource fourBitFile, mChunkOffsetOffset := 0,
    mChunkOffsetType := kChunkOffsetType32, mNumChunkOffsets := 4,
    mSampleToChunkOffset := 0, mSampleToChunkEntries := some [⟨0, 1, 0⟩],
    mSampleSizeOffset := 24, mSampleSizeFieldSize := 4, mDefaultSampleSize := 0,
    mNumSampleSizes := 4, mTimeToSample := [4, 10], getCompositionTimeOffset := fun _ => 0 }

/-- The cursors a client can hold after calls of `seekTo` that all returned
`OK`, starting from a newly constructed cursor. -/
inductive ReachedBySeeks (t : SampleTable) : SampleIterator → Prop where
  | fresh (junk : SampleIterator) : ReachedBySeeks t (SampleIterator.create junk)
  | seek (s s1 : SampleIterator) (sampleIndex : Nat) (hs : ReachedBySeeks t s)
      (hseek : seekTo t s sampleIndex = some (status_t.OK, s1)) : ReachedBySeeks t s1

/-- The `(count, duration)` runs of a flat time-to-sample array, each word
read as a `uint32_t`. -/
def timeToSamplePairs : List Nat → List (Nat × Nat)
  | count :: duration :: rest => (u32 count, u32 duration) :: timeToSamplePairs rest
  | _ => []

/-- The duration of every sample in turn, as the runs state it: a run
`(count, duration)` stands for `count` samples of that duration, and a run of
count 0 stands for none. -/
def runDurations : List (Nat × Nat) → List Nat
  | [] => []
  | (count, duration) :: rest => List.replicate count duration ++ runDurations rest

/-- The duration of every sample of the table in turn, as its time-to-sample
runs state it. -/
def SampleTable.sampleDurations (t : SampleTable) : List Nat :=
  runDurations (timeToSamplePairs t.mTimeToSample)

/-- Number of samples covered by the first `k` runs. -/
def cumCount (runs : List (Nat × Nat)) (k : Nat) : Nat :=
  ((runs.take k).map (fun p => p.1)).sum

/-- Total duration of the samples covered by the first `k` runs. -/
def cumTime (runs : List (Nat × Nat)) (k : Nat) : Nat :=
  ((runs.take k).map (fun p => p.1 * p.2)).sum

/-- The time-to-sample cursor of `s` agrees with the table: either it stands
at the origin, or it stands on run `k` and holds the count and duration of
that run together with the sample index and the time at which the run
starts. -/
def TimeCursorOk (t : SampleTable) (s : SampleIterator) : Prop :=
  (s.mTimeToSampleIndex = 0 ∧ s.mTTSSampleIndex = 0 ∧ s.mTTSSampleTime = 0 ∧
    s.mTTSCount = 0 ∧ s.mTTSDuration = 0) ∨
  ∃ k, s.mTimeToSampleIndex = k + 1 ∧
    (timeToSamplePairs t.mTimeToSample)[k]? = some (s.mTTSCount, s.mTTSDuration) ∧
    s.mTTSSampleIndex = cumCount (timeToSamplePairs t.mTimeToSample) k ∧
    s.mTTSSampleTime = u32 (cumTime (timeToSamplePairs t.mTimeToSample) k)

/-- The cursor `s` with the five members of its time-to-sample cursor
replaced. -/
def SampleIterator.setTimeCursor (s : SampleIterator)
    (index sampleIndex sampleTime count duration : Nat) : SampleIterator :=
  { s with
    mTimeToSampleIndex := index
    mTTSSampleIndex := sampleIndex
    mTTSSampleTime := sampleTime
    mTTSCount := count
    mTTSDuration := duration }

/-- The members of the time-to-sample cursor. -/
def SampleIterator.timeCursor (s : SampleIterator) : Nat × Nat × Nat × Nat × Nat :=
  (s.mTimeToSampleIndex, s.mTTSSampleIndex, s.mTTSSampleTime, s.mTTSCount, s.mTTSDuration)

/-- The members a client reads after a successful `seekTo`, with
`mInitialized`. -/
def SampleIterator.resolved (s : SampleIterator) : Bool × Nat × Int × Nat × Nat × Nat :=
  (s.mInitialized, s.mCurrentSampleIndex, s.mCurrentSampleOffset, s.mCurrentSampleSize,
    s.mCurrentSampleTime, s.mCurrentSampleDuration)

/-- The members that describe the chunk resolved last. -/
def SampleIterator.chunkState (s : SampleIterator) : Nat × Int × List Nat :=
  (s.mCurrentChunkIndex, s.mCurrentChunkOffset, s.mCurrentChunkSampleSizes)

/-- The members that describe the current sample-to-chunk run. -/
def SampleIterator.chunkRange (s : SampleIterator) : Nat × Nat × Nat × Nat × Nat × Nat × Nat :=
  (s.mSampleToChunkIndex, s.mFirstChunk, s.mFirstChunkSampleIndex, s.mStopChunk,
    s.mStopChunkSampleIndex, s.mSamplesPerChunk, s.mChunkDesc)

/-- The members of the sample-size cache. -/
def SampleIterator.sizeCache (s : SampleIterator) : Option (List Nat) × Nat × Nat :=
  (s.mSampleCache, s.mSampleCacheSize, s.mCurrentSampleCacheStartIndex)

/-- What the claim about sample times states of a cursor: the time-to-sample
cursor agrees with the table, and once the cursor is initialised its
duration is the duration of the run that contains the current sample and its
time is the sum of the durations of all earlier samples plus the composition
time offset of the current one, reduced modulo `2^32`. -/
def TimeResolved (t : SampleTable) (s : SampleIterator) : Prop :=
  TimeCursorOk t s ∧
  (s.mInitialized = true →
    s.mCurrentSampleIndex < t.mNumSampleSizes ∧
    t.sampleDurations[s.mCurrentSampleIndex]? = some s.mCurrentSampleDuration ∧
    s.mCurrentSampleTime
      = u32 ((t.sampleDurations.take s.mCurrentSampleIndex).sum
          + t.getCompositionTimeOffset s.mCurrentSampleIndex))

/-- A table of four samples of size 1, one per chunk, with the runs
`(2, 10)`, `(0, 7)`, `(2, 5)` and the composition time offset `i + 1` for
sample `i`.  Its file holds four 32-bit chunk offsets behind an 8-byte
header. -/
def timeTable : SampleTable :=
  { readAt := fileSource [0, 0, 0, 0, 0, 0, 0, 0,
      0, 0, 0, 100, 0, 0, 0, 200, 0, 0, 1, 0, 0, 0, 2, 0],
    mChunkOffsetOffset := 0, mChunkOffsetType := kChunkOffsetType32, mNumChunkOffsets := 4,
    mSampleToChunkOffset := 0, mSampleToChunkEntries := some [⟨0, 1, 0⟩],
    mSampleSizeOffset := 0, mSampleSizeFieldSize := 32, mDefaultSampleSize := 1,
    mNumSampleSizes := 4, mTimeToSample := [2, 10, 0, 7, 2, 5],
    getCompositionTimeOffset := fun i => i + 1 }

/-- The cursor over `timeTable` after `seekTo(3)` on a new cursor. -/
def timeCursor3 : SampleIterator :=
  (seekAll timeTable (SampleIterator.create SampleIterator.zero) [3]).getD SampleIterator.zero

/-- The cursor over `timeTable` after `seekTo(3)` and `seekTo(1)`. -/
def timeCursor31 : SampleIterator :=
  (seekAll timeTable (SampleIterator.create SampleIterator.zero) [3, 1]).getD SampleIterator.zero

/-- A table of two samples of size 1, one per chunk, whose chunk-offset table
has an entry for chunk 0 only. -/
def missingChunkTable : SampleTable :=
  { readAt := fileSource [0, 0, 0, 0, 0, 0, 0, 0, 0, 0, 0, 100],
    mChunkOffsetOffset := 0, mChunkOffsetType := kChunkOffsetType32, mNumChunkOffsets := 1,
    mSampleToChunkOffset := 0, mSampleToChunkEntries := some [⟨0, 1, 0⟩],
    mSampleSizeOffset := 0, mSampleSizeFieldSize := 32, mDefaultSampleSize := 1,
    mNumSampleSizes := 2, mTimeToSample := [2, 10], getCompositionTimeOffset := fun _ => 0 }

/-- A table of two samples of size 1, one per chunk (offsets 100 and 200),
whose time-to-sample runs cover the first sample only. -/
def shortTimeTable : SampleTable :=
  { readAt := fileSource [0, 0, 0, 0, 0, 0, 0, 0, 0, 0, 0, 100, 0, 0, 0, 200],
    mChunkOffsetOffset := 0, mChunkOffsetType := kChunkOffsetType32, mNumChunkOffsets := 2,
    mSampleToChunkOffset := 0, mSampleToChunkEntries := some [⟨0, 1, 0⟩],
    mSampleSizeOffset := 0, mSampleSizeFieldSize := 32, mDefaultSampleSize := 1,
    mNumSampleSizes := 2, mTimeToSample := [1, 10], getCompositionTimeOffset := fun _ => 0 }

/-- The cursor over `missingChunkTable` after `seekTo(0)` on a new cursor. -/
def missingChunkCursor : SampleIterator :=
  (seekAll missingChunkTable (SampleIterator.create SampleIterator.zero) [0]).getD
    SampleIterator.zero

/-- The cursor over `shortTimeTable` after `seekTo(0)` on a new cursor. -/
def shortTimeCursor : SampleIterator :=
  (seekAll shortTimeTable (SampleIterator.create SampleIterator.zero) [0]).getD
    SampleIterator.zero

/-! ### Runs, chunks and byte offsets -/

/-- The entries of the sample-to-chunk array; no entries for a null
pointer. -/
def SampleTable.entries (t : SampleTable) : List SampleToChunkEntry :=
  t.mSampleToChunkEntries.getD []

/-- First chunk of run `r` of the sample-to-chunk array, as a `uint32_t`. -/
def runFirstChunk (es : List SampleToChunkEntry) (r : Nat) : Nat :=
  match es[r]? with
  | some entry => u32 entry.startChunk
  | none => 0

/-- Samples per chunk of run `r` of the sample-to-chunk array, as a
`uint32_t`. -/
def runSamplesPerChunk (es : List SampleToChunkEntry) (r : Nat) : Nat :=
  match es[r]? with
  | some entry => u32 entry.samplesPerChunk
  | none => 0

/-- Index of the first sample of run `r`: every earlier run holds the chunks
from its first chunk up to the first chunk of the next run, each with the
run's number of samples. -/
def runFirstSample (es : List SampleToChunkEntry) : Nat → Nat
  | 0 => 0
  | r + 1 =>
    runFirstSample es r
      + (runFirstChunk es (r + 1) - runFirstChunk es r) * runSamplesPerChunk es r

/-- The runs before run `r` are well formed: their first chunks do not
decrease, they have at least one sample per chunk, and the sample index at
which each of them ends fits a `uint32_t`. -/
def RunsOk (es : List SampleToChunkEntry) (r : Nat) : Prop :=
  ∀ q, q < r →
    runFirstChunk es q ≤ runFirstChunk es (q + 1) ∧ 0 < runSamplesPerChunk es q ∧
    runFirstSample es (q + 1) ≤ UINT32_MAX

/-- Run `r` owns sample `i`: it is a run of the array that follows well formed
runs, it has at least one sample per chunk, it starts at or before `i`, and
when it is not the last run it ends after `i`. -/
def OwnsSample (es : List SampleToChunkEntry) (r i : Nat) : Prop :=
  r < es.length ∧ RunsOk es r ∧ 0 < runSamplesPerChunk es r ∧ runFirstSample es r ≤ i ∧
  (r + 1 < es.length → RunsOk es (r + 1) ∧ i < runFirstSample es (r + 1))

/-- The chunk of sample `i` in run `r`, computed as `seekTo` does:
`(i - firstChunkSampleIndex) / samplesPerChunk + firstChunk` as a
`uint32_t`. -/
def chunkOf (es : List SampleToChunkEntry) (r i : Nat) : Nat :=
  u32 ((i - runFirstSample es r) / runSamplesPerChunk es r + runFirstChunk es r)

/-- Number of samples of its chunk that precede sample `i` of run `r`. -/
def chunkRelative (es : List SampleToChunkEntry) (r i : Nat) : Nat :=
  (i - runFirstSample es r) % runSamplesPerChunk es r

/-- Index of the first sample of the chunk that holds sample `i` of run
`r`. -/
def chunkFirstSample (es : List SampleToChunkEntry) (r i : Nat) : Nat :=
  runFirstSample es r
    + runSamplesPerChunk es r * ((i - runFirstSample es r) / runSamplesPerChunk es r)

/-- The chunk range of cursor `s` stands on run `r` of the table. -/
def RangeAt (t : SampleTable) (s : SampleIterator) (r : Nat) : Prop :=
  r < t.entries.length ∧ s.mSampleToChunkIndex = r + 1 ∧ RunsOk t.entries r ∧
  s.mFirstChunk = runFirstChunk t.entries r ∧
  s.mFirstChunkSampleIndex = runFirstSample t.entries r ∧
  s.mSamplesPerChunk = runSamplesPerChunk t.entries r ∧
  (r + 1 < t.entries.length →
    RunsOk t.entries (r + 1) ∧ s.mStopChunkSampleIndex = runFirstSample t.entries (r + 1))

/-- The loop of `findChunkRange` is about to consult run `k`: when there is
such a run, the runs before it are well formed and `mStopChunkSampleIndex` is
the index of its first sample. -/
def ScanAt (t : SampleTable) (s : SampleIterator) (k : Nat) : Prop :=
  s.mSampleToChunkIndex = k ∧
  (k < t.entries.length →
    RunsOk t.entries k ∧ s.mStopChunkSampleIndex = runFirstSample t.entries k)

/-- The byte offset in the data source at which `getSampleSizeDirect` reads a
new cache window that starts at `sampleIndex`:
`mSampleSizeOffset + 12 + mSampleSizeFieldSize * sampleIndex / 8`, the product
taken as a `uint32_t` and the sums as `off64_t`. -/
def sampleCacheFileOffset (t : SampleTable) (sampleIndex : Nat) : Int :=
  wrap64 (wrap64 (t.mSampleSizeOffset + 12) + u32 (t.mSampleSizeFieldSize * sampleIndex) / 8)

/-- The size `getSampleSizeDirect` gives a cache window that starts at
`sampleIndex`: `((mNumSampleSizes - sampleIndex) * mSampleSizeFieldSize + 4) / 8`
as a `uint32_t`, and at most `kMaxSampleCacheSize`. -/
def cacheWindowSize (t : SampleTable) (sampleIndex : Nat) : Nat :=
  let size0 := u32 (u32 (sub32 t.mNumSampleSizes sampleIndex * t.mSampleSizeFieldSize) + 4) / 8
  if size0 > kMaxSampleCacheSize then kMaxSampleCacheSize else size0

/-- The size `getSampleSizeDirect` decodes for `sampleIndex` from a cache
window that starts at `start` and that a complete read has filled: the default
size when the table has one; otherwise what the `switch` gives, for the sample
at distance `sampleIndex - start`, on the first `cacheWindowSize` bytes the
data source delivers at `sampleCacheFileOffset` of `start`.  There is no such
size (`none`) when the read fails or is short, or when the `switch` reads
outside the buffer. -/
def windowSampleSize (t : SampleTable) (start sampleIndex : Nat) : Option Nat :=
  if t.mDefaultSampleSize > 0 then some t.mDefaultSampleSize
  else
    match t.readAt (sampleCacheFileOffset t start) (cacheWindowSize t start) with
    | none => none
    | some bs =>
      if bs.length < cacheWindowSize t start then none
      else decodeSampleSize t (bs.take (cacheWindowSize t start)) (sub32 sampleIndex start)

/-- The size cache of the cursor holds what the data source delivered: a
buffer that is there belongs to a window of the size `cacheWindowSize` gives
for its start, and it holds the first `mSampleCacheSize` bytes of a complete
read at `sampleCacheFileOffset` of its start. -/
def WindowRead (t : SampleTable) (s : SampleIterator) : Prop :=
  ∀ cache, s.mSampleCache = some cache →
    s.mSampleCacheSize = cacheWindowSize t s.mCurrentSampleCacheStartIndex ∧
    ∃ bs, t.readAt (sampleCacheFileOffset t s.mCurrentSampleCacheStartIndex)
          s.mSampleCacheSize = some bs ∧
      s.mSampleCacheSize ≤ bs.length ∧ cache = bs.take s.mSampleCacheSize

/-- The chunk-offset table entry for `chunk`, in the words of the claim about
byte offsets: the unsigned big-endian value of the 4 bytes (32-bit offsets) or
8 bytes (64-bit offsets) that the data source holds for that chunk, at byte
`mChunkOffsetOffset + 8 + 4 * chunk` or `mChunkOffsetOffset + 8 + 8 * chunk`
as an exact integer; `none` when the data source does not deliver them. -/
def chunkOffsetTableEntry (t : SampleTable) (chunk : Nat) : Option Nat :=
  if t.mChunkOffsetType = kChunkOffsetType32 then
    match t.readAt (t.mChunkOffsetOffset + 8 + 4 * (chunk : Int)) 4 with
    | none => none
    | some bs => if bs.length < 4 then none else some (bigEndian (bs.take 4))
  else if t.mChunkOffsetType = kChunkOffsetType64 then
    match t.readAt (t.mChunkOffsetOffset + 8 + 8 * (chunk : Int)) 8 with
    | none => none
    | some bs => if bs.length < 8 then none else some (bigEndian (bs.take 8))
  else none

/-- The chunk state `(index, offset, sizes)` is that of the chunk which holds
sample `j` of run `r`: the index is the chunk of `j`, the offset is what
`getChunkOffset` stores for it, and the sizes are, for the samples of the
chunk in turn, what `windowSampleSize` gives for a cache window that starts at
or before the sample. -/
def CachedChunk (t : SampleTable) (r j : Nat) (index : Nat) (offset : Int)
    (sizes : List Nat) : Prop :=
  OwnsSample t.entries r j ∧ j < t.mNumSampleSizes ∧
  index = chunkOf t.entries r j ∧
  getChunkOffset t index = some (status_t.OK, offset) ∧
  sizes.length = runSamplesPerChunk t.entries r ∧
  ∀ k, k < runSamplesPerChunk t.entries r →
    ∃ size start, sizes[k]? = some size ∧ start ≤ chunkFirstSample t.entries r j + k ∧
      windowSampleSize t start (chunkFirstSample t.entries r j + k) = some size

/-- What the claim about byte offsets states of a cursor: once it is
initialised, its chunk range stands on the run that owns the current sample,
its chunk state is that of the chunk of the current sample, the offset is the
chunk offset advanced by the sizes of the samples of the chunk before the
current one, and the size is the size of the current one. -/
def OffsetResolved (t : SampleTable) (s : SampleIterator) : Prop :=
  s.mInitialized = true →
  ∃ r, RangeAt t s r ∧
    CachedChunk t r s.mCurrentSampleIndex s.mCurrentChunkIndex s.mCurrentChunkOffset
      s.mCurrentChunkSampleSizes ∧
    addSampleSizes s.mCurrentChunkSampleSizes (chunkRelative t.entries r s.mCurrentSampleIndex)
      s.mCurrentChunkOffset = some s.mCurrentSampleOffset ∧
    s.mCurrentChunkSampleSizes[chunkRelative t.entries r s.mCurrentSampleIndex]?
      = some s.mCurrentSampleSize

/-- A file that holds a chunk-offset box at offset 0 (four 32-bit offsets
`100`, `200`, `300`, `400`) and a sample-size box at offset 24 whose seven
8-bit sizes are `1` to `7`. -/
def chunkedFile : List Nat :=
  [0, 0, 0, 0, 0, 0, 0, 0,
   0, 0, 0, 100, 0, 0, 0, 200, 0, 0, 1, 44, 0, 0, 1, 144,
   0, 0, 0, 0, 0, 0, 0, 0, 0, 0, 0, 0,
   1, 2, 3, 4, 5, 6, 7]

/-- A table over `chunkedFile`: seven samples of sizes `1` to `7`; chunks 0 and
1 hold two samples each, the chunks from chunk 2 on hold three samples each;
every sample has duration 10. -/
def chunkedTable : SampleTable :=
  { readAt := fileSource chunkedFile, mChunkOffsetOffset := 0,
    mChunkOffsetType := kChunkOffsetType32, mNumChunkOffsets := 4,
    mSampleToChunkOffset := 0, mSampleToChunkEntries := some [⟨0, 2, 0⟩, ⟨2, 3, 0⟩],
    mSampleSizeOffset := 24, mSampleSizeFieldSize := 8, mDefaultSampleSize := 0,
    mNumSampleSizes := 7, mTimeToSample := [7, 10], getCompositionTimeOffset := fun _ => 0 }

/-- The cursor over `chunkedTable` after `seekTo(1)` on a new cursor: chunk 0
at offset 100 with the sizes 1, 2; sample 1 at offset `100 + 1`. -/
def chunkedCursor1 : SampleIterator :=
  { mInitialized := true, mSampleToChunkIndex := 1, mFirstChunk := 0,
    mFirstChunkSampleIndex := 0, mStopChunk := 2, mStopChunkSampleIndex := 4,
    mSamplesPerChunk := 2, mChunkDesc := 0, mCurrentChunkIndex := 0,
    mCurrentChunkOffset := 100, mCurrentChunkSampleSizes := [1, 2], mTimeToSampleIndex := 1,
    mTTSSampleIndex := 0, mTTSSampleTime := 0, mTTSCount := 7, mTTSDuration := 10,
    mCurrentSampleIndex := 1, mCurrentSampleOffset := 101, mCurrentSampleSize := 2,
    mCurrentSampleTime := 10, mCurrentSampleDuration := 10,
    mSampleCache := some [1, 2, 3, 4, 5, 6, 7], mSampleCacheSize := 7,
    mCurrentSampleCacheStartIndex := 0 }

/-- The cursor over `chunkedTable` after `seekTo(1)` and `seekTo(6)`: chunk 2
at offset 300 with the sizes 5, 6, 7; sample 6 at offset `300 + 5 + 6`. -/
def chunkedCursor16 : SampleIterator :=
  { mInitialized := true, mSampleToChunkIndex := 2, mFirstChunk := 2,
    mFirstChunkSampleIndex := 4, mStopChunk := 4294967295, mStopChunkSampleIndex := 4294967295,
    mSamplesPerChunk := 3, mChunkDesc := 0, mCurrentChunkIndex := 2,
    mCurrentChunkOffset := 300, mCurrentChunkSampleSizes := [5, 6, 7], mTimeToSampleIndex := 1,
    mTTSSampleIndex := 0, mTTSSampleTime := 0, mTTSCount := 7, mTTSDuration := 10,
    mCurrentSampleIndex := 6, mCurrentSampleOffset := 311, mCurrentSampleSize := 7,
    mCurrentSampleTime := 60, mCurrentSampleDuration := 10,
    mSampleCache := some [1, 2, 3, 4, 5, 6, 7], mSampleCacheSize := 7,
    mCurrentSampleCacheStartIndex := 0 }

/-- A table of three samples whose sample-to-chunk box is absent (offset
`-1`); the other boxes are present. -/
def missingBoxTable : SampleTable :=
  { readAt := fileSource [], mChunkOffsetOffset := 0, mChunkOffsetType := kChunkOffsetType32,
    mNumChunkOffsets := 3, mSampleToChunkOffset := -1,
    mSampleToChunkEntries := some [⟨0, 1, 0⟩], mSampleSizeOffset := 0,
    mSampleSizeFieldSize := 32, mDefaultSampleSize := 1, mNumSampleSizes := 3,
    mTimeToSample := [3, 10], getCompositionTimeOffset := fun _ => 0 }

/-- A table of two samples whose only sample-to-chunk run has
`samplesPerChunk = 0`. -/
def zeroSamplesPerChunkTable : SampleTable :=
  { readAt := fileSource [0, 0, 0, 0, 0, 0, 0, 0, 0, 0, 0, 100, 0, 0, 0, 200],
    mChunkOffsetOffset := 0, mChunkOffsetType := kChunkOffsetType32, mNumChunkOffsets := 2,
    mSampleToChunkOffset := 0, mSampleToChunkEntries := some [⟨0, 0, 0⟩],
    mSampleSizeOffset := 0, mSampleSizeFieldSize := 32, mDefaultSampleSize := 1,
    mNumSampleSizes := 2, mTimeToSample := [2, 10], getCompositionTimeOffset := fun _ => 0 }

/-- A table of two samples whose first sample-to-chunk run has
`samplesPerChunk = 0` and is followed by a run that starts at chunk 1. -/
def zeroSamplesPerChunkRunTable : SampleTable :=
  { readAt := fileSource [0, 0, 0, 0, 0, 0, 0, 0, 0, 0, 0, 100, 0, 0, 0, 200],
    mChunkOffsetOffset := 0, mChunkOffsetType := kChunkOffsetType32, mNumChunkOffsets := 2,
    mSampleToChunkOffset := 0, mSampleToChunkEntries := some [⟨0, 0, 0⟩, ⟨1, 1, 0⟩],
    mSampleSizeOffset := 0, mSampleSizeFieldSize := 32, mDefaultSampleSize := 1,
    mNumSampleSizes := 2, mTimeToSample := [2, 10], getCompositionTimeOffset := fun _ => 0 }

/-- `media_status_t`, an integer-valued enumeration. -/
abbrev media_status_t := Int

/-- `AMEDIA_OK`. -/
def AMEDIA_OK : media_status_t := 0

/-- `AMEDIA_ERROR_UNKNOWN`. -/
def AMEDIA_ERROR_UNKNOWN : media_status_t := -10000

/-- `AMediaCodecBufferInfo`: `offset` and `size` are `int32_t`,
`presentationTimeUs` is `int64_t`, `flags` is `uint32_t`. -/
structure AMediaCodecBufferInfo where
  offset : Int
  size : Int
  presentationTimeUs : Int
  flags : Nat
  deriving DecidableEq, Repr

/-- `MediaSample`, as far as the writer reads it.  `buffer` stands for the
pointer to the payload, which the writer hands on without reading it.  The
member `info` is a `MediaSampleInfo`, whose `size` is a `size_t`: here it has
the members of `AMediaCodecBufferInfo` with integers of any size, and
`bufferInfoOf` narrows `size` where the writer copies it. -/
structure MediaSample where
  buffer : Nat
  dataOffset : Nat
  info : AMediaCodecBufferInfo
  deriving DecidableEq, Repr

/-- `SAMPLE_FLAG_END_OF_STREAM`, the end-of-stream bit of `info.flags`
(the value of `AMEDIACODEC_BUFFER_FLAG_END_OF_STREAM`). -/
def SAMPLE_FLAG_END_OF_STREAM : Nat := 4

/-- The test `sample->info.flags & SAMPLE_FLAG_END_OF_STREAM`. -/
def MediaSample.isEndOfStream (sample : MediaSample) : Bool :=
  decide (sample.info.flags &&& SAMPLE_FLAG_END_OF_STREAM ≠ 0)

/-- Reduction of an integer to the two's complement range of `int32_t`. -/
def wrap32 (x : Int) : Int :=
  if x % 4294967296 < 2147483648 then x % 4294967296 else x % 4294967296 - 4294967296

/-- What one call of `MediaSampleQueue::dequeue` hands to the writer: a sample
(return value `false`) or the indication that the queue was aborted (return
value `true`). -/
inductive DequeueResult where
  | sample (s : MediaSample)
  | aborted
  deriving DecidableEq, Repr

/-- Modelled from the spec: `MediaSampleQueue`, the sample source of a track
("blocking `dequeue() -> sample | abort-indication`").  The class is not part
of the sources at hand; a queue is given by the results its successive
`dequeue` calls deliver, and a `dequeue` on a queue that has none left never
returns. -/
structure MediaSampleQueue where
  pending : List DequeueResult
  deriving DecidableEq, Repr

/-- One call the writer makes on its muxer. -/
inductive MuxerCall where
  | addTrack
  | start
  | writeSampleData (trackIndex : Nat) (buffer : Nat) (info : AMediaCodecBufferInfo)
  | stop
  deriving DecidableEq, Repr

/-- Modelled from the spec: `MediaSampleWriterMuxerInterface`, the output
handle the writer drives (`addTrack`, `start`, `writeSampleData`, `stop`).
The interface is declared outside the sources at hand; a muxer is given by
the value each of its operations returns after a given history of calls,
together with the calls made so far. -/
structure Muxer where
  addTrackResult : List MuxerCall → Int
  startResult : List MuxerCall → media_status_t
  writeSampleDataResult : List MuxerCall → Nat → Nat → AMediaCodecBufferInfo → media_status_t
  stopResult : List MuxerCall → media_status_t
  calls : List MuxerCall

/-- The call `mMuxer->writeSampleData(trackIndex, buffer, &info)`. -/
def Muxer.writeSampleData (m : Muxer) (trackIndex buffer : Nat) (info : AMediaCodecBufferInfo) :
    media_status_t × Muxer :=
  (m.writeSampleDataResult m.calls trackIndex buffer info,
    { m with calls := m.calls ++ [MuxerCall.writeSampleData trackIndex buffer info] })

/-- `MediaSampleWriter::TrackRecord`. -/
structure TrackRecord where
  mSampleQueue : MediaSampleQueue
  mTrackIndex : Nat
  mDurationUs : Int
  mFirstSampleTimeUs : Int
  mFirstSampleTimeSet : Bool
  mReachedEos : Bool
  deriving DecidableEq, Repr

/-- The constructor of `TrackRecord`, as `addTrack` calls it. -/
def TrackRecord.create (sampleQueue : MediaSampleQueue) (trackIndex : Nat) (durationUs : Int) :
    TrackRecord :=
  { mSampleQueue := sampleQueue, mTrackIndex := trackIndex, mDurationUs := durationUs,
    mFirstSampleTimeUs := 0, mFirstSampleTimeSet := false, mReachedEos := false }

/-- How `runWriterLoop` ends: it returns a status, or it stays blocked in a
`dequeue` that never returns. -/
inductive LoopOutcome where
  | returned (status : media_status_t)
  | blocked
  deriving DecidableEq, Repr

/-- The variables of `runWriterLoop` after the `do ... while` loop over one
track: `outcome` is `some` when the function has ended inside the loop. -/
structure TrackPass where
  outcome : Option LoopOutcome
  track : TrackRecord
  muxer : Muxer
  samplesLeft : Bool

/-- The sample with `info.presentationTimeUs` replaced. -/
def MediaSample.withTime (sample : MediaSample) (timeUs : Int) : MediaSample :=
  { sample with info := { sample.info with presentationTimeUs := timeUs } }

/-- The sample as `runWriterLoop` forwards it: for an end-of-stream sample of
a track with `mDurationUs > 0` whose first sample time is set, the
presentation time is overwritten with `mDurationUs + mFirstSampleTimeUs`. -/
def TrackRecord.rewrite (track : TrackRecord) (sample : MediaSample) : MediaSample :=
  if sample.isEndOfStream = true ∧ track.mDurationUs > 0 ∧ track.mFirstSampleTimeSet = true then
    sample.withTime (wrap64 (track.mDurationUs + track.mFirstSampleTimeUs))
  else sample

/-- The track after `runWriterLoop` has dequeued `sample` from it, the queue
then delivering `rest`: an end-of-stream sample sets `mReachedEos`, and the
first sample dequeued sets the first sample time (to the time the sample has
after the rewrite above). -/
def TrackRecord.afterSample (track : TrackRecord) (sample : MediaSample)
    (rest : List DequeueResult) : TrackRecord :=
  let track1 : TrackRecord :=
    if sample.isEndOfStream = true then
      { track with mSampleQueue := ⟨rest⟩, mReachedEos := true }
    else { track with mSampleQueue := ⟨rest⟩ }
  if track1.mFirstSampleTimeSet = false then
    { track1 with
      mFirstSampleTimeUs := (track.rewrite sample).info.presentationTimeUs
      mFirstSampleTimeSet := true }
  else track1

/-- The `bufferInfo` that `runWriterLoop` fills in for a sample.  The members
`offset` and `size` of `AMediaCodecBufferInfo` are `int32_t`: the assignments
from `sample->dataOffset` and `sample->info.size` narrow the value. -/
def bufferInfoOf (sample : MediaSample) : AMediaCodecBufferInfo :=
  { offset := wrap32 sample.dataOffset, size := wrap32 sample.info.size,
    flags := sample.info.flags, presentationTimeUs := sample.info.presentationTimeUs }

/-- The `do ... while` loop of `runWriterLoop` over one track whose queue still
delivers `pending`. -/
def writeTrackSamples (segmentEndTimeUs : Nat) :
    List DequeueResult → TrackRecord → Muxer → Bool → TrackPass
  | [], track, muxer, samplesLeft =>
    { outcome := some LoopOutcome.blocked, track := { track with mSampleQueue := ⟨[]⟩ },
      muxer := muxer, samplesLeft := samplesLeft }
  | DequeueResult.aborted :: rest, track, muxer, samplesLeft =>
    { outcome := some (LoopOutcome.returned AMEDIA_ERROR_UNKNOWN),
      track := { track with mSampleQueue := ⟨rest⟩ }, muxer := muxer,
      samplesLeft := samplesLeft }
  | DequeueResult.sample sample :: rest, track, muxer, samplesLeft =>
    let sample1 := track.rewrite sample
    let track2 := track.afterSample sample rest
    let samplesLeft1 : Bool := if sample.isEndOfStream = true then samplesLeft else true
    let written := muxer.writeSampleData track2.mTrackIndex sample1.buffer (bufferInfoOf sample1)
    if written.1 ≠ AMEDIA_OK then
      { outcome := some (LoopOutcome.returned written.1), track := track2, muxer := written.2,
        samplesLeft := samplesLeft1 }
    else if sample1.info.presentationTimeUs < (segmentEndTimeUs : Int)
        ∧ track2.mReachedEos = false then
      writeTrackSamples segmentEndTimeUs rest track2 written.2 samplesLeft1
    else
      { outcome := none, track := track2, muxer := written.2, samplesLeft := samplesLeft1 }

/-- The variables of `runWriterLoop` after the `for` loop over the tracks. -/
structure TracksPass where
  outcome : Option LoopOutcome
  tracks : List TrackRecord
  muxer : Muxer
  samplesLeft : Bool

/-- The `for (auto& track : mTracks)` loop of `runWriterLoop` over the tracks
that are still to be visited in this pass. -/
def writeTracks (segmentEndTimeUs : Nat) : List TrackRecord → Muxer → Bool → TracksPass
  | [], muxer, samplesLeft =>
    { outcome := none, tracks := [], muxer := muxer, samplesLeft := samplesLeft }
  | track :: rest, muxer, samplesLeft =>
    if track.mReachedEos = true then
      let r := writeTracks segmentEndTimeUs rest muxer samplesLeft
      { r with tracks := track :: r.tracks }
    else
      let p := writeTrackSamples segmentEndTimeUs track.mSampleQueue.pending track muxer
        samplesLeft
      match p.outcome with
      | some out =>
        { outcome := some out, tracks := p.track :: rest, muxer := p.muxer,
          samplesLeft := p.samplesLeft }
      | none =>
        let r := writeTracks segmentEndTimeUs rest p.muxer p.samplesLeft
        { r with tracks := p.track :: r.tracks }

/-- What `runWriterLoop` leaves behind when it ends. -/
structure WriterRun where
  outcome : LoopOutcome
  tracks : List TrackRecord
  muxer : Muxer
  segmentEndTimeUs : Nat

/-- The `while (samplesLeft)` loop of `runWriterLoop`, entered with
`samplesLeft == true`, run for at most `fuel` passes (`none` when the passes
are used up). -/
def writerLoop (mTrackSegmentLengthUs : Nat) :
    Nat → Nat → List TrackRecord → Muxer → Option WriterRun
  | 0, _, _, _ => none
  | fuel + 1, segmentEndTimeUs, tracks, muxer =>
    let r := writeTracks segmentEndTimeUs tracks muxer false
    match r.outcome with
    | some out =>
      some { outcome := out, tracks := r.tracks, muxer := r.muxer,
             segmentEndTimeUs := segmentEndTimeUs }
    | none =>
      if r.samplesLeft = true then
        writerLoop mTrackSegmentLengthUs fuel (u32 (segmentEndTimeUs + mTrackSegmentLengthUs))
          r.tracks r.muxer
      else
        some { outcome := LoopOutcome.returned AMEDIA_OK, tracks := r.tracks, muxer := r.muxer,
               segmentEndTimeUs := u32 (segmentEndTimeUs + mTrackSegmentLengthUs) }

/-- Number of `dequeue` results the queues of the tracks still deliver. -/
def pendingSamples (tracks : List TrackRecord) : Nat :=
  (tracks.map (fun track => track.mSampleQueue.pending.length)).sum

/-- `MediaSampleWriter::runWriterLoop` on the tracks `mTracks`, the muxer
`mMuxer` and the segment length `mTrackSegmentLengthUs` (a `uint32_t`).  Every
pass that is followed by another one has dequeued a sample, which bounds the
number of passes by the number of pending samples. -/
def runWriterLoop (mTrackSegmentLengthUs : Nat) (mTracks : List TrackRecord) (mMuxer : Muxer) :
    Option WriterRun :=
  writerLoop mTrackSegmentLengthUs (pendingSamples mTracks + 1) (u32 mTrackSegmentLengthUs)
    mTracks mMuxer

/-- Whether a queue delivers an end-of-stream sample before it delivers an
abort indication or runs out. -/
def endsInEos : List DequeueResult → Bool
  | DequeueResult.sample sample :: rest => sample.isEndOfStream || endsInEos rest
  | _ => false

/-- The samples a queue delivers up to and including its first end-of-stream
sample. -/
def upToEos : List DequeueResult → List MediaSample
  | DequeueResult.sample sample :: rest =>
    if sample.isEndOfStream = true then [sample] else sample :: upToEos rest
  | _ => []

/-- The `writeSampleData` calls the writer makes for a track from its present
state on, until it has forwarded the first end-of-stream sample of the
queue. -/
def expectedCalls : List DequeueResult → TrackRecord → List MuxerCall
  | DequeueResult.sample sample :: rest, track =>
    MuxerCall.writeSampleData track.mTrackIndex (track.rewrite sample).buffer
        (bufferInfoOf (track.rewrite sample))
      :: (if sample.isEndOfStream = true then []
          else expectedCalls rest (track.afterSample sample rest))
  | _, _ => []

/-- The calls still to be made for a track: none once it has reached the end
of its stream. -/
def TrackRecord.expected (track : TrackRecord) : List MuxerCall :=
  if track.mReachedEos = true then [] else expectedCalls track.mSampleQueue.pending track

/-- The calls still to be made for the tracks with output track id `i`. -/
def expectedFor (i : Nat) : List TrackRecord → List MuxerCall
  | [] => []
  | track :: rest =>
    (if track.mTrackIndex = i then track.expected else []) ++ expectedFor i rest

/-- The output track id of a `writeSampleData` call. -/
def MuxerCall.trackIndex : MuxerCall → Option Nat
  | MuxerCall.writeSampleData trackIndex _ _ => some trackIndex
  | _ => none

/-- The buffer of a `writeSampleData` call. -/
def MuxerCall.buffer : MuxerCall → Option Nat
  | MuxerCall.writeSampleData _ buffer _ => some buffer
  | _ => none

/-- The calls of a log that write to output track id `i`. -/
def callsOn (i : Nat) (calls : List MuxerCall) : List MuxerCall :=
  calls.filter (fun call => decide (call.trackIndex = some i))

/-- The tracks are ready to be drained: every track that has not reached the
end of its stream has a queue that delivers an end-of-stream sample. -/
def TracksReady (tracks : List TrackRecord) : Prop :=
  ∀ track ∈ tracks, track.mReachedEos = false → endsInEos track.mSampleQueue.pending = true

/-- The `writeSampleData` calls by which the samples of one track are
forwarded when the first sample of the track has time `firstSampleTimeUs`:
every sample goes out with its own buffer and `bufferInfo`, except that an
end-of-stream sample of a track with `durationUs > 0` goes out with the
presentation time `durationUs + firstSampleTimeUs`. -/
def forwardedCalls (trackIndex : Nat) (durationUs firstSampleTimeUs : Int)
    (samples : List MediaSample) : List MuxerCall :=
  samples.map (fun sample =>
    MuxerCall.writeSampleData trackIndex sample.buffer
      (bufferInfoOf
        (if sample.isEndOfStream = true ∧ durationUs > 0 then
          sample.withTime (wrap64 (durationUs + firstSampleTimeUs))
        else sample)))

/-- A muxer all of whose operations succeed and that has not been called
yet. -/
def okMuxer : Muxer :=
  { addTrackResult := fun history => history.length, startResult := fun _ => AMEDIA_OK,
    writeSampleDataResult := fun _ _ _ _ => AMEDIA_OK, stopResult := fun _ => AMEDIA_OK,
    calls := [] }

/-- A sample with payload `buffer`, presentation time `timeUs` and the given
flags. -/
def sampleAt (buffer : Nat) (timeUs : Int) (flags : Nat) : MediaSample :=
  { buffer := buffer, dataOffset := 0,
    info := { offset := 0, size := 1, presentationTimeUs := timeUs, flags := flags } }

/-- A track with declared duration 0 whose queue delivers a sample at time 5
and then an end-of-stream sample stamped 99. -/
def zeroDurationTrack : TrackRecord :=
  TrackRecord.create
    ⟨[DequeueResult.sample (sampleAt 1 5 0),
      DequeueResult.sample (sampleAt 2 99 SAMPLE_FLAG_END_OF_STREAM)]⟩ 0 0

/-- A track with declared duration 1000 whose queue delivers a sample at time
5 and then an end-of-stream sample stamped 99. -/
def timedTrack : TrackRecord :=
  TrackRecord.create
    ⟨[DequeueResult.sample (sampleAt 1 5 0),
      DequeueResult.sample (sampleAt 2 99 SAMPLE_FLAG_END_OF_STREAM)]⟩ 0 1000

/-- Track A of the two-track example: output track id 0, samples at times 0,
10, 20 and then an end-of-stream sample. -/
def exampleTrackA : TrackRecord :=
  TrackRecord.create
    ⟨[DequeueResult.sample (sampleAt 1 0 0), DequeueResult.sample (sampleAt 2 10 0),
      DequeueResult.sample (sampleAt 3 20 0),
      DequeueResult.sample (sampleAt 4 0 SAMPLE_FLAG_END_OF_STREAM)]⟩ 0 0

/-- Track B of the two-track example: output track id 1, samples at times 0,
15, 30 and then an end-of-stream sample. -/
def exampleTrackB : TrackRecord :=
  TrackRecord.create
    ⟨[DequeueResult.sample (sampleAt 11 0 0), DequeueResult.sample (sampleAt 12 15 0),
      DequeueResult.sample (sampleAt 13 30 0),
      DequeueResult.sample (sampleAt 14 0 SAMPLE_FLAG_END_OF_STREAM)]⟩ 1 0

/-- The samples a track forwards in one pass with segment boundary
`segmentEndTimeUs`, in the words of the claim: the consecutively dequeued
samples up to and including the first one whose presentation time is not
below the boundary or that is the end-of-stream marker. -/
def forwardedThrough (segmentEndTimeUs : Nat) : List DequeueResult → List MediaSample
  | DequeueResult.sample sample :: rest =>
    if sample.info.presentationTimeUs ≥ (segmentEndTimeUs : Int)
        ∨ sample.isEndOfStream = true then [sample]
    else sample :: forwardedThrough segmentEndTimeUs rest
  | _ => []

/-- The samples one pass forwards and the output track ids it forwards them
on, in the words of the claim: the tracks that have not reached the end of
their stream are visited in registration order, and each forwards its samples
up to the boundary before the next track is visited. -/
def passOrder (segmentEndTimeUs : Nat) : List TrackRecord → List (Nat × MediaSample)
  | [] => []
  | track :: rest =>
    (if track.mReachedEos = true then []
      else (forwardedThrough segmentEndTimeUs track.mSampleQueue.pending).map
        (fun sample => (track.mTrackIndex, sample)))
    ++ passOrder segmentEndTimeUs rest

/-- The call forwards the sample on the output track id: it is a
`writeSampleData` call with that id, the buffer of the sample and the
`bufferInfo` of the sample, where the presentation time of an end-of-stream
sample is left open. -/
def MuxerCall.forwards (call : MuxerCall) (target : Nat × MediaSample) : Prop :=
  match call with
  | MuxerCall.writeSampleData trackIndex buffer info =>
    trackIndex = target.1 ∧ buffer = target.2.buffer ∧
    ∃ timeUs, info = bufferInfoOf (target.2.withTime timeUs) ∧
      (target.2.isEndOfStream = false → timeUs = target.2.info.presentationTimeUs)
  | _ => False

/-! ### The writer object, its lifecycle calls and `writeSamples` -/

/-- The call `mMuxer->addTrack(trackFormat)`: the `ssize_t` it returns and
the muxer afterwards. -/
def Muxer.addTrack (m : Muxer) : Int × Muxer :=
  (m.addTrackResult m.calls, { m with calls := m.calls ++ [MuxerCall.addTrack] })

/-- The call `mMuxer->start()`. -/
def Muxer.start (m : Muxer) : media_status_t × Muxer :=
  (m.startResult m.calls, { m with calls := m.calls ++ [MuxerCall.start] })

/-- The call `mMuxer->stop()`. -/
def Muxer.stop (m : Muxer) : media_status_t × Muxer :=
  (m.stopResult m.calls, { m with calls := m.calls ++ [MuxerCall.stop] })

/-- Modelled from the spec: `MediaSampleQueue::abort`, "an `abort()` signal
settable from another thread to unblock a pending or future dequeue".  The
class is not part of the sources at hand; after the call the next `dequeue`
delivers the abort indication (`runWriterLoop` returns at the first one, so
only one is listed). -/
def MediaSampleQueue.abort (_queue : MediaSampleQueue) : MediaSampleQueue :=
  ⟨[DequeueResult.aborted]⟩

/-- Modelled from the spec: `AMediaFormat`, the format descriptor of a track,
as far as `addTrack` reads it: the value stored under
`AMEDIAFORMAT_KEY_DURATION`, when there is one. -/
structure AMediaFormat where
  duration : Option Int
  deriving DecidableEq, Repr

/-- `AMediaFormat_getInt64(format, AMEDIAFORMAT_KEY_DURATION, &durationUs)`
followed by the default of `addTrack`: the duration a track is registered
with. -/
def AMediaFormat.durationUs (format : AMediaFormat) : Int :=
  match format.duration with
  | some durationUs => wrap64 durationUs
  | none => 0

/-- Modelled from the spec: `OnWritingFinishedCallback`, the completion
callback registered by `init`; a callback is told apart from another by
`id`. -/
structure OnWritingFinishedCallback where
  id : Nat
  deriving DecidableEq, Repr

/-- The states of a `MediaSampleWriter` (member `mState`). -/
inductive WriterState where
  | UNINITIALIZED
  | INITIALIZED
  | STARTED
  | STOPPED
  deriving DecidableEq, Repr

/-- The member `mThread` of a `MediaSampleWriter`: default constructed,
running the loop (assigned by `start`), or joined (by `stop`). -/
inductive WriterThread where
  | notStarted
  | running
  | joined
  deriving DecidableEq, Repr

/-- The members of `MediaSampleWriter`.  `mMuxer` and
`mWritingFinishedCallback` are `none` for a null pointer and an empty
`std::function`.  `threadsCreated` is not a member of the class: it counts the
`std::thread` objects `start` has created. -/
structure MediaSampleWriter where
  mTrackSegmentLengthUs : Nat
  mMuxer : Option Muxer
  mWritingFinishedCallback : Option OnWritingFinishedCallback
  mState : WriterState
  mTracks : List TrackRecord
  mThread : WriterThread
  threadsCreated : Nat

/-- Modelled from the spec: the constructor of `MediaSampleWriter`, which is
defined in the header outside the sources at hand.  A new writer is
`UNINITIALIZED` and has no muxer, no callback, no track and no thread. -/
def MediaSampleWriter.create (trackSegmentLengthUs : Nat) : MediaSampleWriter :=
  { mTrackSegmentLengthUs := u32 trackSegmentLengthUs, mMuxer := none,
    mWritingFinishedCallback := none, mState := WriterState.UNINITIALIZED, mTracks := [],
    mThread := WriterThread.notStarted, threadsCreated := 0 }

/-- `MediaSampleWriter::init(muxer, callback)`: the value returned and the
writer afterwards. -/
def MediaSampleWriter.init (w : MediaSampleWriter) (muxer : Option Muxer)
    (callback : Option OnWritingFinishedCallback) : Bool × MediaSampleWriter :=
  match callback, muxer with
  | none, _ => (false, w)
  | some _, none => (false, w)
  | some cb, some m =>
    if w.mState ≠ WriterState.UNINITIALIZED then (false, w)
    else
      (true, { w with mState := WriterState.INITIALIZED, mMuxer := some m,
                      mWritingFinishedCallback := some cb })

/-- `MediaSampleWriter::addTrack(sampleQueue, trackFormat)`: `none` when it
calls through a null `mMuxer`. -/
def MediaSampleWriter.addTrack (w : MediaSampleWriter) (sampleQueue : Option MediaSampleQueue)
    (trackFormat : Option AMediaFormat) : Option (Bool × MediaSampleWriter) :=
  match sampleQueue, trackFormat with
  | some queue, some format =>
    if w.mState ≠ WriterState.INITIALIZED then some (false, w)
    else
      match w.mMuxer with
      | none => none
      | some muxer =>
        let added := muxer.addTrack
        if added.1 < 0 then some (false, { w with mMuxer := some added.2 })
        else
          some (true, { w with
            mMuxer := some added.2
            mTracks := w.mTracks ++ [TrackRecord.create queue added.1.toNat format.durationUs] })
  | _, _ => some (false, w)

/-- `MediaSampleWriter::start()`.  The thread it creates runs `writeSamples`
and then the callback; what that thread does is not followed here. -/
def MediaSampleWriter.start (w : MediaSampleWriter) : Bool × MediaSampleWriter :=
  if w.mTracks.length = 0 then (false, w)
  else if w.mState ≠ WriterState.INITIALIZED then (false, w)
  else
    (true, { w with mThread := WriterThread.running, threadsCreated := w.threadsCreated + 1,
                    mState := WriterState.STARTED })

/-- `MediaSampleWriter::stop()`: every queue is told to abort, the thread is
joined, and the writer is `STOPPED`. -/
def MediaSampleWriter.stop (w : MediaSampleWriter) : Bool × MediaSampleWriter :=
  if w.mState ≠ WriterState.STARTED then (false, w)
  else
    (true, { w with
      mTracks := w.mTracks.map (fun track => { track with mSampleQueue := track.mSampleQueue.abort })
      mThread := WriterThread.joined
      mState := WriterState.STOPPED })

/-- One call of a client on a writer. -/
inductive WriterCall where
  | init (muxer : Option Muxer) (callback : Option OnWritingFinishedCallback)
  | addTrack (sampleQueue : Option MediaSampleQueue) (trackFormat : Option AMediaFormat)
  | start
  | stop

/-- Whether the call is `start()`. -/
def WriterCall.isStart : WriterCall → Bool
  | WriterCall.start => true
  | _ => false

/-- The value a call returns and the writer it leaves. -/
def MediaSampleWriter.call (w : MediaSampleWriter) : WriterCall → Option (Bool × MediaSampleWriter)
  | WriterCall.init muxer callback => some (w.init muxer callback)
  | WriterCall.addTrack sampleQueue trackFormat => w.addTrack sampleQueue trackFormat
  | WriterCall.start => some w.start
  | WriterCall.stop => some w.stop

/-- A sequence of calls on a writer: for every call in turn the call, the
value it returned and the writer it left. -/
def MediaSampleWriter.calls (w : MediaSampleWriter) :
    List WriterCall → Option (List (WriterCall × Bool × MediaSampleWriter))
  | [] => some []
  | c :: cs =>
    match w.call c with
    | none => none
    | some (result, w1) =>
      match MediaSampleWriter.calls w1 cs with
      | none => none
      | some later => some ((c, result, w1) :: later)

/-- The moves of `mState` the lifecycle allows in one call: it stays, or it
goes from one state to the next. -/
def WriterState.StaysOrAdvances (a b : WriterState) : Prop :=
  b = a ∨ (a = WriterState.UNINITIALIZED ∧ b = WriterState.INITIALIZED) ∨
  (a = WriterState.INITIALIZED ∧ b = WriterState.STARTED) ∨
  (a = WriterState.STARTED ∧ b = WriterState.STOPPED)

/-- What `writeSamples` leaves behind when it ends. -/
structure WriteSamplesRun where
  outcome : LoopOutcome
  tracks : List TrackRecord
  muxer : Muxer

/-- `MediaSampleWriter::writeSamples()`: `none` when it calls through a null
`mMuxer`; the outcome is `blocked` when `runWriterLoop` stays blocked. -/
def MediaSampleWriter.writeSamples (w : MediaSampleWriter) : Option WriteSamplesRun :=
  match w.mMuxer with
  | none => none
  | some muxer =>
    let started := muxer.start
    if started.1 ≠ AMEDIA_OK then
      some { outcome := LoopOutcome.returned started.1, tracks := w.mTracks, muxer := started.2 }
    else
      match runWriterLoop w.mTrackSegmentLengthUs w.mTracks started.2 with
      | none => none
      | some run =>
        match run.outcome with
        | LoopOutcome.blocked =>
          some { outcome := LoopOutcome.blocked, tracks := run.tracks, muxer := run.muxer }
        | LoopOutcome.returned writeStatus =>
          let stopped := run.muxer.stop
          some { outcome :=
                   LoopOutcome.returned (if writeStatus ≠ AMEDIA_OK then writeStatus else stopped.1)
                 tracks := run.tracks, muxer := stopped.2 }

/-- The body of the thread `start()` creates: `writeSamples()`, then the
callback with the status it returned.  The result lists the calls of the
callback, each with the status handed to it; `none` when the callback is
empty. -/
def MediaSampleWriter.threadBody (w : MediaSampleWriter) :
    Option (WriteSamplesRun × List (OnWritingFinishedCallback × media_status_t)) :=
  match w.writeSamples, w.mWritingFinishedCallback with
  | some run, some callback =>
    match run.outcome with
    | LoopOutcome.returned status => some (run, [(callback, status)])
    | LoopOutcome.blocked => some (run, [])
  | _, _ => none

/-- Number of `stop()` calls in a log of muxer calls. -/
def stopCalls (calls : List MuxerCall) : Nat :=
  (calls.filter (fun call => decide (call = MuxerCall.stop))).length

/-- Whether the call is a `writeSampleData` call. -/
def MuxerCall.isWrite : MuxerCall → Bool
  | MuxerCall.writeSampleData _ _ _ => true
  | _ => false

/-- The muxer `m1` is the muxer `m` after further `writeSampleData` calls
and no other call. -/
def Muxer.Wrote (m m1 : Muxer) : Prop :=
  m1.addTrackResult = m.addTrackResult ∧ m1.startResult = m.startResult ∧
  m1.writeSampleDataResult = m.writeSampleDataResult ∧ m1.stopResult = m.stopResult ∧
  ∃ calls, m1.calls = m.calls ++ calls ∧ ∀ call ∈ calls, call.isWrite = true

/-! ### Points of the interleaving loop -/

/-- The variables of `runWriterLoop` at a call of `dequeue`: the boundary, the
tracks already visited in this pass, the track whose queue is dequeued with
the results that queue still delivers, the tracks still to be visited, the
muxer and `samplesLeft`. -/
structure DequeuePoint where
  segmentEndTimeUs : Nat
  visited : List TrackRecord
  track : TrackRecord
  pending : List DequeueResult
  waiting : List TrackRecord
  muxer : Muxer
  samplesLeft : Bool

/-- The `do ... while` loop over one track, started with the queue delivering
`pending`, is later at its head again with the queue delivering `pending1`:
every sample in between was written with status `AMEDIA_OK`, lay before the
boundary and was not the end-of-stream sample. -/
inductive TrackLoopAt (segmentEndTimeUs : Nat) :
    List DequeueResult → TrackRecord → Muxer → Bool →
    List DequeueResult → TrackRecord → Muxer → Bool → Prop where
  | here (pending : List DequeueResult) (track : TrackRecord) (muxer : Muxer)
      (samplesLeft : Bool) :
      TrackLoopAt segmentEndTimeUs pending track muxer samplesLeft
        pending track muxer samplesLeft
  | next (sample : MediaSample) (rest : List DequeueResult) (track : TrackRecord)
      (muxer : Muxer) (samplesLeft : Bool)
      (pending1 : List DequeueResult) (track1 : TrackRecord) (muxer1 : Muxer)
      (samplesLeft1 : Bool)
      (hwritten : (muxer.writeSampleData (track.afterSample sample rest).mTrackIndex
        (track.rewrite sample).buffer (bufferInfoOf (track.rewrite sample))).1 = AMEDIA_OK)
      (hgoes : (track.rewrite sample).info.presentationTimeUs < (segmentEndTimeUs : Int)
        ∧ (track.afterSample sample rest).mReachedEos = false)
      (hrest : TrackLoopAt segmentEndTimeUs rest (track.afterSample sample rest)
        (muxer.writeSampleData (track.afterSample sample rest).mTrackIndex
          (track.rewrite sample).buffer (bufferInfoOf (track.rewrite sample))).2
        (if sample.isEndOfStream = true then samplesLeft else true)
        pending1 track1 muxer1 samplesLeft1) :
      TrackLoopAt segmentEndTimeUs (DequeueResult.sample sample :: rest) track muxer samplesLeft
        pending1 track1 muxer1 samplesLeft1

/-- The loop `while (samplesLeft)` of `runWriterLoop`, at the start of a pass
with boundary `segmentEndTimeUs` over `tracks` with `muxer`, is later at the
call of `dequeue` described by the point: in this pass, after the tracks
before the current one have been visited and the `do ... while` loop of the
current one has come to its head, or in a later pass. -/
inductive AtDequeue (mTrackSegmentLengthUs : Nat) :
    Nat → List TrackRecord → Muxer → DequeuePoint → Prop where
  | inPass (segmentEndTimeUs : Nat) (before : List TrackRecord) (track : TrackRecord)
      (waiting : List TrackRecord) (muxer : Muxer)
      (pending1 : List DequeueResult) (track1 : TrackRecord) (muxer1 : Muxer)
      (samplesLeft1 : Bool)
      (hbefore : (writeTracks segmentEndTimeUs before muxer false).outcome = none)
      (hlive : track.mReachedEos = false)
      (hloop : TrackLoopAt segmentEndTimeUs track.mSampleQueue.pending track
        (writeTracks segmentEndTimeUs before muxer false).muxer
        (writeTracks segmentEndTimeUs before muxer false).samplesLeft
        pending1 track1 muxer1 samplesLeft1) :
      AtDequeue mTrackSegmentLengthUs segmentEndTimeUs (before ++ track :: waiting) muxer
        { segmentEndTimeUs := segmentEndTimeUs,
          visited := (writeTracks segmentEndTimeUs before muxer false).tracks,
          track := track1, pending := pending1, waiting := waiting, muxer := muxer1,
          samplesLeft := samplesLeft1 }
  | nextPass (segmentEndTimeUs : Nat) (tracks : List TrackRecord) (muxer : Muxer)
      (point : DequeuePoint)
      (hpass : (writeTracks segmentEndTimeUs tracks muxer false).outcome = none)
      (hleft : (writeTracks segmentEndTimeUs tracks muxer false).samplesLeft = true)
      (hlater : AtDequeue mTrackSegmentLengthUs
        (u32 (segmentEndTimeUs + mTrackSegmentLengthUs))
        (writeTracks segmentEndTimeUs tracks muxer false).tracks
        (writeTracks segmentEndTimeUs tracks muxer false).muxer point) :
      AtDequeue mTrackSegmentLengthUs segmentEndTimeUs tracks muxer point


/-- A writer after `init` with `okMuxer` and a callback. -/
def initializedWriter : MediaSampleWriter :=
  ((MediaSampleWriter.create 10).init (some okMuxer) (some ⟨1⟩)).2

/-- A writer with the tracks of the two-track example, before `start`. -/
def exampleWriter : MediaSampleWriter :=
  { initializedWriter with mTracks := [exampleTrackA, exampleTrackB] }

/-- The writer of the two-track example after `start`. -/
def startedWriter : MediaSampleWriter := exampleWriter.start.2

/-- A track (output track id 0, no declared duration) whose queue delivers a
sample at time 0, then the abort indication, then a sample at time 5. -/
def abortedTrack : TrackRecord :=
  TrackRecord.create
    ⟨[DequeueResult.sample (sampleAt 1 0 0), DequeueResult.aborted,
      DequeueResult.sample (sampleAt 2 5 0)]⟩ 0 0

/-- A writer with segment length 10, the muxer `okMuxer` and the tracks
`abortedTrack` and `exampleTrackB`. -/
def abortedWriter : MediaSampleWriter :=
  { initializedWriter with mTracks := [abortedTrack, exampleTrackB] }

/-- The point of `runWriterLoop` of `abortedWriter` at the second `dequeue` on
`abortedTrack`, which delivers the abort indication: the first sample of the
track has been taken and written. -/
def abortPoint : DequeuePoint :=
  { segmentEndTimeUs := 10,
    visited := (writeTracks 10 [] okMuxer.start.2 false).tracks,
    track := abortedTrack.afterSample (sampleAt 1 0 0)
      [DequeueResult.aborted, DequeueResult.sample (sampleAt 2 5 0)],
    pending := [DequeueResult.aborted, DequeueResult.sample (sampleAt 2 5 0)],
    waiting := [exampleTrackB],
    muxer := (okMuxer.start.2.writeSampleData
      (abortedTrack.afterSample (sampleAt 1 0 0)
        [DequeueResult.aborted, DequeueResult.sample (sampleAt 2 5 0)]).mTrackIndex
      (abortedTrack.rewrite (sampleAt 1 0 0)).buffer
      (bufferInfoOf (abortedTrack.rewrite (sampleAt 1 0 0)))).2,
    samplesLeft := if (sampleAt 1 0 0).isEndOfStream = true then false else true }

/-- A muxer like `okMuxer` whose `start()` fails with status `-10001`. -/
def startFailMuxer : Muxer :=
  { okMuxer with startResult := fun _ => -10001 }

/-- A muxer like `okMuxer` whose `writeSampleData` fails with status `-10001`
for the buffer 2. -/
def writeFailMuxer : Muxer :=
  { okMuxer with
    writeSampleDataResult := fun _ _ buffer _ => if buffer = 2 then -10001 else AMEDIA_OK }

/-- The writer of the two-track example with the muxer `startFailMuxer`. -/
def startFailWriter : MediaSampleWriter :=
  { exampleWriter with mMuxer := some startFailMuxer }

/-- The writer of the two-track example with the muxer `writeFailMuxer`. -/
def writeFailWriter : MediaSampleWriter :=
  { exampleWriter with mMuxer := some writeFailMuxer }

/-- What the queue of track A of the two-track example still delivers after
its first two samples. -/
def exampleTrackARest : List DequeueResult :=
  [DequeueResult.sample (sampleAt 3 20 0),
   DequeueResult.sample (sampleAt 4 0 SAMPLE_FLAG_END_OF_STREAM)]

/-- The point of `runWriterLoop` of `writeFailWriter` at the second `dequeue`
on track A, which delivers the sample with buffer 2: the first sample of the
track has been taken and written. -/
def writeFailPoint : DequeuePoint :=
  { segmentEndTimeUs := 10,
    visited := (writeTracks 10 [] writeFailMuxer.start.2 false).tracks,
    track := exampleTrackA.afterSample (sampleAt 1 0 0)
      (DequeueResult.sample (sampleAt 2 10 0) :: exampleTrackARest),
    pending := DequeueResult.sample (sampleAt 2 10 0) :: exampleTrackARest,
    waiting := [exampleTrackB],
    muxer := (writeFailMuxer.start.2.writeSampleData
      (exampleTrackA.afterSample (sampleAt 1 0 0)
        (DequeueResult.sample (sampleAt 2 10 0) :: exampleTrackARest)).mTrackIndex
      (exampleTrackA.rewrite (sampleAt 1 0 0)).buffer
      (bufferInfoOf (exampleTrackA.rewrite (sampleAt 1 0 0)))).2,
    samplesLeft := if (sampleAt 1 0 0).isEndOfStream = true then false else true }

/-! ### The boundaries of the passes -/

/-- The values `segmentEndTimeUs` has in the passes of the
`while (samplesLeft)` loop of `runWriterLoop`, in turn: the loop as
`writerLoop` runs it, with the boundary of every pass it enters recorded. -/
def writerLoopBoundaries (mTrackSegmentLengthUs : Nat) :
    Nat → Nat → List TrackRecord → Muxer → List Nat
  | 0, _, _, _ => []
  | fuel + 1, segmentEndTimeUs, tracks, muxer =>
    let r := writeTracks segmentEndTimeUs tracks muxer false
    segmentEndTimeUs ::
      match r.outcome with
      | some _ => []
      | none =>
        if r.samplesLeft = true then
          writerLoopBoundaries mTrackSegmentLengthUs fuel
            (u32 (segmentEndTimeUs + mTrackSegmentLengthUs)) r.tracks r.muxer
        else []

/-- The boundaries of the passes of `runWriterLoop`, in turn: entry `k` is the
value of `segmentEndTimeUs` against which the presentation times are compared
in pass `k`. -/
def runWriterLoopBoundaries (mTrackSegmentLengthUs : Nat) (mTracks : List TrackRecord)
    (mMuxer : Muxer) : List Nat :=
  writerLoopBoundaries mTrackSegmentLengthUs (pendingSamples mTracks + 1)
    (u32 mTrackSegmentLengthUs) mTracks mMuxer

/-- A track (output track id 0) with samples at times 0, `2^31`, `2^31 + 1`,
`2^31 + 2` and then an end-of-stream sample. -/
def longTrackA : TrackRecord :=
  TrackRecord.create
    ⟨[DequeueResult.sample (sampleAt 1 0 0), DequeueResult.sample (sampleAt 2 2147483648 0),
      DequeueResult.sample (sampleAt 3 2147483649 0),
      DequeueResult.sample (sampleAt 4 2147483650 0),
      DequeueResult.sample (sampleAt 5 0 SAMPLE_FLAG_END_OF_STREAM)]⟩ 0 0

/-- A track (output track id 1) with samples at times 0, `2^31`, `2^31 + 1`
and then an end-of-stream sample. -/
def longTrackB : TrackRecord :=
  TrackRecord.create
    ⟨[DequeueResult.sample (sampleAt 11 0 0), DequeueResult.sample (sampleAt 12 2147483648 0),
      DequeueResult.sample (sampleAt 13 2147483649 0),
      DequeueResult.sample (sampleAt 14 0 SAMPLE_FLAG_END_OF_STREAM)]⟩ 1 0

/-! ### Example tables for repeated and far seeks -/

/-- A data source like `fileSource chunkedFile` except that every read at
byte offset 36, where the sample sizes start, fails. -/
def sizeReadFailSource (off : Int) (size : Nat) : Option (List Nat) :=
  if off = 36 then none else fileSource chunkedFile off size

/-- The table `chunkedTable` over `sizeReadFailSource`. -/
def sizeReadFailTable : SampleTable :=
  { chunkedTable with readAt := sizeReadFailSource }

/-- A data source that delivers, for a read at an offset below `65536`, bytes
of value 1, and for a read at a later offset bytes of value 2. -/
def lowHighSource (off : Int) (size : Nat) : Option (List Nat) :=
  some (List.replicate size (if off < 65536 then 1 else 2))

/-- A table of `2^30 + 1` samples with 4-bit sizes and no default size, one
sample per chunk, over `lowHighSource`. -/
def compactHugeTable : SampleTable :=
  { readAt := lowHighSource, mChunkOffsetOffset := 0,
    mChunkOffsetType := kChunkOffsetType32, mNumChunkOffsets := 1073741825,
    mSampleToChunkOffset := 0, mSampleToChunkEntries := some [⟨0, 1, 0⟩],
    mSampleSizeOffset := 0, mSampleSizeFieldSize := 4, mDefaultSampleSize := 0,
    mNumSampleSizes := 1073741825, mTimeToSample := [1073741825, 10],
    getCompositionTimeOffset := fun _ => 0 }

/-- A table of `2^27 + 1` samples with 32-bit sizes and no default size, one
sample per chunk, over `lowHighSource`. -/
def wideHugeTable : SampleTable :=
  { readAt := lowHighSource, mChunkOffsetOffset := 0,
    mChunkOffsetType := kChunkOffsetType32, mNumChunkOffsets := 134217729,
    mSampleToChunkOffset := 0, mSampleToChunkEntries := some [⟨0, 1, 0⟩],
    mSampleSizeOffset := 0, mSampleSizeFieldSize := 32, mDefaultSampleSize := 0,
    mNumSampleSizes := 134217729, mTimeToSample := [134217729, 10],
    getCompositionTimeOffset := fun _ => 0 }

/-- The cursor over `missingChunkTable` after `seekTo(0)` and a `seekTo(1)`
that returned `ERROR_OUT_OF_RANGE` from `getChunkOffset`: the chunk index is 1,
the chunk offset is the 0 that `getChunkOffset` stores before its test, and
the per-chunk size list is still that of chunk 0. -/
def missingChunkFailedCursor : SampleIterator :=
  { mInitialized := true, mSampleToChunkIndex := 1, mFirstChunk := 0,
    mFirstChunkSampleIndex := 0, mStopChunk := 4294967295, mStopChunkSampleIndex := 4294967295,
    mSamplesPerChunk := 1, mChunkDesc := 0, mCurrentChunkIndex := 1,
    mCurrentChunkOffset := 0, mCurrentChunkSampleSizes := [1], mTimeToSampleIndex := 1,
    mTTSSampleIndex := 0, mTTSSampleTime := 0, mTTSCount := 2, mTTSDuration := 10,
    mCurrentSampleIndex := 0, mCurrentSampleOffset := 100, mCurrentSampleSize := 1,
    mCurrentSampleTime := 0, mCurrentSampleDuration := 10, mSampleCache := none,
    mSampleCacheSize := 0, mCurrentSampleCacheStartIndex := 0 }

/-- The cursor `missingChunkFailedCursor` after the repeated `seekTo(1)`,
which returned `OK`: sample 1 at offset 0 with size 1. -/
def missingChunkRetriedCursor : SampleIterator :=
  { missingChunkFailedCursor with
    mCurrentSampleIndex := 1, mCurrentSampleOffset := 0, mCurrentSampleSize := 1,
    mCurrentSampleTime := 10, mCurrentSampleDuration := 10 }

/-- The cursor over `sizeReadFailTable` after `seekTo(6)` on a new cursor:
chunk 2 at offset 300 with the sizes 5, 6, 7, the cache window starting at
sample 4. -/
def sizeReadFailCursor6 : SampleIterator :=
  { chunkedCursor16 with
    mSampleCache := some [5, 6, 7], mSampleCacheSize := 3, mCurrentSampleCacheStartIndex := 4 }

/-- The cursor `sizeReadFailCursor6` after a `seekTo(1)` that returned
`ERROR_IO` from the first `getSampleSizeDirect` of the chunk block: the chunk
index is 0, the chunk offset is 100 and the per-chunk size list is empty. -/
def sizeReadFailCursor61 : SampleIterator :=
  { mInitialized := true, mSampleToChunkIndex := 1, mFirstChunk := 0,
    mFirstChunkSampleIndex := 0, mStopChunk := 2, mStopChunkSampleIndex := 4,
    mSamplesPerChunk := 2, mChunkDesc := 0, mCurrentChunkIndex := 0,
    mCurrentChunkOffset := 100, mCurrentChunkSampleSizes := [], mTimeToSampleIndex := 1,
    mTTSSampleIndex := 0, mTTSSampleTime := 0, mTTSCount := 7, mTTSDuration := 10,
    mCurrentSampleIndex := 6, mCurrentSampleOffset := 311, mCurrentSampleSize := 7,
    mCurrentSampleTime := 60, mCurrentSampleDuration := 10,
    mSampleCache := some [0, 0, 0, 0, 0, 0, 0], mSampleCacheSize := 7,
    mCurrentSampleCacheStartIndex := 0 }

/-- A table of `2^30 + 1` samples of default size 1, one sample per chunk,
with `2^30 + 1` 32-bit chunk offsets, over `lowHighSource`: the entries of
the chunks whose entry lies below byte `65536` are `0x01010101`, the later
ones are `0x02020202`. -/
def manyChunksTable : SampleTable :=
  { readAt := lowHighSource, mChunkOffsetOffset := 0,
    mChunkOffsetType := kChunkOffsetType32, mNumChunkOffsets := 1073741825,
    mSampleToChunkOffset := 0, mSampleToChunkEntries := some [⟨0, 1, 0⟩],
    mSampleSizeOffset := 0, mSampleSizeFieldSize := 32, mDefaultSampleSize := 1,
    mNumSampleSizes := 1073741825, mTimeToSample := [1073741825, 10],
    getCompositionTimeOffset := fun _ => 0 }

/-- The cursor over `manyChunksTable` after `seekTo(2^30)` on a new cursor. -/
def manyChunksCursor : SampleIterator :=
  { mInitialized := true, mSampleToChunkIndex := 1, mFirstChunk := 0,
    mFirstChunkSampleIndex := 0, mStopChunk := 4294967295, mStopChunkSampleIndex := 4294967295,
    mSamplesPerChunk := 1, mChunkDesc := 0, mCurrentChunkIndex := 1073741824,
    mCurrentChunkOffset := 16843009, mCurrentChunkSampleSizes := [1], mTimeToSampleIndex := 1,
    mTTSSampleIndex := 0, mTTSSampleTime := 0, mTTSCount := 1073741825, mTTSDuration := 10,
    mCurrentSampleIndex := 1073741824, mCurrentSampleOffset := 16843009,
    mCurrentSampleSize := 1, mCurrentSampleTime := 2147483648, mCurrentSampleDuration := 10,
    mSampleCache := none, mSampleCacheSize := 0, mCurrentSampleCacheStartIndex := 0 }

/-- The position in the cache at which `getSampleSizeDirect` decodes the size
of `sampleIndex`: `(sampleIndex - mCurrentSampleCacheStartIndex) *
mSampleSizeFieldSize / 8` as a `uint32_t`. -/
def cacheReadOffset (t : SampleTable) (s : SampleIterator) (sampleIndex : Nat) : Nat :=
  u32 (sub32 sampleIndex s.mCurrentSampleCacheStartIndex * t.mSampleSizeFieldSize) / 8

/-- The cursor over `compactHugeTable` after `seekTo(0)` on a new cursor: the
cache window starts at sample 0 and holds one byte. -/
def compactHugeCursor : SampleIterator :=
  { mInitialized := true, mSampleToChunkIndex := 1, mFirstChunk := 0,
    mFirstChunkSampleIndex := 0, mStopChunk := 4294967295, mStopChunkSampleIndex := 4294967295,
    mSamplesPerChunk := 1, mChunkDesc := 0, mCurrentChunkIndex := 0,
    mCurrentChunkOffset := 16843009, mCurrentChunkSampleSizes := [0], mTimeToSampleIndex := 1,
    mTTSSampleIndex := 0, mTTSSampleTime := 0, mTTSCount := 1073741825, mTTSDuration := 10,
    mCurrentSampleIndex := 0, mCurrentSampleOffset := 16843009, mCurrentSampleSize := 0,
    mCurrentSampleTime := 0, mCurrentSampleDuration := 10, mSampleCache := some [1],
    mSampleCacheSize := 1, mCurrentSampleCacheStartIndex := 0 }

/-- The cursor over `wideHugeTable` after `seekTo(2^27)` on a new cursor: the
cache window starts at sample `2^27` and holds four bytes of value 1. -/
def wideHugeCursor : SampleIterator :=
  { mInitialized := true, mSampleToChunkIndex := 1, mFirstChunk := 0,
    mFirstChunkSampleIndex := 0, mStopChunk := 4294967295, mStopChunkSampleIndex := 4294967295,
    mSamplesPerChunk := 1, mChunkDesc := 0, mCurrentChunkIndex := 134217728,
    mCurrentChunkOffset := 33686018, mCurrentChunkSampleSizes := [16843009],
    mTimeToSampleIndex := 1, mTTSSampleIndex := 0, mTTSSampleTime := 0,
    mTTSCount := 134217729, mTTSDuration := 10, mCurrentSampleIndex := 134217728,
    mCurrentSampleOffset := 33686018, mCurrentSampleSize := 16843009,
    mCurrentSampleTime := 1342177280, mCurrentSampleDuration := 10,
    mSampleCache := some [1, 1, 1, 1], mSampleCacheSize := 4,
    mCurrentSampleCacheStartIndex := 134217728 }

/-- The cursor with the three members that describe the chunk resolved last
replaced. -/
def SampleIterator.withChunkState (s : SampleIterator) (index : Nat) (offset : Int)
    (sizes : List Nat) : SampleIterator :=
  { s with
    mCurrentChunkIndex := index
    mCurrentChunkOffset := offset
    mCurrentChunkSampleSizes := sizes }

/-! ### The size cache in general -/

/-- Number of cache bytes the `switch` of `getSampleSizeDirect` decodes: four,
two or one for the widths 32, 16 and 8, and one for the width 4. -/
def decodedBytes (t : SampleTable) : Nat :=
  if t.mSampleSizeFieldSize = 32 then 4
  else if t.mSampleSizeFieldSize = 16 then 2
  else 1

/-- The size cache of the cursor is well formed: its size is at most
`kMaxSampleCacheSize`, and a buffer that is there has `mSampleCacheSize` bytes
and belongs to a window that starts below the sample count and has the size
`getSampleSizeDirect` computes for that start. -/
def WindowOk (t : SampleTable) (s : SampleIterator) : Prop :=
  s.mSampleCacheSize ≤ kMaxSampleCacheSize ∧
  ∀ cache, s.mSampleCache = some cache →
    cache.length = s.mSampleCacheSize ∧
    s.mCurrentSampleCacheStartIndex < t.mNumSampleSizes ∧
    s.mSampleCacheSize = cacheWindowSize t s.mCurrentSampleCacheStartIndex

/-- The cursors a client can hold after calls of `seekTo`, whatever they
returned, starting from a newly constructed cursor. -/
inductive ReachedByCalls (t : SampleTable) : SampleIterator → Prop where
  | fresh (junk : SampleIterator) : ReachedByCalls t (SampleIterator.create junk)
  | call (s s1 : SampleIterator) (sampleIndex : Nat) (r : status_t)
      (hs : ReachedByCalls t s)
      (hcall : seekTo t s sampleIndex = some (r, s1)) : ReachedByCalls t s1

/-- The cursor `sizeReadFailCursor61` after `seekTo(2)`, which returned `OK`:
chunk 1 at offset 200 with the sizes 0, 0 decoded from the buffer that no read
has filled. -/
def sizeReadFailCursor612 : SampleIterator :=
  { sizeReadFailCursor61 with
    mCurrentChunkIndex := 1, mCurrentChunkOffset := 200, mCurrentChunkSampleSizes := [0, 0],
    mCurrentSampleIndex := 2, mCurrentSampleOffset := 200, mCurrentSampleSize := 0,
    mCurrentSampleTime := 20, mCurrentSampleDuration := 10 }

/-- The table `sizeReadFailTable` run where the memory `new` hands out holds
bytes of value 171. -/
def sizeReadFailStaleTable : SampleTable :=
  { sizeReadFailTable with uninitialised := fun _ _ => 171 }

/-! ## Theorems -/

/-! ### Seeking at or beyond the sample count -/

/-- C2: for every table and every cursor state `seekTo(sampleIndex)` with
`sampleIndex >= mNumSampleSizes` returns `ERROR_END_OF_STREAM`, whatever the
other members of the table are, and leaves every member of the cursor as it
was. -/
theorem seekTo_end_of_stream (t : SampleTable) (s : SampleIterator) (sampleIndex : Nat)
    (h : sampleIndex ≥ t.mNumSampleSizes) :
    seekTo t s sampleIndex = some (status_t.ERROR_END_OF_STREAM, s) := by
  unfold seekTo
  rw [if_pos h]

/-- C2, an instance: a table with three samples and no sample-to-chunk array,
sought at index 3 from the all-zero cursor. -/
theorem seekTo_end_of_stream_witness :
    (3 : Nat) ≥ (SampleTable.mk (fileSource []) (-1) 0 0 (-1) none (-1) 0 0 3 []
        (fun _ => 0) (fun _ _ => 0)).mNumSampleSizes ∧
    seekTo (SampleTable.mk (fileSource []) (-1) 0 0 (-1) none (-1) 0 0 3 [] (fun _ => 0)
          (fun _ _ => 0))
        SampleIterator.zero 3
      = some (status_t.ERROR_END_OF_STREAM, SampleIterator.zero) :=
  ⟨by decide, seekTo_end_of_stream _ _ 3 (by decide)⟩


/-! ### Machine arithmetic lemmas -/

theorem u32_of_lt {x : Nat} (h : x < 4294967296) : u32 x = x := by
  unfold u32; omega

theorem u32_lt (x : Nat) : u32 x < 4294967296 := by
  unfold u32; omega

theorem sub32_of_le {a b : Nat} (ha : a < 4294967296) (h : b ≤ a) : sub32 a b = a - b := by
  unfold sub32; omega

theorem sub32_lt (a b : Nat) : sub32 a b < 4294967296 := by
  unfold sub32; omega

/-- The body of the loop of `findChunkRange` at a run that is followed by
another one. -/
theorem findChunkRangeBody_nonfinal (t : SampleTable) (s : SampleIterator)
    (e next : SampleToChunkEntry)
    (he : (t.mSampleToChunkEntries.getD [])[s.mSampleToChunkIndex]? = some e)
    (hnext : (t.mSampleToChunkEntries.getD [])[s.mSampleToChunkIndex + 1]? = some next)
    (hn : t.mNumSampleToChunkOffsets < 4294967296)
    (hty : s.mStopChunkSampleIndex < 4294967296) :
    (u32 next.startChunk < u32 e.startChunk →
      ∃ s1, findChunkRangeBody t s = some (some status_t.ERROR_OUT_OF_RANGE, s1)) ∧
    (0 < u32 e.samplesPerChunk →
      (u32 next.startChunk < u32 e.startChunk
        ∨ 4294967295 < (u32 next.startChunk - u32 e.startChunk) * u32 e.samplesPerChunk
        ∨ 4294967295 < s.mStopChunkSampleIndex
            + (u32 next.startChunk - u32 e.startChunk) * u32 e.samplesPerChunk) →
      ∃ s1, findChunkRangeBody t s = some (some status_t.ERROR_OUT_OF_RANGE, s1)) ∧
    (0 < u32 e.samplesPerChunk →
      ¬ (u32 next.startChunk < u32 e.startChunk
        ∨ 4294967295 < (u32 next.startChunk - u32 e.startChunk) * u32 e.samplesPerChunk
        ∨ 4294967295 < s.mStopChunkSampleIndex
            + (u32 next.startChunk - u32 e.startChunk) * u32 e.samplesPerChunk) →
      ∃ s1, findChunkRangeBody t s = some (none, s1)) ∧
    (∀ s1, findChunkRangeBody t s = some (none, s1) →
      u32 e.startChunk ≤ u32 next.startChunk ∧
      s1.mFirstChunk = u32 e.startChunk ∧ s1.mStopChunk = u32 next.startChunk ∧
      s1.mSamplesPerChunk = u32 e.samplesPerChunk ∧
      s1.mFirstChunkSampleIndex = s.mStopChunkSampleIndex ∧
      s1.mSampleToChunkIndex = s.mSampleToChunkIndex + 1 ∧
      s1.mStopChunkSampleIndex
        = s.mStopChunkSampleIndex
          + (u32 next.startChunk - u32 e.startChunk) * u32 e.samplesPerChunk ∧
      s1.mStopChunkSampleIndex < 4294967296) := by
  have hlen : s.mSampleToChunkIndex + 1 < t.mNumSampleToChunkOffsets := by
    have := List.getElem?_eq_some.mp hnext
    obtain ⟨h, _⟩ := this
    unfold SampleTable.mNumSampleToChunkOffsets
    cases hE : t.mSampleToChunkEntries with
    | none => simp [hE] at h
    | some es => simpa [hE] using h
  have hne : s.mSampleToChunkIndex ≠ t.mNumSampleToChunkOffsets := by omega
  have ha := u32_lt e.startChunk
  have hb := u32_lt next.startChunk
  have hc := u32_lt e.samplesPerChunk
  have hbody : findChunkRangeBody t s =
      (if u32 next.startChunk < u32 e.startChunk then
        some (some status_t.ERROR_OUT_OF_RANGE,
          { s with mFirstChunkSampleIndex := s.mStopChunkSampleIndex,
                   mFirstChunk := u32 e.startChunk,
                   mSamplesPerChunk := u32 e.samplesPerChunk,
                   mChunkDesc := u32 e.chunkDesc,
                   mStopChunk := u32 next.startChunk })
      else if u32 e.samplesPerChunk = 0 then none
      else if sub32 (u32 next.startChunk) (u32 e.startChunk) > UINT32_MAX / u32 e.samplesPerChunk then
        some (some status_t.ERROR_OUT_OF_RANGE,
          { s with mFirstChunkSampleIndex := s.mStopChunkSampleIndex,
                   mFirstChunk := u32 e.startChunk,
                   mSamplesPerChunk := u32 e.samplesPerChunk,
                   mChunkDesc := u32 e.chunkDesc,
                   mStopChunk := u32 next.startChunk })
      else if u32 (sub32 (u32 next.startChunk) (u32 e.startChunk) * u32 e.samplesPerChunk)
          > sub32 UINT32_MAX s.mStopChunkSampleIndex then
        some (some status_t.ERROR_OUT_OF_RANGE,
          { s with mFirstChunkSampleIndex := s.mStopChunkSampleIndex,
                   mFirstChunk := u32 e.startChunk,
                   mSamplesPerChunk := u32 e.samplesPerChunk,
                   mChunkDesc := u32 e.chunkDesc,
                   mStopChunk := u32 next.startChunk })
      else
        some (none,
          { s with mFirstChunkSampleIndex := s.mStopChunkSampleIndex,
                   mFirstChunk := u32 e.startChunk,
                   mSamplesPerChunk := u32 e.samplesPerChunk,
                   mChunkDesc := u32 e.chunkDesc,
                   mStopChunk := u32 next.startChunk,
                   mStopChunkSampleIndex :=
                     u32 (s.mStopChunkSampleIndex
                       + u32 (sub32 (u32 next.startChunk) (u32 e.startChunk) * u32 e.samplesPerChunk)),
                   mSampleToChunkIndex := u32 (s.mSampleToChunkIndex + 1) })) := by
    unfold findChunkRangeBody
    rw [if_neg hne]
    simp only [he, hnext, if_pos hlen]
  -- arithmetic facts used in all branches
  have key : ∀ (hle : u32 e.startChunk ≤ u32 next.startChunk) (hpos : 0 < u32 e.samplesPerChunk),
      (sub32 (u32 next.startChunk) (u32 e.startChunk) > UINT32_MAX / u32 e.samplesPerChunk
        ↔ 4294967295 < (u32 next.startChunk - u32 e.startChunk) * u32 e.samplesPerChunk) := by
    intro hle hpos
    rw [sub32_of_le hb hle]
    unfold UINT32_MAX
    exact Nat.div_lt_iff_lt_mul hpos
  have hprod : ∀ (hle : u32 e.startChunk ≤ u32 next.startChunk),
      ¬ 4294967295 < (u32 next.startChunk - u32 e.startChunk) * u32 e.samplesPerChunk →
      u32 (sub32 (u32 next.startChunk) (u32 e.startChunk) * u32 e.samplesPerChunk)
        = (u32 next.startChunk - u32 e.startChunk) * u32 e.samplesPerChunk := by
    intro hle hlt
    rw [sub32_of_le hb hle]
    exact u32_of_lt (by omega)
  have hsubmax : sub32 UINT32_MAX s.mStopChunkSampleIndex = 4294967295 - s.mStopChunkSampleIndex := by
    unfold sub32 UINT32_MAX; omega
  refine ⟨?_, ?_, ?_, ?_⟩
  · intro h
    rw [hbody, if_pos h]
    exact ⟨_, rfl⟩
  · intro hpos hbad
    rw [hbody]
    by_cases h1 : u32 next.startChunk < u32 e.startChunk
    · rw [if_pos h1]
      exact ⟨_, rfl⟩
    · have hle : u32 e.startChunk ≤ u32 next.startChunk := by omega
      rw [if_neg h1, if_neg (by omega)]
      by_cases h2 : sub32 (u32 next.startChunk) (u32 e.startChunk)
          > UINT32_MAX / u32 e.samplesPerChunk
      · rw [if_pos h2]
        exact ⟨_, rfl⟩
      · rw [if_neg h2]
        have h2' := (key hle hpos).not.mp h2
        have h3 : u32 (sub32 (u32 next.startChunk) (u32 e.startChunk) * u32 e.samplesPerChunk)
            > sub32 UINT32_MAX s.mStopChunkSampleIndex := by
          rw [hprod hle h2', hsubmax]
          rcases hbad with hbad | hbad | hbad
          · omega
          · omega
          · generalize (u32 next.startChunk - u32 e.startChunk) * u32 e.samplesPerChunk = p at *
            omega
        rw [if_pos h3]
        exact ⟨_, rfl⟩
  · intro hpos hgood
    rw [hbody]
    have h1 : ¬ u32 next.startChunk < u32 e.startChunk := fun h => hgood (Or.inl h)
    have hle : u32 e.startChunk ≤ u32 next.startChunk := by omega
    have h2' : ¬ 4294967295 < (u32 next.startChunk - u32 e.startChunk) * u32 e.samplesPerChunk :=
      fun h => hgood (Or.inr (Or.inl h))
    have h2 := (key hle hpos).not.mpr h2'
    have h3 : ¬ u32 (sub32 (u32 next.startChunk) (u32 e.startChunk) * u32 e.samplesPerChunk)
        > sub32 UINT32_MAX s.mStopChunkSampleIndex := by
      rw [hprod hle h2', hsubmax]
      have h4 : ¬ 4294967295 < s.mStopChunkSampleIndex
            + (u32 next.startChunk - u32 e.startChunk) * u32 e.samplesPerChunk :=
        fun h => hgood (Or.inr (Or.inr h))
      generalize (u32 next.startChunk - u32 e.startChunk) * u32 e.samplesPerChunk = p at *
      omega
    rw [if_neg h1, if_neg (by omega), if_neg h2, if_neg h3]
    exact ⟨_, rfl⟩
  · intro s1 hs1
    rw [hbody] at hs1
    by_cases h1 : u32 next.startChunk < u32 e.startChunk
    · rw [if_pos h1] at hs1
      simp at hs1
    · have hle : u32 e.startChunk ≤ u32 next.startChunk := by omega
      rw [if_neg h1] at hs1
      by_cases h0 : u32 e.samplesPerChunk = 0
      · rw [if_pos h0] at hs1
        simp at hs1
      · have hpos : 0 < u32 e.samplesPerChunk := by omega
        rw [if_neg h0] at hs1
        by_cases h2 : sub32 (u32 next.startChunk) (u32 e.startChunk)
            > UINT32_MAX / u32 e.samplesPerChunk
        · rw [if_pos h2] at hs1
          simp at hs1
        · rw [if_neg h2] at hs1
          have h2' := (key hle hpos).not.mp h2
          by_cases h3 : u32 (sub32 (u32 next.startChunk) (u32 e.startChunk)
              * u32 e.samplesPerChunk) > sub32 UINT32_MAX s.mStopChunkSampleIndex
          · rw [if_pos h3] at hs1
            simp at hs1
          · rw [if_neg h3] at hs1
            have hs1' : _ = s1 := (Prod.mk.inj (Option.some.inj hs1)).2
            subst hs1'
            rw [hprod hle h2', hsubmax] at h3
            refine ⟨hle, rfl, rfl, rfl, rfl, ?_, ?_, u32_lt _⟩
            · show u32 (s.mSampleToChunkIndex + 1) = s.mSampleToChunkIndex + 1
              exact u32_of_lt (by omega)
            · show u32 (s.mStopChunkSampleIndex + u32 (sub32 (u32 next.startChunk)
                  (u32 e.startChunk) * u32 e.samplesPerChunk)) = _
              rw [hprod hle h2']
              apply u32_of_lt
              generalize (u32 next.startChunk - u32 e.startChunk) * u32 e.samplesPerChunk = p at *
              omega

/-- An iteration of the loop of `findChunkRange` that reaches the end of the
body has advanced `mSampleToChunkIndex` by one. -/
theorem findChunkRangeBody_index (t : SampleTable) (s s1 : SampleIterator)
    (hn : t.mNumSampleToChunkOffsets < 4294967296)
    (h : findChunkRangeBody t s = some (none, s1)) :
    s.mSampleToChunkIndex < t.mNumSampleToChunkOffsets ∧
    s1.mSampleToChunkIndex = s.mSampleToChunkIndex + 1 := by
  unfold findChunkRangeBody at h
  by_cases h0 : s.mSampleToChunkIndex = t.mNumSampleToChunkOffsets
  · rw [if_pos h0] at h
    simp at h
  · rw [if_neg h0] at h
    cases he : (t.mSampleToChunkEntries.getD [])[s.mSampleToChunkIndex]? with
    | none => simp [he] at h
    | some e =>
      have hlt : s.mSampleToChunkIndex < t.mNumSampleToChunkOffsets := by
        obtain ⟨hl, _⟩ := List.getElem?_eq_some.mp he
        unfold SampleTable.mNumSampleToChunkOffsets
        cases hE : t.mSampleToChunkEntries with
        | none => simp [hE] at hl
        | some es => simpa [hE] using hl
      refine ⟨hlt, ?_⟩
      have hu : u32 (s.mSampleToChunkIndex + 1) = s.mSampleToChunkIndex + 1 :=
        u32_of_lt (by omega)
      simp only [he] at h
      split at h
      · split at h
        · simp at h
        · split at h
          · simp at h
          · split at h
            · simp at h
            · split at h
              · simp at h
              · split at h
                · simp at h
                · have h' : _ = s1 := (Prod.mk.inj (Option.some.inj h)).2
                  subst h'
                  exact hu
      · have h' : _ = s1 := (Prod.mk.inj (Option.some.inj h)).2
        subst h'
        exact hu

/-- When the loop of `findChunkRange` consults a run, the call returns what
the body returns there. -/
theorem findChunkRangeLoop_of_consults (t : SampleTable) (sampleIndex : Nat)
    (hn : t.mNumSampleToChunkOffsets < 4294967296)
    (s h : SampleIterator) (hc : FindChunkRangeConsults t sampleIndex s h)
    (err : status_t) (s1 : SampleIterator)
    (hbody : findChunkRangeBody t h = some (some err, s1)) :
    s.mSampleToChunkIndex ≤ h.mSampleToChunkIndex ∧
    ∀ fuel, h.mSampleToChunkIndex - s.mSampleToChunkIndex < fuel →
      findChunkRangeLoop t sampleIndex fuel s = some (err, s1) := by
  induction hc with
  | head s hs =>
    refine ⟨le_refl _, ?_⟩
    intro fuel hf
    cases fuel with
    | zero => omega
    | succ f =>
      unfold findChunkRangeLoop
      rw [if_pos hs, hbody]
  | step s s2 h hs hb hrest ih =>
    obtain ⟨hle, ih⟩ := ih hbody
    obtain ⟨_, hidx⟩ := findChunkRangeBody_index t s s2 hn hb
    refine ⟨by omega, ?_⟩
    intro fuel hf
    cases fuel with
    | zero => omega
    | succ f =>
      unfold findChunkRangeLoop
      rw [if_pos hs, hb]
      exact ih f (by omega)

/-- A `seekTo` that calls `findChunkRange` returns the error `findChunkRange`
returns. -/
theorem seekTo_of_findChunkRange_error (t : SampleTable) (s0 : SampleIterator)
    (sampleIndex : Nat) (err : status_t) (s1 : SampleIterator)
    (hN : sampleIndex < t.mNumSampleSizes)
    (hoff : ¬ (t.mSampleToChunkOffset < 0 ∨ t.mChunkOffsetOffset < 0
      ∨ t.mSampleSizeOffset < 0 ∨ t.mTimeToSampleCount = 0))
    (hcur : ¬ (s0.mInitialized = true ∧ s0.mCurrentSampleIndex = sampleIndex))
    (hstop : sampleIndex ≥ (if s0.mInitialized = false ∨ sampleIndex < s0.mFirstChunkSampleIndex
      then s0.reset else s0).mStopChunkSampleIndex)
    (hfind : findChunkRange t (if s0.mInitialized = false
      ∨ sampleIndex < s0.mFirstChunkSampleIndex then s0.reset else s0) sampleIndex
        = some (err, s1))
    (herr : err ≠ status_t.OK) :
    seekTo t s0 sampleIndex = some (err, s1) := by
  unfold seekTo
  rw [if_neg (by omega), if_neg hoff, if_neg hcur]
  unfold seekToChunkRange
  simp only [if_pos hstop, hfind]

/-- C3: chunk-range accumulation in `findChunkRange` never wraps.  Let the
loop of the `findChunkRange` call made by `seekTo(sampleIndex)` consult, in
loop-head state `h`, the run `e` that is followed by the run `next`.  If
`e.samplesPerChunk > 0` and either `next.startChunk` is below `e.startChunk`,
or `(stopChunk - firstChunk) * samplesPerChunk` exceeds `2^32 - 1`, or that
product added to the accumulated first sample index `h.mStopChunkSampleIndex`
exceeds `2^32 - 1`, then the body, `findChunkRange` and `seekTo` all return
`ERROR_OUT_OF_RANGE`; if none of the three holds the body runs to its end; and
whenever the body runs to its end the `mStopChunkSampleIndex` it stored is the
exact natural number
`mFirstChunkSampleIndex + (mStopChunk - mFirstChunk) * mSamplesPerChunk`,
which is at most `2^32 - 1`. -/
theorem findChunkRange_accumulation_never_wraps (t : SampleTable) (s0 h : SampleIterator)
    (sampleIndex : Nat) (e next : SampleToChunkEntry)
    (hn : t.mNumSampleToChunkOffsets < 4294967296)
    (hty : h.mStopChunkSampleIndex < 4294967296)
    (hN : sampleIndex < t.mNumSampleSizes)
    (hoff : ¬ (t.mSampleToChunkOffset < 0 ∨ t.mChunkOffsetOffset < 0
      ∨ t.mSampleSizeOffset < 0 ∨ t.mTimeToSampleCount = 0))
    (hcur : ¬ (s0.mInitialized = true ∧ s0.mCurrentSampleIndex = sampleIndex))
    (hc : FindChunkRangeConsults t sampleIndex
      (if s0.mInitialized = false ∨ sampleIndex < s0.mFirstChunkSampleIndex
        then s0.reset else s0) h)
    (he : (t.mSampleToChunkEntries.getD [])[h.mSampleToChunkIndex]? = some e)
    (hnext : (t.mSampleToChunkEntries.getD [])[h.mSampleToChunkIndex + 1]? = some next) :
    (0 < u32 e.samplesPerChunk →
      (u32 next.startChunk < u32 e.startChunk
        ∨ 4294967295 < (u32 next.startChunk - u32 e.startChunk) * u32 e.samplesPerChunk
        ∨ 4294967295 < h.mStopChunkSampleIndex
            + (u32 next.startChunk - u32 e.startChunk) * u32 e.samplesPerChunk) →
      ∃ s1, findChunkRangeBody t h = some (some status_t.ERROR_OUT_OF_RANGE, s1) ∧
        findChunkRange t (if s0.mInitialized = false ∨ sampleIndex < s0.mFirstChunkSampleIndex
          then s0.reset else s0) sampleIndex = some (status_t.ERROR_OUT_OF_RANGE, s1) ∧
        seekTo t s0 sampleIndex = some (status_t.ERROR_OUT_OF_RANGE, s1)) ∧
    (0 < u32 e.samplesPerChunk →
      ¬ (u32 next.startChunk < u32 e.startChunk
        ∨ 4294967295 < (u32 next.startChunk - u32 e.startChunk) * u32 e.samplesPerChunk
        ∨ 4294967295 < h.mStopChunkSampleIndex
            + (u32 next.startChunk - u32 e.startChunk) * u32 e.samplesPerChunk) →
      ∃ s1, findChunkRangeBody t h = some (none, s1)) ∧
    (∀ s1, findChunkRangeBody t h = some (none, s1) →
      s1.mFirstChunkSampleIndex = h.mStopChunkSampleIndex ∧
      s1.mFirstChunk = u32 e.startChunk ∧ s1.mStopChunk = u32 next.startChunk ∧
      s1.mSamplesPerChunk = u32 e.samplesPerChunk ∧
      s1.mFirstChunk ≤ s1.mStopChunk ∧
      s1.mStopChunkSampleIndex
        = s1.mFirstChunkSampleIndex + (s1.mStopChunk - s1.mFirstChunk) * s1.mSamplesPerChunk ∧
      s1.mStopChunkSampleIndex ≤ 4294967295) := by
  obtain ⟨_, hbad, hgood, hstore⟩ := findChunkRangeBody_nonfinal t h e next he hnext hn hty
  refine ⟨?_, hgood, ?_⟩
  · intro hpos hb
    obtain ⟨s1, hs1⟩ := hbad hpos hb
    refine ⟨s1, hs1, ?_⟩
    obtain ⟨hle, hloop⟩ := findChunkRangeLoop_of_consults t sampleIndex hn _ h hc _ s1 hs1
    have hlen : h.mSampleToChunkIndex + 1 < t.mNumSampleToChunkOffsets := by
      obtain ⟨hl, _⟩ := List.getElem?_eq_some.mp hnext
      unfold SampleTable.mNumSampleToChunkOffsets
      cases hE : t.mSampleToChunkEntries with
      | none => simp [hE] at hl
      | some es => simpa [hE] using hl
    have hsome : ¬ t.mSampleToChunkEntries = none := by
      intro hE
      simp [hE] at he
    have hstop : sampleIndex ≥ (if s0.mInitialized = false
        ∨ sampleIndex < s0.mFirstChunkSampleIndex then s0.reset else s0).mStopChunkSampleIndex := by
      cases hc with
      | head _ hs => exact hs
      | step _ _ _ hs _ _ => exact hs
    have hfirst : sampleIndex ≥ (if s0.mInitialized = false
        ∨ sampleIndex < s0.mFirstChunkSampleIndex then s0.reset else s0).mFirstChunkSampleIndex := by
      by_cases hr : s0.mInitialized = false ∨ sampleIndex < s0.mFirstChunkSampleIndex
      · rw [if_pos hr]
        exact Nat.zero_le _
      · rw [if_neg hr]
        omega
    have hfind : findChunkRange t (if s0.mInitialized = false
        ∨ sampleIndex < s0.mFirstChunkSampleIndex then s0.reset else s0) sampleIndex
          = some (status_t.ERROR_OUT_OF_RANGE, s1) := by
      unfold findChunkRange
      rw [if_neg (by omega), if_neg hsome]
      exact hloop _ (by omega)
    exact ⟨hfind, seekTo_of_findChunkRange_error t s0 sampleIndex _ s1 hN hoff hcur hstop hfind
      (by decide)⟩
  · intro s1 hs1
    obtain ⟨hle, h1, h2, h3, h4, _, h6, h7⟩ := hstore s1 hs1
    refine ⟨h4, h1, h2, h3, by omega, ?_, by omega⟩
    rw [h6, h4, h1, h2, h3]

/-- C3, an instance: in `overflowTable` the first run spans `65536` chunks of
`65536` samples, a product of `2^32`; the first `seekTo` of a new cursor
consults it and returns `ERROR_OUT_OF_RANGE`. -/
theorem findChunkRange_accumulation_never_wraps_witness :
    ∃ s1, findChunkRangeBody overflowTable SampleIterator.zero.reset
        = some (some status_t.ERROR_OUT_OF_RANGE, s1) ∧
      findChunkRange overflowTable (if SampleIterator.zero.mInitialized = false
          ∨ 0 < SampleIterator.zero.mFirstChunkSampleIndex
          then SampleIterator.zero.reset else SampleIterator.zero) 0
        = some (status_t.ERROR_OUT_OF_RANGE, s1) ∧
      seekTo overflowTable SampleIterator.zero 0 = some (status_t.ERROR_OUT_OF_RANGE, s1) :=
  (findChunkRange_accumulation_never_wraps overflowTable SampleIterator.zero
    SampleIterator.zero.reset 0 ⟨0, 65536, 0⟩ ⟨65536, 1, 0⟩ (by decide) (by decide) (by decide)
    (by decide) (by decide) (FindChunkRangeConsults.head _ (by decide)) rfl rfl).1
    (by decide) (by decide)

/-! ### Decoding of 4-bit sample sizes -/

theorem byteAt_isSome (buf : List Nat) (i : Nat) (h : i < buf.length) :
    ∃ b, byteAt buf i = some b := by
  unfold byteAt
  rw [List.getElem?_eq_getElem h]
  exact ⟨_, rfl⟩

theorem timeToSamplePairs_length : ∀ (l : List Nat),
    (timeToSamplePairs l).length = l.length / 2
  | [] => rfl
  | [_] => by simp [timeToSamplePairs]
  | c :: d :: rest => by
    have ih := timeToSamplePairs_length rest
    simp only [timeToSamplePairs, List.length_cons, ih]
    omega

theorem timeToSamplePairs_get : ∀ (l : List Nat) (k : Nat), k < l.length / 2 →
    ∃ c d, l[2 * k]? = some c ∧ l[2 * k + 1]? = some d ∧
      (timeToSamplePairs l)[k]? = some (u32 c, u32 d)
  | [], k, h => by simp at h
  | [_], k, h => by
    simp only [List.length_cons, List.length_nil] at h
    omega
  | c :: d :: rest, 0, _ => ⟨c, d, rfl, by simp, by simp [timeToSamplePairs]⟩
  | c :: d :: rest, k + 1, h => by
    have hk : k < rest.length / 2 := by
      simp only [List.length_cons] at h
      omega
    obtain ⟨c1, d1, h1, h2, h3⟩ := timeToSamplePairs_get rest k hk
    refine ⟨c1, d1, ?_, ?_, ?_⟩
    · rw [show 2 * (k + 1) = 2 * k + 1 + 1 by ring]
      simpa using h1
    · rw [show 2 * (k + 1) + 1 = (2 * k + 1) + 1 + 1 by ring]
      simpa using h2
    · simpa [timeToSamplePairs] using h3

theorem cumCount_succ (runs : List (Nat × Nat)) (k c d : Nat)
    (h : runs[k]? = some (c, d)) :
    cumCount runs (k + 1) = cumCount runs k + c ∧
    cumTime runs (k + 1) = cumTime runs k + c * d := by
  unfold cumCount cumTime
  rw [List.take_succ, h]
  simp

theorem cumCount_mono (runs : List (Nat × Nat)) (k : Nat) :
    cumCount runs k ≤ cumCount runs runs.length := by
  unfold cumCount
  rw [List.take_length]
  conv_rhs => rw [← List.take_append_drop k runs]
  rw [List.map_append, List.sum_append]
  exact Nat.le_add_right _ _

theorem runDurations_length (runs : List (Nat × Nat)) :
    (runDurations runs).length = cumCount runs runs.length := by
  induction runs with
  | nil => rfl
  | cons p ps ih =>
    obtain ⟨c, d⟩ := p
    simp only [runDurations, List.length_append, List.length_replicate, ih, cumCount,
      List.take_length, List.map_cons, List.sum_cons]

/-- A sample that falls into run `k` has the duration of that run, and the
durations of the samples before it add up to the time at which the run starts
plus the duration of the run for every earlier sample of the run. -/
theorem runDurations_at : ∀ (runs : List (Nat × Nat)) (k c d i : Nat),
    runs[k]? = some (c, d) → cumCount runs k ≤ i → i < cumCount runs k + c →
    (runDurations runs)[i]? = some d ∧
    ((runDurations runs).take i).sum = cumTime runs k + d * (i - cumCount runs k)
  | [], k, c, d, i, h, _, _ => by simp at h
  | (c0, d0) :: ps, 0, c, d, i, h, h1, h2 => by
    simp only [List.getElem?_cons_zero, Option.some.injEq, Prod.mk.injEq] at h
    obtain ⟨rfl, rfl⟩ := h
    have hc : cumCount ((c0, d0) :: ps) 0 = 0 := rfl
    have ht : cumTime ((c0, d0) :: ps) 0 = 0 := rfl
    rw [hc] at h1 h2
    rw [hc, ht]
    simp only [runDurations]
    constructor
    · rw [List.getElem?_append_left (by simpa using (by omega : i < c0))]
      exact List.getElem?_replicate_of_lt (by omega)
    · rw [List.take_append_of_le_length (by simp; omega)]
      simp [List.take_replicate, Nat.min_eq_left (by omega : i ≤ c0)]
      ring
  | (c0, d0) :: ps, k + 1, c, d, i, h, h1, h2 => by
    have hc : cumCount ((c0, d0) :: ps) (k + 1) = c0 + cumCount ps k := by
      simp [cumCount]
    have ht : cumTime ((c0, d0) :: ps) (k + 1) = c0 * d0 + cumTime ps k := by
      simp [cumTime]
    rw [hc] at h1 h2
    have h' : ps[k]? = some (c, d) := by simpa using h
    obtain ⟨ih1, ih2⟩ := runDurations_at ps k c d (i - c0) h' (by omega) (by omega)
    rw [hc, ht]
    simp only [runDurations]
    constructor
    · rw [List.getElem?_append_right (by simp; omega)]
      simpa using ih1
    · rw [List.take_append_eq_append_take]
      simp only [List.length_replicate, List.sum_append]
      rw [List.take_of_length_le (by simp; omega), ih2]
      simp
      have : i - (c0 + cumCount ps k) = i - c0 - cumCount ps k := by omega
      rw [this]
      ring

theorem u32_add_u32 (a b : Nat) : u32 (u32 a + u32 b) = u32 (a + b) := by
  unfold u32; omega

theorem u32_add_u32_right (a b : Nat) : u32 (a + u32 b) = u32 (a + b) := by
  unfold u32; omega

theorem u32_add_u32_left (a b : Nat) : u32 (u32 a + b) = u32 (a + b) := by
  unfold u32; omega

theorem u32_zero : u32 0 = 0 := rfl

theorem setTimeCursor_self (s : SampleIterator) (k idx time c d : Nat)
    (h1 : s.mTimeToSampleIndex = k) (h2 : s.mTTSSampleIndex = idx)
    (h3 : s.mTTSSampleTime = time) (h4 : s.mTTSCount = c) (h5 : s.mTTSDuration = d) :
    s.setTimeCursor k idx time c d = s := by
  subst h1 h2 h3 h4 h5
  rfl

/-- The loop of `findSampleTimeAndDuration`, started with a cursor that agrees
with the table and does not lie beyond `sampleIndex`, ends on the run that
contains `sampleIndex`. -/
theorem findSampleTimeAndDurationLoop_ok (t : SampleTable) (sampleIndex : Nat)
    (hn : t.mTimeToSampleCount < 4294967296)
    (hN : cumCount (timeToSamplePairs t.mTimeToSample)
      (timeToSamplePairs t.mTimeToSample).length < 4294967296)
    (hi : sampleIndex < cumCount (timeToSamplePairs t.mTimeToSample)
      (timeToSamplePairs t.mTimeToSample).length) :
    ∀ (fuel : Nat) (s : SampleIterator), TimeCursorOk t s → s.mTTSSampleIndex ≤ sampleIndex →
      t.mTimeToSampleCount + 1 ≤ fuel + s.mTimeToSampleIndex →
      ∃ k c d, (timeToSamplePairs t.mTimeToSample)[k]? = some (c, d) ∧
        cumCount (timeToSamplePairs t.mTimeToSample) k ≤ sampleIndex ∧
        sampleIndex < cumCount (timeToSamplePairs t.mTimeToSample) k + c ∧
        findSampleTimeAndDurationLoop t sampleIndex fuel s
          = some (status_t.OK, s.setTimeCursor (k + 1)
              (cumCount (timeToSamplePairs t.mTimeToSample) k)
              (u32 (cumTime (timeToSamplePairs t.mTimeToSample) k)) c d) := by
  have hlen : (timeToSamplePairs t.mTimeToSample).length = t.mTimeToSampleCount :=
    timeToSamplePairs_length _
  intro fuel
  induction fuel with
  | zero =>
    intro s hok _ hf
    rcases hok with ⟨h0, _⟩ | ⟨k, hk, hp, _⟩
    · omega
    · have := (List.getElem?_eq_some.mp hp).1
      omega
  | succ fuel ih =>
    intro s hok hidx hf
    rcases hok with ⟨h0, h1, h2, h3, h4⟩ | ⟨k, hk, hp, hsi, hst⟩
    · -- the cursor stands at the origin
      have hpos : 0 < t.mTimeToSampleCount := by
        rcases Nat.eq_zero_or_pos t.mTimeToSampleCount with hz | hz
        · rw [hlen, hz] at hi
          simp [cumCount] at hi
        · exact hz
      obtain ⟨c, d, hc, hd, hp⟩ := timeToSamplePairs_get t.mTimeToSample 0 hpos
      have hcond : sampleIndex ≥ u32 (s.mTTSSampleIndex + s.mTTSCount) := by
        rw [h1, h3]; exact Nat.zero_le _
      obtain ⟨k, c1, d1, hp1, hlo, hhi, hloop⟩ := ih
        { s with
          mTTSSampleIndex := u32 (s.mTTSSampleIndex + s.mTTSCount)
          mTTSSampleTime := u32 (s.mTTSSampleTime + u32 (s.mTTSCount * s.mTTSDuration))
          mTTSCount := u32 c
          mTTSDuration := u32 d
          mTimeToSampleIndex := u32 (s.mTimeToSampleIndex + 1) }
        (Or.inr ⟨0, by simp [h0, u32], hp, by simp [h1, h3, u32, cumCount],
          by simp [h2, h3, u32, cumTime]⟩)
        (by simp [h1, h3, u32])
        (by simp only [h0]; rw [u32_of_lt (by omega)]; omega)
      refine ⟨k, c1, d1, hp1, hlo, hhi, ?_⟩
      unfold findSampleTimeAndDurationLoop
      rw [if_pos hcond, if_neg (by omega)]
      simp only [h0, Nat.mul_zero, Nat.zero_add, hc, hd]
      simp only [h0, Nat.mul_zero, Nat.zero_add] at hloop
      rw [hloop]
      rfl
    · -- the cursor stands on run `k`
      obtain ⟨c, d, hc, hd⟩ : ∃ c d, s.mTTSCount = c ∧ s.mTTSDuration = d := ⟨_, _, rfl, rfl⟩
      rw [hc, hd] at hp
      have hklt : k < (timeToSamplePairs t.mTimeToSample).length :=
        (List.getElem?_eq_some.mp hp).1
      obtain ⟨hcc, hct⟩ := cumCount_succ _ k c d hp
      have hmono := cumCount_mono (timeToSamplePairs t.mTimeToSample) (k + 1)
      have hsum : u32 (s.mTTSSampleIndex + s.mTTSCount)
          = cumCount (timeToSamplePairs t.mTimeToSample) (k + 1) := by
        rw [hsi, hc, hcc]
        exact u32_of_lt (by omega)
      by_cases hcond : sampleIndex ≥ u32 (s.mTTSSampleIndex + s.mTTSCount)
      · have hne : ¬ s.mTimeToSampleIndex = t.mTimeToSampleCount := by
          intro he
          rw [hsum, show k + 1 = (timeToSamplePairs t.mTimeToSample).length by omega] at hcond
          omega
        have hk1 : k + 1 < t.mTimeToSample.length / 2 := by
          have : t.mTimeToSampleCount = t.mTimeToSample.length / 2 := rfl
          omega
        obtain ⟨c2, d2, hc2, hd2, hp2⟩ := timeToSamplePairs_get t.mTimeToSample (k + 1) hk1
        obtain ⟨k3, c3, d3, hp3, hlo, hhi, hloop⟩ := ih
          { s with
            mTTSSampleIndex := u32 (s.mTTSSampleIndex + s.mTTSCount)
            mTTSSampleTime := u32 (s.mTTSSampleTime + u32 (s.mTTSCount * s.mTTSDuration))
            mTTSCount := u32 c2
            mTTSDuration := u32 d2
            mTimeToSampleIndex := u32 (s.mTimeToSampleIndex + 1) }
          (Or.inr ⟨k + 1, by
              show u32 (s.mTimeToSampleIndex + 1) = k + 1 + 1
              rw [hk]
              exact u32_of_lt (by
                have : t.mTimeToSampleCount = t.mTimeToSample.length / 2 := rfl
                omega),
            hp2, hsum, by
              show u32 (s.mTTSSampleTime + u32 (s.mTTSCount * s.mTTSDuration)) = _
              rw [hst, hc, hd, u32_add_u32, hct]⟩)
          (by show u32 (s.mTTSSampleIndex + s.mTTSCount) ≤ sampleIndex; omega)
          (by
            show t.mTimeToSampleCount + 1 ≤ fuel + u32 (s.mTimeToSampleIndex + 1)
            rw [hk, u32_of_lt (by
              have : t.mTimeToSampleCount = t.mTimeToSample.length / 2 := rfl
              omega)]
            omega)
        refine ⟨k3, c3, d3, hp3, hlo, hhi, ?_⟩
        unfold findSampleTimeAndDurationLoop
        rw [if_pos hcond, if_neg hne]
        simp only [hk, hc2, hd2]
        simp only [hk] at hloop
        rw [hloop]
        rfl
      · refine ⟨k, c, d, hp, by omega, by omega, ?_⟩
        unfold findSampleTimeAndDurationLoop
        rw [if_neg hcond]
        rw [setTimeCursor_self s _ _ _ _ _ hk hsi hst hc hd]

/-! ### What each function leaves untouched -/

theorem findChunkRangeBody_frame (t : SampleTable) (s s1 : SampleIterator)
    (r : Option status_t) (h : findChunkRangeBody t s = some (r, s1)) :
    s1.timeCursor = s.timeCursor ∧ s1.resolved = s.resolved ∧
    s1.chunkState = s.chunkState ∧ s1.sizeCache = s.sizeCache := by
  unfold findChunkRangeBody at h
  simp only at h
  split at h <;> (try split at h) <;> (try split at h) <;> (try split at h) <;>
    (try split at h) <;> (try split at h) <;> (try split at h) <;> (try split at h) <;>
    first
    | (cases h; exact ⟨rfl, rfl, rfl, rfl⟩)
    | (cases h)

theorem findChunkRangeLoop_frame (t : SampleTable) (sampleIndex : Nat) :
    ∀ (fuel : Nat) (s s1 : SampleIterator) (r : status_t),
      findChunkRangeLoop t sampleIndex fuel s = some (r, s1) →
      s1.timeCursor = s.timeCursor ∧ s1.resolved = s.resolved ∧
      s1.chunkState = s.chunkState ∧ s1.sizeCache = s.sizeCache := by
  intro fuel
  induction fuel with
  | zero =>
    intro s s1 r h
    simp [findChunkRangeLoop] at h
  | succ fuel ih =>
    intro s s1 r h
    unfold findChunkRangeLoop at h
    split at h
    · cases hb : findChunkRangeBody t s with
      | none => simp [hb] at h
      | some p =>
        obtain ⟨o, s2⟩ := p
        obtain ⟨f1, f2, f3, f4⟩ := findChunkRangeBody_frame t s s2 o hb
        cases o with
        | none =>
          simp only [hb] at h
          obtain ⟨g1, g2, g3, g4⟩ := ih s2 s1 r h
          exact ⟨g1.trans f1, g2.trans f2, g3.trans f3, g4.trans f4⟩
        | some e =>
          simp only [hb] at h
          cases h
          exact ⟨f1, f2, f3, f4⟩
    · cases h; exact ⟨rfl, rfl, rfl, rfl⟩

theorem findChunkRange_frame (t : SampleTable) (s s1 : SampleIterator) (sampleIndex : Nat)
    (r : status_t) (h : findChunkRange t s sampleIndex = some (r, s1)) :
    s1.timeCursor = s.timeCursor ∧ s1.resolved = s.resolved ∧
    s1.chunkState = s.chunkState ∧ s1.sizeCache = s.sizeCache := by
  unfold findChunkRange at h
  split at h
  · cases h
  · split at h
    · cases h; exact ⟨rfl, rfl, rfl, rfl⟩
    · exact findChunkRangeLoop_frame t sampleIndex _ s s1 r h

theorem seekToChunkRange_frame (t : SampleTable) (s s1 : SampleIterator) (sampleIndex : Nat)
    (r : status_t) (h : seekToChunkRange t s sampleIndex = some (r, s1)) :
    s1.timeCursor = s.timeCursor ∧ s1.resolved = s.resolved ∧
    s1.chunkState = s.chunkState := by
  unfold seekToChunkRange at h
  simp only at h
  split at h
  · split at h
    · obtain ⟨f1, f2, f3, _⟩ := findChunkRange_frame t _ s1 sampleIndex r h
      exact ⟨f1, f2, f3⟩
    · cases h
      exact ⟨rfl, rfl, rfl⟩
  · split at h
    · obtain ⟨f1, f2, f3, _⟩ := findChunkRange_frame t _ s1 sampleIndex r h
      exact ⟨f1, f2, f3⟩
    · cases h
      exact ⟨rfl, rfl, rfl⟩

theorem getSampleSizeDirect_frame (t : SampleTable) (s s1 : SampleIterator)
    (sampleIndex size : Nat) (r : status_t)
    (h : getSampleSizeDirect t s sampleIndex = some (r, size, s1)) :
    s1.timeCursor = s.timeCursor ∧ s1.resolved = s.resolved ∧
    s1.chunkState = s.chunkState ∧ s1.chunkRange = s.chunkRange := by
  unfold getSampleSizeDirect at h
  simp only at h
  by_cases hw : readNewSampleCache t s sampleIndex = true
  · simp only [hw, if_true] at h
    split at h <;> (try split at h) <;> (try split at h) <;> (try split at h) <;>
      (try split at h) <;>
      first
      | (cases h; exact ⟨rfl, rfl, rfl, rfl⟩)
      | (simp only [Option.map_eq_some'] at h
         obtain ⟨v, _, hv⟩ := h
         cases hv
         exact ⟨rfl, rfl, rfl, rfl⟩)
  · rw [Bool.not_eq_true] at hw
    simp only [hw, Bool.false_eq_true, if_false] at h
    split at h <;> (try split at h) <;> (try split at h) <;> (try split at h) <;>
      (try split at h) <;>
      first
      | (cases h; exact ⟨rfl, rfl, rfl, rfl⟩)
      | (simp only [Option.map_eq_some'] at h
         obtain ⟨v, _, hv⟩ := h
         cases hv
         exact ⟨rfl, rfl, rfl, rfl⟩)

theorem loadChunkSampleSizes_frame (t : SampleTable) (first : Nat) :
    ∀ (remaining i : Nat) (s s1 : SampleIterator) (r : status_t),
      loadChunkSampleSizes t first remaining i s = some (r, s1) →
      s1.timeCursor = s.timeCursor ∧ s1.resolved = s.resolved ∧
      s1.chunkRange = s.chunkRange ∧ s1.mCurrentChunkIndex = s.mCurrentChunkIndex ∧
      s1.mCurrentChunkOffset = s.mCurrentChunkOffset := by
  intro remaining
  induction remaining with
  | zero =>
    intro i s s1 r h
    simp only [loadChunkSampleSizes] at h
    cases h
    exact ⟨rfl, rfl, rfl, rfl, rfl⟩
  | succ n ih =>
    intro i s s1 r h
    unfold loadChunkSampleSizes at h
    cases hg : getSampleSizeDirect t s (u32 (first + i)) with
    | none => simp [hg] at h
    | some p =>
      obtain ⟨e, size, s2⟩ := p
      obtain ⟨f1, f2, f3, f4⟩ := getSampleSizeDirect_frame t s s2 _ size e hg
      have f5 : s2.mCurrentChunkIndex = s.mCurrentChunkIndex := congrArg (fun p => p.1) f3
      have f6 : s2.mCurrentChunkOffset = s.mCurrentChunkOffset := congrArg (fun p => p.2.1) f3
      cases e with
      | OK =>
        simp only [hg] at h
        obtain ⟨g1, g2, g3, g4, g5⟩ := ih _ _ _ _ h
        exact ⟨g1.trans f1, g2.trans f2, g3.trans f4, g4.trans f5, g5.trans f6⟩
      | ERROR_END_OF_STREAM => simp only [hg] at h; cases h; exact ⟨f1, f2, f4, f5, f6⟩
      | ERROR_MALFORMED => simp only [hg] at h; cases h; exact ⟨f1, f2, f4, f5, f6⟩
      | ERROR_OUT_OF_RANGE => simp only [hg] at h; cases h; exact ⟨f1, f2, f4, f5, f6⟩
      | ERROR_IO => simp only [hg] at h; cases h; exact ⟨f1, f2, f4, f5, f6⟩

theorem seekToChunk_frame (t : SampleTable) (s s1 : SampleIterator) (chunk : Nat)
    (r : status_t) (h : seekToChunk t s chunk = some (r, s1)) :
    s1.timeCursor = s.timeCursor ∧ s1.resolved = s.resolved ∧
    s1.chunkRange = s.chunkRange := by
  unfold seekToChunk at h
  split at h
  · cases hg : getChunkOffset t chunk with
    | none => simp [hg] at h
    | some p =>
      obtain ⟨e, off⟩ := p
      cases e with
      | OK =>
        simp only [hg] at h
        obtain ⟨g1, g2, g3, _, _⟩ := loadChunkSampleSizes_frame t _ _ _ _ _ _ h
        exact ⟨g1, g2, g3⟩
      | ERROR_END_OF_STREAM => simp only [hg] at h; cases h; exact ⟨rfl, rfl, rfl⟩
      | ERROR_MALFORMED => simp only [hg] at h; cases h; exact ⟨rfl, rfl, rfl⟩
      | ERROR_OUT_OF_RANGE => simp only [hg] at h; cases h; exact ⟨rfl, rfl, rfl⟩
      | ERROR_IO => simp only [hg] at h; cases h; exact ⟨rfl, rfl, rfl⟩
  · cases h; exact ⟨rfl, rfl, rfl⟩

/-- `findSampleTimeAndDuration` on a cursor that agrees with the table and does
not lie beyond `sampleIndex`: it returns `OK`, stores the duration of the run
that contains `sampleIndex` and the time of the sample, and leaves a cursor
that agrees with the table. -/
theorem findSampleTimeAndDuration_ok (t : SampleTable) (s : SampleIterator) (sampleIndex : Nat)
    (hn : t.mTimeToSampleCount < 4294967296)
    (hN : t.mNumSampleSizes < 4294967296)
    (hsum : t.sampleDurations.length = t.mNumSampleSizes)
    (hi : sampleIndex < t.mNumSampleSizes)
    (hok : TimeCursorOk t s) (hidx : s.mTTSSampleIndex ≤ sampleIndex) :
    ∃ s1, findSampleTimeAndDuration t s sampleIndex = some (status_t.OK, s1) ∧
      TimeCursorOk t s1 ∧
      t.sampleDurations[sampleIndex]? = some s1.mCurrentSampleDuration ∧
      s1.mCurrentSampleTime
        = u32 ((t.sampleDurations.take sampleIndex).sum
            + t.getCompositionTimeOffset sampleIndex) ∧
      s1.mInitialized = s.mInitialized ∧ s1.mCurrentSampleIndex = s.mCurrentSampleIndex := by
  have hlenE : t.sampleDurations.length
      = cumCount (timeToSamplePairs t.mTimeToSample) (timeToSamplePairs t.mTimeToSample).length :=
    runDurations_length _
  obtain ⟨k, c, d, hp, hlo, hhi, hloop⟩ := findSampleTimeAndDurationLoop_ok t sampleIndex hn
    (by omega) (by omega) (t.mTimeToSampleCount + 2 - s.mTimeToSampleIndex) s hok hidx (by omega)
  obtain ⟨hd, ht⟩ := runDurations_at _ k c d sampleIndex hp hlo hhi
  refine ⟨{ s.setTimeCursor (k + 1) (cumCount (timeToSamplePairs t.mTimeToSample) k)
        (u32 (cumTime (timeToSamplePairs t.mTimeToSample) k)) c d with
      mCurrentSampleTime :=
        u32 (u32 (u32 (cumTime (timeToSamplePairs t.mTimeToSample) k)
          + u32 (d * sub32 sampleIndex (cumCount (timeToSamplePairs t.mTimeToSample) k)))
          + t.getCompositionTimeOffset sampleIndex)
      mCurrentSampleDuration := d }, ?_, ?_, ?_, ?_, ?_, ?_⟩
  · unfold findSampleTimeAndDuration
    rw [if_neg (by omega), hloop]
    rfl
  · exact Or.inr ⟨k, rfl, hp, rfl, rfl⟩
  · exact hd
  · show u32 (u32 (u32 (cumTime _ k) + u32 (d * sub32 sampleIndex (cumCount _ k)))
        + t.getCompositionTimeOffset sampleIndex) = _
    have hty : sampleIndex < 4294967296 := by omega
    rw [sub32_of_le hty hlo, u32_add_u32, u32_add_u32_left]
    unfold SampleTable.sampleDurations
    rw [ht]
  · rfl
  · rfl

/-- The last part of a successful `seekTo` leaves a cursor of which the claim
about sample times holds. -/
theorem seekToSample_time (t : SampleTable) (s s1 : SampleIterator) (sampleIndex : Nat)
    (hn : t.mTimeToSampleCount < 4294967296)
    (hN : t.mNumSampleSizes < 4294967296)
    (hsum : t.sampleDurations.length = t.mNumSampleSizes)
    (hi : sampleIndex < t.mNumSampleSizes)
    (hok : TimeCursorOk t s)
    (h : seekToSample t s sampleIndex = some (status_t.OK, s1)) :
    TimeResolved t s1 ∧ s1.mInitialized = true ∧ s1.mCurrentSampleIndex = sampleIndex := by
  unfold seekToSample at h
  simp only at h
  split at h
  · rename_i offset size _ _
    have hok7 : TimeCursorOk t
        (if sampleIndex < s.mTTSSampleIndex then
          { s with mCurrentSampleOffset := offset, mCurrentSampleSize := size,
                   mTimeToSampleIndex := 0, mTTSSampleIndex := 0, mTTSSampleTime := 0,
                   mTTSCount := 0, mTTSDuration := 0 }
         else { s with mCurrentSampleOffset := offset, mCurrentSampleSize := size }) ∧
        (if sampleIndex < s.mTTSSampleIndex then
          { s with mCurrentSampleOffset := offset, mCurrentSampleSize := size,
                   mTimeToSampleIndex := 0, mTTSSampleIndex := 0, mTTSSampleTime := 0,
                   mTTSCount := 0, mTTSDuration := 0 }
         else { s with mCurrentSampleOffset := offset, mCurrentSampleSize := size }
          ).mTTSSampleIndex ≤ sampleIndex := by
      split
      · exact ⟨Or.inl ⟨rfl, rfl, rfl, rfl, rfl⟩, Nat.zero_le _⟩
      · exact ⟨hok, by simpa using (by omega : s.mTTSSampleIndex ≤ sampleIndex)⟩
    obtain ⟨s8, h8, hok8, hd8, ht8, _, _⟩ :=
      findSampleTimeAndDuration_ok t _ sampleIndex hn hN hsum hi hok7.1 hok7.2
    rw [h8] at h
    simp only [Option.some.injEq, Prod.mk.injEq, true_and] at h
    subst h
    exact ⟨⟨hok8, fun _ => ⟨hi, hd8, ht8⟩⟩, rfl, rfl⟩
  · cases h

/-- Every successful `seekTo` preserves the claim about sample times. -/
theorem seekTo_timeResolved (t : SampleTable) (s s1 : SampleIterator) (sampleIndex : Nat)
    (hn : t.mTimeToSampleCount < 4294967296)
    (hN : t.mNumSampleSizes < 4294967296)
    (hsum : t.sampleDurations.length = t.mNumSampleSizes)
    (hinv : TimeResolved t s)
    (h : seekTo t s sampleIndex = some (status_t.OK, s1)) :
    TimeResolved t s1 ∧ s1.mInitialized = true ∧ s1.mCurrentSampleIndex = sampleIndex := by
  unfold seekTo at h
  split at h
  · cases h
  · rename_i hi
    split at h
    · cases h
    · split at h
      · rename_i hcur
        cases h
        exact ⟨hinv, hcur.1, hcur.2⟩
      · cases hr : seekToChunkRange t s sampleIndex with
        | none => simp [hr] at h
        | some p =>
          obtain ⟨e, s2⟩ := p
          obtain ⟨f1, _, _⟩ := seekToChunkRange_frame t s s2 sampleIndex e hr
          cases e with
          | OK =>
            simp only [hr] at h
            split at h
            · cases h
            · split at h
              · cases h
              · cases hc : seekToChunk t s2 (u32 (sub32 sampleIndex s2.mFirstChunkSampleIndex
                    / s2.mSamplesPerChunk + s2.mFirstChunk)) with
                | none => simp [hc] at h
                | some q =>
                  obtain ⟨e5, s5⟩ := q
                  obtain ⟨g1, _, _⟩ := seekToChunk_frame t s2 s5 _ e5 hc
                  cases e5 with
                  | OK =>
                    simp only [hc] at h
                    have hok5 : TimeCursorOk t s5 := by
                      have hok := hinv.1
                      have e := g1.trans f1
                      unfold SampleIterator.timeCursor at e
                      simp only [Prod.mk.injEq] at e
                      obtain ⟨e1, e2, e3, e4, e5⟩ := e
                      unfold TimeCursorOk at hok ⊢
                      rw [e1, e2, e3, e4, e5]
                      exact hok
                    exact seekToSample_time t s5 s1 sampleIndex hn hN hsum (by omega) hok5 h
                  | ERROR_END_OF_STREAM => simp [hc] at h
                  | ERROR_MALFORMED => simp [hc] at h
                  | ERROR_OUT_OF_RANGE => simp [hc] at h
                  | ERROR_IO => simp [hc] at h
          | ERROR_END_OF_STREAM => simp [hr] at h
          | ERROR_MALFORMED => simp [hr] at h
          | ERROR_OUT_OF_RANGE => simp [hr] at h
          | ERROR_IO => simp [hr] at h

/-- The claim about sample times holds of every cursor reached by successful
seeks. -/
theorem reachedBySeeks_timeResolved (t : SampleTable) (s : SampleIterator)
    (hn : t.mTimeToSampleCount < 4294967296)
    (hN : t.mNumSampleSizes < 4294967296)
    (hsum : t.sampleDurations.length = t.mNumSampleSizes)
    (hs : ReachedBySeeks t s) : TimeResolved t s := by
  induction hs with
  | fresh junk =>
    exact ⟨Or.inl ⟨rfl, rfl, rfl, rfl, rfl⟩, fun h => by simp [SampleIterator.create,
      SampleIterator.reset] at h⟩
  | seek s s1 i _ hseek ih =>
    exact (seekTo_timeResolved t s s1 i hn hN hsum ih hseek).1

/-- C5: sample time is the cumulative run duration plus the composition
offset.  Let the run counts of the time-to-sample table add up to the sample
count `N` (the list `sampleDurations` of per-sample durations the runs stand
for has `N` entries).  For every cursor reached by successful seeks and every
`seekTo(i)` that returns `OK`, `mCurrentSampleDuration` is the duration of
the run that contains sample `i`, and `mCurrentSampleTime` is the sum of the
durations of all samples before `i` plus `getCompositionTimeOffset(i)`,
reduced modulo `2^32`.  Forward seeks, backward seeks and runs of count 0 are
all covered: the statement does not depend on where the cursor stood. -/
theorem seekTo_sample_time (t : SampleTable) (s s1 : SampleIterator) (i : Nat)
    (hn : t.mTimeToSampleCount < 4294967296)
    (hN : t.mNumSampleSizes < 4294967296)
    (hsum : t.sampleDurations.length = t.mNumSampleSizes)
    (hs : ReachedBySeeks t s)
    (h : seekTo t s i = some (status_t.OK, s1)) :
    i < t.mNumSampleSizes ∧
    t.sampleDurations[i]? = some s1.mCurrentSampleDuration ∧
    s1.mCurrentSampleTime
      = (((t.sampleDurations.take i).sum + t.getCompositionTimeOffset i) % 4294967296) := by
  obtain ⟨⟨_, hres⟩, hinit, hcur⟩ := seekTo_timeResolved t s s1 i hn hN hsum
    (reachedBySeeks_timeResolved t s hn hN hsum hs) h
  obtain ⟨h1, h2, h3⟩ := hres hinit
  rw [hcur] at h1 h2 h3
  exact ⟨h1, h2, h3⟩

/-- C5, an instance: over `timeTable` (durations 10, 10, 5, 5 with a run of
count 0 in between) the backward seek from sample 3 to sample 1 leaves
duration 10 and time `10 + 2 = 12`. -/
theorem seekTo_sample_time_witness :
    timeCursor31.mCurrentSampleDuration = 10 ∧ timeCursor31.mCurrentSampleTime = 12 := by
  have h := seekTo_sample_time timeTable timeCursor3 timeCursor31 1 (by decide) (by decide)
    (by decide)
    (ReachedBySeeks.seek _ _ 3 (ReachedBySeeks.fresh SampleIterator.zero) (by decide))
    (by decide)
  obtain ⟨_, h2, h3⟩ := h
  have e : timeTable.sampleDurations = [10, 10, 5, 5] := by decide
  rw [e] at h2 h3
  constructor
  · exact (Option.some.inj h2).symm
  · rw [h3]
    decide

/-! ### Dependence of the decoded size on the order of seeks -/

/-- C1, evaluated at a failing input: over `fourBitTable` (4-bit sizes packed
in the bytes `0xAB`, `0xCD`, one sample per chunk) the seeks `0, 1` on a new
cursor end with size `0xB` for sample 1, the seek `1` alone on a new cursor
ends with size `0xA`; offset, time and duration agree. -/
theorem seekTo_order_dependent_four_bit :
    (seekAll fourBitTable (SampleIterator.create SampleIterator.zero) [0, 1]).map
        (fun s => (s.mCurrentSampleOffset, s.mCurrentSampleSize, s.mCurrentSampleTime,
          s.mCurrentSampleDuration)) = some (200, 0xB, 10, 10) ∧
    (seekAll fourBitTable (SampleIterator.create SampleIterator.zero) [1]).map
        (fun s => (s.mCurrentSampleOffset, s.mCurrentSampleSize, s.mCurrentSampleTime,
          s.mCurrentSampleDuration)) = some (200, 0xA, 10, 10) := by
  decide

/-! ### Failed seeks -/

theorem findSampleTimeAndDurationLoop_frame (t : SampleTable) (sampleIndex : Nat) :
    ∀ (fuel : Nat) (s s1 : SampleIterator) (r : status_t),
      findSampleTimeAndDurationLoop t sampleIndex fuel s = some (r, s1) →
      s1.resolved = s.resolved ∧ s1.chunkState = s.chunkState ∧
      s1.chunkRange = s.chunkRange ∧ s1.sizeCache = s.sizeCache := by
  intro fuel
  induction fuel with
  | zero =>
    intro s s1 r h
    simp [findSampleTimeAndDurationLoop] at h
  | succ fuel ih =>
    intro s s1 r h
    unfold findSampleTimeAndDurationLoop at h
    split at h
    · split at h
      · cases h; exact ⟨rfl, rfl, rfl, rfl⟩
      · split at h
        · obtain ⟨g1, g2, g3, g4⟩ := ih _ _ _ h
          exact ⟨g1, g2, g3, g4⟩
        · cases h
    · cases h; exact ⟨rfl, rfl, rfl, rfl⟩

/-- A failing `findSampleTimeAndDuration` stores neither time nor duration. -/
theorem findSampleTimeAndDuration_error_frame (t : SampleTable) (s s1 : SampleIterator)
    (sampleIndex : Nat) (e : status_t)
    (h : findSampleTimeAndDuration t s sampleIndex = some (e, s1)) (he : e ≠ status_t.OK) :
    s1.resolved = s.resolved ∧ s1.chunkState = s.chunkState := by
  unfold findSampleTimeAndDuration at h
  split at h
  · cases h; exact ⟨rfl, rfl⟩
  · cases hl : findSampleTimeAndDurationLoop t sampleIndex
        (t.mTimeToSampleCount + 2 - s.mTimeToSampleIndex) s with
    | none => simp [hl] at h
    | some p =>
      obtain ⟨e1, s2⟩ := p
      obtain ⟨g1, g2, _, _⟩ := findSampleTimeAndDurationLoop_frame t sampleIndex _ s s2 e1 hl
      cases e1 with
      | OK =>
        simp only [hl] at h
        cases h
        exact absurd rfl he
      | ERROR_END_OF_STREAM => simp only [hl] at h; cases h; exact ⟨g1, g2⟩
      | ERROR_MALFORMED => simp only [hl] at h; cases h; exact ⟨g1, g2⟩
      | ERROR_OUT_OF_RANGE => simp only [hl] at h; cases h; exact ⟨g1, g2⟩
      | ERROR_IO => simp only [hl] at h; cases h; exact ⟨g1, g2⟩

/-- A failing last part of `seekTo` has failed in `findSampleTimeAndDuration`;
it leaves `mInitialized`, the sample index, the time, the duration and the
chunk state as they were. -/
theorem seekToSample_error (t : SampleTable) (s s1 : SampleIterator) (sampleIndex : Nat)
    (e : status_t) (h : seekToSample t s sampleIndex = some (e, s1)) (he : e ≠ status_t.OK) :
    s1.mInitialized = s.mInitialized ∧ s1.mCurrentSampleIndex = s.mCurrentSampleIndex ∧
    s1.mCurrentSampleTime = s.mCurrentSampleTime ∧
    s1.mCurrentSampleDuration = s.mCurrentSampleDuration ∧
    s1.chunkState = s.chunkState ∧
    ∃ s7, findSampleTimeAndDuration t s7 sampleIndex = some (e, s1) := by
  unfold seekToSample at h
  simp only at h
  split at h
  · rename_i offset size _ _
    split at h
    · cases h
    · cases h
      exact absurd rfl he
    · rename_i e8 s8 _ hf
      cases h
      obtain ⟨g1, g2⟩ := findSampleTimeAndDuration_error_frame t _ _ _ _ hf he
      simp only [SampleIterator.resolved, Prod.mk.injEq] at g1
      obtain ⟨g11, g12, _, _, g15, g16⟩ := g1
      refine ⟨?_, ?_, ?_, ?_, ?_, _, hf⟩
      · rw [g11]; split <;> rfl
      · rw [g12]; split <;> rfl
      · rw [g15]; split <;> rfl
      · rw [g16]; split <;> rfl
      · rw [g2]; split <;> rfl
  · cases h

/-- What a failed `seekTo` leaves as it was.  For every cursor state and
every index `j`, if `seekTo(j)` returns an error then `mInitialized`, the
current sample index, the time and the duration are the same as before the
call.  The offset and the size are the same as before unless this call of
`seekTo` has found the chunk range, has come through the chunk block with
`OK` and has failed in its last part, which assigns offset and size before it
calls `findSampleTimeAndDuration`.  When the error is returned before the
chunk block is entered (by the two checks at the head of `seekTo` or by
`findChunkRange`), the offset, the size, the current chunk index, the chunk
offset and the per-chunk size list are all the same as before. -/
theorem seekTo_error_keeps_resolved (t : SampleTable) (s s1 : SampleIterator) (j : Nat)
    (e : status_t) (h : seekTo t s j = some (e, s1)) (he : e ≠ status_t.OK) :
    (s1.mInitialized = s.mInitialized ∧ s1.mCurrentSampleIndex = s.mCurrentSampleIndex ∧
      s1.mCurrentSampleTime = s.mCurrentSampleTime ∧
      s1.mCurrentSampleDuration = s.mCurrentSampleDuration) ∧
    ((s1.mCurrentSampleOffset = s.mCurrentSampleOffset ∧
        s1.mCurrentSampleSize = s.mCurrentSampleSize) ∨
      ∃ s2 s5, seekToChunkRange t s j = some (status_t.OK, s2) ∧
        seekToChunk t s2
            (u32 (sub32 j s2.mFirstChunkSampleIndex / s2.mSamplesPerChunk + s2.mFirstChunk))
          = some (status_t.OK, s5) ∧
        seekToSample t s5 j = some (e, s1)) ∧
    ((j ≥ t.mNumSampleSizes ∨
        (t.mSampleToChunkOffset < 0 ∨ t.mChunkOffsetOffset < 0
          ∨ t.mSampleSizeOffset < 0 ∨ t.mTimeToSampleCount = 0) ∨
        ∀ s2, seekToChunkRange t s j ≠ some (status_t.OK, s2)) →
      s1.mCurrentSampleOffset = s.mCurrentSampleOffset ∧
      s1.mCurrentSampleSize = s.mCurrentSampleSize ∧
      s1.chunkState = s.chunkState) := by
  have hres : ∀ (a b : SampleIterator), a.resolved = b.resolved →
      (a.mInitialized = b.mInitialized ∧ a.mCurrentSampleIndex = b.mCurrentSampleIndex ∧
        a.mCurrentSampleTime = b.mCurrentSampleTime ∧
        a.mCurrentSampleDuration = b.mCurrentSampleDuration) ∧
      a.mCurrentSampleOffset = b.mCurrentSampleOffset ∧
      a.mCurrentSampleSize = b.mCurrentSampleSize := by
    intro a b hab
    simp only [SampleIterator.resolved, Prod.mk.injEq] at hab
    obtain ⟨h1, h2, h3, h4, h5, h6⟩ := hab
    exact ⟨⟨h1, h2, h5, h6⟩, h3, h4⟩
  unfold seekTo at h
  split at h
  · cases h
    exact ⟨⟨rfl, rfl, rfl, rfl⟩, Or.inl ⟨rfl, rfl⟩, fun _ => ⟨rfl, rfl, rfl⟩⟩
  · rename_i hN
    split at h
    · cases h
      exact ⟨⟨rfl, rfl, rfl, rfl⟩, Or.inl ⟨rfl, rfl⟩, fun _ => ⟨rfl, rfl, rfl⟩⟩
    · rename_i hoff
      split at h
      · cases h
        exact absurd rfl he
      · cases hr : seekToChunkRange t s j with
        | none => simp [hr] at h
        | some p =>
          obtain ⟨e2, s2⟩ := p
          obtain ⟨_, f2, f3⟩ := seekToChunkRange_frame t s s2 j e2 hr
          by_cases he2 : e2 = status_t.OK
          · subst he2
            simp only [hr] at h
            split at h
            · cases h
            · split at h
              · cases h
              · cases hc : seekToChunk t s2 (u32 (sub32 j s2.mFirstChunkSampleIndex
                    / s2.mSamplesPerChunk + s2.mFirstChunk)) with
                | none => simp [hc] at h
                | some q =>
                  obtain ⟨e5, s5⟩ := q
                  obtain ⟨_, g2, _⟩ := seekToChunk_frame t s2 s5 _ e5 hc
                  have hthird : (j ≥ t.mNumSampleSizes ∨
                      (t.mSampleToChunkOffset < 0 ∨ t.mChunkOffsetOffset < 0
                        ∨ t.mSampleSizeOffset < 0 ∨ t.mTimeToSampleCount = 0) ∨
                      ∀ x, some (status_t.OK, s2) ≠ some (status_t.OK, x)) →
                      s1.mCurrentSampleOffset = s.mCurrentSampleOffset ∧
                      s1.mCurrentSampleSize = s.mCurrentSampleSize ∧
                      s1.chunkState = s.chunkState := by
                    intro hh
                    rcases hh with hh | hh | hh
                    · exact absurd hh hN
                    · exact absurd hh hoff
                    · exact absurd rfl (hh s2)
                  by_cases he5 : e5 = status_t.OK
                  · subst he5
                    simp only [hc] at h
                    obtain ⟨k1, k2, k3, k4, _, _⟩ := seekToSample_error t s5 s1 j e h he
                    obtain ⟨⟨m1, m2, m3, m4⟩, _⟩ := hres s5 s (g2.trans f2)
                    exact ⟨⟨k1.trans m1, k2.trans m2, k3.trans m3, k4.trans m4⟩,
                      Or.inr ⟨s2, s5, rfl, hc, h⟩, hthird⟩
                  · have h5 : some (e5, s5) = some (e, s1) := by
                      cases e5 <;> first | exact absurd rfl he5 | simpa [hc] using h
                    cases h5
                    obtain ⟨m, m5, m6⟩ := hres s1 s (g2.trans f2)
                    exact ⟨m, Or.inl ⟨m5, m6⟩, hthird⟩
          · have h2 : some (e2, s2) = some (e, s1) := by
              cases e2 <;> first | exact absurd rfl he2 | simpa [hr] using h
            cases h2
            obtain ⟨m, m5, m6⟩ := hres s1 s f2
            exact ⟨m, Or.inl ⟨m5, m6⟩, fun _ => ⟨m5, m6, f3⟩⟩

/-- An instance of the theorem above: over `missingChunkTable` the cursor
stands on sample 0 and `seekTo(1)` fails in the chunk block; the sample index,
time and duration are those of sample 0. -/
theorem seekTo_error_keeps_resolved_witness :
    ∃ s1, seekTo missingChunkTable missingChunkCursor 1
        = some (status_t.ERROR_OUT_OF_RANGE, s1) ∧
      s1.mInitialized = true ∧ s1.mCurrentSampleIndex = 0 ∧
      s1.mCurrentSampleTime = 0 ∧ s1.mCurrentSampleDuration = 10 := by
  cases hseek : seekTo missingChunkTable missingChunkCursor 1 with
  | none => exact absurd hseek (by decide)
  | some p =>
    obtain ⟨e, s1⟩ := p
    have he : e = status_t.ERROR_OUT_OF_RANGE := by
      have : (seekTo missingChunkTable missingChunkCursor 1).map (fun p => p.1)
          = some status_t.ERROR_OUT_OF_RANGE := by decide
      rw [hseek] at this
      exact Option.some.inj this
    subst he
    obtain ⟨⟨h1, h2, h3, h4⟩, _, _⟩ := seekTo_error_keeps_resolved missingChunkTable
      missingChunkCursor s1 1 _ hseek (by decide)
    refine ⟨s1, rfl, ?_, ?_, ?_, ?_⟩
    · rw [h1]; decide
    · rw [h2]; decide
    · rw [h3]; decide
    · rw [h4]; decide

/-- C7: a failed `seekTo` is not atomic.  Over `missingChunkTable` the cursor
left by the successful `seekTo(0)` has chunk index 0 and chunk offset 100;
`seekTo(1)` (with `1 >= mFirstChunkSampleIndex`) returns `ERROR_OUT_OF_RANGE`
from `getChunkOffset` and leaves chunk index 1 and chunk offset 0.  Over
`shortTimeTable` the cursor left by the successful `seekTo(0)` stands on
sample 0 at offset 100; `seekTo(1)` returns `ERROR_OUT_OF_RANGE` from
`findSampleTimeAndDuration` and leaves sample offset 200, chunk index 1 and
chunk offset 200 with the current sample index still 0, and a `seekTo(0)`
after it returns `OK` at once, on a cursor that shows sample 0 at offset
200. -/
theorem seekTo_error_not_atomic :
    (seekTo missingChunkTable (SampleIterator.create SampleIterator.zero) 0
        = some (status_t.OK, missingChunkCursor) ∧
      1 ≥ missingChunkCursor.mFirstChunkSampleIndex ∧
      (missingChunkCursor.mCurrentChunkIndex, missingChunkCursor.mCurrentChunkOffset)
        = (0, 100) ∧
      (seekTo missingChunkTable missingChunkCursor 1).map
          (fun p => (p.1, p.2.mCurrentChunkIndex, p.2.mCurrentChunkOffset))
        = some (status_t.ERROR_OUT_OF_RANGE, 1, 0)) ∧
    (seekTo shortTimeTable (SampleIterator.create SampleIterator.zero) 0
        = some (status_t.OK, shortTimeCursor) ∧
      1 ≥ shortTimeCursor.mFirstChunkSampleIndex ∧
      (shortTimeCursor.mCurrentSampleIndex, shortTimeCursor.mCurrentSampleOffset,
          shortTimeCursor.mCurrentChunkIndex, shortTimeCursor.mCurrentChunkOffset)
        = (0, 100, 0, 100) ∧
      (seekTo shortTimeTable shortTimeCursor 1).map
          (fun p => (p.1, p.2.mCurrentSampleIndex, p.2.mCurrentSampleOffset,
            p.2.mCurrentChunkIndex, p.2.mCurrentChunkOffset))
        = some (status_t.ERROR_OUT_OF_RANGE, 0, 200, 1, 200) ∧
      ((seekTo shortTimeTable shortTimeCursor 1).bind
          (fun p => seekTo shortTimeTable p.2 0)).map
          (fun p => (p.1, p.2.mCurrentSampleIndex, p.2.mCurrentSampleOffset))
        = some (status_t.OK, 0, 200)) := by
  decide

/-! ### Byte offsets -/

theorem entries_length (t : SampleTable) : t.mNumSampleToChunkOffsets = t.entries.length := by
  unfold SampleTable.mNumSampleToChunkOffsets SampleTable.entries
  cases t.mSampleToChunkEntries <;> rfl

theorem runFirstChunk_lt (es : List SampleToChunkEntry) (r : Nat) :
    runFirstChunk es r < 4294967296 := by
  unfold runFirstChunk
  split
  · exact u32_lt _
  · decide

theorem runSamplesPerChunk_lt (es : List SampleToChunkEntry) (r : Nat) :
    runSamplesPerChunk es r < 4294967296 := by
  unfold runSamplesPerChunk
  split
  · exact u32_lt _
  · decide

theorem runsOk_mono (es : List SampleToChunkEntry) (q r : Nat) (h : RunsOk es r) (hq : q ≤ r) :
    RunsOk es q :=
  fun p hp => h p (Nat.lt_of_lt_of_le hp hq)

theorem runFirstSample_le_max (es : List SampleToChunkEntry) (r : Nat) (h : RunsOk es r) :
    runFirstSample es r ≤ UINT32_MAX := by
  cases r with
  | zero => simp [runFirstSample, UINT32_MAX]
  | succ r => exact (h r (Nat.lt_succ_self r)).2.2

theorem runFirstChunk_mono (es : List SampleToChunkEntry) :
    ∀ (r q : Nat), RunsOk es r → q ≤ r → runFirstChunk es q ≤ runFirstChunk es r := by
  intro r
  induction r with
  | zero =>
    intro q _ hq
    have : q = 0 := by omega
    rw [this]
  | succ r ih =>
    intro q h hq
    by_cases hqe : q = r + 1
    · rw [hqe]
    · have h1 := ih q (runsOk_mono es r (r + 1) h (by omega)) (by omega)
      have h2 := (h r (Nat.lt_succ_self r)).1
      omega

theorem runFirstChunk_le_sample (es : List SampleToChunkEntry) :
    ∀ (r : Nat), RunsOk es r → runFirstChunk es r ≤ runFirstSample es r + runFirstChunk es 0 := by
  intro r
  induction r with
  | zero =>
    intro _
    omega
  | succ r ih =>
    intro h
    have h1 := ih (runsOk_mono es r (r + 1) h (by omega))
    obtain ⟨h2, h3, _⟩ := h r (Nat.lt_succ_self r)
    have h4 : runFirstChunk es (r + 1) - runFirstChunk es r
        ≤ (runFirstChunk es (r + 1) - runFirstChunk es r) * runSamplesPerChunk es r :=
      Nat.le_mul_of_pos_right _ h3
    simp only [runFirstSample]
    omega

/-- Within a run that is not the last one, the chunk of a sample lies before
the first chunk of the next run. -/
theorem chunk_lt_next (es : List SampleToChunkEntry) (r j : Nat) (h : RunsOk es (r + 1))
    (hlo : runFirstSample es r ≤ j) (hhi : j < runFirstSample es (r + 1)) :
    (j - runFirstSample es r) / runSamplesPerChunk es r + runFirstChunk es r
      < runFirstChunk es (r + 1) := by
  obtain ⟨h2, h3, _⟩ := h r (Nat.lt_succ_self r)
  simp only [runFirstSample] at hhi
  have h5 : j - runFirstSample es r
      < (runFirstChunk es (r + 1) - runFirstChunk es r) * runSamplesPerChunk es r := by
    omega
  have h6 : (j - runFirstSample es r) / runSamplesPerChunk es r
      < runFirstChunk es (r + 1) - runFirstChunk es r :=
    (Nat.div_lt_iff_lt_mul h3).2 h5
  omega

/-- The exact chunk number of an owned sample lies in a window of `2^32`
chunk numbers that starts at the first chunk of the first run. -/
theorem chunk_window (es : List SampleToChunkEntry) (r j : Nat) (h : OwnsSample es r j)
    (hj : j < 4294967296) :
    runFirstChunk es 0 ≤ (j - runFirstSample es r) / runSamplesPerChunk es r + runFirstChunk es r ∧
    (j - runFirstSample es r) / runSamplesPerChunk es r + runFirstChunk es r
      < runFirstChunk es 0 + 4294967296 := by
  obtain ⟨_, hok, hp, hlo, _⟩ := h
  have h1 := runFirstChunk_mono es r 0 hok (Nat.zero_le r)
  have h2 := runFirstChunk_le_sample es r hok
  have h3 : (j - runFirstSample es r) / runSamplesPerChunk es r ≤ j - runFirstSample es r :=
    Nat.div_le_self _ _
  generalize (j - runFirstSample es r) / runSamplesPerChunk es r = q at h3 ⊢
  omega

/-- Two owned samples with the same `uint32_t` chunk number lie in the same
run and in the same chunk of it. -/
theorem chunkOf_injective (es : List SampleToChunkEntry) (r1 j1 r2 j2 : Nat)
    (h1 : OwnsSample es r1 j1) (h2 : OwnsSample es r2 j2)
    (hj1 : j1 < 4294967296) (hj2 : j2 < 4294967296)
    (h : chunkOf es r1 j1 = chunkOf es r2 j2) :
    r1 = r2 ∧
    (j1 - runFirstSample es r1) / runSamplesPerChunk es r1
      = (j2 - runFirstSample es r2) / runSamplesPerChunk es r2 := by
  obtain ⟨w1, w2⟩ := chunk_window es r1 j1 h1 hj1
  obtain ⟨w3, w4⟩ := chunk_window es r2 j2 h2 hj2
  unfold chunkOf u32 at h
  have z1 := Nat.zero_le ((j1 - runFirstSample es r1) / runSamplesPerChunk es r1)
  have z2 := Nat.zero_le ((j2 - runFirstSample es r2) / runSamplesPerChunk es r2)
  have he : (j1 - runFirstSample es r1) / runSamplesPerChunk es r1 + runFirstChunk es r1
      = (j2 - runFirstSample es r2) / runSamplesPerChunk es r2 + runFirstChunk es r2 := by
    omega
  have hr : r1 = r2 := by
    rcases Nat.lt_trichotomy r1 r2 with hlt | heq | hgt
    · exfalso
      have hn1 : r1 + 1 < es.length := by have := h2.1; omega
      obtain ⟨a1, a2⟩ := h1.2.2.2.2 hn1
      have b1 := chunk_lt_next es r1 j1 a1 h1.2.2.2.1 a2
      have b2 := runFirstChunk_mono es r2 (r1 + 1) h2.2.1 (by omega)
      omega
    · exact heq
    · exfalso
      have hn1 : r2 + 1 < es.length := by have := h1.1; omega
      obtain ⟨a1, a2⟩ := h2.2.2.2.2 hn1
      have b1 := chunk_lt_next es r2 j2 a1 h2.2.2.2.1 a2
      have b2 := runFirstChunk_mono es r1 (r2 + 1) h1.2.1 (by omega)
      omega
  refine ⟨hr, ?_⟩
  subst hr
  omega

theorem runFirstChunk_of_entry (es : List SampleToChunkEntry) (r : Nat) (e : SampleToChunkEntry)
    (h : es[r]? = some e) : runFirstChunk es r = u32 e.startChunk := by
  unfold runFirstChunk
  rw [h]

theorem runSamplesPerChunk_of_entry (es : List SampleToChunkEntry) (r : Nat)
    (e : SampleToChunkEntry) (h : es[r]? = some e) :
    runSamplesPerChunk es r = u32 e.samplesPerChunk := by
  unfold runSamplesPerChunk
  rw [h]

theorem runsOk_succ (es : List SampleToChunkEntry) (k : Nat) (h : RunsOk es k)
    (h1 : runFirstChunk es k ≤ runFirstChunk es (k + 1)) (h2 : 0 < runSamplesPerChunk es k)
    (h3 : runFirstSample es (k + 1) ≤ UINT32_MAX) : RunsOk es (k + 1) := by
  intro q hq
  by_cases hqk : q = k
  · rw [hqk]
    exact ⟨h1, h2, h3⟩
  · exact h q (by omega)

/-- One evaluation of the body of the loop of `findChunkRange` that reaches
the end of the body puts the chunk range on the run it consulted. -/
theorem findChunkRangeBody_scan (t : SampleTable) (s s1 : SampleIterator) (k : Nat)
    (hn : t.entries.length < 4294967296) (hs : ScanAt t s k)
    (h : findChunkRangeBody t s = some (none, s1)) :
    RangeAt t s1 k ∧ s1.mFirstChunkSampleIndex = s.mStopChunkSampleIndex := by
  obtain ⟨hk, hrest⟩ := hs
  have hlen := entries_length t
  unfold findChunkRangeBody at h
  split at h
  · cases h
  · cases he : (t.mSampleToChunkEntries.getD [])[s.mSampleToChunkIndex]? with
    | none => simp only [he] at h; cases h
    | some e =>
      simp only [he] at h
      rw [hk] at he
      have he1 : t.entries[k]? = some e := he
      have hkn : k < t.entries.length := (List.getElem?_eq_some.mp he1).1
      obtain ⟨hok, hstop⟩ := hrest hkn
      have hF := runFirstSample_le_max t.entries k hok
      have hC := runFirstChunk_of_entry t.entries k e he1
      have hP := runSamplesPerChunk_of_entry t.entries k e he1
      unfold UINT32_MAX at hF
      by_cases hnf : s.mSampleToChunkIndex + 1 < t.mNumSampleToChunkOffsets
      · rw [if_pos hnf] at h
        cases hx : (t.mSampleToChunkEntries.getD [])[s.mSampleToChunkIndex + 1]? with
        | none => simp only [hx] at h; cases h
        | some next =>
          simp only [hx] at h
          rw [hk] at hx hnf
          have hx1 : t.entries[k + 1]? = some next := hx
          have hC1 := runFirstChunk_of_entry t.entries (k + 1) next hx1
          have ha := u32_lt e.startChunk
          have hb := u32_lt next.startChunk
          have hc := u32_lt e.samplesPerChunk
          split at h
          · cases h
          · rename_i hle
            split at h
            · cases h
            · rename_i hpos
              split at h
              · cases h
              · rename_i hdiv
                split at h
                · cases h
                · rename_i hsum
                  cases h
                  try simp only at hle hpos hdiv hsum
                  have hle1 : u32 e.startChunk ≤ u32 next.startChunk := by omega
                  have hpos1 : 0 < u32 e.samplesPerChunk := by omega
                  rw [sub32_of_le hb hle1] at hdiv hsum
                  have hprod : (u32 next.startChunk - u32 e.startChunk) * u32 e.samplesPerChunk
                      ≤ 4294967295 := by
                    have h1 : ¬ (UINT32_MAX
                        < (u32 next.startChunk - u32 e.startChunk) * u32 e.samplesPerChunk) :=
                      fun hh => hdiv ((Nat.div_lt_iff_lt_mul hpos1).2 hh)
                    unfold UINT32_MAX at h1
                    omega
                  have hprod1 : u32 ((u32 next.startChunk - u32 e.startChunk)
                      * u32 e.samplesPerChunk)
                      = (u32 next.startChunk - u32 e.startChunk) * u32 e.samplesPerChunk :=
                    u32_of_lt (by omega)
                  rw [hprod1] at hsum
                  have hsm : sub32 UINT32_MAX s.mStopChunkSampleIndex
                      = 4294967295 - s.mStopChunkSampleIndex := by
                    unfold sub32 UINT32_MAX; omega
                  rw [hsm] at hsum
                  have hF1 : runFirstSample t.entries (k + 1)
                      = s.mStopChunkSampleIndex
                        + (u32 next.startChunk - u32 e.startChunk) * u32 e.samplesPerChunk := by
                    simp only [runFirstSample]
                    rw [hC, hC1, hP, hstop]
                  have hok1 : RunsOk t.entries (k + 1) := by
                    apply runsOk_succ t.entries k hok
                    · rw [hC, hC1]; exact hle1
                    · rw [hP]; exact hpos1
                    · rw [hF1]; unfold UINT32_MAX; omega
                  refine ⟨⟨hkn, ?_, hok, ?_, ?_, ?_, ?_⟩, rfl⟩
                  · show u32 (s.mSampleToChunkIndex + 1) = k + 1
                    rw [hk]
                    exact u32_of_lt (by omega)
                  · show u32 e.startChunk = _
                    exact hC.symm
                  · show s.mStopChunkSampleIndex = _
                    exact hstop
                  · show u32 e.samplesPerChunk = _
                    exact hP.symm
                  · intro _
                    refine ⟨hok1, ?_⟩
                    show u32 (s.mStopChunkSampleIndex + u32 (sub32 (u32 next.startChunk)
                      (u32 e.startChunk) * u32 e.samplesPerChunk)) = _
                    rw [sub32_of_le hb hle1, hprod1, hF1]
                    exact u32_of_lt (by omega)
      · rw [if_neg hnf] at h
        cases h
        rw [hk, hlen] at hnf
        refine ⟨⟨hkn, ?_, hok, ?_, ?_, ?_, ?_⟩, rfl⟩
        · show u32 (s.mSampleToChunkIndex + 1) = k + 1
          rw [hk]
          exact u32_of_lt (by omega)
        · show u32 e.startChunk = _
          exact hC.symm
        · show s.mStopChunkSampleIndex = _
          exact hstop
        · show u32 e.samplesPerChunk = _
          exact hP.symm
        · intro hlt
          omega

/-- The only error the body of the loop of `findChunkRange` returns is
`ERROR_OUT_OF_RANGE`. -/
theorem findChunkRangeBody_error (t : SampleTable) (s s1 : SampleIterator) (e : status_t)
    (h : findChunkRangeBody t s = some (some e, s1)) : e = status_t.ERROR_OUT_OF_RANGE := by
  unfold findChunkRangeBody at h
  simp only at h
  split at h <;> (try split at h) <;> (try split at h) <;> (try split at h) <;>
    (try split at h) <;> (try split at h) <;> (try split at h) <;> (try split at h) <;>
    first
    | (cases h; rfl)
    | (cases h)

/-- A chunk range that stands on run `r` is ready for the loop of
`findChunkRange` to consult run `r + 1`. -/
theorem scanAt_of_rangeAt (t : SampleTable) (s : SampleIterator) (r : Nat)
    (h : RangeAt t s r) : ScanAt t s (r + 1) :=
  ⟨h.2.1, h.2.2.2.2.2.2⟩

/-- The loop of `findChunkRange`, when it returns `OK`, either has not run
its body or leaves the chunk range on a run that starts at or before
`sampleIndex`. -/
theorem findChunkRangeLoop_scan (t : SampleTable) (sampleIndex : Nat)
    (hn : t.entries.length < 4294967296) :
    ∀ (fuel : Nat) (s s1 : SampleIterator) (k : Nat),
      ScanAt t s k →
      findChunkRangeLoop t sampleIndex fuel s = some (status_t.OK, s1) →
      (s1 = s ∧ sampleIndex < s.mStopChunkSampleIndex) ∨
      (∃ r, RangeAt t s1 r ∧ s1.mFirstChunkSampleIndex ≤ sampleIndex) := by
  intro fuel
  induction fuel with
  | zero =>
    intro s s1 k _ h
    simp [findChunkRangeLoop] at h
  | succ fuel ih =>
    intro s s1 k hs h
    unfold findChunkRangeLoop at h
    split at h
    · rename_i hge
      cases hb : findChunkRangeBody t s with
      | none => simp [hb] at h
      | some p =>
        obtain ⟨o, s2⟩ := p
        cases o with
        | some e =>
          simp only [hb] at h
          cases h
          have hne := findChunkRangeBody_error t s s1 status_t.OK hb
          cases hne
        | none =>
          simp only [hb] at h
          obtain ⟨hr, hfirst⟩ := findChunkRangeBody_scan t s s2 k hn hs hb
          rcases ih s2 s1 (k + 1) (scanAt_of_rangeAt t s2 k hr) h with ⟨he, _⟩ | hr2
          · right
            rw [he]
            exact ⟨k, hr, by rw [hfirst]; exact hge⟩
          · right
            exact hr2
    · rename_i hlt
      cases h
      left
      exact ⟨rfl, by omega⟩

theorem rangeAt_congr (t : SampleTable) (s s1 : SampleIterator) (r : Nat)
    (h : s1.chunkRange = s.chunkRange) (hr : RangeAt t s r) : RangeAt t s1 r := by
  simp only [SampleIterator.chunkRange, Prod.mk.injEq] at h
  obtain ⟨h1, h2, h3, _, h5, h6, _⟩ := h
  unfold RangeAt at hr ⊢
  rw [h1, h2, h3, h5, h6]
  exact hr

theorem findChunkRange_scan (t : SampleTable) (s s1 : SampleIterator) (sampleIndex k : Nat)
    (hn : t.entries.length < 4294967296) (hs : ScanAt t s k)
    (h : findChunkRange t s sampleIndex = some (status_t.OK, s1)) :
    (s1 = s ∧ sampleIndex < s.mStopChunkSampleIndex) ∨
    (∃ r, RangeAt t s1 r ∧ s1.mFirstChunkSampleIndex ≤ sampleIndex) := by
  unfold findChunkRange at h
  split at h
  · cases h
  · split at h
    · cases h
    · exact findChunkRangeLoop_scan t sampleIndex hn _ s s1 k hs h

/-- The first part of `seekTo`, when it returns `OK`, leaves the chunk range
on a run that starts at or before `sampleIndex`. -/
theorem seekToChunkRange_rangeAt (t : SampleTable) (s s2 : SampleIterator) (sampleIndex : Nat)
    (hn : t.entries.length < 4294967296)
    (hinv : s.mInitialized = true → ∃ r, RangeAt t s r)
    (h : seekToChunkRange t s sampleIndex = some (status_t.OK, s2)) :
    ∃ r, RangeAt t s2 r ∧ s2.mFirstChunkSampleIndex ≤ sampleIndex := by
  unfold seekToChunkRange at h
  simp only at h
  split at h
  · have hs : ScanAt t s.reset 0 :=
      ⟨rfl, fun _ => ⟨fun q hq => absurd hq (Nat.not_lt_zero q), rfl⟩⟩
    split at h
    · rcases findChunkRange_scan t s.reset s2 sampleIndex 0 hn hs h with ⟨_, hlt⟩ | hr
      · exact absurd hlt (Nat.not_lt_zero _)
      · exact hr
    · rename_i hlt
      exact absurd (Nat.zero_le sampleIndex) hlt
  · rename_i hno
    have hinit : s.mInitialized = true := by
      cases hi : s.mInitialized with
      | true => rfl
      | false => exact absurd (Or.inl hi) hno
    have hfirst : s.mFirstChunkSampleIndex ≤ sampleIndex := by
      by_contra hc
      exact hno (Or.inr (by omega))
    obtain ⟨r, hr⟩ := hinv hinit
    split at h
    · rename_i hge
      rcases findChunkRange_scan t s s2 sampleIndex (r + 1) hn (scanAt_of_rangeAt t s r hr) h
        with ⟨_, hlt⟩ | hr2
      · omega
      · exact hr2
    · cases h
      exact ⟨r, hr, hfirst⟩

/-- The `readAt` call of `getSampleSizeDirect` reads at
`sampleCacheFileOffset`. -/
theorem fillSampleCache_offset (t : SampleTable) (sampleIndex size : Nat) (cache0 : List Nat) :
    fillSampleCache t sampleIndex size cache0
      = match t.readAt (sampleCacheFileOffset t sampleIndex) size with
        | none => (false, cache0)
        | some bs =>
          if bs.length < size then (false, bs ++ cache0.drop bs.length)
          else (true, bs.take size) :=
  rfl

/-- A complete read of a new cache window: the data source delivered at least
`size` bytes at `sampleCacheFileOffset`, and the buffer holds the first `size`
of them. -/
theorem fillSampleCache_ok (t : SampleTable) (sampleIndex size : Nat) (cache0 : List Nat)
    (h : (fillSampleCache t sampleIndex size cache0).1 = true) :
    ∃ bs, t.readAt (sampleCacheFileOffset t sampleIndex) size = some bs ∧
      size ≤ bs.length ∧ (fillSampleCache t sampleIndex size cache0).2 = bs.take size := by
  rw [fillSampleCache_offset] at h ⊢
  cases hr : t.readAt (sampleCacheFileOffset t sampleIndex) size with
  | none =>
    simp only [hr] at h
    cases h
  | some bs =>
    simp only [hr] at h ⊢
    by_cases hlt : bs.length < size
    · rw [if_pos hlt] at h
      cases h
    · rw [if_neg hlt]
      exact ⟨bs, rfl, by omega, rfl⟩

theorem findSampleTimeAndDuration_sizeCache (t : SampleTable) (s s1 : SampleIterator)
    (sampleIndex : Nat) (r : status_t)
    (h : findSampleTimeAndDuration t s sampleIndex = some (r, s1)) :
    s1.sizeCache = s.sizeCache := by
  unfold findSampleTimeAndDuration at h
  split at h
  · cases h; rfl
  · cases hl : findSampleTimeAndDurationLoop t sampleIndex
        (t.mTimeToSampleCount + 2 - s.mTimeToSampleIndex) s with
    | none => simp [hl] at h
    | some p =>
      obtain ⟨e1, s2⟩ := p
      obtain ⟨_, _, _, g4⟩ := findSampleTimeAndDurationLoop_frame t sampleIndex _ s s2 e1 hl
      cases e1 with
      | OK =>
        simp only [hl] at h
        cases h
        exact g4
      | ERROR_END_OF_STREAM => simp only [hl] at h; cases h; exact g4
      | ERROR_MALFORMED => simp only [hl] at h; cases h; exact g4
      | ERROR_OUT_OF_RANGE => simp only [hl] at h; cases h; exact g4
      | ERROR_IO => simp only [hl] at h; cases h; exact g4

theorem seekToSample_sizeCache (t : SampleTable) (s s1 : SampleIterator) (sampleIndex : Nat)
    (r : status_t) (h : seekToSample t s sampleIndex = some (r, s1)) :
    s1.sizeCache = s.sizeCache := by
  unfold seekToSample at h
  simp only at h
  split at h
  · rename_i offset size _ _
    split at h
    · cases h
    · rename_i s8 hf
      cases h
      have g := findSampleTimeAndDuration_sizeCache t _ _ _ _ hf
      show s8.sizeCache = s.sizeCache
      rw [g]
      split <;> rfl
    · rename_i e8 s8 _ hf
      cases h
      have g := findSampleTimeAndDuration_sizeCache t _ _ _ _ hf
      rw [g]
      split <;> rfl
  · cases h

theorem getSampleSizeDirect_ok_lt (t : SampleTable) (s s1 : SampleIterator)
    (sampleIndex size : Nat)
    (h : getSampleSizeDirect t s sampleIndex = some (status_t.OK, size, s1)) :
    sampleIndex < t.mNumSampleSizes := by
  unfold getSampleSizeDirect at h
  split at h
  · cases h
  · omega

theorem windowRead_congr (t : SampleTable) (s s1 : SampleIterator)
    (h : s1.sizeCache = s.sizeCache) (hs : WindowRead t s) : WindowRead t s1 := by
  unfold SampleIterator.sizeCache at h
  simp only [Prod.mk.injEq] at h
  obtain ⟨h1, h2, h3⟩ := h
  unfold WindowRead at *
  rw [h1, h2, h3]
  exact hs

theorem windowRead_reset (t : SampleTable) (s : SampleIterator) : WindowRead t s.reset :=
  fun _ h => nomatch h

/-- A size that `getSampleSizeDirect` returns with `OK` on a cursor whose size
cache holds what the data source delivered is the size `windowSampleSize`
gives for a cache window that starts at or before the sample, and the size
cache of the cursor afterwards holds what the data source delivered. -/
theorem getSampleSizeDirect_ok_decoded (t : SampleTable) (s s1 : SampleIterator)
    (sampleIndex size : Nat) (hs : WindowRead t s)
    (h : getSampleSizeDirect t s sampleIndex = some (status_t.OK, size, s1)) :
    WindowRead t s1 ∧
    ∃ start, start ≤ sampleIndex ∧ windowSampleSize t start sampleIndex = some size := by
  unfold getSampleSizeDirect at h
  split at h
  · cases h
  · split at h
    · rename_i hd
      cases h
      refine ⟨hs, sampleIndex, Nat.le_refl _, ?_⟩
      unfold windowSampleSize
      rw [if_pos hd]
    · rename_i hd
      cases hnew : readNewSampleCache t s sampleIndex with
      | true =>
        simp only [hnew, ↓reduceIte] at h
        cases hc : (newSampleCacheWindow t s sampleIndex).mSampleCache with
        | none =>
          simp only [hc] at h
          cases h
        | some cache0 =>
          simp only [hc] at h
          split at h
          · cases h
          · split at h
            · cases h
            · rename_i hl
              simp only [Option.map_eq_some'] at h
              obtain ⟨v, hv, he⟩ := h
              cases he
              have hl1 : (fillSampleCache t sampleIndex
                  (newSampleCacheWindow t s sampleIndex).mSampleCacheSize cache0).1 = true := by
                cases hb : (fillSampleCache t sampleIndex
                  (newSampleCacheWindow t s sampleIndex).mSampleCacheSize cache0).1 with
                | true => rfl
                | false => exact absurd hb hl
              obtain ⟨bs, hb1, hb2, hb3⟩ := fillSampleCache_ok t sampleIndex _ cache0 hl1
              have hsz : (newSampleCacheWindow t s sampleIndex).mSampleCacheSize
                  = cacheWindowSize t sampleIndex := rfl
              have hst : (newSampleCacheWindow t s sampleIndex).mCurrentSampleCacheStartIndex
                  = sampleIndex := rfl
              rw [hb3, hst] at hv
              rw [hb3]
              rw [hsz] at hb1 hb2 hv ⊢
              constructor
              · intro cache hcache
                cases hcache
                exact ⟨rfl, bs, hb1, hb2, rfl⟩
              · refine ⟨sampleIndex, Nat.le_refl _, ?_⟩
                unfold windowSampleSize
                rw [if_neg hd]
                simp only [hb1]
                rw [if_neg (by omega)]
                exact hv
      | false =>
        simp only [hnew, Bool.false_eq_true, ↓reduceIte] at h
        cases hc : s.mSampleCache with
        | none =>
          simp only [hc] at h
          cases h
        | some cache0 =>
          simp only [hc] at h
          split at h
          · cases h
          · simp only [Bool.true_eq_false, ↓reduceIte, Option.map_eq_some'] at h
            obtain ⟨v, hv, he⟩ := h
            cases he
            obtain ⟨hsz, bs, hb1, hb2, hb3⟩ := hs cache0 hc
            constructor
            · intro cache hcache
              cases hcache
              exact ⟨hsz, bs, hb1, hb2, hb3⟩
            · have hle : s.mCurrentSampleCacheStartIndex ≤ sampleIndex := by
                unfold readNewSampleCache at hnew
                simp only [decide_eq_false_iff_not, not_or, not_lt] at hnew
                exact hnew.1
              refine ⟨s.mCurrentSampleCacheStartIndex, hle, ?_⟩
              rw [hsz] at hb1 hb2 hb3
              unfold windowSampleSize
              rw [if_neg hd]
              simp only [hb1]
              rw [if_neg (by omega), ← hb3]
              exact hv

/-- The loop of `seekTo` that fills the size list, when it runs to its end on
a cursor whose size cache holds what the data source delivered, has appended
one size for every sample of the chunk: the size `windowSampleSize` gives for
a cache window that starts at or before that sample. -/
theorem loadChunkSampleSizes_sizes (t : SampleTable) (first : Nat)
    (hN : t.mNumSampleSizes < 4294967296) :
    ∀ (remaining i : Nat) (s s1 : SampleIterator),
      first + i < 4294967296 → WindowRead t s →
      loadChunkSampleSizes t first remaining i s = some (status_t.OK, s1) →
      WindowRead t s1 ∧
      ∃ sizes, s1.mCurrentChunkSampleSizes = s.mCurrentChunkSampleSizes ++ sizes ∧
        sizes.length = remaining ∧
        ∀ k, k < remaining → ∃ size start, sizes[k]? = some size ∧
          start ≤ first + i + k ∧ windowSampleSize t start (first + i + k) = some size := by
  intro remaining
  induction remaining with
  | zero =>
    intro i s s1 _ hrd h
    simp only [loadChunkSampleSizes] at h
    cases h
    exact ⟨hrd, [], by simp, rfl, fun k hk => absurd hk (Nat.not_lt_zero k)⟩
  | succ n ih =>
    intro i s s1 hi hrd h
    unfold loadChunkSampleSizes at h
    cases hg : getSampleSizeDirect t s (u32 (first + i)) with
    | none => simp [hg] at h
    | some p =>
      obtain ⟨e, size, s2⟩ := p
      obtain ⟨_, _, f3, _⟩ := getSampleSizeDirect_frame t s s2 _ size e hg
      have f5 : s2.mCurrentChunkSampleSizes = s.mCurrentChunkSampleSizes :=
        congrArg (fun p => p.2.2) f3
      cases e with
      | OK =>
        simp only [hg] at h
        have hu : u32 (first + i) = first + i := u32_of_lt hi
        rw [hu] at hg
        have hlt := getSampleSizeDirect_ok_lt t s s2 _ size hg
        obtain ⟨hrd2, start0, hst0, hdec0⟩ := getSampleSizeDirect_ok_decoded t s s2 _ size hrd hg
        have hrd3 : WindowRead t
            { s2 with mCurrentChunkSampleSizes := s2.mCurrentChunkSampleSizes ++ [size] } :=
          windowRead_congr t s2 _ rfl hrd2
        obtain ⟨hrd1, sizes, g1, g2, g3⟩ := ih (i + 1) _ s1 (by omega) hrd3 h
        refine ⟨hrd1, size :: sizes, ?_, by simp [g2], ?_⟩
        · rw [g1]
          show (s2.mCurrentChunkSampleSizes ++ [size]) ++ sizes = _
          rw [f5]
          simp
        · intro k hk
          cases k with
          | zero => exact ⟨size, start0, by simp, hst0, hdec0⟩
          | succ k =>
            obtain ⟨sz, start, a1, a2, a3⟩ := g3 k (by omega)
            have e1 : first + i + (k + 1) = first + (i + 1) + k := by omega
            refine ⟨sz, start, ?_, ?_, ?_⟩
            · simpa using a1
            · rw [e1]
              exact a2
            · rw [e1]
              exact a3
      | ERROR_END_OF_STREAM => simp only [hg] at h; cases h
      | ERROR_MALFORMED => simp only [hg] at h; cases h
      | ERROR_OUT_OF_RANGE => simp only [hg] at h; cases h
      | ERROR_IO => simp only [hg] at h; cases h

/-- The chunk block of `seekTo`, when it returns `OK` on a cursor whose size
cache holds what the data source delivered: either it was skipped because the
cursor is initialised and already holds `chunk`, or it has fetched the offset
of `chunk` and the sizes of the samples of the chunk. -/
theorem seekToChunk_fields (t : SampleTable) (s s5 : SampleIterator) (chunk : Nat)
    (hN : t.mNumSampleSizes < 4294967296)
    (hbase : s.mFirstChunkSampleIndex
      + u32 (s.mSamplesPerChunk * sub32 chunk s.mFirstChunk) < 4294967296)
    (hrd : WindowRead t s)
    (h : seekToChunk t s chunk = some (status_t.OK, s5)) :
    s5.chunkRange = s.chunkRange ∧ s5.resolved = s.resolved ∧ WindowRead t s5 ∧
    ((s.mInitialized = true ∧ chunk = s.mCurrentChunkIndex ∧ s5 = s) ∨
      (s5.mCurrentChunkIndex = chunk ∧
        getChunkOffset t chunk = some (status_t.OK, s5.mCurrentChunkOffset) ∧
        s5.mCurrentChunkSampleSizes.length = s.mSamplesPerChunk ∧
        ∀ k, k < s.mSamplesPerChunk → ∃ size start,
          s5.mCurrentChunkSampleSizes[k]? = some size ∧
          start ≤ s.mFirstChunkSampleIndex
              + u32 (s.mSamplesPerChunk * sub32 chunk s.mFirstChunk) + k ∧
          windowSampleSize t start
            (s.mFirstChunkSampleIndex
              + u32 (s.mSamplesPerChunk * sub32 chunk s.mFirstChunk) + k)
            = some size)) := by
  obtain ⟨_, f2, f3⟩ := seekToChunk_frame t s s5 chunk status_t.OK h
  refine ⟨f3, f2, ?_⟩
  unfold seekToChunk at h
  split at h
  · cases hg : getChunkOffset t chunk with
    | none => simp [hg] at h
    | some p =>
      obtain ⟨e, off⟩ := p
      cases e with
      | OK =>
        simp only [hg] at h
        have hu : u32 (s.mFirstChunkSampleIndex
            + u32 (s.mSamplesPerChunk * sub32 chunk s.mFirstChunk))
            = s.mFirstChunkSampleIndex
              + u32 (s.mSamplesPerChunk * sub32 chunk s.mFirstChunk) := u32_of_lt hbase
        rw [hu] at h
        obtain ⟨_, _, _, g4, g5⟩ := loadChunkSampleSizes_frame t _ _ _ _ _ _ h
        have hload := fun a b => loadChunkSampleSizes_sizes t _ hN _ _ _ _ a b h
        obtain ⟨hrd5, sizes, a1, a2, a3⟩ := hload (by omega) (windowRead_congr t s _ rfl hrd)
        have a1' : s5.mCurrentChunkSampleSizes = sizes := by
          rw [a1]
          rfl
        refine ⟨hrd5, Or.inr ⟨g4, ?_, ?_, ?_⟩⟩
        · rw [g5]
        · rw [a1']
          exact a2
        · intro k hk
          obtain ⟨sz, start, b1, b2, b3⟩ := a3 k hk
          exact ⟨sz, start, by rw [a1']; exact b1, b2, b3⟩
      | ERROR_END_OF_STREAM => simp only [hg] at h; cases h
      | ERROR_MALFORMED => simp only [hg] at h; cases h
      | ERROR_OUT_OF_RANGE => simp only [hg] at h; cases h
      | ERROR_IO => simp only [hg] at h; cases h
  · rename_i hno
    cases h
    refine ⟨hrd, Or.inl ?_⟩
    have hinit : s.mInitialized = true := by
      cases hi : s.mInitialized with
      | true => rfl
      | false => exact absurd (Or.inl hi) hno
    refine ⟨hinit, ?_, rfl⟩
    by_contra hc
    exact hno (Or.inr hc)

theorem seekToChunkRange_windowRead (t : SampleTable) (s s1 : SampleIterator)
    (sampleIndex : Nat) (r : status_t) (hs : WindowRead t s)
    (h : seekToChunkRange t s sampleIndex = some (r, s1)) : WindowRead t s1 := by
  unfold seekToChunkRange at h
  simp only at h
  split at h
  · split at h
    · obtain ⟨_, _, _, f4⟩ := findChunkRange_frame t _ s1 sampleIndex r h
      exact windowRead_congr t _ s1 f4 (windowRead_reset t s)
    · cases h
      exact windowRead_reset t s
  · split at h
    · obtain ⟨_, _, _, f4⟩ := findChunkRange_frame t _ s1 sampleIndex r h
      exact windowRead_congr t _ s1 f4 hs
    · cases h
      exact hs

/-- A successful `findSampleTimeAndDuration` leaves the chunk state, the chunk
range, the offset and the size as they were. -/
theorem findSampleTimeAndDuration_ok_frame (t : SampleTable) (s s1 : SampleIterator)
    (sampleIndex : Nat)
    (h : findSampleTimeAndDuration t s sampleIndex = some (status_t.OK, s1)) :
    s1.chunkState = s.chunkState ∧ s1.chunkRange = s.chunkRange ∧
    s1.mCurrentSampleOffset = s.mCurrentSampleOffset ∧
    s1.mCurrentSampleSize = s.mCurrentSampleSize := by
  unfold findSampleTimeAndDuration at h
  split at h
  · cases h
  · cases hl : findSampleTimeAndDurationLoop t sampleIndex
        (t.mTimeToSampleCount + 2 - s.mTimeToSampleIndex) s with
    | none => simp [hl] at h
    | some p =>
      obtain ⟨e1, s2⟩ := p
      obtain ⟨g1, g2, g3, _⟩ := findSampleTimeAndDurationLoop_frame t sampleIndex _ s s2 e1 hl
      simp only [SampleIterator.resolved, Prod.mk.injEq] at g1
      obtain ⟨_, _, g13, g14, _, _⟩ := g1
      cases e1 with
      | OK =>
        simp only [hl] at h
        cases h
        exact ⟨g2, g3, g13, g14⟩
      | ERROR_END_OF_STREAM => simp only [hl] at h; cases h
      | ERROR_MALFORMED => simp only [hl] at h; cases h
      | ERROR_OUT_OF_RANGE => simp only [hl] at h; cases h
      | ERROR_IO => simp only [hl] at h; cases h

/-- The last part of `seekTo`, when it returns `OK`: the cursor is
initialised and stands on `sampleIndex`, the offset is the chunk offset
advanced by the sizes before the sample, the size is the entry of the sample,
and the chunk state and range are as they were. -/
theorem seekToSample_fields (t : SampleTable) (s s1 : SampleIterator) (sampleIndex : Nat)
    (h : seekToSample t s sampleIndex = some (status_t.OK, s1)) :
    s1.mInitialized = true ∧ s1.mCurrentSampleIndex = sampleIndex ∧
    s1.chunkState = s.chunkState ∧ s1.chunkRange = s.chunkRange ∧
    addSampleSizes s.mCurrentChunkSampleSizes
      (sub32 sampleIndex s.mFirstChunkSampleIndex % s.mSamplesPerChunk) s.mCurrentChunkOffset
      = some s1.mCurrentSampleOffset ∧
    s.mCurrentChunkSampleSizes[sub32 sampleIndex s.mFirstChunkSampleIndex % s.mSamplesPerChunk]?
      = some s1.mCurrentSampleSize := by
  unfold seekToSample at h
  simp only at h
  split at h
  · rename_i offset size ho hsz
    split at h
    · cases h
    · rename_i s8 hf
      cases h
      obtain ⟨g1, g2, g3, g4⟩ := findSampleTimeAndDuration_ok_frame t _ _ _ hf
      refine ⟨rfl, rfl, ?_, ?_, ?_, ?_⟩
      · show s8.chunkState = _
        rw [g1]; split <;> rfl
      · show s8.chunkRange = _
        rw [g2]; split <;> rfl
      · rw [ho]
        show some offset = some s8.mCurrentSampleOffset
        rw [g3]; split <;> rfl
      · rw [hsz]
        show some size = some s8.mCurrentSampleSize
        rw [g4]; split <;> rfl
    · rename_i e8 s8 hne hf
      cases h
      exact (hne rfl).elim
  · cases h

theorem wrap64_idem (x : Int) : wrap64 (wrap64 x) = wrap64 x := by
  unfold wrap64
  split <;> split <;> omega

theorem wrap64_add (a b : Int) : wrap64 (wrap64 a + b) = wrap64 (a + b) := by
  unfold wrap64
  split <;> split <;> split <;> omega

theorem wrap64_of_u32 (x : Nat) (h : x < 4294967296) : wrap64 (x : Int) = (x : Int) := by
  unfold wrap64
  split <;> omega

theorem foldl_bigEndian_lt (bs : List Nat) :
    ∀ (acc : Nat), bs.foldl (fun acc b => acc * 256 + b % 256) acc < (acc + 1) * 256 ^ bs.length := by
  induction bs with
  | nil =>
    intro acc
    simp
  | cons b bs ih =>
    intro acc
    simp only [List.foldl_cons, List.length_cons]
    have h1 := ih (acc * 256 + b % 256)
    have h2 : (acc * 256 + b % 256 + 1) * 256 ^ bs.length ≤ (acc + 1) * 256 ^ (bs.length + 1) := by
      have e : (acc + 1) * 256 ^ (bs.length + 1) = (acc * 256 + 256) * 256 ^ bs.length := by
        ring
      rw [e]
      apply Nat.mul_le_mul_right
      have := Nat.mod_lt b (show 256 > 0 by decide)
      omega
    omega

theorem bigEndian_lt (bs : List Nat) : bigEndian bs < 256 ^ bs.length := by
  have h := foldl_bigEndian_lt bs 0
  simpa [bigEndian] using h

/-- The offset `getChunkOffset` stores is a value of `off64_t`. -/
theorem getChunkOffset_wrap (t : SampleTable) (chunk : Nat) (offset : Int)
    (h : getChunkOffset t chunk = some (status_t.OK, offset)) : wrap64 offset = offset := by
  unfold getChunkOffset at h
  split at h
  · cases h
  · split at h
    · split at h
      · cases h
      · rename_i bs _
        split at h
        · cases h
        · cases h
          have h1 := bigEndian_lt (bs.take 4)
          have h2 : (bs.take 4).length ≤ 4 := by simp
          have h3 : 256 ^ (bs.take 4).length ≤ 256 ^ 4 :=
            Nat.pow_le_pow_right (by decide) h2
          have h4 : (256 : Nat) ^ 4 = 4294967296 := by norm_num
          exact wrap64_of_u32 _ (by omega)
    · split at h
      · split at h
        · cases h
        · split at h
          · cases h
          · simp only [Option.some.injEq, Prod.mk.injEq, true_and] at h
            rw [← h]
            exact wrap64_idem _
      · cases h

/-- The loop of `seekTo` that advances the offset adds the sizes of the first
`n` entries of the list in `off64_t` arithmetic. -/
theorem addSampleSizes_eq (sizes : List Nat) (offset : Int) (hoff : wrap64 offset = offset) :
    ∀ (n : Nat), n ≤ sizes.length →
      addSampleSizes sizes n offset = some (wrap64 (offset + ((sizes.take n).sum : Nat))) := by
  intro n
  induction n with
  | zero =>
    intro _
    simp [addSampleSizes, hoff]
  | succ n ih =>
    intro hn
    have hlt : n < sizes.length := by omega
    have h1 := ih (by omega)
    have h2 : sizes[n]? = some sizes[n] := List.getElem?_eq_getElem hlt
    simp only [addSampleSizes, h1, h2]
    rw [wrap64_add, List.sum_take_succ sizes n hlt]
    push_cast
    rw [Int.add_assoc]

theorem chunk_base (es : List SampleToChunkEntry) (r i : Nat) (h : OwnsSample es r i)
    (hi : i < 4294967296) :
    u32 (sub32 i (runFirstSample es r) / runSamplesPerChunk es r + runFirstChunk es r)
      = chunkOf es r i ∧
    sub32 i (runFirstSample es r) % runSamplesPerChunk es r = chunkRelative es r i ∧
    runFirstSample es r
      + u32 (runSamplesPerChunk es r * sub32 (chunkOf es r i) (runFirstChunk es r))
      = chunkFirstSample es r i ∧
    chunkFirstSample es r i + chunkRelative es r i = i ∧
    chunkRelative es r i < runSamplesPerChunk es r := by
  obtain ⟨_, _, hp, hlo, _⟩ := h
  have hs : sub32 i (runFirstSample es r) = i - runFirstSample es r := sub32_of_le hi hlo
  have hC := runFirstChunk_lt es r
  have hq : (i - runFirstSample es r) / runSamplesPerChunk es r ≤ i - runFirstSample es r :=
    Nat.div_le_self _ _
  have hm : runSamplesPerChunk es r * ((i - runFirstSample es r) / runSamplesPerChunk es r)
      ≤ i - runFirstSample es r := Nat.mul_div_le _ _
  have hdm := Nat.div_add_mod (i - runFirstSample es r) (runSamplesPerChunk es r)
  have hml := Nat.mod_lt (i - runFirstSample es r) hp
  have hsub : sub32 (chunkOf es r i) (runFirstChunk es r)
      = (i - runFirstSample es r) / runSamplesPerChunk es r := by
    unfold chunkOf sub32 u32
    generalize (i - runFirstSample es r) / runSamplesPerChunk es r = q at hq
    omega
  refine ⟨by rw [hs]; rfl, by rw [hs]; rfl, ?_, ?_, hml⟩
  · rw [hsub, u32_of_lt (by omega)]
    rfl
  · unfold chunkFirstSample chunkRelative
    omega

theorem cachedChunk_same_chunk (t : SampleTable) (r j i index : Nat) (offset : Int)
    (sizes : List Nat) (hc : CachedChunk t r j index offset sizes)
    (hown : OwnsSample t.entries r i) (hi : i < t.mNumSampleSizes)
    (hq : (j - runFirstSample t.entries r) / runSamplesPerChunk t.entries r
      = (i - runFirstSample t.entries r) / runSamplesPerChunk t.entries r) :
    CachedChunk t r i index offset sizes := by
  unfold CachedChunk chunkOf chunkFirstSample at hc ⊢
  rw [hq] at hc
  obtain ⟨_, _, h3, h4, h5, h6⟩ := hc
  exact ⟨hown, hi, h3, h4, h5, h6⟩

/-- A successful `seekTo` on a cursor whose offset agrees with the table and
whose size cache holds what the data source delivered leaves an initialised
cursor on `sampleIndex` of which the same is true. -/
theorem seekTo_offsetResolved (t : SampleTable) (s s1 : SampleIterator) (i : Nat)
    (hn : t.entries.length < 4294967296) (hN : t.mNumSampleSizes < 4294967296)
    (hinv : OffsetResolved t s) (hrd : WindowRead t s)
    (h : seekTo t s i = some (status_t.OK, s1)) :
    s1.mInitialized = true ∧ s1.mCurrentSampleIndex = i ∧ OffsetResolved t s1 ∧
      WindowRead t s1 := by
  unfold seekTo at h
  split at h
  · cases h
  · rename_i hlt
    split at h
    · cases h
    · split at h
      · rename_i hsame
        cases h
        exact ⟨hsame.1, hsame.2, hinv, hrd⟩
      · cases hr : seekToChunkRange t s i with
        | none => simp [hr] at h
        | some p =>
          obtain ⟨e, s2⟩ := p
          cases e with
          | OK =>
            simp only [hr] at h
            split at h
            · cases h
            · rename_i hstop
              split at h
              · cases h
              · rename_i hspc
                obtain ⟨r, hr2, hfirst⟩ := seekToChunkRange_rangeAt t s s2 i hn
                  (fun hi => (hinv hi).imp (fun r h => h.1)) hr
                obtain ⟨_, f2, f3⟩ := seekToChunkRange_frame t s s2 i status_t.OK hr
                have hrd2 := seekToChunkRange_windowRead t s s2 i status_t.OK hrd hr
                obtain ⟨a1, a2, a3, a4, a5, a6, a7⟩ := hr2
                have hi : i < 4294967296 := by omega
                have hown : OwnsSample t.entries r i := by
                  refine ⟨a1, a3, ?_, ?_, ?_⟩
                  · rw [← a6]; omega
                  · rw [← a5]; exact hfirst
                  · intro hnf
                    obtain ⟨b1, b2⟩ := a7 hnf
                    refine ⟨b1, ?_⟩
                    rw [← b2]
                    omega
                obtain ⟨c1, c2, c3, c4, c5⟩ := chunk_base t.entries r i hown hi
                rw [a4, a5, a6, c1] at h
                cases hc : seekToChunk t s2 (chunkOf t.entries r i) with
                | none => simp [hc] at h
                | some p5 =>
                  obtain ⟨e5, s5⟩ := p5
                  cases e5 with
                  | OK =>
                    simp only [hc] at h
                    have hbase : s2.mFirstChunkSampleIndex
                        + u32 (s2.mSamplesPerChunk
                          * sub32 (chunkOf t.entries r i) s2.mFirstChunk) < 4294967296 := by
                      rw [a4, a5, a6, c3]
                      omega
                    obtain ⟨g1, g2, hrd5, g3⟩ :=
                      seekToChunk_fields t s2 s5 _ hN hbase hrd2 hc
                    have hcached : CachedChunk t r i s5.mCurrentChunkIndex s5.mCurrentChunkOffset
                        s5.mCurrentChunkSampleSizes := by
                      rcases g3 with ⟨k1, k2, k3⟩ | ⟨k1, k2, k3, k4⟩
                      · rw [k3]
                        have hinit : s.mInitialized = true := by
                          rw [← k1]
                          exact (congrArg (fun p => p.1) f2).symm
                        obtain ⟨r0, _, m2, _, _⟩ := hinv hinit
                        have e1 : s2.mCurrentChunkIndex = s.mCurrentChunkIndex :=
                          congrArg (fun p => p.1) f3
                        have e2 : s2.mCurrentChunkOffset = s.mCurrentChunkOffset :=
                          congrArg (fun p => p.2.1) f3
                        have e3 : s2.mCurrentChunkSampleSizes = s.mCurrentChunkSampleSizes :=
                          congrArg (fun p => p.2.2) f3
                        rw [e1, e2, e3]
                        have hj : s.mCurrentSampleIndex < 4294967296 := by
                          have := m2.2.1
                          omega
                        have hidx : chunkOf t.entries r0 s.mCurrentSampleIndex
                            = chunkOf t.entries r i := by
                          rw [← m2.2.2.1, ← e1, ← k2]
                        obtain ⟨n1, n2⟩ := chunkOf_injective t.entries r0 _ r i m2.1 hown hj hi hidx
                        subst n1
                        exact cachedChunk_same_chunk t r0 _ i _ _ _ m2 hown (by omega) n2
                      · refine ⟨hown, by omega, k1, ?_, ?_, ?_⟩
                        · rw [k1]; exact k2
                        · rw [k3]; exact a6
                        · intro k hk
                          rw [← a6] at hk
                          obtain ⟨sz, start, b1, b2, b3⟩ := k4 k hk
                          rw [a4, a5, a6, c3] at b2 b3
                          exact ⟨sz, start, b1, b2, b3⟩
                    obtain ⟨d1, d2, d3, d4, d5, d6⟩ := seekToSample_fields t s5 s1 i h
                    have hrange : RangeAt t s1 r :=
                      rangeAt_congr t s2 s1 r (d4.trans g1) ⟨a1, a2, a3, a4, a5, a6, a7⟩
                    have e1 : s1.mCurrentChunkIndex = s5.mCurrentChunkIndex :=
                      congrArg (fun p => p.1) d3
                    have e2 : s1.mCurrentChunkOffset = s5.mCurrentChunkOffset :=
                      congrArg (fun p => p.2.1) d3
                    have e3 : s1.mCurrentChunkSampleSizes = s5.mCurrentChunkSampleSizes :=
                      congrArg (fun p => p.2.2) d3
                    have e4 : s5.mFirstChunkSampleIndex = runFirstSample t.entries r := by
                      have := congrArg (fun p => p.2.2.1) g1
                      exact this.trans a5
                    have e5 : s5.mSamplesPerChunk = runSamplesPerChunk t.entries r := by
                      have := congrArg (fun p => p.2.2.2.2.2.1) g1
                      exact this.trans a6
                    rw [e4, e5, c2] at d5 d6
                    refine ⟨d1, d2, fun _ => ⟨r, hrange, ?_, ?_, ?_⟩,
                      windowRead_congr t s5 s1 (seekToSample_sizeCache t s5 s1 _ _ h) hrd5⟩
                    · rw [d2, e1, e2, e3]
                      exact hcached
                    · rw [d2, e2, e3]
                      exact d5
                    · rw [d2, e3]
                      exact d6
                  | ERROR_END_OF_STREAM => simp only [hc] at h; cases h
                  | ERROR_MALFORMED => simp only [hc] at h; cases h
                  | ERROR_OUT_OF_RANGE => simp only [hc] at h; cases h
                  | ERROR_IO => simp only [hc] at h; cases h
          | ERROR_END_OF_STREAM => simp only [hr] at h; cases h
          | ERROR_MALFORMED => simp only [hr] at h; cases h
          | ERROR_OUT_OF_RANGE => simp only [hr] at h; cases h
          | ERROR_IO => simp only [hr] at h; cases h

/-- The offset of every cursor reached by successful seeks agrees with the
table, and its size cache holds what the data source delivered. -/
theorem reachedBySeeks_offsetResolved (t : SampleTable) (s : SampleIterator)
    (hn : t.entries.length < 4294967296) (hN : t.mNumSampleSizes < 4294967296)
    (hs : ReachedBySeeks t s) : OffsetResolved t s ∧ WindowRead t s := by
  induction hs with
  | fresh junk =>
    refine ⟨?_, fun _ h => nomatch h⟩
    intro hinit
    cases hinit
  | seek s s1 i _ hseek ih =>
    exact (seekTo_offsetResolved t s s1 i hn hN ih.1 ih.2 hseek).2.2

theorem wrap64_of_nonneg (x : Int) (h0 : 0 ≤ x) (h1 : x < 9223372036854775808) :
    wrap64 x = x := by
  unfold wrap64
  split <;> omega

/-- Where the product of `getChunkOffset` does not wrap, the offset it stores
is the table entry of the chunk.  Let the chunk-offset box lie at an offset
from 0 to below `2^62` and let the number of chunk offsets times the width of
an entry (4 or 8 bytes) be at most `2^32`.  Then an offset `getChunkOffset`
returns with `OK` is `chunkOffsetTableEntry` of the chunk as an `off64_t`; for
32-bit entries it is the entry itself. -/
theorem getChunkOffset_entry (t : SampleTable) (chunk : Nat) (offset : Int)
    (hpos : 0 ≤ t.mChunkOffsetOffset) (hmax : t.mChunkOffsetOffset < 4611686018427387904)
    (h32 : t.mChunkOffsetType = kChunkOffsetType32 → 4 * t.mNumChunkOffsets ≤ 4294967296)
    (h64 : t.mChunkOffsetType ≠ kChunkOffsetType32 → 8 * t.mNumChunkOffsets ≤ 4294967296)
    (h : getChunkOffset t chunk = some (status_t.OK, offset)) :
    ∃ entry : Nat, chunkOffsetTableEntry t chunk = some entry ∧
      offset = wrap64 (entry : Int) ∧
      (t.mChunkOffsetType = kChunkOffsetType32 → offset = (entry : Int)) := by
  have hw := getChunkOffset_wrap t chunk offset h
  unfold getChunkOffset at h
  unfold chunkOffsetTableEntry
  split at h
  · cases h
  · rename_i hlt
    by_cases ht : t.mChunkOffsetType = kChunkOffsetType32
    · have hb := h32 ht
      rw [if_pos ht] at h ⊢
      have hu : u32 (4 * chunk) = 4 * chunk := u32_of_lt (by omega)
      have hp : wrap64 (wrap64 (t.mChunkOffsetOffset + 8) + ((u32 (4 * chunk) : Nat) : Int))
          = t.mChunkOffsetOffset + 8 + 4 * (chunk : Int) := by
        have h8 : wrap64 (t.mChunkOffsetOffset + 8) = t.mChunkOffsetOffset + 8 :=
          wrap64_of_nonneg _ (by omega) (by omega)
        rw [hu, h8]
        push_cast
        exact wrap64_of_nonneg _ (by omega) (by omega)
      rw [hp] at h
      cases hr : t.readAt (t.mChunkOffsetOffset + 8 + 4 * (chunk : Int)) 4 with
      | none =>
        simp only [hr] at h
        cases h
      | some bs =>
        simp only [hr] at h ⊢
        by_cases hlen : bs.length < 4
        · rw [if_pos hlen] at h
          cases h
        · rw [if_neg hlen] at h ⊢
          simp only [Option.some.injEq, Prod.mk.injEq, true_and] at h
          refine ⟨_, rfl, ?_, fun _ => h.symm⟩
          rw [h, hw]
    · have hb := h64 ht
      rw [if_neg ht] at h ⊢
      by_cases ht8 : t.mChunkOffsetType = kChunkOffsetType64
      · rw [if_pos ht8] at h ⊢
        have hu : u32 (8 * chunk) = 8 * chunk := u32_of_lt (by omega)
        have hp : wrap64 (wrap64 (t.mChunkOffsetOffset + 8) + ((u32 (8 * chunk) : Nat) : Int))
            = t.mChunkOffsetOffset + 8 + 8 * (chunk : Int) := by
          have h8 : wrap64 (t.mChunkOffsetOffset + 8) = t.mChunkOffsetOffset + 8 :=
            wrap64_of_nonneg _ (by omega) (by omega)
          rw [hu, h8]
          push_cast
          exact wrap64_of_nonneg _ (by omega) (by omega)
        rw [hp] at h
        cases hr : t.readAt (t.mChunkOffsetOffset + 8 + 8 * (chunk : Int)) 8 with
        | none =>
          simp only [hr] at h
          cases h
        | some bs =>
          simp only [hr] at h ⊢
          by_cases hlen : bs.length < 8
          · rw [if_pos hlen] at h
            cases h
          · rw [if_neg hlen] at h ⊢
            simp only [Option.some.injEq, Prod.mk.injEq, true_and] at h
            exact ⟨_, rfl, h.symm, fun h4 => absurd h4 ht⟩
      · rw [if_neg ht8] at h
        cases h

/-- Where the byte offset is chunk base plus prefix sum.  For every cursor
reached from a new cursor by successful seeks and every `seekTo(i)` that
returns `OK` there is a run `r` of the sample-to-chunk table that owns sample
`i`, and with `c = (i - firstChunkSampleIndex) / samplesPerChunk + firstChunk`
computed for that run as a `uint32_t`: `getChunkOffset(c)` returns `OK` with
some `chunkOffset`; `mCurrentSampleOffset` is `chunkOffset` plus the sum of
the list `sizes`, in `off64_t` arithmetic, where `sizes` holds, for each
sample of chunk `c` that precedes `i` in turn, the size that
`windowSampleSize` gives for a cache window starting at or before that sample,
decoded from the bytes the data source delivers for the window; and
`mCurrentSampleSize` is such a size of sample `i`.  When the first run starts
at chunk 0 the chunk number `c` is exact.  When the chunk-offset box lies at
an offset from 0 to below `2^62` and the number of chunk offsets times the
width of an entry is at most `2^32`, `chunkOffset` is the table entry
`chunkOffsetTableEntry` of chunk `c` as an `off64_t`. -/
theorem seekTo_sample_offset (t : SampleTable) (s s1 : SampleIterator) (i : Nat)
    (hn : t.mNumSampleToChunkOffsets < 4294967296)
    (hN : t.mNumSampleSizes < 4294967296)
    (hs : ReachedBySeeks t s)
    (h : seekTo t s i = some (status_t.OK, s1)) :
    ∃ (r : Nat) (chunkOffset : Int) (sizes : List Nat),
      OwnsSample t.entries r i ∧
      getChunkOffset t (chunkOf t.entries r i) = some (status_t.OK, chunkOffset) ∧
      sizes.length = chunkRelative t.entries r i ∧
      chunkFirstSample t.entries r i + chunkRelative t.entries r i = i ∧
      (∀ k, k < chunkRelative t.entries r i → ∃ size start, sizes[k]? = some size ∧
        start ≤ chunkFirstSample t.entries r i + k ∧
        windowSampleSize t start (chunkFirstSample t.entries r i + k) = some size) ∧
      s1.mCurrentSampleOffset = wrap64 (chunkOffset + ((sizes.sum : Nat) : Int)) ∧
      (∃ start, start ≤ i ∧ windowSampleSize t start i = some s1.mCurrentSampleSize) ∧
      (runFirstChunk t.entries 0 = 0 →
        chunkOf t.entries r i
          = (i - runFirstSample t.entries r) / runSamplesPerChunk t.entries r
            + runFirstChunk t.entries r) ∧
      (0 ≤ t.mChunkOffsetOffset → t.mChunkOffsetOffset < 4611686018427387904 →
        (t.mChunkOffsetType = kChunkOffsetType32 → 4 * t.mNumChunkOffsets ≤ 4294967296) →
        (t.mChunkOffsetType ≠ kChunkOffsetType32 → 8 * t.mNumChunkOffsets ≤ 4294967296) →
        ∃ entry : Nat, chunkOffsetTableEntry t (chunkOf t.entries r i) = some entry ∧
          chunkOffset = wrap64 (entry : Int) ∧
          (t.mChunkOffsetType = kChunkOffsetType32 → chunkOffset = (entry : Int))) := by
  have hn1 : t.entries.length < 4294967296 := by
    rw [← entries_length]
    exact hn
  obtain ⟨hres0, hrd0⟩ := reachedBySeeks_offsetResolved t s hn1 hN hs
  obtain ⟨hinit, hcur, hres, _⟩ := seekTo_offsetResolved t s s1 i hn1 hN hres0 hrd0 h
  obtain ⟨r, _, hc, hoff, hsz⟩ := hres hinit
  rw [hcur] at hc hoff hsz
  obtain ⟨hown, hlt, hidx, hget, hlen, hdec⟩ := hc
  have hi : i < 4294967296 := by omega
  obtain ⟨_, _, _, c4, c5⟩ := chunk_base t.entries r i hown hi
  have hoff2 := addSampleSizes_eq s1.mCurrentChunkSampleSizes s1.mCurrentChunkOffset
    (getChunkOffset_wrap t _ _ hget) (chunkRelative t.entries r i) (by omega)
  rw [hoff] at hoff2
  rw [hidx] at hget
  refine ⟨r, s1.mCurrentChunkOffset,
    s1.mCurrentChunkSampleSizes.take (chunkRelative t.entries r i), hown, hget, ?_, c4, ?_,
    Option.some.inj hoff2, ?_, ?_, ?_⟩
  · rw [List.length_take]
    omega
  · intro k hk
    obtain ⟨sz, start, b1, b2, b3⟩ := hdec k (by omega)
    refine ⟨sz, start, ?_, b2, b3⟩
    rw [List.getElem?_take_of_lt hk]
    exact b1
  · obtain ⟨sz, start, b1, b2, b3⟩ := hdec _ c5
    rw [hsz] at b1
    rw [c4] at b2 b3
    rw [← Option.some.inj b1] at b3
    exact ⟨start, b2, b3⟩
  · intro h0
    obtain ⟨_, w2⟩ := chunk_window t.entries r i hown hi
    unfold chunkOf
    exact u32_of_lt (by omega)
  · intro hpos hmax h32 h64
    exact getChunkOffset_entry t _ _ hpos hmax h32 h64 hget

theorem chunkedCursor1_seek :
    seekTo chunkedTable (SampleIterator.create SampleIterator.zero) 1
      = some (status_t.OK, chunkedCursor1) := by
  decide

theorem chunkedCursor16_seek :
    seekTo chunkedTable chunkedCursor1 6 = some (status_t.OK, chunkedCursor16) := by
  decide

theorem chunkedCursor16_resolved :
    chunkedCursor16.mCurrentSampleOffset = 311 ∧ chunkedCursor16.mCurrentSampleSize = 7 := by
  decide

theorem chunkedTable_chunk :
    chunkOf chunkedTable.entries 1 6 = 2 ∧ chunkFirstSample chunkedTable.entries 1 6 = 4 ∧
    getChunkOffset chunkedTable 2 = some (status_t.OK, 300) ∧
    chunkOffsetTableEntry chunkedTable 2 = some 300 := by
  decide

theorem chunkedTable_sizes :
    ∀ start, start < 7 →
      (start ≤ 4 → windowSampleSize chunkedTable start 4 = some 5) ∧
      (start ≤ 5 → windowSampleSize chunkedTable start 5 = some 6) ∧
      (start ≤ 6 → windowSampleSize chunkedTable start 6 = some 7) := by
  decide

/-- An instance of the theorem above: over `chunkedTable` (sizes 1 to 7; chunk
2 has the table entry 300 and holds the samples 4, 5, 6) the seek from sample
1 to sample 6 leaves the offset `300 + 5 + 6 = 311` and the size 7; every
cache window that starts at or before them gives the samples 4, 5 and 6 the
sizes 5, 6 and 7. -/
theorem seekTo_sample_offset_example :
    (∃ (r : Nat) (chunkOffset : Int) (sizes : List Nat),
      OwnsSample chunkedTable.entries r 6 ∧
      getChunkOffset chunkedTable (chunkOf chunkedTable.entries r 6)
        = some (status_t.OK, chunkOffset) ∧
      sizes.length = chunkRelative chunkedTable.entries r 6 ∧
      chunkFirstSample chunkedTable.entries r 6 + chunkRelative chunkedTable.entries r 6 = 6 ∧
      (∀ k, k < chunkRelative chunkedTable.entries r 6 → ∃ size start, sizes[k]? = some size ∧
        start ≤ chunkFirstSample chunkedTable.entries r 6 + k ∧
        windowSampleSize chunkedTable start (chunkFirstSample chunkedTable.entries r 6 + k)
          = some size) ∧
      chunkedCursor16.mCurrentSampleOffset = wrap64 (chunkOffset + ((sizes.sum : Nat) : Int)) ∧
      (∃ start, start ≤ 6 ∧
        windowSampleSize chunkedTable start 6 = some chunkedCursor16.mCurrentSampleSize) ∧
      (runFirstChunk chunkedTable.entries 0 = 0 →
        chunkOf chunkedTable.entries r 6
          = (6 - runFirstSample chunkedTable.entries r) / runSamplesPerChunk chunkedTable.entries r
            + runFirstChunk chunkedTable.entries r) ∧
      (0 ≤ chunkedTable.mChunkOffsetOffset →
        chunkedTable.mChunkOffsetOffset < 4611686018427387904 →
        (chunkedTable.mChunkOffsetType = kChunkOffsetType32 →
          4 * chunkedTable.mNumChunkOffsets ≤ 4294967296) →
        (chunkedTable.mChunkOffsetType ≠ kChunkOffsetType32 →
          8 * chunkedTable.mNumChunkOffsets ≤ 4294967296) →
        ∃ entry : Nat,
          chunkOffsetTableEntry chunkedTable (chunkOf chunkedTable.entries r 6) = some entry ∧
          chunkOffset = wrap64 (entry : Int) ∧
          (chunkedTable.mChunkOffsetType = kChunkOffsetType32 → chunkOffset = (entry : Int)))) ∧
    (chunkedCursor16.mCurrentSampleOffset = 311 ∧ chunkedCursor16.mCurrentSampleSize = 7) ∧
    (chunkOf chunkedTable.entries 1 6 = 2 ∧ chunkFirstSample chunkedTable.entries 1 6 = 4 ∧
      getChunkOffset chunkedTable 2 = some (status_t.OK, 300) ∧
      chunkOffsetTableEntry chunkedTable 2 = some 300) ∧
    (∀ start, start < 7 →
      (start ≤ 4 → windowSampleSize chunkedTable start 4 = some 5) ∧
      (start ≤ 5 → windowSampleSize chunkedTable start 5 = some 6) ∧
      (start ≤ 6 → windowSampleSize chunkedTable start 6 = some 7)) :=
  ⟨seekTo_sample_offset chunkedTable chunkedCursor1 chunkedCursor16 6 (by decide) (by decide)
      (ReachedBySeeks.seek _ _ 1 (ReachedBySeeks.fresh SampleIterator.zero) chunkedCursor1_seek)
      chunkedCursor16_seek,
    chunkedCursor16_resolved, chunkedTable_chunk, chunkedTable_sizes⟩

/-! ### The checks at the head of `seekTo` -/

/-- C16: missing tables are malformed.  For every cursor state and every
`sampleIndex < mNumSampleSizes`, if the sample-to-chunk offset, the
chunk-offset offset or the sample-size offset is negative, or the
time-to-sample count is 0, `seekTo` returns `ERROR_MALFORMED` and leaves every
member of the cursor as it was. -/
theorem seekTo_missing_tables (t : SampleTable) (s : SampleIterator) (sampleIndex : Nat)
    (hi : sampleIndex < t.mNumSampleSizes)
    (hmiss : t.mSampleToChunkOffset < 0 ∨ t.mChunkOffsetOffset < 0
      ∨ t.mSampleSizeOffset < 0 ∨ t.mTimeToSampleCount = 0) :
    seekTo t s sampleIndex = some (status_t.ERROR_MALFORMED, s) := by
  unfold seekTo
  have h1 : ¬ (sampleIndex ≥ t.mNumSampleSizes) := by omega
  rw [if_neg h1, if_pos hmiss]

/-- C16, an instance: over `missingBoxTable`, whose sample-to-chunk offset is
`-1`, `seekTo(1)` on the cursor left by earlier seeks over another table
returns `ERROR_MALFORMED` and leaves that cursor as it was. -/
theorem seekTo_missing_tables_witness :
    (1 < missingBoxTable.mNumSampleSizes ∧ missingBoxTable.mSampleToChunkOffset < 0) ∧
    seekTo missingBoxTable chunkedCursor16 1
      = some (status_t.ERROR_MALFORMED, chunkedCursor16) :=
  ⟨by decide, seekTo_missing_tables missingBoxTable chunkedCursor16 1 (by decide)
    (Or.inl (by decide))⟩

/-- A successful `seekTo(i)` has passed the two checks at its head and leaves
an initialised cursor on sample `i`. -/
theorem seekTo_ok_current (t : SampleTable) (s s1 : SampleIterator) (i : Nat)
    (h : seekTo t s i = some (status_t.OK, s1)) :
    i < t.mNumSampleSizes ∧
    ¬ (t.mSampleToChunkOffset < 0 ∨ t.mChunkOffsetOffset < 0
      ∨ t.mSampleSizeOffset < 0 ∨ t.mTimeToSampleCount = 0) ∧
    s1.mInitialized = true ∧ s1.mCurrentSampleIndex = i := by
  unfold seekTo at h
  split at h
  · cases h
  · rename_i hlt
    split at h
    · cases h
    · rename_i hoff
      refine ⟨by omega, hoff, ?_⟩
      split at h
      · rename_i hsame
        cases h
        exact hsame
      · cases hr : seekToChunkRange t s i with
        | none => simp [hr] at h
        | some p =>
          obtain ⟨e, s2⟩ := p
          cases e with
          | OK =>
            simp only [hr] at h
            split at h
            · cases h
            · split at h
              · cases h
              · cases hc : seekToChunk t s2
                    (u32 (sub32 i s2.mFirstChunkSampleIndex / s2.mSamplesPerChunk
                      + s2.mFirstChunk)) with
                | none => simp [hc] at h
                | some p5 =>
                  obtain ⟨e5, s5⟩ := p5
                  cases e5 with
                  | OK =>
                    simp only [hc] at h
                    obtain ⟨d1, d2, _⟩ := seekToSample_fields t s5 s1 i h
                    exact ⟨d1, d2⟩
                  | ERROR_END_OF_STREAM => simp only [hc] at h; cases h
                  | ERROR_MALFORMED => simp only [hc] at h; cases h
                  | ERROR_OUT_OF_RANGE => simp only [hc] at h; cases h
                  | ERROR_IO => simp only [hc] at h; cases h
          | ERROR_END_OF_STREAM => simp only [hr] at h; cases h
          | ERROR_MALFORMED => simp only [hr] at h; cases h
          | ERROR_OUT_OF_RANGE => simp only [hr] at h; cases h
          | ERROR_IO => simp only [hr] at h; cases h

/-- C15: `seekTo` is an idempotent no-op on the current index.  For every
table and every cursor `s1` left by a successful `seekTo(i)` (from whatever
cursor state), `seekTo(i)` on `s1` returns `OK` and leaves every member of the
cursor as it was; and it does so whatever the data source of the table
delivers, that is, without consulting a read. -/
theorem seekTo_current_index_noop (t : SampleTable) (s s1 : SampleIterator) (i : Nat)
    (h : seekTo t s i = some (status_t.OK, s1)) :
    seekTo t s1 i = some (status_t.OK, s1) ∧
    ∀ (readAt : Int → Nat → Option (List Nat)),
      seekTo { t with readAt := readAt } s1 i = some (status_t.OK, s1) := by
  obtain ⟨h1, h2, h3, h4⟩ := seekTo_ok_current t s s1 i h
  have key : ∀ (readAt : Int → Nat → Option (List Nat)),
      seekTo { t with readAt := readAt } s1 i = some (status_t.OK, s1) := by
    intro readAt
    unfold seekTo
    have h5 : ¬ (i ≥ ({ t with readAt := readAt } : SampleTable).mNumSampleSizes) := by
      show ¬ (i ≥ t.mNumSampleSizes)
      omega
    rw [if_neg h5]
    have h6 : ¬ (({ t with readAt := readAt } : SampleTable).mSampleToChunkOffset < 0
        ∨ ({ t with readAt := readAt } : SampleTable).mChunkOffsetOffset < 0
        ∨ ({ t with readAt := readAt } : SampleTable).mSampleSizeOffset < 0
        ∨ ({ t with readAt := readAt } : SampleTable).mTimeToSampleCount = 0) := h2
    rw [if_neg h6, if_pos ⟨h3, h4⟩]
  exact ⟨key t.readAt, key⟩

/-- C15, an instance: over `chunkedTable` the cursor left by `seekTo(6)` is
left as it is by a second `seekTo(6)`, also when every read of the data source
fails. -/
theorem seekTo_current_index_noop_witness :
    seekTo chunkedTable chunkedCursor1 6 = some (status_t.OK, chunkedCursor16) ∧
    seekTo chunkedTable chunkedCursor16 6 = some (status_t.OK, chunkedCursor16) ∧
    ∀ (readAt : Int → Nat → Option (List Nat)),
      seekTo { chunkedTable with readAt := readAt } chunkedCursor16 6
        = some (status_t.OK, chunkedCursor16) :=
  ⟨chunkedCursor16_seek,
    seekTo_current_index_noop chunkedTable chunkedCursor1 chunkedCursor16 6 chunkedCursor16_seek⟩

/-! ### Runs with no samples per chunk -/

/-- The body of the loop of `findChunkRange` divides by `samplesPerChunk` when
the run it consults is followed by a run whose first chunk is not below its
own; with `samplesPerChunk = 0` that is a division by zero. -/
theorem findChunkRangeBody_zero_samplesPerChunk (t : SampleTable) (s : SampleIterator)
    (e next : SampleToChunkEntry)
    (he : (t.mSampleToChunkEntries.getD [])[s.mSampleToChunkIndex]? = some e)
    (hnext : (t.mSampleToChunkEntries.getD [])[s.mSampleToChunkIndex + 1]? = some next)
    (hle : u32 e.startChunk ≤ u32 next.startChunk) (hzero : u32 e.samplesPerChunk = 0) :
    findChunkRangeBody t s = none := by
  have hlen : s.mSampleToChunkIndex + 1 < t.mNumSampleToChunkOffsets := by
    obtain ⟨h, _⟩ := List.getElem?_eq_some.mp hnext
    unfold SampleTable.mNumSampleToChunkOffsets
    cases hE : t.mSampleToChunkEntries with
    | none => simp [hE] at h
    | some es => simpa [hE] using h
  have hne : s.mSampleToChunkIndex ≠ t.mNumSampleToChunkOffsets := by omega
  unfold findChunkRangeBody
  rw [if_neg hne]
  simp only [he, hnext, if_pos hlen]
  rw [if_neg (Nat.not_lt.mpr hle), if_pos hzero]

/-- The division `(sampleIndex - mFirstChunkSampleIndex) / mSamplesPerChunk` of
`seekTo` is a division by zero when the chunk range found for `sampleIndex`
has `mSamplesPerChunk = 0`. -/
theorem seekTo_zero_samplesPerChunk (t : SampleTable) (s s2 : SampleIterator) (i : Nat)
    (hi : i < t.mNumSampleSizes)
    (hoff : ¬ (t.mSampleToChunkOffset < 0 ∨ t.mChunkOffsetOffset < 0
      ∨ t.mSampleSizeOffset < 0 ∨ t.mTimeToSampleCount = 0))
    (hcur : ¬ (s.mInitialized = true ∧ s.mCurrentSampleIndex = i))
    (hr : seekToChunkRange t s i = some (status_t.OK, s2))
    (hstop : i < s2.mStopChunkSampleIndex) (hzero : s2.mSamplesPerChunk = 0) :
    seekTo t s i = none := by
  unfold seekTo
  have h1 : ¬ (i ≥ t.mNumSampleSizes) := by omega
  rw [if_neg h1, if_neg hoff, if_neg hcur]
  simp only [hr]
  rw [if_neg (not_not.mpr hstop), if_pos hzero]

/-- C17, evaluated at two failing inputs.  Over `zeroSamplesPerChunkTable`
(one run, `samplesPerChunk = 0`) `seekTo(0)` on a new cursor finds the chunk
range with `mSamplesPerChunk = 0` and then divides by it; over
`zeroSamplesPerChunkRunTable` (a run with `samplesPerChunk = 0` followed by
another run) the overflow guard of `findChunkRange` divides `UINT32_MAX` by
it.  Neither call returns `ERROR_MALFORMED`: both divide by zero. -/
theorem seekTo_zero_samplesPerChunk_divides :
    ((seekToChunkRange zeroSamplesPerChunkTable (SampleIterator.create SampleIterator.zero) 0).map
        (fun p => (p.1, p.2.mSamplesPerChunk, p.2.mStopChunkSampleIndex))
      = some (status_t.OK, 0, 4294967295) ∧
      seekTo zeroSamplesPerChunkTable (SampleIterator.create SampleIterator.zero) 0 = none) ∧
    (findChunkRangeBody zeroSamplesPerChunkRunTable (SampleIterator.create SampleIterator.zero)
        = none ∧
      seekTo zeroSamplesPerChunkRunTable (SampleIterator.create SampleIterator.zero) 0 = none) := by
  decide

/-! ### Unsupported widths of the sample-size field -/

theorem afterSample_trackIndex (track : TrackRecord) (sample : MediaSample)
    (rest : List DequeueResult) :
    (track.afterSample sample rest).mTrackIndex = track.mTrackIndex := by
  unfold TrackRecord.afterSample
  simp only
  split <;> split <;> rfl

theorem afterSample_pending (track : TrackRecord) (sample : MediaSample)
    (rest : List DequeueResult) :
    (track.afterSample sample rest).mSampleQueue.pending = rest := by
  unfold TrackRecord.afterSample
  simp only
  split <;> split <;> rfl

theorem afterSample_reachedEos (track : TrackRecord) (sample : MediaSample)
    (rest : List DequeueResult) :
    (track.afterSample sample rest).mReachedEos
      = (if sample.isEndOfStream = true then true else track.mReachedEos) := by
  unfold TrackRecord.afterSample
  simp only
  split <;> split <;> simp_all

/-- The `do ... while` loop over a track whose queue delivers an end-of-stream
sample, with a muxer whose writes succeed: the loop runs to its end, the calls
it makes are the first of the calls still to be made for the track, and the
queue has become shorter. -/
theorem writeTrackSamples_ready (segmentEndTimeUs : Nat) :
    ∀ (pending : List DequeueResult) (track : TrackRecord) (muxer : Muxer) (samplesLeft : Bool),
      (∀ history i b info, muxer.writeSampleDataResult history i b info = AMEDIA_OK) →
      track.mReachedEos = false →
      endsInEos pending = true →
      ∃ calls,
        (writeTrackSamples segmentEndTimeUs pending track muxer samplesLeft).outcome = none ∧
        (writeTrackSamples segmentEndTimeUs pending track muxer samplesLeft).muxer
          = { muxer with calls := muxer.calls ++ calls } ∧
        calls ++ (writeTrackSamples segmentEndTimeUs pending track muxer samplesLeft).track.expected
          = expectedCalls pending track ∧
        (∀ call ∈ calls, call.trackIndex = some track.mTrackIndex) ∧
        (writeTrackSamples segmentEndTimeUs pending track muxer samplesLeft).track.mTrackIndex
          = track.mTrackIndex ∧
        ((writeTrackSamples segmentEndTimeUs pending track muxer samplesLeft).track.mReachedEos
            = false →
          endsInEos (writeTrackSamples segmentEndTimeUs pending track muxer
            samplesLeft).track.mSampleQueue.pending = true) ∧
        (writeTrackSamples segmentEndTimeUs pending track muxer
            samplesLeft).track.mSampleQueue.pending.length < pending.length ∧
        ((writeTrackSamples segmentEndTimeUs pending track muxer samplesLeft).samplesLeft = false →
          samplesLeft = false ∧
          (writeTrackSamples segmentEndTimeUs pending track muxer samplesLeft).track.mReachedEos
            = true) := by
  intro pending
  induction pending with
  | nil => intro track muxer sl _ _ h; simp [endsInEos] at h
  | cons d rest ih =>
    intro track muxer sl hw hnot hq
    cases d with
    | aborted => simp [endsInEos] at hq
    | sample sample =>
      have hwr : (muxer.writeSampleData (track.afterSample sample rest).mTrackIndex
          (track.rewrite sample).buffer (bufferInfoOf (track.rewrite sample))).1 = AMEDIA_OK :=
        hw _ _ _ _
      by_cases hcont : (track.rewrite sample).info.presentationTimeUs < (segmentEndTimeUs : Int)
          ∧ (track.afterSample sample rest).mReachedEos = false
      · -- the loop continues with the next sample
        have hne : sample.isEndOfStream = false := by
          have := hcont.2
          rw [afterSample_reachedEos] at this
          by_cases he : sample.isEndOfStream = true
          · simp [he] at this
          · simpa using he
        have hq' : endsInEos rest = true := by
          simpa [endsInEos, hne] using hq
        obtain ⟨calls, h1, h2, h3, h4, h5, h6, h7, h8⟩ := ih (track.afterSample sample rest)
          (muxer.writeSampleData (track.afterSample sample rest).mTrackIndex
            (track.rewrite sample).buffer (bufferInfoOf (track.rewrite sample))).2
          (if sample.isEndOfStream = true then sl else true) hw hcont.2 hq'
        have hun : writeTrackSamples segmentEndTimeUs (DequeueResult.sample sample :: rest)
            track muxer sl
            = writeTrackSamples segmentEndTimeUs rest (track.afterSample sample rest)
              (muxer.writeSampleData (track.afterSample sample rest).mTrackIndex
                (track.rewrite sample).buffer (bufferInfoOf (track.rewrite sample))).2
              (if sample.isEndOfStream = true then sl else true) := by
          rw [writeTrackSamples]
          simp only [hwr, ne_eq, not_true_eq_false, if_false, hcont, and_self, if_true]
        rw [hun]
        refine ⟨MuxerCall.writeSampleData track.mTrackIndex (track.rewrite sample).buffer
          (bufferInfoOf (track.rewrite sample)) :: calls, h1, ?_, ?_, ?_, ?_, h6, ?_, ?_⟩
        · rw [h2]
          simp [Muxer.writeSampleData, afterSample_trackIndex]
        · rw [List.cons_append, h3]
          simp [expectedCalls, hne]
        · intro call hc
          rcases List.mem_cons.mp hc with hc | hc
          · rw [hc]; rfl
          · rw [h4 call hc, afterSample_trackIndex]
        · rw [h5, afterSample_trackIndex]
        · simp only [List.length_cons]
          omega
        · intro hsl
          have := (h8 hsl).1
          simp [hne] at this
      · -- the loop ends after this sample
        have hun : writeTrackSamples segmentEndTimeUs (DequeueResult.sample sample :: rest)
            track muxer sl
            = { outcome := none, track := track.afterSample sample rest,
                muxer := (muxer.writeSampleData (track.afterSample sample rest).mTrackIndex
                  (track.rewrite sample).buffer (bufferInfoOf (track.rewrite sample))).2,
                samplesLeft := if sample.isEndOfStream = true then sl else true } := by
          rw [writeTrackSamples]
          simp only [hwr, ne_eq, not_true_eq_false, if_false, hcont]
        rw [hun]
        refine ⟨[MuxerCall.writeSampleData track.mTrackIndex (track.rewrite sample).buffer
          (bufferInfoOf (track.rewrite sample))], rfl, ?_, ?_, ?_, ?_, ?_, ?_, ?_⟩
        · simp [Muxer.writeSampleData, afterSample_trackIndex]
        · simp only [TrackRecord.expected, afterSample_reachedEos, afterSample_pending,
            expectedCalls]
          by_cases he : sample.isEndOfStream = true
          · simp [he]
          · simp [he, hnot]
        · intro call hc
          rw [List.mem_singleton.mp hc]; rfl
        · exact afterSample_trackIndex _ _ _
        · intro hne
          simp only [afterSample_reachedEos] at hne
          simp only [afterSample_pending]
          by_cases he : sample.isEndOfStream = true
          · simp [he] at hne
          · simpa [endsInEos, he] using hq
        · simp [afterSample_pending]
        · intro hsl
          simp only at hsl
          by_cases he : sample.isEndOfStream = true
          · simp only [he, if_true] at hsl
            exact ⟨hsl, by simp [afterSample_reachedEos, he]⟩
          · simp [he] at hsl

theorem callsOn_append (i : Nat) (a b : List MuxerCall) :
    callsOn i (a ++ b) = callsOn i a ++ callsOn i b := by
  unfold callsOn
  exact List.filter_append _ _

theorem callsOn_eq_self (i : Nat) (calls : List MuxerCall)
    (h : ∀ call ∈ calls, call.trackIndex = some i) : callsOn i calls = calls := by
  unfold callsOn
  rw [List.filter_eq_self]
  intro call hc
  simp [h call hc]

theorem callsOn_eq_nil (i j : Nat) (calls : List MuxerCall)
    (h : ∀ call ∈ calls, call.trackIndex = some j) (hij : j ≠ i) : callsOn i calls = [] := by
  unfold callsOn
  rw [List.filter_eq_nil_iff]
  intro call hc
  simp [h call hc, hij]

theorem expectedFor_eq_nil (i : Nat) (tracks : List TrackRecord)
    (h : i ∉ tracks.map (fun track => track.mTrackIndex)) : expectedFor i tracks = [] := by
  induction tracks with
  | nil => rfl
  | cons track rest ih =>
    simp only [List.map_cons, List.mem_cons, not_or] at h
    simp only [expectedFor]
    rw [ih h.2, if_neg (fun hh => h.1 hh.symm)]
    rfl

theorem expectedFor_of_reachedEos (i : Nat) (tracks : List TrackRecord)
    (h : ∀ track ∈ tracks, track.mReachedEos = true) : expectedFor i tracks = [] := by
  induction tracks with
  | nil => rfl
  | cons track rest ih =>
    simp only [expectedFor]
    rw [ih (fun t ht => h t (List.mem_cons_of_mem _ ht))]
    have : track.expected = [] := by
      unfold TrackRecord.expected
      rw [if_pos (h track (List.mem_cons_self _ _))]
    rw [this]
    split <;> rfl

theorem expectedFor_of_mem (tracks : List TrackRecord)
    (hid : (tracks.map (fun track => track.mTrackIndex)).Nodup) :
    ∀ track ∈ tracks, expectedFor track.mTrackIndex tracks = track.expected := by
  induction tracks with
  | nil => intro track h; cases h
  | cons head rest ih =>
    intro track h
    simp only [List.map_cons, List.nodup_cons] at hid
    simp only [expectedFor]
    rcases List.mem_cons.mp h with h | h
    · subst h
      rw [if_pos rfl, expectedFor_eq_nil _ _ hid.1]
      simp
    · have hne : head.mTrackIndex ≠ track.mTrackIndex := by
        intro he
        apply hid.1
        rw [he]
        exact List.mem_map_of_mem _ h
      rw [if_neg hne, ih hid.2 track h]
      rfl

theorem pendingSamples_cons (track : TrackRecord) (rest : List TrackRecord) :
    pendingSamples (track :: rest)
      = track.mSampleQueue.pending.length + pendingSamples rest := by
  simp [pendingSamples]

/-- One pass of the `for` loop over tracks that are ready to be drained, with
a muxer whose writes succeed and distinct output track ids. -/
theorem writeTracks_ready (segmentEndTimeUs : Nat) :
    ∀ (tracks : List TrackRecord) (muxer : Muxer) (samplesLeft : Bool),
      (∀ history i b info, muxer.writeSampleDataResult history i b info = AMEDIA_OK) →
      TracksReady tracks →
      (tracks.map (fun track => track.mTrackIndex)).Nodup →
      ∃ calls,
        (writeTracks segmentEndTimeUs tracks muxer samplesLeft).outcome = none ∧
        (writeTracks segmentEndTimeUs tracks muxer samplesLeft).muxer
          = { muxer with calls := muxer.calls ++ calls } ∧
        (∀ i, callsOn i calls
            ++ expectedFor i (writeTracks segmentEndTimeUs tracks muxer samplesLeft).tracks
          = expectedFor i tracks) ∧
        (∀ call ∈ calls, ∃ track ∈ tracks, call.trackIndex = some track.mTrackIndex) ∧
        (writeTracks segmentEndTimeUs tracks muxer samplesLeft).tracks.map
            (fun track => track.mTrackIndex)
          = tracks.map (fun track => track.mTrackIndex) ∧
        TracksReady (writeTracks segmentEndTimeUs tracks muxer samplesLeft).tracks ∧
        pendingSamples (writeTracks segmentEndTimeUs tracks muxer samplesLeft).tracks
          ≤ pendingSamples tracks ∧
        ((writeTracks segmentEndTimeUs tracks muxer samplesLeft).samplesLeft = true →
          samplesLeft = true ∨
          pendingSamples (writeTracks segmentEndTimeUs tracks muxer samplesLeft).tracks
            < pendingSamples tracks) ∧
        ((writeTracks segmentEndTimeUs tracks muxer samplesLeft).samplesLeft = false →
          samplesLeft = false ∧
          ∀ track ∈ (writeTracks segmentEndTimeUs tracks muxer samplesLeft).tracks,
            track.mReachedEos = true) := by
  intro tracks
  induction tracks with
  | nil =>
    intro muxer sl _ _ _
    refine ⟨[], rfl, ?_, ?_, ?_, rfl, ?_, ?_, ?_, ?_⟩
    · simp [writeTracks]
    · intro i; rfl
    · intro call hc; cases hc
    · intro t ht; cases ht
    · exact le_refl _
    · intro h; exact Or.inl h
    · intro h; exact ⟨h, fun t ht => by cases ht⟩
  | cons track rest ih =>
    intro muxer sl hw hready hid
    have hready' : TracksReady rest := fun t ht => hready t (List.mem_cons_of_mem _ ht)
    have hid' := hid
    simp only [List.map_cons, List.nodup_cons] at hid'
    by_cases heos : track.mReachedEos = true
    · -- a track that has reached the end of its stream is skipped
      obtain ⟨calls, h1, h2, h3, h4, h5, h6, h7, h8, h9⟩ := ih muxer sl hw hready' hid'.2
      have hun : writeTracks segmentEndTimeUs (track :: rest) muxer sl
          = { writeTracks segmentEndTimeUs rest muxer sl with
              tracks := track :: (writeTracks segmentEndTimeUs rest muxer sl).tracks } := by
        rw [writeTracks, if_pos heos]
      rw [hun]
      have hexp : track.expected = [] := by
        unfold TrackRecord.expected
        rw [if_pos heos]
      refine ⟨calls, h1, h2, ?_, ?_, ?_, ?_, ?_, ?_, ?_⟩
      · intro i
        simp only [expectedFor, hexp, ite_self, List.nil_append]
        exact h3 i
      · intro call hc
        obtain ⟨t, ht, htc⟩ := h4 call hc
        exact ⟨t, List.mem_cons_of_mem _ ht, htc⟩
      · simp only [List.map_cons, h5]
      · intro t ht
        rcases List.mem_cons.mp ht with ht | ht
        · subst ht
          intro hh
          rw [heos] at hh
          cases hh
        · exact h6 t ht
      · simp only [pendingSamples_cons]
        omega
      · intro hh
        rcases h8 hh with hh | hh
        · exact Or.inl hh
        · right
          simp only [pendingSamples_cons]
          omega
      · intro hh
        obtain ⟨k1, k2⟩ := h9 hh
        refine ⟨k1, ?_⟩
        intro t ht
        rcases List.mem_cons.mp ht with ht | ht
        · subst ht; exact heos
        · exact k2 t ht
    · -- a track that is drained up to the segment boundary
      have hnot : track.mReachedEos = false := by simpa using heos
      have hq := hready track (List.mem_cons_self _ _) hnot
      obtain ⟨c1, d1, d2, d3, d4, d5, d6, d7, d8⟩ :=
        writeTrackSamples_ready segmentEndTimeUs track.mSampleQueue.pending track muxer sl
          hw hnot hq
      have hw' : ∀ history i b info,
          (writeTrackSamples segmentEndTimeUs track.mSampleQueue.pending track muxer
            sl).muxer.writeSampleDataResult history i b info = AMEDIA_OK := by
        rw [d2]
        exact hw
      obtain ⟨c2, h1, h2, h3, h4, h5, h6, h7, h8, h9⟩ := ih
        (writeTrackSamples segmentEndTimeUs track.mSampleQueue.pending track muxer sl).muxer
        (writeTrackSamples segmentEndTimeUs track.mSampleQueue.pending track muxer
          sl).samplesLeft hw' hready' hid'.2
      have hun : writeTracks segmentEndTimeUs (track :: rest) muxer sl
          = { writeTracks segmentEndTimeUs rest
                (writeTrackSamples segmentEndTimeUs track.mSampleQueue.pending track muxer
                  sl).muxer
                (writeTrackSamples segmentEndTimeUs track.mSampleQueue.pending track muxer
                  sl).samplesLeft with
              tracks := (writeTrackSamples segmentEndTimeUs track.mSampleQueue.pending track
                  muxer sl).track
                :: (writeTracks segmentEndTimeUs rest
                    (writeTrackSamples segmentEndTimeUs track.mSampleQueue.pending track muxer
                      sl).muxer
                    (writeTrackSamples segmentEndTimeUs track.mSampleQueue.pending track muxer
                      sl).samplesLeft).tracks } := by
        rw [writeTracks, if_neg heos]
        simp only [d1]
      rw [hun]
      have hexp : track.expected = expectedCalls track.mSampleQueue.pending track := by
        unfold TrackRecord.expected
        rw [if_neg heos]
      refine ⟨c1 ++ c2, h1, ?_, ?_, ?_, ?_, ?_, ?_, ?_, ?_⟩
      · show (writeTracks segmentEndTimeUs rest _ _).muxer = _
        rw [h2, d2]
        simp
      · intro i
        show callsOn i (c1 ++ c2) ++ expectedFor i (_ :: _) = _
        simp only [expectedFor, callsOn_append, d5]
        by_cases hi : track.mTrackIndex = i
        · subst hi
          have hnil := expectedFor_eq_nil _ _ hid'.1
          have h3' := h3 track.mTrackIndex
          rw [hnil] at h3'
          obtain ⟨e1, e2⟩ := List.append_eq_nil.mp h3'
          rw [if_pos rfl, if_pos rfl, callsOn_eq_self _ _ d4, e1, e2, hnil, hexp, ← d3]
          simp
        · rw [if_neg hi, if_neg hi, callsOn_eq_nil _ _ _ d4 hi]
          simpa using h3 i
      · intro call hc
        rcases List.mem_append.mp hc with hc | hc
        · exact ⟨track, List.mem_cons_self _ _, d4 call hc⟩
        · obtain ⟨t, ht, htc⟩ := h4 call hc
          exact ⟨t, List.mem_cons_of_mem _ ht, htc⟩
      · show List.map _ (_ :: _) = _
        simp only [List.map_cons, h5, d5]
      · intro t ht
        rcases List.mem_cons.mp ht with ht | ht
        · subst ht
          exact d6
        · exact h6 t ht
      · show pendingSamples (_ :: _) ≤ _
        simp only [pendingSamples_cons]
        omega
      · intro _
        right
        show pendingSamples (_ :: _) < _
        simp only [pendingSamples_cons]
        omega
      · intro hh
        obtain ⟨k1, k2⟩ := h9 hh
        obtain ⟨m1, m2⟩ := d8 k1
        refine ⟨m1, ?_⟩
        intro t ht
        rcases List.mem_cons.mp ht with ht | ht
        · subst ht; exact m2
        · exact k2 t ht

/-- The `while` loop over tracks that are ready to be drained, with a muxer
whose writes succeed and distinct output track ids: with one pass of fuel
more than there are pending samples the loop returns `AMEDIA_OK`, every track
has reached the end of its stream, and the calls made on each output track id
are exactly the calls that were still to be made for it. -/
theorem writerLoop_ready (segmentLengthUs : Nat) :
    ∀ (fuel segmentEndTimeUs : Nat) (tracks : List TrackRecord) (muxer : Muxer),
      (∀ history i b info, muxer.writeSampleDataResult history i b info = AMEDIA_OK) →
      TracksReady tracks →
      (tracks.map (fun track => track.mTrackIndex)).Nodup →
      pendingSamples tracks < fuel →
      ∃ r calls,
        writerLoop segmentLengthUs fuel segmentEndTimeUs tracks muxer = some r ∧
        r.outcome = LoopOutcome.returned AMEDIA_OK ∧
        (∀ track ∈ r.tracks, track.mReachedEos = true) ∧
        r.tracks.map (fun track => track.mTrackIndex)
          = tracks.map (fun track => track.mTrackIndex) ∧
        r.muxer.calls = muxer.calls ++ calls ∧
        (∀ call ∈ calls, ∃ track ∈ tracks, call.trackIndex = some track.mTrackIndex) ∧
        (∀ i, callsOn i calls = expectedFor i tracks) := by
  intro fuel
  induction fuel with
  | zero => intro _ _ _ _ _ _ h; omega
  | succ fuel ih =>
    intro segEnd tracks muxer hw hready hid hfuel
    obtain ⟨c1, h1, h2, h3, h4, h5, h6, h7, h8, h9⟩ :=
      writeTracks_ready segEnd tracks muxer false hw hready hid
    by_cases hsl : (writeTracks segEnd tracks muxer false).samplesLeft = true
    · have hlt : pendingSamples (writeTracks segEnd tracks muxer false).tracks < fuel := by
        rcases h8 hsl with hh | hh
        · cases hh
        · omega
      have hw' : ∀ history i b info,
          (writeTracks segEnd tracks muxer false).muxer.writeSampleDataResult history i b info
            = AMEDIA_OK := by
        rw [h2]; exact hw
      obtain ⟨r, c2, k1, k2, k3, k4, k5, k6, k7⟩ := ih (u32 (segEnd + segmentLengthUs))
        (writeTracks segEnd tracks muxer false).tracks
        (writeTracks segEnd tracks muxer false).muxer hw' h6 (by rw [h5]; exact hid) hlt
      refine ⟨r, c1 ++ c2, ?_, k2, k3, k4.trans h5, ?_, ?_, ?_⟩
      · rw [writerLoop]
        simp only [h1, hsl, if_true]
        exact k1
      · rw [k5, h2]
        simp
      · intro call hc
        rcases List.mem_append.mp hc with hc | hc
        · exact h4 call hc
        · obtain ⟨t, ht, htc⟩ := k6 call hc
          have : t.mTrackIndex ∈ tracks.map (fun track => track.mTrackIndex) := by
            rw [← h5]
            exact List.mem_map_of_mem _ ht
          obtain ⟨t0, ht0, he⟩ := List.mem_map.mp this
          exact ⟨t0, ht0, by rw [htc, he]⟩
      · intro i
        rw [callsOn_append, k7 i]
        exact h3 i
    · have hsl' : (writeTracks segEnd tracks muxer false).samplesLeft = false := by
        simpa using hsl
      obtain ⟨_, hall⟩ := h9 hsl'
      refine ⟨WriterRun.mk (LoopOutcome.returned AMEDIA_OK)
          (writeTracks segEnd tracks muxer false).tracks
          (writeTracks segEnd tracks muxer false).muxer
          (u32 (segEnd + segmentLengthUs)), c1, ?_, rfl, hall, h5, ?_, h4, ?_⟩
      · rw [writerLoop]
        simp only [h1, hsl', Bool.false_eq_true, if_false]
      · show (writeTracks segEnd tracks muxer false).muxer.calls = _
        rw [h2]
      · intro i
        have := h3 i
        rw [expectedFor_of_reachedEos i _ hall] at this
        simpa using this

theorem rewrite_buffer (track : TrackRecord) (sample : MediaSample) :
    (track.rewrite sample).buffer = sample.buffer := by
  unfold TrackRecord.rewrite
  split <;> rfl

/-- The buffers of the calls still to be made for a track are the buffers of
the samples its queue delivers up to its first end-of-stream sample. -/
theorem expectedCalls_buffers :
    ∀ (pending : List DequeueResult) (track : TrackRecord),
      (expectedCalls pending track).map MuxerCall.buffer
        = (upToEos pending).map (fun sample => some sample.buffer) := by
  intro pending
  induction pending with
  | nil => intro track; rfl
  | cons d rest ih =>
    intro track
    cases d with
    | aborted => rfl
    | sample sample =>
      simp only [expectedCalls, upToEos]
      by_cases he : sample.isEndOfStream = true
      · simp [he, MuxerCall.buffer, rewrite_buffer]
      · simp [he, MuxerCall.buffer, rewrite_buffer, ih]

/-- C10: per-track order and completeness.  Let every track have a queue that
delivers samples up to an end-of-stream sample with no abort before it, let
no track be marked as having reached the end of its stream, let the output
track ids be distinct, and let every write of the muxer succeed.  Then
`runWriterLoop` returns, its status is `AMEDIA_OK`, every track is marked as
having reached the end of its stream, every call it makes is a write on the
id of one of the tracks, and for each track the buffers written on its
output track id are, in order and each once, the buffers of the samples its
queue delivers up to and including its first end-of-stream sample. -/
theorem runWriterLoop_complete (segmentLengthUs : Nat) (tracks : List TrackRecord)
    (muxer : Muxer)
    (hw : ∀ history i b info, muxer.writeSampleDataResult history i b info = AMEDIA_OK)
    (hq : ∀ track ∈ tracks, track.mReachedEos = false ∧
      endsInEos track.mSampleQueue.pending = true)
    (hid : (tracks.map (fun track => track.mTrackIndex)).Nodup) :
    ∃ r calls,
      runWriterLoop segmentLengthUs tracks muxer = some r ∧
      r.outcome = LoopOutcome.returned AMEDIA_OK ∧
      (∀ track ∈ r.tracks, track.mReachedEos = true) ∧
      r.tracks.length = tracks.length ∧
      r.muxer.calls = muxer.calls ++ calls ∧
      (∀ call ∈ calls, ∃ track ∈ tracks, call.trackIndex = some track.mTrackIndex) ∧
      (∀ track ∈ tracks,
        (callsOn track.mTrackIndex calls).map MuxerCall.buffer
          = (upToEos track.mSampleQueue.pending).map (fun sample => some sample.buffer)) := by
  obtain ⟨r, calls, h1, h2, h3, h4, h5, h6, h7⟩ := writerLoop_ready segmentLengthUs
    (pendingSamples tracks + 1) (u32 segmentLengthUs) tracks muxer hw
    (fun t ht _ => (hq t ht).2) hid (Nat.lt_succ_self _)
  refine ⟨r, calls, h1, h2, h3, ?_, h5, h6, ?_⟩
  · have := congrArg List.length h4
    simpa using this
  · intro track ht
    rw [h7, expectedFor_of_mem tracks hid track ht]
    unfold TrackRecord.expected
    rw [if_neg (by simp [(hq track ht).1])]
    exact expectedCalls_buffers _ _

theorem rewrite_of_set (track : TrackRecord) (sample : MediaSample)
    (hset : track.mFirstSampleTimeSet = true) :
    track.rewrite sample
      = (if sample.isEndOfStream = true ∧ track.mDurationUs > 0 then
          sample.withTime (wrap64 (track.mDurationUs + track.mFirstSampleTimeUs))
        else sample) := by
  unfold TrackRecord.rewrite
  by_cases h : sample.isEndOfStream = true ∧ track.mDurationUs > 0
  · have h3 : sample.isEndOfStream = true ∧ track.mDurationUs > 0
        ∧ track.mFirstSampleTimeSet = true := And.intro h.1 (And.intro h.2 hset)
    rw [if_pos h3, if_pos h]
  · have h3 : ¬ (sample.isEndOfStream = true ∧ track.mDurationUs > 0
        ∧ track.mFirstSampleTimeSet = true) := by
      intro hh
      apply h
      exact And.intro hh.1 hh.2.1
    rw [if_neg h3, if_neg h]

theorem withTime_buffer (sample : MediaSample) (timeUs : Int) :
    (sample.withTime timeUs).buffer = sample.buffer := rfl

theorem afterSample_of_set (track : TrackRecord) (sample : MediaSample)
    (rest : List DequeueResult) (hset : track.mFirstSampleTimeSet = true) :
    (track.afterSample sample rest).mFirstSampleTimeSet = true ∧
    (track.afterSample sample rest).mFirstSampleTimeUs = track.mFirstSampleTimeUs ∧
    (track.afterSample sample rest).mDurationUs = track.mDurationUs := by
  unfold TrackRecord.afterSample
  simp only
  split <;> simp [hset]

theorem afterSample_of_unset (track : TrackRecord) (sample : MediaSample)
    (rest : List DequeueResult) (hset : track.mFirstSampleTimeSet = false) :
    (track.afterSample sample rest).mFirstSampleTimeSet = true ∧
    (track.afterSample sample rest).mFirstSampleTimeUs
      = (track.rewrite sample).info.presentationTimeUs ∧
    (track.afterSample sample rest).mDurationUs = track.mDurationUs := by
  unfold TrackRecord.afterSample
  simp only
  split <;> simp [hset]

/-- Once the first sample time of a track is set, the calls still to be made
for it forward every sample as it is, except for the time of the
end-of-stream sample. -/
theorem expectedCalls_of_set :
    ∀ (pending : List DequeueResult) (track : TrackRecord),
      track.mFirstSampleTimeSet = true →
      expectedCalls pending track
        = forwardedCalls track.mTrackIndex track.mDurationUs track.mFirstSampleTimeUs
            (upToEos pending) := by
  intro pending
  induction pending with
  | nil => intro track _; rfl
  | cons d rest ih =>
    intro track hset
    cases d with
    | aborted => rfl
    | sample sample =>
      obtain ⟨a1, a2, a3⟩ := afterSample_of_set track sample rest hset
      simp only [expectedCalls, upToEos]
      rw [rewrite_buffer, rewrite_of_set track sample hset]
      by_cases he : sample.isEndOfStream = true
      · rw [if_pos he, if_pos he]
        rfl
      · rw [if_neg he, if_neg he, ih _ a1, a2, a3, afterSample_trackIndex]
        rfl

/-- The calls to be made for a track whose first sample, not an end-of-stream
sample, is still in its queue. -/
theorem expectedCalls_of_unset (track : TrackRecord) (first : MediaSample)
    (rest : List DequeueResult) (hset : track.mFirstSampleTimeSet = false)
    (hfirst : first.isEndOfStream = false) :
    expectedCalls (DequeueResult.sample first :: rest) track
      = forwardedCalls track.mTrackIndex track.mDurationUs first.info.presentationTimeUs
          (upToEos (DequeueResult.sample first :: rest)) := by
  have hrw : track.rewrite first = first := by
    unfold TrackRecord.rewrite
    rw [if_neg (by simp [hfirst])]
  obtain ⟨a1, a2, a3⟩ := afterSample_of_unset track first rest hset
  simp only [expectedCalls, upToEos, hfirst, Bool.false_eq_true, if_false]
  rw [expectedCalls_of_set rest _ a1, a2, a3, afterSample_trackIndex, hrw]
  simp only [forwardedCalls, List.map_cons, hfirst, Bool.false_eq_true, false_and, if_false]

theorem upToEos_of_endsInEos :
    ∀ (pending : List DequeueResult), endsInEos pending = true →
      ∃ before eos, upToEos pending = before ++ [eos] ∧ eos.isEndOfStream = true ∧
        ∀ sample ∈ before, sample.isEndOfStream = false := by
  intro pending
  induction pending with
  | nil => intro h; simp [endsInEos] at h
  | cons d rest ih =>
    intro h
    cases d with
    | aborted => simp [endsInEos] at h
    | sample sample =>
      by_cases he : sample.isEndOfStream = true
      · exact ⟨[], sample, by simp [upToEos, he], he, fun _ hs => by cases hs⟩
      · have hq : endsInEos rest = true := by simpa [endsInEos, he] using h
        obtain ⟨before, eos, h1, h2, h3⟩ := ih hq
        refine ⟨sample :: before, eos, by simp [upToEos, he, h1], h2, ?_⟩
        intro s hs
        rcases List.mem_cons.mp hs with hs | hs
        · subst hs; simpa using he
        · exact h3 s hs

/-- C8, as amended: the end-of-stream timestamp rewrite in `runWriterLoop`.
Let every track have a queue that delivers samples up to an end-of-stream
sample, let the output track ids be distinct and let every write succeed.
For a track with declared duration `D` whose first sample time is not set
yet and whose queue delivers first a sample with time `T0` that is not an
end-of-stream sample, the calls on the track's id forward every sample up to
the end-of-stream sample unchanged, and the end-of-stream sample is forwarded
last, with presentation time `D + T0` (the `int64_t` sum) when `D > 0` and
with the presentation time it was dequeued with when `D <= 0`, the default
`D = 0` included. -/
theorem runWriterLoop_eos_timestamp (segmentLengthUs : Nat) (tracks : List TrackRecord)
    (muxer : Muxer) (track : TrackRecord) (first : MediaSample) (rest : List DequeueResult)
    (hw : ∀ history i b info, muxer.writeSampleDataResult history i b info = AMEDIA_OK)
    (hq : ∀ track ∈ tracks, track.mReachedEos = false ∧
      endsInEos track.mSampleQueue.pending = true)
    (hid : (tracks.map (fun track => track.mTrackIndex)).Nodup)
    (ht : track ∈ tracks) (hset : track.mFirstSampleTimeSet = false)
    (hp : track.mSampleQueue.pending = DequeueResult.sample first :: rest)
    (hfirst : first.isEndOfStream = false) :
    ∃ r calls before eos,
      runWriterLoop segmentLengthUs tracks muxer = some r ∧
      r.muxer.calls = muxer.calls ++ calls ∧
      upToEos track.mSampleQueue.pending = before ++ [eos] ∧
      eos.isEndOfStream = true ∧
      callsOn track.mTrackIndex calls
        = before.map (fun sample =>
            MuxerCall.writeSampleData track.mTrackIndex sample.buffer (bufferInfoOf sample))
          ++ [MuxerCall.writeSampleData track.mTrackIndex eos.buffer
              (bufferInfoOf (eos.withTime
                (if track.mDurationUs > 0 then
                  wrap64 (track.mDurationUs + first.info.presentationTimeUs)
                else eos.info.presentationTimeUs)))] := by
  obtain ⟨r, calls, h1, _, _, _, h5, _, h7⟩ := writerLoop_ready segmentLengthUs
    (pendingSamples tracks + 1) (u32 segmentLengthUs) tracks muxer hw
    (fun t ht _ => (hq t ht).2) hid (Nat.lt_succ_self _)
  obtain ⟨before, eos, e1, e2, e3⟩ := upToEos_of_endsInEos _ (hq track ht).2
  refine ⟨r, calls, before, eos, h1, h5, e1, e2, ?_⟩
  rw [h7, expectedFor_of_mem tracks hid track ht]
  unfold TrackRecord.expected
  rw [if_neg (by simp [(hq track ht).1]), hp, expectedCalls_of_unset track first rest hset hfirst,
    ← hp, e1]
  unfold forwardedCalls
  rw [List.map_append]
  have hb : before.map (fun sample =>
      MuxerCall.writeSampleData track.mTrackIndex sample.buffer
        (bufferInfoOf
          (if sample.isEndOfStream = true ∧ track.mDurationUs > 0 then
            sample.withTime (wrap64 (track.mDurationUs + first.info.presentationTimeUs))
          else sample)))
      = before.map (fun sample =>
          MuxerCall.writeSampleData track.mTrackIndex sample.buffer (bufferInfoOf sample)) := by
    apply List.map_congr_left
    intro s hs
    simp only [e3 s hs, Bool.false_eq_true, false_and, if_false]
  have hwt : eos.withTime eos.info.presentationTimeUs = eos := rfl
  rw [hb]
  by_cases hd : track.mDurationUs > 0
  · simp only [List.map_cons, List.map_nil, e2, hd, true_and, if_true]
  · simp only [List.map_cons, List.map_nil, e2, hd, and_false, if_false, hwt]

/-- C8 as amended, an instance: `timedTrack` declares the duration 1000, its
first sample has time 5, and its end-of-stream sample, dequeued with time 99,
is forwarded with time 1005. -/
theorem runWriterLoop_eos_timestamp_witness :
    ∃ r calls before eos,
      runWriterLoop 10 [timedTrack] okMuxer = some r ∧
      r.muxer.calls = okMuxer.calls ++ calls ∧
      upToEos timedTrack.mSampleQueue.pending = before ++ [eos] ∧
      eos.isEndOfStream = true ∧
      callsOn timedTrack.mTrackIndex calls
        = before.map (fun sample =>
            MuxerCall.writeSampleData timedTrack.mTrackIndex sample.buffer
              (bufferInfoOf sample))
          ++ [MuxerCall.writeSampleData timedTrack.mTrackIndex eos.buffer
              (bufferInfoOf (eos.withTime
                (if timedTrack.mDurationUs > 0 then
                  wrap64 (timedTrack.mDurationUs + (sampleAt 1 5 0).info.presentationTimeUs)
                else eos.info.presentationTimeUs)))] :=
  runWriterLoop_eos_timestamp 10 [timedTrack] okMuxer timedTrack (sampleAt 1 5 0)
    [DequeueResult.sample (sampleAt 2 99 SAMPLE_FLAG_END_OF_STREAM)]
    (fun _ _ _ _ => rfl) (by decide) (by decide) (by decide) rfl rfl (by decide)

/-- C8, refuted as stated: `zeroDurationTrack` has the default duration
`D = 0` and its first sample has time `T0 = 5`; the end-of-stream sample,
dequeued with time 99, is forwarded with time 99 and not with
`T0 + D = 5`. -/
theorem runWriterLoop_eos_timestamp_zero_duration :
    (runWriterLoop 10 [zeroDurationTrack] okMuxer).map (fun r => (r.outcome, r.muxer.calls))
      = some (LoopOutcome.returned AMEDIA_OK,
          [MuxerCall.writeSampleData 0 1
              { offset := 0, size := 1, presentationTimeUs := 5, flags := 0 },
            MuxerCall.writeSampleData 0 2
              { offset := 0, size := 1, presentationTimeUs := 99,
                flags := SAMPLE_FLAG_END_OF_STREAM }]) ∧
    (99 : Int) ≠ 5 + zeroDurationTrack.mDurationUs := by
  decide

/-- C10, an instance: the two-track example with a muxer whose writes
succeed. -/
theorem runWriterLoop_complete_witness :
    ∃ r calls,
      runWriterLoop 10 [exampleTrackA, exampleTrackB] okMuxer = some r ∧
      r.outcome = LoopOutcome.returned AMEDIA_OK ∧
      (∀ track ∈ r.tracks, track.mReachedEos = true) ∧
      r.tracks.length = [exampleTrackA, exampleTrackB].length ∧
      r.muxer.calls = okMuxer.calls ++ calls ∧
      (∀ call ∈ calls, ∃ track ∈ [exampleTrackA, exampleTrackB],
        call.trackIndex = some track.mTrackIndex) ∧
      (∀ track ∈ [exampleTrackA, exampleTrackB],
        (callsOn track.mTrackIndex calls).map MuxerCall.buffer
          = (upToEos track.mSampleQueue.pending).map (fun sample => some sample.buffer)) :=
  runWriterLoop_complete 10 [exampleTrackA, exampleTrackB] okMuxer (fun _ _ _ _ => rfl)
    (by decide) (by decide)

/-- A call made for a sample forwards that sample. -/
theorem forwards_rewrite (track : TrackRecord) (sample : MediaSample) (i : Nat)
    (hi : i = track.mTrackIndex) :
    (MuxerCall.writeSampleData i (track.rewrite sample).buffer
      (bufferInfoOf (track.rewrite sample))).forwards (track.mTrackIndex, sample) := by
  unfold MuxerCall.forwards
  refine ⟨hi, rewrite_buffer track sample, ?_⟩
  unfold TrackRecord.rewrite
  split
  · rename_i h
    refine ⟨wrap64 (track.mDurationUs + track.mFirstSampleTimeUs), rfl, ?_⟩
    intro hne
    have h1 : sample.isEndOfStream = true := h.1
    rw [h1] at hne
    cases hne
  · exact ⟨sample.info.presentationTimeUs, rfl, fun _ => rfl⟩

/-- The `do ... while` loop over one track forwards samples of the queue in
the order of the queue, never beyond the first one that reaches the segment
boundary or is the end-of-stream sample; when it runs to its end it has
forwarded all of them up to and including that one. -/
theorem writeTrackSamples_forwards (segmentEndTimeUs : Nat) :
    ∀ (pending : List DequeueResult) (track : TrackRecord) (muxer : Muxer) (samplesLeft : Bool),
      track.mReachedEos = false →
      ∃ calls targets,
        (writeTrackSamples segmentEndTimeUs pending track muxer samplesLeft).muxer.calls
          = muxer.calls ++ calls ∧
        List.Forall₂ MuxerCall.forwards calls
          (targets.map (fun sample => (track.mTrackIndex, sample))) ∧
        targets <+: forwardedThrough segmentEndTimeUs pending ∧
        ((writeTrackSamples segmentEndTimeUs pending track muxer samplesLeft).outcome = none →
          targets = forwardedThrough segmentEndTimeUs pending) := by
  intro pending
  induction pending with
  | nil =>
    intro track muxer sl _
    refine ⟨[], [], ?_, List.Forall₂.nil, List.nil_prefix, ?_⟩
    · simp [writeTrackSamples]
    · intro h
      simp [writeTrackSamples] at h
  | cons d rest ih =>
    intro track muxer sl hnot
    cases d with
    | aborted =>
      refine ⟨[], [], ?_, List.Forall₂.nil, List.nil_prefix, ?_⟩
      · simp [writeTrackSamples]
      · intro h
        simp [writeTrackSamples] at h
    | sample sample =>
      rw [writeTrackSamples]
      try simp only
      have hcall := forwards_rewrite track sample (track.afterSample sample rest).mTrackIndex
        (afterSample_trackIndex track sample rest)
      have hhead : [sample] <+: forwardedThrough segmentEndTimeUs
          (DequeueResult.sample sample :: rest) := by
        simp only [forwardedThrough]
        split
        · exact List.prefix_refl _
        · exact ⟨_, rfl⟩
      by_cases hok : (muxer.writeSampleData (track.afterSample sample rest).mTrackIndex
          (track.rewrite sample).buffer (bufferInfoOf (track.rewrite sample))).1 ≠ AMEDIA_OK
      · rw [if_pos hok]
        refine ⟨[MuxerCall.writeSampleData (track.afterSample sample rest).mTrackIndex
            (track.rewrite sample).buffer (bufferInfoOf (track.rewrite sample))], [sample],
          ?_, ?_, hhead, ?_⟩
        · simp [Muxer.writeSampleData]
        · exact List.Forall₂.cons hcall List.Forall₂.nil
        · intro h
          cases h
      · rw [if_neg hok]
        by_cases hcont : (track.rewrite sample).info.presentationTimeUs < (segmentEndTimeUs : Int)
            ∧ (track.afterSample sample rest).mReachedEos = false
        · rw [if_pos hcont]
          obtain ⟨calls, targets, h1, h2, h3, h4⟩ := ih (track.afterSample sample rest)
            (muxer.writeSampleData (track.afterSample sample rest).mTrackIndex
              (track.rewrite sample).buffer (bufferInfoOf (track.rewrite sample))).2
            (if sample.isEndOfStream = true then sl else true) hcont.2
          have hne : sample.isEndOfStream = false := by
            have := hcont.2
            rw [afterSample_reachedEos] at this
            by_cases he : sample.isEndOfStream = true
            · simp [he] at this
            · simpa using he
          have hrw : track.rewrite sample = sample := by
            unfold TrackRecord.rewrite
            rw [if_neg (by simp [hne])]
          have hlt : ¬ (sample.info.presentationTimeUs ≥ (segmentEndTimeUs : Int)
              ∨ sample.isEndOfStream = true) := by
            have := hcont.1
            rw [hrw] at this
            simp [hne]
            omega
          have hft : forwardedThrough segmentEndTimeUs (DequeueResult.sample sample :: rest)
              = sample :: forwardedThrough segmentEndTimeUs rest := by
            simp only [forwardedThrough, if_neg hlt]
          refine ⟨MuxerCall.writeSampleData (track.afterSample sample rest).mTrackIndex
              (track.rewrite sample).buffer (bufferInfoOf (track.rewrite sample)) :: calls,
            sample :: targets, ?_, ?_, ?_, ?_⟩
          · rw [h1]
            simp [Muxer.writeSampleData]
          · rw [afterSample_trackIndex] at h2
            exact List.Forall₂.cons hcall h2
          · rw [hft]
            exact (List.prefix_cons_inj sample).2 h3
          · intro h
            rw [hft, h4 h]
        · rw [if_neg hcont]
          have hge : sample.info.presentationTimeUs ≥ (segmentEndTimeUs : Int)
              ∨ sample.isEndOfStream = true := by
            by_cases he : sample.isEndOfStream = true
            · exact Or.inr he
            · left
              have hrw : track.rewrite sample = sample := by
                unfold TrackRecord.rewrite
                rw [if_neg (by simp [he])]
              rw [hrw, afterSample_reachedEos, if_neg he] at hcont
              simp only [hnot, and_true, not_lt] at hcont
              exact hcont
          refine ⟨[MuxerCall.writeSampleData (track.afterSample sample rest).mTrackIndex
              (track.rewrite sample).buffer (bufferInfoOf (track.rewrite sample))], [sample],
            ?_, ?_, hhead, ?_⟩
          · simp [Muxer.writeSampleData]
          · exact List.Forall₂.cons hcall List.Forall₂.nil
          · intro _
            simp only [forwardedThrough, if_pos hge]

/-- The `for` loop over the tracks forwards samples in the order of
`passOrder`; when it runs to its end it has forwarded all of them. -/
theorem writeTracks_forwards (segmentEndTimeUs : Nat) :
    ∀ (tracks : List TrackRecord) (muxer : Muxer) (samplesLeft : Bool),
      ∃ calls targets,
        (writeTracks segmentEndTimeUs tracks muxer samplesLeft).muxer.calls
          = muxer.calls ++ calls ∧
        List.Forall₂ MuxerCall.forwards calls targets ∧
        targets <+: passOrder segmentEndTimeUs tracks ∧
        ((writeTracks segmentEndTimeUs tracks muxer samplesLeft).outcome = none →
          targets = passOrder segmentEndTimeUs tracks) := by
  intro tracks
  induction tracks with
  | nil =>
    intro muxer sl
    exact ⟨[], [], by simp [writeTracks], List.Forall₂.nil, List.nil_prefix,
      fun _ => by simp [passOrder]⟩
  | cons track rest ih =>
    intro muxer sl
    rw [writeTracks]
    by_cases he : track.mReachedEos = true
    · rw [if_pos he]
      obtain ⟨calls, targets, h1, h2, h3, h4⟩ := ih muxer sl
      refine ⟨calls, targets, h1, h2, ?_, ?_⟩
      · simp only [passOrder, if_pos he, List.nil_append]
        exact h3
      · intro h
        simp only [passOrder, if_pos he, List.nil_append]
        exact h4 h
    · rw [if_neg he]
      have hnot : track.mReachedEos = false := by simpa using he
      obtain ⟨calls1, targets1, h1, h2, h3, h4⟩ :=
        writeTrackSamples_forwards segmentEndTimeUs track.mSampleQueue.pending track muxer sl hnot
      cases ho : (writeTrackSamples segmentEndTimeUs track.mSampleQueue.pending track muxer
          sl).outcome with
      | some out =>
        simp only [ho]
        refine ⟨calls1, targets1.map (fun sample => (track.mTrackIndex, sample)), h1, h2, ?_, ?_⟩
        · simp only [passOrder, if_neg he]
          exact (List.IsPrefix.map _ h3).trans (List.prefix_append _ _)
        · intro h
          cases h
      | none =>
        simp only [ho]
        obtain ⟨calls2, targets2, h5, h6, h7, h8⟩ := ih
          (writeTrackSamples segmentEndTimeUs track.mSampleQueue.pending track muxer sl).muxer
          (writeTrackSamples segmentEndTimeUs track.mSampleQueue.pending track muxer
            sl).samplesLeft
        have h9 := h4 ho
        refine ⟨calls1 ++ calls2,
          (forwardedThrough segmentEndTimeUs track.mSampleQueue.pending).map
            (fun sample => (track.mTrackIndex, sample)) ++ targets2, ?_, ?_, ?_, ?_⟩
        · rw [h5, h1, List.append_assoc]
        · rw [h9] at h2
          exact List.rel_append h2 h6
        · simp only [passOrder, if_neg he]
          exact (List.prefix_append_right_inj _).2 h7
        · intro h
          simp only [passOrder, if_neg he]
          rw [h8 h]

/-- C9: a pass of `runWriterLoop` with segment boundary `segmentEndTimeUs`
makes `writeSampleData` calls that forward samples in the order of
`passOrder`: the tracks that have not reached the end of their stream are
visited in registration order, and each forwards its consecutively dequeued
samples up to and including the first one whose presentation time is at or
after the boundary or that is the end-of-stream sample, before the next track
is visited.  A pass that is cut short (by a failed write, an aborted queue or
a queue that delivers nothing more) has forwarded an initial part of that
order; a pass that runs to its end has forwarded all of it, and the loop then
either goes on with the boundary advanced by the segment length or returns
`AMEDIA_OK`. -/
theorem runWriterLoop_pass_round_robin (mTrackSegmentLengthUs fuel segmentEndTimeUs : Nat)
    (tracks : List TrackRecord) (muxer : Muxer) :
    ∃ calls targets,
      (writeTracks segmentEndTimeUs tracks muxer false).muxer.calls = muxer.calls ++ calls ∧
      List.Forall₂ MuxerCall.forwards calls targets ∧
      targets <+: passOrder segmentEndTimeUs tracks ∧
      ((writeTracks segmentEndTimeUs tracks muxer false).outcome = none →
        targets = passOrder segmentEndTimeUs tracks ∧
        writerLoop mTrackSegmentLengthUs (fuel + 1) segmentEndTimeUs tracks muxer
          = if (writeTracks segmentEndTimeUs tracks muxer false).samplesLeft = true then
              writerLoop mTrackSegmentLengthUs fuel
                (u32 (segmentEndTimeUs + mTrackSegmentLengthUs))
                (writeTracks segmentEndTimeUs tracks muxer false).tracks
                (writeTracks segmentEndTimeUs tracks muxer false).muxer
            else
              some (WriterRun.mk (LoopOutcome.returned AMEDIA_OK)
                (writeTracks segmentEndTimeUs tracks muxer false).tracks
                (writeTracks segmentEndTimeUs tracks muxer false).muxer
                (u32 (segmentEndTimeUs + mTrackSegmentLengthUs)))) := by
  obtain ⟨calls, targets, h1, h2, h3, h4⟩ :=
    writeTracks_forwards segmentEndTimeUs tracks muxer false
  refine ⟨calls, targets, h1, h2, h3, ?_⟩
  intro h
  refine ⟨h4 h, ?_⟩
  rw [writerLoop]
  simp only [h]

theorem exampleTracks_pass :
    (writeTracks 10 [exampleTrackA, exampleTrackB] okMuxer false).outcome = none ∧
    (writeTracks 10 [exampleTrackA, exampleTrackB] okMuxer false).samplesLeft = true ∧
    (writeTracks 10 [exampleTrackA, exampleTrackB] okMuxer false).muxer.calls
      = [MuxerCall.writeSampleData 0 1 (bufferInfoOf (sampleAt 1 0 0)),
         MuxerCall.writeSampleData 0 2 (bufferInfoOf (sampleAt 2 10 0)),
         MuxerCall.writeSampleData 1 11 (bufferInfoOf (sampleAt 11 0 0)),
         MuxerCall.writeSampleData 1 12 (bufferInfoOf (sampleAt 12 15 0))] := by
  decide

theorem exampleTracks_passOrder :
    passOrder 10 [exampleTrackA, exampleTrackB]
      = [(0, sampleAt 1 0 0), (0, sampleAt 2 10 0), (1, sampleAt 11 0 0), (1, sampleAt 12 15 0)] ∧
    u32 10 = 10 ∧ pendingSamples [exampleTrackA, exampleTrackB] + 1 = 8 + 1 ∧
    u32 (10 + 10) = 20 := by
  decide

/-- C9 witness: tracks A (times 0, 10, 20) and B (times 0, 15, 30) with
segment length 10.  The first pass of `runWriterLoop` has boundary 10, runs to
its end, writes A at 0, A at 10, B at 0, B at 15 in this order, and the loop
goes on with boundary 20. -/
theorem runWriterLoop_pass_round_robin_witness :
    (∃ calls targets,
      (writeTracks 10 [exampleTrackA, exampleTrackB] okMuxer false).muxer.calls
        = okMuxer.calls ++ calls ∧
      List.Forall₂ MuxerCall.forwards calls targets ∧
      targets <+: passOrder 10 [exampleTrackA, exampleTrackB] ∧
      ((writeTracks 10 [exampleTrackA, exampleTrackB] okMuxer false).outcome = none →
        targets = passOrder 10 [exampleTrackA, exampleTrackB] ∧
        writerLoop 10 (8 + 1) 10 [exampleTrackA, exampleTrackB] okMuxer
          = if (writeTracks 10 [exampleTrackA, exampleTrackB] okMuxer false).samplesLeft = true
            then
              writerLoop 10 8 (u32 (10 + 10))
                (writeTracks 10 [exampleTrackA, exampleTrackB] okMuxer false).tracks
                (writeTracks 10 [exampleTrackA, exampleTrackB] okMuxer false).muxer
            else
              some (WriterRun.mk (LoopOutcome.returned AMEDIA_OK)
                (writeTracks 10 [exampleTrackA, exampleTrackB] okMuxer false).tracks
                (writeTracks 10 [exampleTrackA, exampleTrackB] okMuxer false).muxer
                (u32 (10 + 10))))) ∧
    ((writeTracks 10 [exampleTrackA, exampleTrackB] okMuxer false).outcome = none ∧
      (writeTracks 10 [exampleTrackA, exampleTrackB] okMuxer false).samplesLeft = true ∧
      (writeTracks 10 [exampleTrackA, exampleTrackB] okMuxer false).muxer.calls
        = [MuxerCall.writeSampleData 0 1 (bufferInfoOf (sampleAt 1 0 0)),
           MuxerCall.writeSampleData 0 2 (bufferInfoOf (sampleAt 2 10 0)),
           MuxerCall.writeSampleData 1 11 (bufferInfoOf (sampleAt 11 0 0)),
           MuxerCall.writeSampleData 1 12 (bufferInfoOf (sampleAt 12 15 0))]) ∧
    (passOrder 10 [exampleTrackA, exampleTrackB]
      = [(0, sampleAt 1 0 0), (0, sampleAt 2 10 0), (1, sampleAt 11 0 0), (1, sampleAt 12 15 0)] ∧
      u32 10 = 10 ∧ pendingSamples [exampleTrackA, exampleTrackB] + 1 = 8 + 1 ∧
      u32 (10 + 10) = 20) :=
  ⟨runWriterLoop_pass_round_robin 10 8 10 [exampleTrackA, exampleTrackB] okMuxer,
    exampleTracks_pass, exampleTracks_passOrder⟩

/-! ### The lifecycle of the writer -/

/-- C11: rejected lifecycle calls do not mutate the writer.  `init` on a
writer that is not `UNINITIALIZED` returns `false` and leaves the writer (its
state, muxer and callback included) as it was; `addTrack` in a state other
than `INITIALIZED` returns `false` and leaves the writer as it was, the call
log of its muxer and its track list included; `start` with no registered
track returns `false` and leaves the writer as it was, its state and its
thread included. -/
theorem rejected_calls_leave_writer (w : MediaSampleWriter) :
    (∀ (muxer : Option Muxer) (callback : Option OnWritingFinishedCallback),
      w.mState ≠ WriterState.UNINITIALIZED → w.init muxer callback = (false, w)) ∧
    (∀ (sampleQueue : Option MediaSampleQueue) (trackFormat : Option AMediaFormat),
      w.mState ≠ WriterState.INITIALIZED →
      w.addTrack sampleQueue trackFormat = some (false, w)) ∧
    (w.mTracks = [] → w.start = (false, w)) := by
  refine ⟨?_, ?_, ?_⟩
  · intro muxer callback h
    unfold MediaSampleWriter.init
    cases callback with
    | none => rfl
    | some cb =>
      cases muxer with
      | none => rfl
      | some m =>
        simp only
        rw [if_pos h]
  · intro sampleQueue trackFormat h
    unfold MediaSampleWriter.addTrack
    cases sampleQueue with
    | none => rfl
    | some queue =>
      cases trackFormat with
      | none => rfl
      | some format =>
        simp only
        rw [if_pos h]
  · intro h
    unfold MediaSampleWriter.start
    rw [h]
    rfl

/-- What the lifecycle calls keep true of a writer: an `INITIALIZED` writer
has a muxer, and a thread has been created exactly when the writer is
`STARTED` or `STOPPED`. -/
theorem lifecycle_step (w : MediaSampleWriter) (c : WriterCall)
    (hm : w.mState = WriterState.INITIALIZED → w.mMuxer.isSome = true)
    (ht : w.threadsCreated
      = if w.mState = WriterState.STARTED ∨ w.mState = WriterState.STOPPED then 1 else 0) :
    ∃ result w1, w.call c = some (result, w1) ∧
      (w1.mState = WriterState.INITIALIZED → w1.mMuxer.isSome = true) ∧
      (w1.threadsCreated
        = if w1.mState = WriterState.STARTED ∨ w1.mState = WriterState.STOPPED then 1 else 0) ∧
      WriterState.StaysOrAdvances w.mState w1.mState ∧
      ((c.isStart && result) = true →
        w.mState = WriterState.INITIALIZED ∧ w1.mState = WriterState.STARTED) := by
  have stay : WriterState.StaysOrAdvances w.mState w.mState := Or.inl rfl
  cases c with
  | init muxer callback =>
    have hns : ∀ (r : Bool), ((WriterCall.init muxer callback).isStart && r) = true →
        w.mState = WriterState.INITIALIZED ∧ w.mState = WriterState.STARTED := by
      intro r h
      simp [WriterCall.isStart] at h
    have hcall : w.call (WriterCall.init muxer callback) = some (w.init muxer callback) := rfl
    rw [hcall]
    unfold MediaSampleWriter.init
    cases callback with
    | none => exact ⟨false, w, rfl, hm, ht, stay, hns false⟩
    | some cb =>
      cases muxer with
      | none => exact ⟨false, w, rfl, hm, ht, stay, hns false⟩
      | some m =>
        simp only
        by_cases hs : w.mState ≠ WriterState.UNINITIALIZED
        · rw [if_pos hs]
          exact ⟨false, w, rfl, hm, ht, stay, hns false⟩
        · rw [if_neg hs]
          have hs1 : w.mState = WriterState.UNINITIALIZED := not_not.mp hs
          have ht1 : w.threadsCreated = 0 := by
            rw [ht, hs1]
            decide
          refine ⟨true, _, rfl, (fun _ => rfl), ?_, Or.inr (Or.inl ⟨hs1, rfl⟩), ?_⟩
          · show w.threadsCreated = _
            rw [ht1]
            simp
          · intro h
            simp [WriterCall.isStart] at h
  | addTrack sampleQueue trackFormat =>
    have hns : ∀ (r : Bool), ((WriterCall.addTrack sampleQueue trackFormat).isStart && r) = true →
        w.mState = WriterState.INITIALIZED ∧ w.mState = WriterState.STARTED := by
      intro r h
      simp [WriterCall.isStart] at h
    have hcall : w.call (WriterCall.addTrack sampleQueue trackFormat)
        = w.addTrack sampleQueue trackFormat := rfl
    rw [hcall]
    unfold MediaSampleWriter.addTrack
    cases sampleQueue with
    | none => exact ⟨false, w, rfl, hm, ht, stay, hns false⟩
    | some queue =>
      cases trackFormat with
      | none => exact ⟨false, w, rfl, hm, ht, stay, hns false⟩
      | some format =>
        simp only
        by_cases hs : w.mState ≠ WriterState.INITIALIZED
        · rw [if_pos hs]
          exact ⟨false, w, rfl, hm, ht, stay, hns false⟩
        · rw [if_neg hs]
          have hs1 : w.mState = WriterState.INITIALIZED := not_not.mp hs
          have hsome := hm hs1
          cases hmux : w.mMuxer with
          | none => rw [hmux] at hsome; cases hsome
          | some muxer =>
            simp only
            split
            · exact ⟨false, _, rfl, (fun _ => rfl), ht, stay, hns false⟩
            · exact ⟨true, _, rfl, (fun _ => rfl), ht, stay, hns true⟩
  | start =>
    have hcall : w.call WriterCall.start = some w.start := rfl
    rw [hcall]
    unfold MediaSampleWriter.start
    by_cases h0 : w.mTracks.length = 0
    · rw [if_pos h0]
      exact ⟨false, w, rfl, hm, ht, stay, (fun h => by simp at h)⟩
    · rw [if_neg h0]
      by_cases hs : w.mState ≠ WriterState.INITIALIZED
      · rw [if_pos hs]
        exact ⟨false, w, rfl, hm, ht, stay, (fun h => by simp at h)⟩
      · rw [if_neg hs]
        have hs1 : w.mState = WriterState.INITIALIZED := not_not.mp hs
        have ht1 : w.threadsCreated = 0 := by
          rw [ht, hs1]
          decide
        refine ⟨true, _, rfl, (fun h => by cases h), ?_,
          Or.inr (Or.inr (Or.inl ⟨hs1, rfl⟩)), (fun _ => ⟨hs1, rfl⟩)⟩
        show w.threadsCreated + 1 = _
        rw [ht1]
        simp
  | stop =>
    have hns : ∀ (r : Bool), (WriterCall.stop.isStart && r) = true →
        w.mState = WriterState.INITIALIZED ∧ w.mState = WriterState.STARTED := by
      intro r h
      simp [WriterCall.isStart] at h
    have hcall : w.call WriterCall.stop = some w.stop := rfl
    rw [hcall]
    unfold MediaSampleWriter.stop
    by_cases hs : w.mState ≠ WriterState.STARTED
    · rw [if_pos hs]
      exact ⟨false, w, rfl, hm, ht, stay, hns false⟩
    · rw [if_neg hs]
      have hs1 : w.mState = WriterState.STARTED := not_not.mp hs
      have ht1 : w.threadsCreated = 1 := by
        rw [ht, hs1]
        decide
      refine ⟨true, _, rfl, (fun h => by cases h), ?_,
        Or.inr (Or.inr (Or.inr ⟨hs1, rfl⟩)), ?_⟩
      · show w.threadsCreated = _
        rw [ht1]
        simp
      · intro h
        simp [WriterCall.isStart] at h

/-- A sequence of lifecycle calls on a writer as `lifecycle_step` describes
it: every call returns, `mState` stays or advances at every call, `start()`
returns `true` at most once (and not at all once the writer is `STARTED` or
`STOPPED`), and at most one thread is ever created. -/
theorem lifecycle_calls (cs : List WriterCall) :
    ∀ (w : MediaSampleWriter),
      (w.mState = WriterState.INITIALIZED → w.mMuxer.isSome = true) →
      (w.threadsCreated
        = if w.mState = WriterState.STARTED ∨ w.mState = WriterState.STOPPED then 1 else 0) →
      ∃ trace, w.calls cs = some trace ∧
        List.Chain WriterState.StaysOrAdvances w.mState (trace.map (fun e => e.2.2.mState)) ∧
        (trace.filter (fun e => e.1.isStart && e.2.1)).length
          ≤ (if w.mState = WriterState.UNINITIALIZED ∨ w.mState = WriterState.INITIALIZED
              then 1 else 0) ∧
        ∀ e ∈ trace, e.2.2.threadsCreated ≤ 1 := by
  induction cs with
  | nil =>
    intro w _ _
    exact ⟨[], rfl, List.Chain.nil, Nat.zero_le _, fun e he => by cases he⟩
  | cons c cs ih =>
    intro w hm ht
    obtain ⟨result, w1, hcall, hm1, ht1, hstep, hstart⟩ := lifecycle_step w c hm ht
    obtain ⟨trace, htrace, hchain, hcount, hthreads⟩ := ih w1 hm1 ht1
    refine ⟨(c, result, w1) :: trace, ?_, ?_, ?_, ?_⟩
    · unfold MediaSampleWriter.calls
      simp only [hcall, htrace]
    · exact List.Chain.cons hstep hchain
    · by_cases hsr : (c.isStart && result) = true
      · obtain ⟨a, b⟩ := hstart hsr
        rw [List.filter_cons]
        simp only [hsr, if_true, List.length_cons]
        rw [b] at hcount
        rw [a]
        simp only [or_true, if_true]
        have h0 : (if WriterState.STARTED = WriterState.UNINITIALIZED
            ∨ WriterState.STARTED = WriterState.INITIALIZED then 1 else 0) = 0 := by decide
        rw [h0] at hcount
        omega
      · rw [List.filter_cons]
        simp only [hsr, if_false]
        refine Nat.le_trans hcount ?_
        rcases hstep with h | ⟨h1, h2⟩ | ⟨h1, h2⟩ | ⟨h1, h2⟩
        · rw [h]
        · rw [h1, h2]
          decide
        · rw [h1, h2]
          decide
        · rw [h1, h2]
          decide
    · intro e he
      rcases List.mem_cons.mp he with h | h
      · rw [h]
        show w1.threadsCreated ≤ 1
        rw [ht1]
        split <;> omega
      · exact hthreads e h

/-- C12: one-way lifecycle.  For every sequence of `init`, `addTrack`, `start`
and `stop` calls on a new writer, every call returns, `mState` after each call
is the state before it or the next state along
`UNINITIALIZED -> INITIALIZED -> STARTED -> STOPPED` (it never goes back and
never skips a state), `start()` returns `true` at most once, and the number of
threads created is at most one after every call. -/
theorem lifecycle_one_way (trackSegmentLengthUs : Nat) (cs : List WriterCall) :
    ∃ trace, (MediaSampleWriter.create trackSegmentLengthUs).calls cs = some trace ∧
      List.Chain WriterState.StaysOrAdvances WriterState.UNINITIALIZED
        (trace.map (fun e => e.2.2.mState)) ∧
      (trace.filter (fun e => e.1.isStart && e.2.1)).length ≤ 1 ∧
      ∀ e ∈ trace, e.2.2.threadsCreated ≤ 1 := by
  obtain ⟨trace, h1, h2, h3, h4⟩ := lifecycle_calls cs
    (MediaSampleWriter.create trackSegmentLengthUs) (fun h => by cases h) rfl
  exact ⟨trace, h1, h2, h3, h4⟩

/-- C11, an instance: a second `init` on an initialised writer, `start` on it
while it has no track, and `addTrack` on a started writer all return `false`
and leave the writer as it was. -/
theorem rejected_calls_leave_writer_witness :
    (initializedWriter.mState ≠ WriterState.UNINITIALIZED ∧
      initializedWriter.init (some okMuxer) (some ⟨2⟩) = (false, initializedWriter)) ∧
    (startedWriter.mState ≠ WriterState.INITIALIZED ∧
      startedWriter.addTrack (some ⟨[]⟩) (some ⟨none⟩) = some (false, startedWriter)) ∧
    (initializedWriter.mTracks = [] ∧ initializedWriter.start = (false, initializedWriter)) :=
  ⟨⟨by decide, (rejected_calls_leave_writer initializedWriter).1 _ _ (by decide)⟩,
    ⟨by decide, (rejected_calls_leave_writer startedWriter).2.1 _ _ (by decide)⟩,
    ⟨by decide, (rejected_calls_leave_writer initializedWriter).2.2 (by decide)⟩⟩

/-- The lifecycle on an example: `start` before `init` and before a track is
registered fails, `start` succeeds once, a second `start`, a late `addTrack`
and a late `init` fail, `stop` succeeds once. -/
theorem lifecycle_example :
    ((MediaSampleWriter.create 10).calls
        [WriterCall.start, WriterCall.init (some okMuxer) (some ⟨1⟩), WriterCall.start,
         WriterCall.addTrack (some ⟨[]⟩) (some ⟨none⟩), WriterCall.start, WriterCall.start,
         WriterCall.addTrack (some ⟨[]⟩) (some ⟨none⟩), WriterCall.stop, WriterCall.stop,
         WriterCall.init (some okMuxer) (some ⟨1⟩)]).map
      (fun trace => trace.map (fun e => (e.2.1, e.2.2.mState, e.2.2.threadsCreated)))
    = some [(false, WriterState.UNINITIALIZED, 0), (true, WriterState.INITIALIZED, 0),
            (false, WriterState.INITIALIZED, 0), (true, WriterState.INITIALIZED, 0),
            (true, WriterState.STARTED, 1), (false, WriterState.STARTED, 1),
            (false, WriterState.STARTED, 1), (true, WriterState.STOPPED, 1),
            (false, WriterState.STOPPED, 1), (false, WriterState.STOPPED, 1)] := by
  decide

/-! ### The interleaving loop in general -/

theorem wrote_refl (m : Muxer) : m.Wrote m :=
  ⟨rfl, rfl, rfl, rfl, [], by simp, fun c hc => by cases hc⟩

theorem wrote_trans (m m1 m2 : Muxer) (h1 : m.Wrote m1) (h2 : m1.Wrote m2) : m.Wrote m2 := by
  obtain ⟨a1, a2, a3, a4, calls1, a5, a6⟩ := h1
  obtain ⟨b1, b2, b3, b4, calls2, b5, b6⟩ := h2
  refine ⟨b1.trans a1, b2.trans a2, b3.trans a3, b4.trans a4, calls1 ++ calls2, ?_, ?_⟩
  · rw [b5, a5, List.append_assoc]
  · intro c hc
    rcases List.mem_append.mp hc with h | h
    · exact a6 c h
    · exact b6 c h

theorem wrote_writeSampleData (m : Muxer) (trackIndex buffer : Nat)
    (info : AMediaCodecBufferInfo) : m.Wrote (m.writeSampleData trackIndex buffer info).2 :=
  ⟨rfl, rfl, rfl, rfl, [MuxerCall.writeSampleData trackIndex buffer info], rfl,
    fun c hc => by
      rw [List.mem_singleton.mp hc]
      rfl⟩

/-- The `do ... while` loop over one track makes `writeSampleData` calls only,
takes results from the queue and never puts one back, and sets `samplesLeft`
only when it has taken one. -/
theorem writeTrackSamples_general (segmentEndTimeUs : Nat) :
    ∀ (pending : List DequeueResult) (track : TrackRecord) (muxer : Muxer) (samplesLeft : Bool),
      muxer.Wrote (writeTrackSamples segmentEndTimeUs pending track muxer samplesLeft).muxer ∧
      (writeTrackSamples segmentEndTimeUs pending track muxer
        samplesLeft).track.mSampleQueue.pending.length ≤ pending.length ∧
      ((writeTrackSamples segmentEndTimeUs pending track muxer samplesLeft).samplesLeft = true →
        samplesLeft = true ∨
        (writeTrackSamples segmentEndTimeUs pending track muxer
          samplesLeft).track.mSampleQueue.pending.length < pending.length) := by
  intro pending
  induction pending with
  | nil =>
    intro track muxer sl
    simp only [writeTrackSamples]
    exact ⟨wrote_refl muxer, Nat.le_refl _, fun h => Or.inl h⟩
  | cons d rest ih =>
    intro track muxer sl
    cases d with
    | aborted =>
      simp only [writeTrackSamples]
      exact ⟨wrote_refl muxer, Nat.le_succ _, fun h => Or.inl h⟩
    | sample sample =>
      rw [writeTrackSamples]
      try simp only
      have hw := wrote_writeSampleData muxer (track.afterSample sample rest).mTrackIndex
        (track.rewrite sample).buffer (bufferInfoOf (track.rewrite sample))
      have hp := afterSample_pending track sample rest
      split
      · refine ⟨hw, ?_, fun _ => Or.inr ?_⟩
        · show (track.afterSample sample rest).mSampleQueue.pending.length ≤ _
          rw [hp]
          exact Nat.le_succ _
        · show (track.afterSample sample rest).mSampleQueue.pending.length < _
          rw [hp]
          exact Nat.lt_succ_self _
      · split
        · obtain ⟨h1, h2, _⟩ := ih (track.afterSample sample rest)
            (muxer.writeSampleData (track.afterSample sample rest).mTrackIndex
              (track.rewrite sample).buffer (bufferInfoOf (track.rewrite sample))).2
            (if sample.isEndOfStream = true then sl else true)
          refine ⟨wrote_trans _ _ _ hw h1, ?_, fun _ => Or.inr ?_⟩
          · exact Nat.le_trans h2 (Nat.le_succ _)
          · exact Nat.lt_succ_of_le h2
        · refine ⟨hw, ?_, fun _ => Or.inr ?_⟩
          · show (track.afterSample sample rest).mSampleQueue.pending.length ≤ _
            rw [hp]
            exact Nat.le_succ _
          · show (track.afterSample sample rest).mSampleQueue.pending.length < _
            rw [hp]
            exact Nat.lt_succ_self _

/-- The `for` loop over the tracks makes `writeSampleData` calls only, keeps
the number of tracks, takes results from the queues and never puts one back,
and sets `samplesLeft` only when it has taken one. -/
theorem writeTracks_general (segmentEndTimeUs : Nat) :
    ∀ (tracks : List TrackRecord) (muxer : Muxer) (samplesLeft : Bool),
      muxer.Wrote (writeTracks segmentEndTimeUs tracks muxer samplesLeft).muxer ∧
      pendingSamples (writeTracks segmentEndTimeUs tracks muxer samplesLeft).tracks
        ≤ pendingSamples tracks ∧
      ((writeTracks segmentEndTimeUs tracks muxer samplesLeft).samplesLeft = true →
        samplesLeft = true ∨
        pendingSamples (writeTracks segmentEndTimeUs tracks muxer samplesLeft).tracks
          < pendingSamples tracks) := by
  intro tracks
  induction tracks with
  | nil =>
    intro muxer sl
    simp only [writeTracks]
    exact ⟨wrote_refl muxer, Nat.le_refl _, fun h => Or.inl h⟩
  | cons track rest ih =>
    intro muxer sl
    rw [writeTracks]
    by_cases he : track.mReachedEos = true
    · rw [if_pos he]
      obtain ⟨h1, h2, h3⟩ := ih muxer sl
      simp only [pendingSamples_cons]
      refine ⟨h1, by omega, fun h => ?_⟩
      rcases h3 h with h4 | h4
      · exact Or.inl h4
      · exact Or.inr (by omega)
    · rw [if_neg he]
      obtain ⟨g1, g2, g3⟩ := writeTrackSamples_general segmentEndTimeUs
        track.mSampleQueue.pending track muxer sl
      cases ho : (writeTrackSamples segmentEndTimeUs track.mSampleQueue.pending track muxer
          sl).outcome with
      | some out =>
        simp only [ho, pendingSamples_cons]
        refine ⟨g1, by omega, fun h => ?_⟩
        rcases g3 h with h4 | h4
        · exact Or.inl h4
        · exact Or.inr (by omega)
      | none =>
        simp only [ho, pendingSamples_cons]
        obtain ⟨h1, h2, h3⟩ := ih
          (writeTrackSamples segmentEndTimeUs track.mSampleQueue.pending track muxer sl).muxer
          (writeTrackSamples segmentEndTimeUs track.mSampleQueue.pending track muxer
            sl).samplesLeft
        refine ⟨wrote_trans _ _ _ g1 h1, by omega, fun h => ?_⟩
        rcases h3 h with h4 | h4
        · rcases g3 h4 with h5 | h5
          · exact Or.inl h5
          · exact Or.inr (by omega)
        · exact Or.inr (by omega)

/-- The loop `while (samplesLeft)` ends within the passes `runWriterLoop`
allows for, and it makes `writeSampleData` calls only. -/
theorem writerLoop_general (mTrackSegmentLengthUs : Nat) :
    ∀ (fuel segmentEndTimeUs : Nat) (tracks : List TrackRecord) (muxer : Muxer),
      pendingSamples tracks < fuel →
      ∃ run, writerLoop mTrackSegmentLengthUs fuel segmentEndTimeUs tracks muxer = some run ∧
        muxer.Wrote run.muxer := by
  intro fuel
  induction fuel with
  | zero =>
    intro B tracks muxer h
    exact absurd h (Nat.not_lt_zero _)
  | succ fuel ih =>
    intro B tracks muxer h
    obtain ⟨g1, g2, g3⟩ := writeTracks_general B tracks muxer false
    rw [writerLoop]
    cases ho : (writeTracks B tracks muxer false).outcome with
    | some out =>
      simp only [ho]
      exact ⟨_, rfl, g1⟩
    | none =>
      simp only [ho]
      by_cases hl : (writeTracks B tracks muxer false).samplesLeft = true
      · rw [if_pos hl]
        have hlt : pendingSamples (writeTracks B tracks muxer false).tracks < fuel := by
          rcases g3 hl with h4 | h4
          · cases h4
          · omega
        obtain ⟨run, h1, h2⟩ := ih (u32 (B + mTrackSegmentLengthUs)) _ _ hlt
        exact ⟨run, h1, wrote_trans _ _ _ g1 h2⟩
      · rw [if_neg hl]
        exact ⟨_, rfl, g1⟩

/-- `runWriterLoop` always ends (by returning or by staying blocked in a
`dequeue`), and it makes `writeSampleData` calls only. -/
theorem runWriterLoop_general (mTrackSegmentLengthUs : Nat) (mTracks : List TrackRecord)
    (mMuxer : Muxer) :
    ∃ run, runWriterLoop mTrackSegmentLengthUs mTracks mMuxer = some run ∧
      mMuxer.Wrote run.muxer :=
  writerLoop_general mTrackSegmentLengthUs _ _ mTracks mMuxer (Nat.lt_succ_self _)

/-- The `do ... while` loop over one track gives, from a later head of the
loop, the result it gives from its start. -/
theorem trackLoopAt_eq (segmentEndTimeUs : Nat) (pending : List DequeueResult)
    (track : TrackRecord) (muxer : Muxer) (samplesLeft : Bool)
    (pending1 : List DequeueResult) (track1 : TrackRecord) (muxer1 : Muxer)
    (samplesLeft1 : Bool)
    (h : TrackLoopAt segmentEndTimeUs pending track muxer samplesLeft
      pending1 track1 muxer1 samplesLeft1) :
    writeTrackSamples segmentEndTimeUs pending track muxer samplesLeft
      = writeTrackSamples segmentEndTimeUs pending1 track1 muxer1 samplesLeft1 := by
  induction h with
  | here pending track muxer samplesLeft => rfl
  | next sample rest track muxer samplesLeft pending1 track1 muxer1 samplesLeft1 hwritten hgoes
      _ ih =>
    rw [writeTrackSamples]
    try simp only
    rw [if_neg (not_not.mpr hwritten), if_pos hgoes]
    exact ih

/-- The muxer at a later head of the `do ... while` loop has received
`writeSampleData` calls only. -/
theorem trackLoopAt_wrote (segmentEndTimeUs : Nat) (pending : List DequeueResult)
    (track : TrackRecord) (muxer : Muxer) (samplesLeft : Bool)
    (pending1 : List DequeueResult) (track1 : TrackRecord) (muxer1 : Muxer)
    (samplesLeft1 : Bool)
    (h : TrackLoopAt segmentEndTimeUs pending track muxer samplesLeft
      pending1 track1 muxer1 samplesLeft1) :
    muxer.Wrote muxer1 := by
  induction h with
  | here pending track muxer samplesLeft => exact wrote_refl muxer
  | next sample rest track muxer samplesLeft pending1 track1 muxer1 samplesLeft1 _ _ _ ih =>
    exact wrote_trans _ _ _ (wrote_writeSampleData muxer _ _ _) ih

/-- The `for` loop over a list of tracks of which a front part is visited
without the function returning: it goes on with the rest. -/
theorem writeTracks_append (segmentEndTimeUs : Nat) (later : List TrackRecord) :
    ∀ (before : List TrackRecord) (muxer : Muxer) (samplesLeft : Bool),
      (writeTracks segmentEndTimeUs before muxer samplesLeft).outcome = none →
      writeTracks segmentEndTimeUs (before ++ later) muxer samplesLeft
        = { outcome := (writeTracks segmentEndTimeUs later
              (writeTracks segmentEndTimeUs before muxer samplesLeft).muxer
              (writeTracks segmentEndTimeUs before muxer samplesLeft).samplesLeft).outcome,
            tracks := (writeTracks segmentEndTimeUs before muxer samplesLeft).tracks
              ++ (writeTracks segmentEndTimeUs later
                (writeTracks segmentEndTimeUs before muxer samplesLeft).muxer
                (writeTracks segmentEndTimeUs before muxer samplesLeft).samplesLeft).tracks,
            muxer := (writeTracks segmentEndTimeUs later
              (writeTracks segmentEndTimeUs before muxer samplesLeft).muxer
              (writeTracks segmentEndTimeUs before muxer samplesLeft).samplesLeft).muxer,
            samplesLeft := (writeTracks segmentEndTimeUs later
              (writeTracks segmentEndTimeUs before muxer samplesLeft).muxer
              (writeTracks segmentEndTimeUs before muxer samplesLeft).samplesLeft).samplesLeft } := by
  intro before
  induction before with
  | nil =>
    intro muxer sl _
    rfl
  | cons track rest ih =>
    intro muxer sl h
    rw [List.cons_append, writeTracks]
    rw [writeTracks] at h
    by_cases he : track.mReachedEos = true
    · rw [if_pos he] at h ⊢
      have e1 : writeTracks segmentEndTimeUs (track :: rest) muxer sl
          = { writeTracks segmentEndTimeUs rest muxer sl with
              tracks := track :: (writeTracks segmentEndTimeUs rest muxer sl).tracks } := by
        rw [writeTracks, if_pos he]
      rw [e1]
      simp only
      rw [ih muxer sl h]
      rfl
    · rw [if_neg he] at h ⊢
      cases ho : (writeTrackSamples segmentEndTimeUs track.mSampleQueue.pending track muxer
          sl).outcome with
      | some out =>
        simp [ho] at h
      | none =>
        simp only [ho] at h
        have e1 : writeTracks segmentEndTimeUs (track :: rest) muxer sl
            = { writeTracks segmentEndTimeUs rest
                  (writeTrackSamples segmentEndTimeUs track.mSampleQueue.pending track muxer
                    sl).muxer
                  (writeTrackSamples segmentEndTimeUs track.mSampleQueue.pending track muxer
                    sl).samplesLeft with
                tracks := (writeTrackSamples segmentEndTimeUs track.mSampleQueue.pending track
                    muxer sl).track
                  :: (writeTracks segmentEndTimeUs rest
                    (writeTrackSamples segmentEndTimeUs track.mSampleQueue.pending track muxer
                      sl).muxer
                    (writeTrackSamples segmentEndTimeUs track.mSampleQueue.pending track muxer
                      sl).samplesLeft).tracks } := by
          rw [writeTracks, if_neg he]
          simp only [ho]
        rw [e1]
        simp only [ho]
        rw [ih _ _ h]
        rfl

/-- The muxer at a call of `dequeue` has received `writeSampleData` calls
only since the start of the pass. -/
theorem atDequeue_wrote (mTrackSegmentLengthUs : Nat) (segmentEndTimeUs : Nat)
    (tracks : List TrackRecord) (muxer : Muxer) (point : DequeuePoint)
    (h : AtDequeue mTrackSegmentLengthUs segmentEndTimeUs tracks muxer point) :
    muxer.Wrote point.muxer := by
  induction h with
  | inPass B before track waiting muxer pending1 track1 muxer1 samplesLeft1 _ _ hloop =>
    exact wrote_trans _ _ _ (writeTracks_general B before muxer false).1
      (trackLoopAt_wrote _ _ _ _ _ _ _ _ _ hloop)
  | nextPass B tracks muxer point _ _ _ ih =>
    exact wrote_trans _ _ _ (writeTracks_general B tracks muxer false).1 ih

/-- When the function returns (or stays blocked) in the `do ... while` loop
entered at a call of `dequeue`, the loop `while (samplesLeft)` ends there:
with that outcome, the muxer of that moment, and the tracks of that moment,
of which only the current one has changed. -/
theorem atDequeue_writerLoop (mTrackSegmentLengthUs : Nat) (segmentEndTimeUs : Nat)
    (tracks : List TrackRecord) (muxer : Muxer) (point : DequeuePoint)
    (h : AtDequeue mTrackSegmentLengthUs segmentEndTimeUs tracks muxer point) :
    ∀ (out : LoopOutcome),
      (writeTrackSamples point.segmentEndTimeUs point.pending point.track point.muxer
        point.samplesLeft).outcome = some out →
      ∀ (fuel : Nat), pendingSamples tracks < fuel →
        writerLoop mTrackSegmentLengthUs fuel segmentEndTimeUs tracks muxer
          = some { outcome := out,
                   tracks := point.visited
                     ++ (writeTrackSamples point.segmentEndTimeUs point.pending point.track
                          point.muxer point.samplesLeft).track :: point.waiting,
                   muxer := (writeTrackSamples point.segmentEndTimeUs point.pending point.track
                     point.muxer point.samplesLeft).muxer,
                   segmentEndTimeUs := point.segmentEndTimeUs } := by
  induction h with
  | inPass B before track waiting muxer pending1 track1 muxer1 samplesLeft1 hbefore hlive
      hloop =>
    intro out hout fuel hfuel
    cases fuel with
    | zero => exact absurd hfuel (Nat.not_lt_zero _)
    | succ fuel =>
      have hp := trackLoopAt_eq _ _ _ _ _ _ _ _ _ hloop
      simp only at hout ⊢
      have hcur : writeTracks B (track :: waiting)
            (writeTracks B before muxer false).muxer
            (writeTracks B before muxer false).samplesLeft
          = { outcome := some out,
              tracks := (writeTrackSamples B pending1 track1 muxer1 samplesLeft1).track
                :: waiting,
              muxer := (writeTrackSamples B pending1 track1 muxer1 samplesLeft1).muxer,
              samplesLeft := (writeTrackSamples B pending1 track1 muxer1
                samplesLeft1).samplesLeft } := by
        rw [writeTracks, if_neg (by rw [hlive]; decide), hp]
        simp only [hout]
      rw [writerLoop, writeTracks_append B (track :: waiting) before muxer false hbefore, hcur]
  | nextPass B tracks muxer point hpass hleft _ ih =>
    intro out hout fuel hfuel
    cases fuel with
    | zero => exact absurd hfuel (Nat.not_lt_zero _)
    | succ fuel =>
      obtain ⟨_, _, g3⟩ := writeTracks_general B tracks muxer false
      have hlt : pendingSamples (writeTracks B tracks muxer false).tracks < fuel := by
        rcases g3 hleft with h4 | h4
        · cases h4
        · omega
      rw [writerLoop]
      simp only [hpass]
      rw [if_pos hleft]
      exact ih out hout fuel hlt

theorem stopCalls_append (a b : List MuxerCall) :
    stopCalls (a ++ b) = stopCalls a + stopCalls b := by
  simp [stopCalls]

theorem stopCalls_of_writes (calls : List MuxerCall)
    (h : ∀ call ∈ calls, call.isWrite = true) : stopCalls calls = 0 := by
  unfold stopCalls
  rw [List.length_eq_zero, List.filter_eq_nil_iff]
  intro call hc hstop
  have h1 := h call hc
  rw [of_decide_eq_true hstop] at h1
  cases h1

theorem stopCalls_of_wrote (m m1 : Muxer) (h : m.Wrote m1) :
    stopCalls m1.calls = stopCalls m.calls := by
  obtain ⟨_, _, _, _, calls, h1, h2⟩ := h
  rw [h1, stopCalls_append, stopCalls_of_writes calls h2]
  rfl

/-- `writeSamples` with a muxer whose `start()` succeeds, when `runWriterLoop`
returns `writeStatus` and leaves the muxer `loopMuxer`: `stop()` is called on
that muxer, and the status is `writeStatus` when that is not `AMEDIA_OK` and
the status of `stop()` otherwise. -/
theorem writeSamples_of_loop (w : MediaSampleWriter) (muxer : Muxer) (run : WriterRun)
    (writeStatus : media_status_t)
    (hm : w.mMuxer = some muxer) (hstart : muxer.start.1 = AMEDIA_OK)
    (hrun : runWriterLoop w.mTrackSegmentLengthUs w.mTracks muxer.start.2 = some run)
    (hout : run.outcome = LoopOutcome.returned writeStatus) :
    w.writeSamples
      = some { outcome := LoopOutcome.returned
                 (if writeStatus ≠ AMEDIA_OK then writeStatus else run.muxer.stop.1),
               tracks := run.tracks, muxer := run.muxer.stop.2 } := by
  unfold MediaSampleWriter.writeSamples
  simp only [hm]
  rw [if_neg (not_not.mpr hstart)]
  simp only [hrun, hout]

/-! ### `writeSamples` -/

/-- C13: final status of `writeSamples`.  For every writer whose muxer's
`start()` succeeds, `runWriterLoop` ends; when it returns a status
`writeStatus` (it does not stay blocked in a `dequeue`), `writeSamples` then
calls `stop()` on the muxer, once: the calls it has made are `start()`, the
`writeSampleData` calls of the loop, and `stop()`.  The status it returns, and
hands to the completion callback, is `writeStatus` if that is not `AMEDIA_OK`,
otherwise the status of `stop()` if that is not `AMEDIA_OK`, otherwise
`AMEDIA_OK`. -/
theorem writeSamples_final_status (w : MediaSampleWriter) (muxer : Muxer)
    (callback : OnWritingFinishedCallback)
    (hm : w.mMuxer = some muxer) (hcb : w.mWritingFinishedCallback = some callback)
    (hstart : muxer.start.1 = AMEDIA_OK) :
    ∃ loop, runWriterLoop w.mTrackSegmentLengthUs w.mTracks muxer.start.2 = some loop ∧
      ∀ (writeStatus : media_status_t), loop.outcome = LoopOutcome.returned writeStatus →
        ∃ run writes finalStatus,
          w.writeSamples = some run ∧
          w.threadBody = some (run, [(callback, finalStatus)]) ∧
          run.outcome = LoopOutcome.returned finalStatus ∧
          finalStatus
            = (if writeStatus ≠ AMEDIA_OK then writeStatus
               else if muxer.stopResult loop.muxer.calls ≠ AMEDIA_OK
                 then muxer.stopResult loop.muxer.calls
               else AMEDIA_OK) ∧
          run.tracks = loop.tracks ∧
          loop.muxer.calls = muxer.calls ++ [MuxerCall.start] ++ writes ∧
          (∀ call ∈ writes, call.isWrite = true) ∧
          run.muxer.calls = muxer.calls ++ [MuxerCall.start] ++ writes ++ [MuxerCall.stop] ∧
          stopCalls run.muxer.calls = stopCalls muxer.calls + 1 := by
  obtain ⟨loop, hloop, hwrote⟩ :=
    runWriterLoop_general w.mTrackSegmentLengthUs w.mTracks muxer.start.2
  refine ⟨loop, hloop, ?_⟩
  intro writeStatus hout
  have hws := writeSamples_of_loop w muxer loop writeStatus hm hstart hloop hout
  have hsc := stopCalls_of_wrote _ _ hwrote
  obtain ⟨_, _, _, hstop, writes, hcalls, hwrites⟩ := hwrote
  have hstopres : loop.muxer.stop.1 = muxer.stopResult loop.muxer.calls := by
    show loop.muxer.stopResult loop.muxer.calls = _
    rw [hstop]
    rfl
  refine ⟨_, writes, _, hws, ?_, rfl, ?_, rfl, hcalls, hwrites, ?_, ?_⟩
  · unfold MediaSampleWriter.threadBody
    simp only [hws, hcb]
  · rw [hstopres]
    by_cases h1 : writeStatus ≠ AMEDIA_OK
    · rw [if_pos h1, if_pos h1]
    · rw [if_neg h1, if_neg h1]
      by_cases h2 : muxer.stopResult loop.muxer.calls ≠ AMEDIA_OK
      · rw [if_pos h2]
      · rw [if_neg h2]
        exact not_not.mp h2
  · show loop.muxer.calls ++ [MuxerCall.stop] = _
    rw [hcalls]
    rfl
  · show stopCalls (loop.muxer.calls ++ [MuxerCall.stop]) = _
    rw [stopCalls_append, hsc]
    show stopCalls (muxer.calls ++ [MuxerCall.start]) + stopCalls [MuxerCall.stop] = _
    rw [stopCalls_append]
    rfl

/-- The two-track example run by `writeSamples` and handed to the callback:
the status is `AMEDIA_OK`, after `start()`, eight `writeSampleData` calls and
one `stop()`. -/
theorem exampleWriter_threadBody :
    exampleWriter.threadBody.map
        (fun r => (r.1.outcome, r.1.muxer.calls.length, stopCalls r.1.muxer.calls, r.2))
      = some (LoopOutcome.returned AMEDIA_OK, 10, 1, [(⟨1⟩, AMEDIA_OK)]) := by
  decide

/-- C13 at the two-track example with the muxer `okMuxer`. -/
theorem writeSamples_final_status_witness :
    exampleWriter.mMuxer = some okMuxer
    ∧ exampleWriter.mWritingFinishedCallback = some ⟨1⟩
    ∧ okMuxer.start.1 = AMEDIA_OK
    ∧ ∃ loop, runWriterLoop exampleWriter.mTrackSegmentLengthUs exampleWriter.mTracks
          okMuxer.start.2 = some loop ∧
        ∀ (writeStatus : media_status_t), loop.outcome = LoopOutcome.returned writeStatus →
          ∃ run writes finalStatus,
            exampleWriter.writeSamples = some run ∧
            exampleWriter.threadBody = some (run, [(⟨1⟩, finalStatus)]) ∧
            run.outcome = LoopOutcome.returned finalStatus ∧
            finalStatus
              = (if writeStatus ≠ AMEDIA_OK then writeStatus
                 else if okMuxer.stopResult loop.muxer.calls ≠ AMEDIA_OK
                   then okMuxer.stopResult loop.muxer.calls
                 else AMEDIA_OK) ∧
            run.tracks = loop.tracks ∧
            loop.muxer.calls = okMuxer.calls ++ [MuxerCall.start] ++ writes ∧
            (∀ call ∈ writes, call.isWrite = true) ∧
            run.muxer.calls
              = okMuxer.calls ++ [MuxerCall.start] ++ writes ++ [MuxerCall.stop] ∧
            stopCalls run.muxer.calls = stopCalls okMuxer.calls + 1 :=
  ⟨rfl, rfl, rfl, writeSamples_final_status exampleWriter okMuxer ⟨1⟩ rfl rfl rfl⟩

/-! ### Abort of a queue -/

/-- The `do ... while` loop over a track whose `dequeue` reports that the queue
was aborted. -/
theorem writeTrackSamples_aborted (segmentEndTimeUs : Nat) (rest : List DequeueResult)
    (track : TrackRecord) (muxer : Muxer) (samplesLeft : Bool) :
    writeTrackSamples segmentEndTimeUs (DequeueResult.aborted :: rest) track muxer samplesLeft
      = { outcome := some (LoopOutcome.returned AMEDIA_ERROR_UNKNOWN),
          track := { track with mSampleQueue := ⟨rest⟩ }, muxer := muxer,
          samplesLeft := samplesLeft } := by
  rw [writeTrackSamples]

/-- The `do ... while` loop over a track whose next sample the muxer fails to
write. -/
theorem writeTrackSamples_failed_write (segmentEndTimeUs : Nat) (sample : MediaSample)
    (rest : List DequeueResult) (track : TrackRecord) (muxer : Muxer) (samplesLeft : Bool)
    (hfail : (muxer.writeSampleData (track.afterSample sample rest).mTrackIndex
      (track.rewrite sample).buffer (bufferInfoOf (track.rewrite sample))).1 ≠ AMEDIA_OK) :
    writeTrackSamples segmentEndTimeUs (DequeueResult.sample sample :: rest) track muxer
        samplesLeft
      = { outcome := some (LoopOutcome.returned
            (muxer.writeSampleData (track.afterSample sample rest).mTrackIndex
              (track.rewrite sample).buffer (bufferInfoOf (track.rewrite sample))).1),
          track := track.afterSample sample rest,
          muxer := (muxer.writeSampleData (track.afterSample sample rest).mTrackIndex
            (track.rewrite sample).buffer (bufferInfoOf (track.rewrite sample))).2,
          samplesLeft := if sample.isEndOfStream = true then samplesLeft else true } := by
  rw [writeTrackSamples]
  exact if_pos hfail

/-- The loop from its start to a `dequeue` that reports that the queue was
aborted. -/
theorem runWriterLoop_at_abort (mTrackSegmentLengthUs : Nat) (mTracks : List TrackRecord)
    (mMuxer : Muxer) (point : DequeuePoint) (rest : List DequeueResult)
    (hat : AtDequeue mTrackSegmentLengthUs (u32 mTrackSegmentLengthUs) mTracks mMuxer point)
    (habort : point.pending = DequeueResult.aborted :: rest) :
    runWriterLoop mTrackSegmentLengthUs mTracks mMuxer
      = some { outcome := LoopOutcome.returned AMEDIA_ERROR_UNKNOWN,
               tracks := point.visited
                 ++ { point.track with mSampleQueue := ⟨rest⟩ } :: point.waiting,
               muxer := point.muxer,
               segmentEndTimeUs := point.segmentEndTimeUs } := by
  have h := atDequeue_writerLoop _ _ _ _ _ hat (LoopOutcome.returned AMEDIA_ERROR_UNKNOWN)
    (by rw [habort, writeTrackSamples_aborted]) (pendingSamples mTracks + 1)
    (Nat.lt_succ_self _)
  rw [habort, writeTrackSamples_aborted] at h
  exact h

/-- The loop from its start to a sample that the muxer fails to write. -/
theorem runWriterLoop_at_failed_write (mTrackSegmentLengthUs : Nat)
    (mTracks : List TrackRecord) (mMuxer : Muxer) (point : DequeuePoint)
    (sample : MediaSample) (rest : List DequeueResult)
    (hat : AtDequeue mTrackSegmentLengthUs (u32 mTrackSegmentLengthUs) mTracks mMuxer point)
    (hsample : point.pending = DequeueResult.sample sample :: rest)
    (hfail : (point.muxer.writeSampleData (point.track.afterSample sample rest).mTrackIndex
      (point.track.rewrite sample).buffer
      (bufferInfoOf (point.track.rewrite sample))).1 ≠ AMEDIA_OK) :
    runWriterLoop mTrackSegmentLengthUs mTracks mMuxer
      = some { outcome := LoopOutcome.returned
                 (point.muxer.writeSampleData (point.track.afterSample sample rest).mTrackIndex
                   (point.track.rewrite sample).buffer
                   (bufferInfoOf (point.track.rewrite sample))).1,
               tracks := point.visited ++ point.track.afterSample sample rest :: point.waiting,
               muxer := (point.muxer.writeSampleData
                 (point.track.afterSample sample rest).mTrackIndex
                 (point.track.rewrite sample).buffer
                 (bufferInfoOf (point.track.rewrite sample))).2,
               segmentEndTimeUs := point.segmentEndTimeUs } := by
  have h := atDequeue_writerLoop _ _ _ _ _ hat
    (LoopOutcome.returned
      (point.muxer.writeSampleData (point.track.afterSample sample rest).mTrackIndex
        (point.track.rewrite sample).buffer (bufferInfoOf (point.track.rewrite sample))).1)
    (by rw [hsample, writeTrackSamples_failed_write _ _ _ _ _ _ hfail])
    (pendingSamples mTracks + 1) (Nat.lt_succ_self _)
  rw [hsample, writeTrackSamples_failed_write _ _ _ _ _ _ hfail] at h
  exact h

/-- C19: a queue abort surfaces as an unknown error.  When `writeSamples`, the
muxer started, has run `runWriterLoop` up to a `dequeue` that reports that the
queue was aborted, `runWriterLoop` returns `AMEDIA_ERROR_UNKNOWN` there: the
muxer is as at that `dequeue` (no further `writeSampleData`), the aborted
queue has lost only the abort indication and the other tracks are as at that
`dequeue` (no further `dequeue`).  `writeSamples` reports
`AMEDIA_ERROR_UNKNOWN`, which is not `AMEDIA_OK`; the only call of the muxer
after the `dequeue` is the `stop()` of `writeSamples`. -/
theorem abort_surfaces_as_unknown_error (w : MediaSampleWriter) (muxer : Muxer)
    (point : DequeuePoint) (rest : List DequeueResult)
    (hm : w.mMuxer = some muxer) (hstart : muxer.start.1 = AMEDIA_OK)
    (hat : AtDequeue w.mTrackSegmentLengthUs (u32 w.mTrackSegmentLengthUs) w.mTracks
      muxer.start.2 point)
    (habort : point.pending = DequeueResult.aborted :: rest) :
    runWriterLoop w.mTrackSegmentLengthUs w.mTracks muxer.start.2
      = some { outcome := LoopOutcome.returned AMEDIA_ERROR_UNKNOWN,
               tracks := point.visited
                 ++ { point.track with mSampleQueue := ⟨rest⟩ } :: point.waiting,
               muxer := point.muxer,
               segmentEndTimeUs := point.segmentEndTimeUs }
    ∧ w.writeSamples
      = some { outcome := LoopOutcome.returned AMEDIA_ERROR_UNKNOWN,
               tracks := point.visited
                 ++ { point.track with mSampleQueue := ⟨rest⟩ } :: point.waiting,
               muxer := point.muxer.stop.2 }
    ∧ point.muxer.stop.2.calls = point.muxer.calls ++ [MuxerCall.stop]
    ∧ AMEDIA_ERROR_UNKNOWN ≠ AMEDIA_OK := by
  have hrun := runWriterLoop_at_abort _ _ _ point rest hat habort
  have hws := writeSamples_of_loop w muxer _ AMEDIA_ERROR_UNKNOWN hm hstart hrun rfl
  have hne : AMEDIA_ERROR_UNKNOWN ≠ AMEDIA_OK := by decide
  rw [if_pos hne] at hws
  exact ⟨hrun, hws, rfl, hne⟩

/-- The loop of `abortedWriter` is at `abortPoint`. -/
theorem abortedWriter_atDequeue :
    AtDequeue abortedWriter.mTrackSegmentLengthUs (u32 abortedWriter.mTrackSegmentLengthUs)
      abortedWriter.mTracks okMuxer.start.2 abortPoint :=
  AtDequeue.inPass 10 [] abortedTrack [exampleTrackB] okMuxer.start.2 _ _ _ _ rfl rfl
    (TrackLoopAt.next (sampleAt 1 0 0)
      [DequeueResult.aborted, DequeueResult.sample (sampleAt 2 5 0)] abortedTrack
      okMuxer.start.2 false _ _ _ _ rfl (by decide)
      (TrackLoopAt.here _ _ _ _))

/-- C19 at `abortedWriter`: the first track delivers a sample and then the
abort indication. -/
theorem abort_surfaces_as_unknown_error_witness :
    abortedWriter.mMuxer = some okMuxer ∧ okMuxer.start.1 = AMEDIA_OK
    ∧ abortPoint.pending
        = DequeueResult.aborted :: [DequeueResult.sample (sampleAt 2 5 0)]
    ∧ runWriterLoop abortedWriter.mTrackSegmentLengthUs abortedWriter.mTracks okMuxer.start.2
      = some { outcome := LoopOutcome.returned AMEDIA_ERROR_UNKNOWN,
               tracks := abortPoint.visited
                 ++ { abortPoint.track with
                      mSampleQueue := ⟨[DequeueResult.sample (sampleAt 2 5 0)]⟩ }
                    :: abortPoint.waiting,
               muxer := abortPoint.muxer,
               segmentEndTimeUs := abortPoint.segmentEndTimeUs }
    ∧ abortedWriter.writeSamples
      = some { outcome := LoopOutcome.returned AMEDIA_ERROR_UNKNOWN,
               tracks := abortPoint.visited
                 ++ { abortPoint.track with
                      mSampleQueue := ⟨[DequeueResult.sample (sampleAt 2 5 0)]⟩ }
                    :: abortPoint.waiting,
               muxer := abortPoint.muxer.stop.2 }
    ∧ abortPoint.muxer.stop.2.calls = abortPoint.muxer.calls ++ [MuxerCall.stop]
    ∧ AMEDIA_ERROR_UNKNOWN ≠ AMEDIA_OK :=
  ⟨rfl, rfl, rfl,
    abort_surfaces_as_unknown_error abortedWriter okMuxer abortPoint
      [DequeueResult.sample (sampleAt 2 5 0)] rfl rfl abortedWriter_atDequeue rfl⟩

/-! ### `writeSamples` after a failure -/

/-- C14, as the code has it: what `writeSamples` does after a failure.  When
the muxer's `start()` fails, `writeSamples` returns the status of `start()` at
once: the loop is not run, `start()` is the only call of the muxer, and
`stop()` is not called.  When `start()` succeeds and `runWriterLoop` comes to
a `dequeue` that reports abort, or to a sample whose `writeSampleData` fails,
the loop ends there (the failed call is the last call of the loop, it is not
made again), `stop()` is called once, and `writeSamples` returns
`AMEDIA_ERROR_UNKNOWN`, or the status of the failed `writeSampleData`. -/
theorem writeSamples_after_failure (w : MediaSampleWriter) (muxer : Muxer)
    (hm : w.mMuxer = some muxer) :
    (muxer.start.1 ≠ AMEDIA_OK →
      w.writeSamples
        = some { outcome := LoopOutcome.returned muxer.start.1, tracks := w.mTracks,
                 muxer := muxer.start.2 }
      ∧ muxer.start.2.calls = muxer.calls ++ [MuxerCall.start]
      ∧ stopCalls muxer.start.2.calls = stopCalls muxer.calls)
    ∧ (muxer.start.1 = AMEDIA_OK →
      ∀ (point : DequeuePoint),
        AtDequeue w.mTrackSegmentLengthUs (u32 w.mTrackSegmentLengthUs) w.mTracks
          muxer.start.2 point →
        (∀ (rest : List DequeueResult), point.pending = DequeueResult.aborted :: rest →
          w.writeSamples
            = some { outcome := LoopOutcome.returned AMEDIA_ERROR_UNKNOWN,
                     tracks := point.visited
                       ++ { point.track with mSampleQueue := ⟨rest⟩ } :: point.waiting,
                     muxer := point.muxer.stop.2 }
          ∧ point.muxer.stop.2.calls = point.muxer.calls ++ [MuxerCall.stop]
          ∧ stopCalls point.muxer.stop.2.calls = stopCalls muxer.calls + 1)
        ∧ (∀ (sample : MediaSample) (rest : List DequeueResult),
          point.pending = DequeueResult.sample sample :: rest →
          (point.muxer.writeSampleData (point.track.afterSample sample rest).mTrackIndex
            (point.track.rewrite sample).buffer
            (bufferInfoOf (point.track.rewrite sample))).1 ≠ AMEDIA_OK →
          w.writeSamples
            = some { outcome := LoopOutcome.returned
                       (point.muxer.writeSampleData
                         (point.track.afterSample sample rest).mTrackIndex
                         (point.track.rewrite sample).buffer
                         (bufferInfoOf (point.track.rewrite sample))).1,
                     tracks := point.visited
                       ++ point.track.afterSample sample rest :: point.waiting,
                     muxer := (point.muxer.writeSampleData
                       (point.track.afterSample sample rest).mTrackIndex
                       (point.track.rewrite sample).buffer
                       (bufferInfoOf (point.track.rewrite sample))).2.stop.2 }
          ∧ (point.muxer.writeSampleData
              (point.track.afterSample sample rest).mTrackIndex
              (point.track.rewrite sample).buffer
              (bufferInfoOf (point.track.rewrite sample))).2.stop.2.calls
            = point.muxer.calls
              ++ [MuxerCall.writeSampleData (point.track.afterSample sample rest).mTrackIndex
                    (point.track.rewrite sample).buffer
                    (bufferInfoOf (point.track.rewrite sample)),
                  MuxerCall.stop]
          ∧ stopCalls (point.muxer.writeSampleData
              (point.track.afterSample sample rest).mTrackIndex
              (point.track.rewrite sample).buffer
              (bufferInfoOf (point.track.rewrite sample))).2.stop.2.calls
            = stopCalls muxer.calls + 1)) := by
  have hstartCalls : stopCalls muxer.start.2.calls = stopCalls muxer.calls := by
    show stopCalls (muxer.calls ++ [MuxerCall.start]) = _
    rw [stopCalls_append]
    rfl
  refine ⟨?_, ?_⟩
  · intro hfail
    refine ⟨?_, rfl, hstartCalls⟩
    unfold MediaSampleWriter.writeSamples
    rw [hm]
    simp only
    rw [if_pos hfail]
  · intro hstart point hat
    have hpoint : stopCalls point.muxer.calls = stopCalls muxer.calls := by
      rw [stopCalls_of_wrote _ _ (atDequeue_wrote _ _ _ _ _ hat), hstartCalls]
    refine ⟨?_, ?_⟩
    · intro rest habort
      have hrun := runWriterLoop_at_abort _ _ _ point rest hat habort
      have hws := writeSamples_of_loop w muxer _ AMEDIA_ERROR_UNKNOWN hm hstart hrun rfl
      have hne : AMEDIA_ERROR_UNKNOWN ≠ AMEDIA_OK := by decide
      rw [if_pos hne] at hws
      refine ⟨hws, rfl, ?_⟩
      show stopCalls (point.muxer.calls ++ [MuxerCall.stop]) = _
      rw [stopCalls_append, hpoint]
      rfl
    · intro sample rest hsample hfail
      have hrun := runWriterLoop_at_failed_write _ _ _ point sample rest hat hsample hfail
      have hws := writeSamples_of_loop w muxer _ _ hm hstart hrun rfl
      rw [if_pos hfail] at hws
      refine ⟨hws, ?_, ?_⟩
      · show (point.muxer.calls ++ [_]) ++ [MuxerCall.stop] = _
        rw [List.append_assoc]
        rfl
      · show stopCalls ((point.muxer.calls ++ [_]) ++ [MuxerCall.stop]) = _
        rw [stopCalls_append, stopCalls_append, hpoint]
        rfl

/-- The loop of `writeFailWriter` is at `writeFailPoint`. -/
theorem writeFailWriter_atDequeue :
    AtDequeue writeFailWriter.mTrackSegmentLengthUs
      (u32 writeFailWriter.mTrackSegmentLengthUs) writeFailWriter.mTracks
      writeFailMuxer.start.2 writeFailPoint :=
  AtDequeue.inPass 10 [] exampleTrackA [exampleTrackB] writeFailMuxer.start.2 _ _ _ _ rfl rfl
    (TrackLoopAt.next (sampleAt 1 0 0)
      (DequeueResult.sample (sampleAt 2 10 0) :: exampleTrackARest) exampleTrackA
      writeFailMuxer.start.2 false _ _ _ _ rfl (by decide)
      (TrackLoopAt.here _ _ _ _))

/-- The status of `writeSampleData` at `writeFailPoint`. -/
theorem writeFailPoint_fails :
    (writeFailPoint.muxer.writeSampleData
      (writeFailPoint.track.afterSample (sampleAt 2 10 0) exampleTrackARest).mTrackIndex
      (writeFailPoint.track.rewrite (sampleAt 2 10 0)).buffer
      (bufferInfoOf (writeFailPoint.track.rewrite (sampleAt 2 10 0)))).1 = -10001 := by
  decide

/-- C14 at a writer whose muxer fails the second `writeSampleData`: the loop
ends at that call, `stop()` follows, and the status is that of the failed
call. -/
theorem writeSamples_after_failure_witness :
    writeFailWriter.mMuxer = some writeFailMuxer
    ∧ writeFailMuxer.start.1 = AMEDIA_OK
    ∧ (writeFailWriter.writeSamples.map (fun run => run.outcome)
        = some (LoopOutcome.returned (-10001)))
    ∧ (writeFailPoint.muxer.writeSampleData
        (writeFailPoint.track.afterSample (sampleAt 2 10 0) exampleTrackARest).mTrackIndex
        (writeFailPoint.track.rewrite (sampleAt 2 10 0)).buffer
        (bufferInfoOf (writeFailPoint.track.rewrite (sampleAt 2 10 0)))).2.stop.2.calls
      = writeFailPoint.muxer.calls
        ++ [MuxerCall.writeSampleData
              (writeFailPoint.track.afterSample (sampleAt 2 10 0) exampleTrackARest).mTrackIndex
              (writeFailPoint.track.rewrite (sampleAt 2 10 0)).buffer
              (bufferInfoOf (writeFailPoint.track.rewrite (sampleAt 2 10 0))),
            MuxerCall.stop]
    ∧ stopCalls (writeFailPoint.muxer.writeSampleData
        (writeFailPoint.track.afterSample (sampleAt 2 10 0) exampleTrackARest).mTrackIndex
        (writeFailPoint.track.rewrite (sampleAt 2 10 0)).buffer
        (bufferInfoOf (writeFailPoint.track.rewrite (sampleAt 2 10 0)))).2.stop.2.calls
      = stopCalls writeFailMuxer.calls + 1 := by
  have hfail : (writeFailPoint.muxer.writeSampleData
      (writeFailPoint.track.afterSample (sampleAt 2 10 0) exampleTrackARest).mTrackIndex
      (writeFailPoint.track.rewrite (sampleAt 2 10 0)).buffer
      (bufferInfoOf (writeFailPoint.track.rewrite (sampleAt 2 10 0)))).1 ≠ AMEDIA_OK := by
    rw [writeFailPoint_fails]
    decide
  have h := ((writeSamples_after_failure writeFailWriter writeFailMuxer rfl).2 rfl
    writeFailPoint writeFailWriter_atDequeue).2 (sampleAt 2 10 0) exampleTrackARest rfl hfail
  refine ⟨rfl, rfl, ?_, h.2.1, h.2.2⟩
  rw [h.1, Option.map_some', writeFailPoint_fails]

/-- C14, the claim as worded fails: with the muxer `startFailMuxer`, whose
`start()` fails, `writeSamples` returns the status of `start()` and the only
call of the muxer is `start()`: `stop()` is not called. -/
theorem writeSamples_start_failure_no_stop :
    startFailMuxer.start.1 ≠ AMEDIA_OK
    ∧ startFailWriter.writeSamples.map
        (fun run => (run.outcome, run.muxer.calls, stopCalls run.muxer.calls))
      = some (LoopOutcome.returned (-10001), [MuxerCall.start], 0) := by
  decide

/-! ### The boundary of a pass -/

/-- The boundary recorded for pass `k` of the loop entered with boundary
`segmentEndTimeUs` is `segmentEndTimeUs + k * mTrackSegmentLengthUs` reduced
modulo `2^32`. -/
theorem writerLoopBoundaries_get (mTrackSegmentLengthUs : Nat) :
    ∀ (fuel segmentEndTimeUs : Nat) (tracks : List TrackRecord) (muxer : Muxer) (k B : Nat),
      segmentEndTimeUs < 4294967296 →
      (writerLoopBoundaries mTrackSegmentLengthUs fuel segmentEndTimeUs tracks muxer)[k]?
        = some B →
      B = u32 (segmentEndTimeUs + k * mTrackSegmentLengthUs) := by
  intro fuel
  induction fuel with
  | zero =>
    intro B0 tracks muxer k B _ h
    simp [writerLoopBoundaries] at h
  | succ fuel ih =>
    intro B0 tracks muxer k B hB0 h
    rw [writerLoopBoundaries] at h
    cases k with
    | zero =>
      simp only [List.getElem?_cons_zero, Option.some.injEq] at h
      rw [← h, Nat.zero_mul, Nat.add_zero, u32_of_lt hB0]
    | succ k =>
      simp only [List.getElem?_cons_succ] at h
      cases ho : (writeTracks B0 tracks muxer false).outcome with
      | some out =>
        simp [ho] at h
      | none =>
        simp only [ho] at h
        by_cases hleft : (writeTracks B0 tracks muxer false).samplesLeft = true
        · rw [if_pos hleft] at h
          have h1 := ih _ _ _ k B (u32_lt _) h
          rw [h1]
          unfold u32
          rw [Nat.add_mod, Nat.mod_mod, ← Nat.add_mod]
          congr 1
          ring
        · rw [if_neg hleft] at h
          simp at h

/-- The loop as `writerLoop` runs it and the boundaries recorded for it: the
loop ends in the last pass recorded, with the boundary of that pass when it
returns from inside the pass, and with that boundary advanced once more when
it ends because no samples are left. -/
theorem writerLoop_boundaries (mTrackSegmentLengthUs : Nat) :
    ∀ (fuel segmentEndTimeUs : Nat) (tracks : List TrackRecord) (muxer : Muxer)
      (run : WriterRun),
      writerLoop mTrackSegmentLengthUs fuel segmentEndTimeUs tracks muxer = some run →
      ∃ last,
        (writerLoopBoundaries mTrackSegmentLengthUs fuel segmentEndTimeUs tracks muxer).getLast?
          = some last ∧
        (run.segmentEndTimeUs = last ∨
          run.segmentEndTimeUs = u32 (last + mTrackSegmentLengthUs)) := by
  intro fuel
  induction fuel with
  | zero =>
    intro B0 tracks muxer run h
    simp [writerLoop] at h
  | succ fuel ih =>
    intro B0 tracks muxer run h
    rw [writerLoop] at h
    rw [writerLoopBoundaries]
    cases ho : (writeTracks B0 tracks muxer false).outcome with
    | some out =>
      simp only [ho, Option.some.injEq] at h
      refine ⟨B0, by simp [ho], Or.inl ?_⟩
      rw [← h]
    | none =>
      simp only [ho] at h
      by_cases hleft : (writeTracks B0 tracks muxer false).samplesLeft = true
      · rw [if_pos hleft] at h
        obtain ⟨last, h1, h2⟩ := ih _ _ _ run h
        refine ⟨last, ?_, h2⟩
        simp only [ho, if_pos hleft]
        rw [List.getLast?_cons, h1]
        rfl
      · rw [if_neg hleft, Option.some.injEq] at h
        refine ⟨B0, by simp [ho, hleft], Or.inr ?_⟩
        rw [← h]

/-- The boundary at a `dequeue` the loop comes to is one of the boundaries
recorded for the loop. -/
theorem atDequeue_boundary (mTrackSegmentLengthUs : Nat) (segmentEndTimeUs : Nat)
    (tracks : List TrackRecord) (muxer : Muxer) (point : DequeuePoint)
    (h : AtDequeue mTrackSegmentLengthUs segmentEndTimeUs tracks muxer point) :
    ∀ (fuel : Nat), pendingSamples tracks < fuel →
      point.segmentEndTimeUs
        ∈ writerLoopBoundaries mTrackSegmentLengthUs fuel segmentEndTimeUs tracks muxer := by
  induction h with
  | inPass B before track waiting muxer pending1 track1 muxer1 samplesLeft1 _ _ _ =>
    intro fuel hfuel
    cases fuel with
    | zero => exact absurd hfuel (Nat.not_lt_zero _)
    | succ fuel =>
      rw [writerLoopBoundaries]
      exact List.mem_cons_self _ _
  | nextPass B tracks muxer point hpass hleft _ ih =>
    intro fuel hfuel
    cases fuel with
    | zero => exact absurd hfuel (Nat.not_lt_zero _)
    | succ fuel =>
      obtain ⟨_, _, g3⟩ := writeTracks_general B tracks muxer false
      have hlt : pendingSamples (writeTracks B tracks muxer false).tracks < fuel := by
        rcases g3 hleft with h4 | h4
        · cases h4
        · omega
      rw [writerLoopBoundaries]
      simp only [hpass]
      rw [if_pos hleft]
      exact List.mem_cons_of_mem _ (ih fuel hlt)

/-- C21: the boundary of a pass of `runWriterLoop`, as the code computes it.
For every segment length `L`, tracks and muxer: when the loop runs pass `k`,
the boundary `segmentEndTimeUs` of that pass is `(k + 1) * L` reduced modulo
`2^32` (the variable is a `uint32_t`); it is the exact integer `(k + 1) * L`
if and only if `(k + 1) * L` is below `2^32`. -/
theorem runWriterLoop_boundary_wraps (L : Nat) (mTracks : List TrackRecord) (mMuxer : Muxer)
    (k B : Nat)
    (h : (runWriterLoopBoundaries L mTracks mMuxer)[k]? = some B) :
    B = u32 ((k + 1) * L) ∧ (B = (k + 1) * L ↔ (k + 1) * L < 4294967296) := by
  have h1 := writerLoopBoundaries_get L _ _ _ _ k B (u32_lt L) h
  have h2 : B = u32 ((k + 1) * L) := by
    rw [h1]
    unfold u32
    rw [Nat.add_mod, Nat.mod_mod, ← Nat.add_mod]
    congr 1
    ring
  refine ⟨h2, ?_, ?_⟩
  · intro h3
    rw [← h3, h2]
    exact u32_lt _
  · intro h3
    rw [h2, u32_of_lt h3]

/-- The boundaries of the passes over `longTrackA` and `longTrackB` with
segment length `2^31`. -/
theorem longTracks_boundaries :
    runWriterLoopBoundaries 2147483648 [longTrackA, longTrackB] okMuxer
      = [2147483648, 0, 2147483648, 0] := by
  decide

/-- The order in which `runWriterLoop` writes the samples of `longTrackA` and
`longTrackB` with segment length `2^31`, by buffer: in pass 1 one sample of
each track, although the three samples left of track A and the two left of
track B all lie before `2 * 2^31`. -/
theorem longTracks_order :
    (runWriterLoop 2147483648 [longTrackA, longTrackB] okMuxer).map
        (fun run => (run.outcome, run.muxer.calls.map (fun call => call.buffer)))
      = some (LoopOutcome.returned AMEDIA_OK,
          [some 1, some 2, some 11, some 12, some 3, some 13, some 4, some 14, some 5]) := by
  decide

/-- C21 at `longTrackA`, `longTrackB` with segment length `2^31`: the boundary
of pass 1 is 0, which is not `2 * 2^31`. -/
theorem runWriterLoop_boundary_wraps_witness :
    (runWriterLoopBoundaries 2147483648 [longTrackA, longTrackB] okMuxer)[1]? = some 0
    ∧ 0 = u32 ((1 + 1) * 2147483648)
    ∧ ((0 : Nat) = (1 + 1) * 2147483648 ↔ (1 + 1) * 2147483648 < 4294967296)
    ∧ (0 : Nat) ≠ (1 + 1) * 2147483648 :=
  have h : (runWriterLoopBoundaries 2147483648 [longTrackA, longTrackB] okMuxer)[1]? = some 0 := by
    rw [longTracks_boundaries]
    rfl
  ⟨h, (runWriterLoop_boundary_wraps 2147483648 [longTrackA, longTrackB] okMuxer 1 0 h).1,
    (runWriterLoop_boundary_wraps 2147483648 [longTrackA, longTrackB] okMuxer 1 0 h).2,
    by decide⟩

/-! ### A repeated seek after a failure in the chunk block -/

/-- One evaluation of the loop body of `findChunkRange`, entered with
`sampleIndex >= mStopChunkSampleIndex`, leaves the first sample of the run at
or before `sampleIndex`. -/
theorem findChunkRangeBody_first_le (t : SampleTable) (s s1 : SampleIterator)
    (r : Option status_t) (sampleIndex : Nat)
    (hfirst : s.mFirstChunkSampleIndex ≤ sampleIndex)
    (hstop : s.mStopChunkSampleIndex ≤ sampleIndex)
    (h : findChunkRangeBody t s = some (r, s1)) :
    s1.mFirstChunkSampleIndex ≤ sampleIndex := by
  unfold findChunkRangeBody at h
  simp only at h
  split at h <;> (try split at h) <;> (try split at h) <;> (try split at h) <;>
    (try split at h) <;> (try split at h) <;> (try split at h) <;> (try split at h) <;>
    first
    | (cases h; assumption)
    | (cases h)

theorem findChunkRangeLoop_first_le (t : SampleTable) (sampleIndex : Nat) :
    ∀ (fuel : Nat) (s s1 : SampleIterator) (r : status_t),
      s.mFirstChunkSampleIndex ≤ sampleIndex →
      findChunkRangeLoop t sampleIndex fuel s = some (r, s1) →
      s1.mFirstChunkSampleIndex ≤ sampleIndex := by
  intro fuel
  induction fuel with
  | zero =>
    intro s s1 r _ h
    simp [findChunkRangeLoop] at h
  | succ fuel ih =>
    intro s s1 r hfirst h
    unfold findChunkRangeLoop at h
    split at h
    · rename_i hge
      cases hb : findChunkRangeBody t s with
      | none => simp [hb] at h
      | some p =>
        obtain ⟨o, s2⟩ := p
        have h2 := findChunkRangeBody_first_le t s s2 o sampleIndex hfirst hge hb
        cases o with
        | none =>
          simp only [hb] at h
          exact ih _ _ _ h2 h
        | some e =>
          simp only [hb] at h
          cases h
          exact h2
    · cases h
      exact hfirst

/-- The chunk range that `seekTo` arrives at starts at or before
`sampleIndex`. -/
theorem seekToChunkRange_first_le (t : SampleTable) (s s1 : SampleIterator) (sampleIndex : Nat)
    (r : status_t) (h : seekToChunkRange t s sampleIndex = some (r, s1)) :
    s1.mFirstChunkSampleIndex ≤ sampleIndex := by
  have hloop : ∀ (s0 : SampleIterator), s0.mFirstChunkSampleIndex ≤ sampleIndex →
      findChunkRange t s0 sampleIndex = some (r, s1) →
      s1.mFirstChunkSampleIndex ≤ sampleIndex := by
    intro s0 h0 hf
    unfold findChunkRange at hf
    split at hf
    · cases hf
    · split at hf
      · cases hf
        exact h0
      · exact findChunkRangeLoop_first_le t sampleIndex _ s0 s1 r h0 hf
  unfold seekToChunkRange at h
  simp only at h
  split at h
  · split at h
    · exact hloop _ (Nat.zero_le _) h
    · cases h
      exact Nat.zero_le _
  · rename_i hkeep
    have h0 : s.mFirstChunkSampleIndex ≤ sampleIndex := by
      by_contra hc
      exact hkeep (Or.inr (by omega))
    split at h
    · exact hloop _ h0 h
    · cases h
      exact h0

/-- The function `seekTo` once its head is passed and the chunk range is
found: the chunk block, then the last part. -/
theorem seekTo_at_chunk (t : SampleTable) (s s2 : SampleIterator) (i : Nat)
    (hi : i < t.mNumSampleSizes)
    (hboxes : ¬ (t.mSampleToChunkOffset < 0 ∨ t.mChunkOffsetOffset < 0
      ∨ t.mSampleSizeOffset < 0 ∨ t.mTimeToSampleCount = 0))
    (hcur : ¬ (s.mInitialized = true ∧ s.mCurrentSampleIndex = i))
    (hrange : seekToChunkRange t s i = some (status_t.OK, s2))
    (hstop : i < s2.mStopChunkSampleIndex) (hspc : s2.mSamplesPerChunk ≠ 0) :
    seekTo t s i
      = match seekToChunk t s2
            (u32 (sub32 i s2.mFirstChunkSampleIndex / s2.mSamplesPerChunk + s2.mFirstChunk)) with
        | none => none
        | some (status_t.OK, s5) => seekToSample t s5 i
        | some (err, s5) => some (err, s5) := by
  unfold seekTo
  rw [if_neg (by omega), if_neg hboxes, if_neg hcur]
  simp only [hrange]
  rw [if_neg (not_not.mpr hstop), if_neg hspc]

/-- A chunk block of `seekTo` that returns an error has stored the index of
the chunk it was asked for; when the error is that of `getChunkOffset`, it has
stored the offset `getChunkOffset` delivered and has left the per-chunk size
list as it was. -/
theorem seekToChunk_error (t : SampleTable) (s s1 : SampleIterator) (chunk : Nat)
    (e : status_t) (h : seekToChunk t s chunk = some (e, s1)) (he : e ≠ status_t.OK) :
    s1.mCurrentChunkIndex = chunk ∧
    ∀ (offset : Int), getChunkOffset t chunk = some (e, offset) →
      s1.mCurrentChunkOffset = offset ∧
      s1.mCurrentChunkSampleSizes = s.mCurrentChunkSampleSizes := by
  unfold seekToChunk at h
  split at h
  · cases hg : getChunkOffset t chunk with
    | none => simp [hg] at h
    | some p =>
      obtain ⟨e1, off⟩ := p
      cases e1 with
      | OK =>
        simp only [hg] at h
        obtain ⟨_, _, _, g4, _⟩ := loadChunkSampleSizes_frame t _ _ _ _ _ _ h
        refine ⟨g4, ?_⟩
        intro offset ho
        simp only [Option.some.injEq, Prod.mk.injEq] at ho
        exact absurd ho.1.symm he
      | ERROR_END_OF_STREAM =>
        simp only [hg] at h
        cases h
        refine ⟨rfl, ?_⟩
        intro offset ho
        simp only [Option.some.injEq, Prod.mk.injEq, true_and] at ho
        exact ⟨ho, rfl⟩
      | ERROR_MALFORMED =>
        simp only [hg] at h
        cases h
        refine ⟨rfl, ?_⟩
        intro offset ho
        simp only [Option.some.injEq, Prod.mk.injEq, true_and] at ho
        exact ⟨ho, rfl⟩
      | ERROR_OUT_OF_RANGE =>
        simp only [hg] at h
        cases h
        refine ⟨rfl, ?_⟩
        intro offset ho
        simp only [Option.some.injEq, Prod.mk.injEq, true_and] at ho
        exact ⟨ho, rfl⟩
      | ERROR_IO =>
        simp only [hg] at h
        cases h
        refine ⟨rfl, ?_⟩
        intro offset ho
        simp only [Option.some.injEq, Prod.mk.injEq, true_and] at ho
        exact ⟨ho, rfl⟩
  · cases h
    exact absurd rfl he

/-- C22, as the code has it: a repeated `seekTo(i)` after a failure in the
chunk block.  Let `seekTo(i)` on an initialised cursor pass its head, find the
chunk range, enter the chunk block and return the error `e` from it
(`getChunkOffset` failed, or loading the sample sizes of the chunk failed).
The block has stored the index of the chunk of `i` before it failed, so the
repeated `seekTo(i)` skips the block: it is the last part of `seekTo` run on
the cursor the failed call left, with the chunk offset and the per-chunk size
list as the failed call left them.  When `getChunkOffset` failed these are the
offset `getChunkOffset` stored on failure and the size list of the chunk
resolved before. -/
theorem seekTo_retry_after_chunk_failure (t : SampleTable) (s s2 s1 : SampleIterator)
    (i : Nat) (e : status_t)
    (hi : i < t.mNumSampleSizes)
    (hboxes : ¬ (t.mSampleToChunkOffset < 0 ∨ t.mChunkOffsetOffset < 0
      ∨ t.mSampleSizeOffset < 0 ∨ t.mTimeToSampleCount = 0))
    (hinit : s.mInitialized = true) (hcur : s.mCurrentSampleIndex ≠ i)
    (hrange : seekToChunkRange t s i = some (status_t.OK, s2))
    (hstop : i < s2.mStopChunkSampleIndex) (hspc : s2.mSamplesPerChunk ≠ 0)
    (hchunk : seekToChunk t s2
        (u32 (sub32 i s2.mFirstChunkSampleIndex / s2.mSamplesPerChunk + s2.mFirstChunk))
      = some (e, s1))
    (he : e ≠ status_t.OK) :
    seekTo t s i = some (e, s1) ∧
    s1.mCurrentChunkIndex
      = u32 (sub32 i s2.mFirstChunkSampleIndex / s2.mSamplesPerChunk + s2.mFirstChunk) ∧
    seekTo t s1 i = seekToSample t s1 i ∧
    ∀ (offset : Int),
      getChunkOffset t
          (u32 (sub32 i s2.mFirstChunkSampleIndex / s2.mSamplesPerChunk + s2.mFirstChunk))
        = some (e, offset) →
      s1.mCurrentChunkOffset = offset ∧
      s1.mCurrentChunkSampleSizes = s.mCurrentChunkSampleSizes := by
  obtain ⟨_, r2, r3⟩ := seekToChunkRange_frame t s s2 i _ hrange
  obtain ⟨_, c2, c3⟩ := seekToChunk_frame t s2 s1 _ _ hchunk
  obtain ⟨hidx, hleft⟩ := seekToChunk_error t s2 s1 _ e hchunk he
  have hfirst := seekToChunkRange_first_le t s s2 i _ hrange
  have hres : s1.resolved = s.resolved := c2.trans r2
  have hres1 := hres
  unfold SampleIterator.resolved at hres1
  simp only [Prod.mk.injEq] at hres1
  have hinit1 : s1.mInitialized = true := hres1.1.trans hinit
  have hcur1 : s1.mCurrentSampleIndex ≠ i := by
    rw [hres1.2.1]
    exact hcur
  have hcr := c3
  unfold SampleIterator.chunkRange at hcr
  simp only [Prod.mk.injEq] at hcr
  obtain ⟨_, k2, k3, _, k5, k6, _⟩ := hcr
  have hfirst_eq : s1.mFirstChunkSampleIndex = s2.mFirstChunkSampleIndex := k3
  have hstop_eq : s1.mStopChunkSampleIndex = s2.mStopChunkSampleIndex := k5
  have hspc_eq : s1.mSamplesPerChunk = s2.mSamplesPerChunk := k6
  have hfc_eq : s1.mFirstChunk = s2.mFirstChunk := k2
  have hfirstCall : seekTo t s i = some (e, s1) := by
    rw [seekTo_at_chunk t s s2 i hi hboxes (fun h => hcur h.2) hrange hstop hspc, hchunk]
    cases e with
    | OK => exact absurd rfl he
    | ERROR_END_OF_STREAM => rfl
    | ERROR_MALFORMED => rfl
    | ERROR_OUT_OF_RANGE => rfl
    | ERROR_IO => rfl
  have hrange1 : seekToChunkRange t s1 i = some (status_t.OK, s1) := by
    have hkeep : ¬ (s1.mInitialized = false ∨ i < s1.mFirstChunkSampleIndex) := by
      intro h
      rcases h with h | h
      · rw [hinit1] at h
        cases h
      · omega
    have hin : ¬ (i ≥ s1.mStopChunkSampleIndex) := by omega
    unfold seekToChunkRange
    simp only
    rw [if_neg hkeep, if_neg hin]
  have hchunk1 : seekToChunk t s1
      (u32 (sub32 i s1.mFirstChunkSampleIndex / s1.mSamplesPerChunk + s1.mFirstChunk))
      = some (status_t.OK, s1) := by
    rw [hfirst_eq, hspc_eq, hfc_eq]
    have hskip : ¬ (s1.mInitialized = false
        ∨ u32 (sub32 i s2.mFirstChunkSampleIndex / s2.mSamplesPerChunk + s2.mFirstChunk)
          ≠ s1.mCurrentChunkIndex) := by
      intro h
      rcases h with h | h
      · rw [hinit1] at h
        cases h
      · exact h hidx.symm
    unfold seekToChunk
    rw [if_neg hskip]
  refine ⟨hfirstCall, hidx, ?_, ?_⟩
  · rw [seekTo_at_chunk t s1 s1 i hi hboxes (fun h => hcur1 h.2) hrange1
      (by rw [hstop_eq]; exact hstop) (by rw [hspc_eq]; exact hspc), hchunk1]
  · intro offset ho
    obtain ⟨g1, g2⟩ := hleft offset ho
    refine ⟨g1, g2.trans ?_⟩
    have r3a := r3
    unfold SampleIterator.chunkState at r3a
    simp only [Prod.mk.injEq] at r3a
    exact r3a.2.2

/-- The failed `seekTo(1)` over `missingChunkTable`, in its parts. -/
theorem missingChunkCursor_parts :
    seekToChunkRange missingChunkTable missingChunkCursor 1
      = some (status_t.OK, missingChunkCursor) ∧
    seekToChunk missingChunkTable missingChunkCursor
        (u32 (sub32 1 missingChunkCursor.mFirstChunkSampleIndex
          / missingChunkCursor.mSamplesPerChunk + missingChunkCursor.mFirstChunk))
      = some (status_t.ERROR_OUT_OF_RANGE, missingChunkFailedCursor) := by
  decide

/-- The chunk of sample 1 of `missingChunkTable` has no entry in the
chunk-offset table, and the last part of `seekTo` on the cursor the failed
`seekTo(1)` left returns `OK`. -/
theorem missingChunkFailedCursor_retry :
    getChunkOffset missingChunkTable
        (u32 (sub32 1 missingChunkCursor.mFirstChunkSampleIndex
          / missingChunkCursor.mSamplesPerChunk + missingChunkCursor.mFirstChunk))
      = some (status_t.ERROR_OUT_OF_RANGE, 0) ∧
    seekToSample missingChunkTable missingChunkFailedCursor 1
      = some (status_t.OK, missingChunkRetriedCursor) := by
  decide

/-- C22 at `missingChunkTable` (two samples, one per chunk, a chunk-offset
table with an entry for chunk 0 only): after a successful `seekTo(0)`,
`seekTo(1)` returns `ERROR_OUT_OF_RANGE` from `getChunkOffset`, and the
repeated `seekTo(1)` returns `OK` with sample offset 0, the offset
`getChunkOffset` stored when it failed, and the size taken from the size list
of chunk 0. -/
theorem seekTo_retry_after_chunk_failure_witness :
    missingChunkCursor.mInitialized = true ∧
    seekTo missingChunkTable missingChunkCursor 1
      = some (status_t.ERROR_OUT_OF_RANGE, missingChunkFailedCursor) ∧
    seekTo missingChunkTable missingChunkFailedCursor 1
      = some (status_t.OK, missingChunkRetriedCursor) ∧
    missingChunkRetriedCursor.mCurrentSampleOffset = 0 ∧
    missingChunkFailedCursor.mCurrentChunkOffset = 0 ∧
    missingChunkFailedCursor.mCurrentChunkSampleSizes
      = missingChunkCursor.mCurrentChunkSampleSizes := by
  have h := seekTo_retry_after_chunk_failure missingChunkTable missingChunkCursor
    missingChunkCursor missingChunkFailedCursor 1 status_t.ERROR_OUT_OF_RANGE
    (by decide) (by decide) (by decide) (by decide) missingChunkCursor_parts.1
    (by decide) (by decide) missingChunkCursor_parts.2 (by decide)
  obtain ⟨h1, _, h3, h4⟩ := h
  obtain ⟨h5, h6⟩ := h4 0 missingChunkFailedCursor_retry.1
  exact ⟨by decide, h1, h3.trans missingChunkFailedCursor_retry.2, rfl, h5, h6⟩

/-- A repeated `seekTo` that indexes the per-chunk size list outside its
bounds.  Over `sizeReadFailTable`, whose data source fails every read of the
sample sizes from their start, `seekTo(6)` on a new cursor returns `OK`;
`seekTo(1)` then returns `ERROR_IO` from the first `getSampleSizeDirect` of
the chunk block and leaves chunk index 0 with an empty size list; the repeated
`seekTo(1)` skips the chunk block and reads entry 0 of the empty list. -/
theorem seekTo_retry_out_of_bounds :
    seekTo sizeReadFailTable (SampleIterator.create SampleIterator.zero) 6
      = some (status_t.OK, sizeReadFailCursor6) ∧
    seekTo sizeReadFailTable sizeReadFailCursor6 1
      = some ( status_t.ERROR_IO, sizeReadFailCursor61) ∧
    sizeReadFailCursor61.mCurrentChunkSampleSizes = [] ∧
    seekTo sizeReadFailTable sizeReadFailCursor61 1 = none ∧
    addSampleSizes sizeReadFailCursor61.mCurrentChunkSampleSizes 1
      sizeReadFailCursor61.mCurrentChunkOffset = none := by
  decide

/-! ### Reads of the size cache for far samples -/

/-- The `switch` of `getSampleSizeDirect` reads the cache from
`cacheReadOffset` on. -/
theorem decodeSampleSize_offset (t : SampleTable) (s : SampleIterator) (cache : List Nat)
    (sampleIndex : Nat) :
    decodeSampleSize t cache (sub32 sampleIndex s.mCurrentSampleCacheStartIndex)
      = if t.mSampleSizeFieldSize = 32 then readBE cache (cacheReadOffset t s sampleIndex) 4
        else if t.mSampleSizeFieldSize = 16 then readBE cache (cacheReadOffset t s sampleIndex) 2
        else if t.mSampleSizeFieldSize = 8 then byteAt cache (cacheReadOffset t s sampleIndex)
        else
          (byteAt cache (cacheReadOffset t s sampleIndex)).map (fun b =>
            if sub32 sampleIndex s.mCurrentSampleCacheStartIndex % 2 = 1 then b % 16
            else (b / 16) % 16) :=
  rfl

theorem compactHugeTable_seek :
    seekTo compactHugeTable (SampleIterator.create SampleIterator.zero) 0
      = some (status_t.OK, compactHugeCursor) := by
  decide

theorem compactHugeTable_far :
    readNewSampleCache compactHugeTable compactHugeCursor 1073741823 = false ∧
    cacheReadOffset compactHugeTable compactHugeCursor 1073741823 = 536870911 ∧
    getSampleSizeDirect compactHugeTable compactHugeCursor 1073741823 = none ∧
    seekTo compactHugeTable compactHugeCursor 1073741823 = none := by
  decide

theorem wideHugeTable_seek :
    (getSampleSizeDirect wideHugeTable (SampleIterator.create SampleIterator.zero)
        134217728).map (fun p => (p.1, p.2.1, p.2.2.sizeCache))
      = some (status_t.OK, 16843009, some [1, 1, 1, 1], 4, 134217728) ∧
    seekTo wideHugeTable (SampleIterator.create SampleIterator.zero) 134217728
      = some (status_t.OK, wideHugeCursor) := by
  decide

theorem wideHugeTable_offset :
    sampleCacheFileOffset wideHugeTable 134217728 = 12 ∧
    wideHugeTable.mSampleSizeOffset + 12
        + ((wideHugeTable.mSampleSizeFieldSize * 134217728 / 8 : Nat) : Int) = 536870924 ∧
    wideHugeTable.readAt 12 4 = some [1, 1, 1, 1] ∧
    wideHugeTable.readAt 536870924 4 = some [2, 2, 2, 2] := by
  decide

theorem wideHugeTable_back :
    readNewSampleCache wideHugeTable wideHugeCursor 1 = true ∧
    (newSampleCacheWindow wideHugeTable wideHugeCursor 1).sizeCache = (some [], 0, 1) ∧
    getSampleSizeDirect wideHugeTable wideHugeCursor 1 = none ∧
    seekTo wideHugeTable wideHugeCursor 1 = none := by
  decide

/-- C23 on tables with many samples: reads of the size cache that leave the
window, and a window read from a wrapped offset.

Over `compactHugeTable` (`2^30 + 1` samples, width 4, no default size) the
cursor left by `seekTo(0)` on a new cursor has a cache window of one byte that
starts at sample 0.  For sample `2^30 - 1` the window test
`((i - start) * 4 + 4) / 8 >= mSampleCacheSize` evaluates
`(2^32 - 4) + 4` as a `uint32_t`, that is 0, and so takes the sample to be
inside the window; `cacheReadOffset` is `(2^32 - 4) / 8 = 536870911`, far
outside the one byte of the cache, and `getSampleSizeDirect` reads there.

Over `wideHugeTable` (`2^27 + 1` samples, width 32, no default size)
`getSampleSizeDirect(2^27)` on a new cursor returns `OK` with a window that
was read at byte offset `mSampleSizeOffset + 12 + 0`, since `32 * 2^27` is 0
as a `uint32_t`, and not at `mSampleSizeOffset + 12 + 2^29`: the size returned
is made of the bytes of value 1 found below offset `65536`.  On the cursor
that `seekTo(2^27)` leaves, `getSampleSizeDirect(1)` sets up a window of
`(2^27 * 32 + 4) / 8 = 0` bytes (the product is again 0) and decodes four
bytes from it. -/
theorem getSampleSizeDirect_far_samples :
    (seekTo compactHugeTable (SampleIterator.create SampleIterator.zero) 0
        = some (status_t.OK, compactHugeCursor) ∧
      compactHugeCursor.sizeCache = (some [1], 1, 0) ∧
      1073741823 < compactHugeTable.mNumSampleSizes ∧
      readNewSampleCache compactHugeTable compactHugeCursor 1073741823 = false ∧
      cacheReadOffset compactHugeTable compactHugeCursor 1073741823 = 536870911 ∧
      ¬ (cacheReadOffset compactHugeTable compactHugeCursor 1073741823
          < compactHugeCursor.mSampleCacheSize) ∧
      getSampleSizeDirect compactHugeTable compactHugeCursor 1073741823 = none ∧
      seekTo compactHugeTable compactHugeCursor 1073741823 = none) ∧
    (134217728 < wideHugeTable.mNumSampleSizes ∧
      (getSampleSizeDirect wideHugeTable (SampleIterator.create SampleIterator.zero)
          134217728).map (fun p => (p.1, p.2.1, p.2.2.sizeCache))
        = some (status_t.OK, 16843009, some [1, 1, 1, 1], 4, 134217728) ∧
      sampleCacheFileOffset wideHugeTable 134217728 = 12 ∧
      wideHugeTable.mSampleSizeOffset + 12
          + ((wideHugeTable.mSampleSizeFieldSize * 134217728 / 8 : Nat) : Int) = 536870924 ∧
      wideHugeTable.readAt 12 4 = some [1, 1, 1, 1] ∧
      wideHugeTable.readAt 536870924 4 = some [2, 2, 2, 2]) ∧
    (seekTo wideHugeTable (SampleIterator.create SampleIterator.zero) 134217728
        = some (status_t.OK, wideHugeCursor) ∧
      1 < wideHugeTable.mNumSampleSizes ∧
      readNewSampleCache wideHugeTable wideHugeCursor 1 = true ∧
      (newSampleCacheWindow wideHugeTable wideHugeCursor 1).sizeCache = (some [], 0, 1) ∧
      getSampleSizeDirect wideHugeTable wideHugeCursor 1 = none ∧
      seekTo wideHugeTable wideHugeCursor 1 = none) :=
  ⟨⟨compactHugeTable_seek, rfl, by decide, compactHugeTable_far.1, compactHugeTable_far.2.1,
      by decide, compactHugeTable_far.2.2.1, compactHugeTable_far.2.2.2⟩,
    ⟨by decide, wideHugeTable_seek.1, wideHugeTable_offset.1, wideHugeTable_offset.2.1,
      wideHugeTable_offset.2.2.1, wideHugeTable_offset.2.2.2⟩,
    ⟨wideHugeTable_seek.2, by decide, wideHugeTable_back.1, wideHugeTable_back.2.1,
      wideHugeTable_back.2.2.1, wideHugeTable_back.2.2.2⟩⟩

/-! ### A repeated seek on a cursor that is not initialised -/

/-- The loop body of `findChunkRange` neither reads nor writes the chunk
state. -/
theorem findChunkRangeBody_withChunkState (t : SampleTable) (s s1 : SampleIterator)
    (r : Option status_t) (index : Nat) (offset : Int) (sizes : List Nat)
    (h : findChunkRangeBody t s = some (r, s1)) :
    findChunkRangeBody t (s.withChunkState index offset sizes)
      = some (r, s1.withChunkState index offset sizes) := by
  unfold findChunkRangeBody at h ⊢
  simp only [SampleIterator.withChunkState] at h ⊢
  by_cases h1 : s.mSampleToChunkIndex = t.mNumSampleToChunkOffsets
  · rw [if_pos h1] at h ⊢
    simp only [Option.some.injEq, Prod.mk.injEq] at h
    obtain ⟨hr, hs⟩ := h
    subst hr
    subst hs
    rfl
  · rw [if_neg h1] at h ⊢
    cases he : (t.mSampleToChunkEntries.getD [])[s.mSampleToChunkIndex]? with
    | none => simp [he] at h
    | some entry =>
      simp only [he] at h
      simp only [he]
      by_cases h2 : s.mSampleToChunkIndex + 1 < t.mNumSampleToChunkOffsets
      · simp only [h2, ↓reduceIte] at h ⊢
        cases hn : (t.mSampleToChunkEntries.getD [])[s.mSampleToChunkIndex + 1]? with
        | none => simp [hn] at h
        | some next =>
          simp only [hn] at h
          simp only [hn]
          by_cases h3 : u32 next.startChunk < u32 entry.startChunk
          · simp only [h3, ↓reduceIte] at h ⊢
            simp only [Option.some.injEq, Prod.mk.injEq] at h
            obtain ⟨hr, hs⟩ := h
            subst hr
            subst hs
            rfl
          · simp only [h3, ↓reduceIte] at h ⊢
            by_cases h4 : u32 entry.samplesPerChunk = 0
            · simp [h4] at h
            · simp only [h4, ↓reduceIte] at h ⊢
              by_cases h5 : sub32 (u32 next.startChunk) (u32 entry.startChunk)
                  > UINT32_MAX / u32 entry.samplesPerChunk
              · simp only [h5, ↓reduceIte] at h ⊢
                simp only [Option.some.injEq, Prod.mk.injEq] at h
                obtain ⟨hr, hs⟩ := h
                subst hr
                subst hs
                rfl
              · simp only [h5, ↓reduceIte] at h ⊢
                by_cases h6 : u32 (sub32 (u32 next.startChunk) (u32 entry.startChunk)
                    * u32 entry.samplesPerChunk) > sub32 UINT32_MAX s.mStopChunkSampleIndex
                · simp only [h6, ↓reduceIte] at h ⊢
                  simp only [Option.some.injEq, Prod.mk.injEq] at h
                  obtain ⟨hr, hs⟩ := h
                  subst hr
                  subst hs
                  rfl
                · simp only [h6, ↓reduceIte] at h ⊢
                  simp only [Option.some.injEq, Prod.mk.injEq] at h
                  obtain ⟨hr, hs⟩ := h
                  subst hr
                  subst hs
                  rfl
      · simp only [h2, ↓reduceIte] at h ⊢
        simp only [Option.some.injEq, Prod.mk.injEq] at h
        obtain ⟨hr, hs⟩ := h
        subst hr
        subst hs
        rfl

theorem findChunkRangeLoop_withChunkState (t : SampleTable) (sampleIndex : Nat)
    (index : Nat) (offset : Int) (sizes : List Nat) :
    ∀ (fuel : Nat) (s s1 : SampleIterator) (r : status_t),
      findChunkRangeLoop t sampleIndex fuel s = some (r, s1) →
      findChunkRangeLoop t sampleIndex fuel (s.withChunkState index offset sizes)
        = some (r, s1.withChunkState index offset sizes) := by
  intro fuel
  induction fuel with
  | zero =>
    intro s s1 r h
    simp [findChunkRangeLoop] at h
  | succ fuel ih =>
    intro s s1 r h
    unfold findChunkRangeLoop at h ⊢
    have hproj : (s.withChunkState index offset sizes).mStopChunkSampleIndex
        = s.mStopChunkSampleIndex := rfl
    rw [hproj]
    by_cases hge : sampleIndex ≥ s.mStopChunkSampleIndex
    · rw [if_pos hge] at h ⊢
      cases hb : findChunkRangeBody t s with
      | none => simp [hb] at h
      | some p =>
        obtain ⟨o, s2⟩ := p
        rw [findChunkRangeBody_withChunkState t s s2 o index offset sizes hb]
        cases o with
        | none =>
          simp only [hb] at h
          exact ih _ _ _ h
        | some e =>
          simp only [hb, Option.some.injEq, Prod.mk.injEq] at h
          obtain ⟨h1, h2⟩ := h
          subst h1
          subst h2
          rfl
    · rw [if_neg hge] at h ⊢
      simp only [Option.some.injEq, Prod.mk.injEq] at h
      obtain ⟨h1, h2⟩ := h
      subst h1
      subst h2
      rfl

/-- The function `findChunkRange` neither reads nor writes the chunk state. -/
theorem findChunkRange_withChunkState (t : SampleTable) (s s1 : SampleIterator)
    (sampleIndex : Nat) (r : status_t) (index : Nat) (offset : Int) (sizes : List Nat)
    (h : findChunkRange t s sampleIndex = some (r, s1)) :
    findChunkRange t (s.withChunkState index offset sizes) sampleIndex
      = some (r, s1.withChunkState index offset sizes) := by
  unfold findChunkRange at h ⊢
  have hproj : (s.withChunkState index offset sizes).mFirstChunkSampleIndex
      = s.mFirstChunkSampleIndex := rfl
  have hproj2 : (s.withChunkState index offset sizes).mSampleToChunkIndex
      = s.mSampleToChunkIndex := rfl
  rw [hproj, hproj2]
  by_cases h1 : ¬ (sampleIndex ≥ s.mFirstChunkSampleIndex)
  · rw [if_pos h1] at h
    cases h
  · rw [if_neg h1] at h ⊢
    by_cases h2 : t.mSampleToChunkEntries = none
    · rw [if_pos h2] at h ⊢
      simp only [Option.some.injEq, Prod.mk.injEq] at h
      obtain ⟨h3, h4⟩ := h
      subst h3
      subst h4
      rfl
    · rw [if_neg h2] at h ⊢
      exact findChunkRangeLoop_withChunkState t sampleIndex index offset sizes _ s s1 r h

/-- Two cursors with the same time-to-sample cursor, resolved members, chunk
state, chunk range and size cache are the same cursor. -/
theorem SampleIterator.eq_of_views (a b : SampleIterator)
    (h1 : a.timeCursor = b.timeCursor) (h2 : a.resolved = b.resolved)
    (h3 : a.chunkState = b.chunkState) (h4 : a.chunkRange = b.chunkRange)
    (h5 : a.sizeCache = b.sizeCache) : a = b := by
  cases a
  cases b
  simp only [SampleIterator.timeCursor, SampleIterator.resolved, SampleIterator.chunkState,
    SampleIterator.chunkRange, SampleIterator.sizeCache, Prod.mk.injEq] at h1 h2 h3 h4 h5
  simp only [SampleIterator.mk.injEq]
  obtain ⟨a1, a2, a3, a4, a5⟩ := h1
  obtain ⟨b1, b2, b3, b4, b5, b6⟩ := h2
  obtain ⟨c1, c2, c3⟩ := h3
  obtain ⟨d1, d2, d3, d4, d5, d6, d7⟩ := h4
  obtain ⟨e1, e2, e3⟩ := h5
  exact ⟨b1, d1, d2, d3, d4, d5, d6, d7, c1, c2, c3, a1, a2, a3, a4, a5, b2, b3, b4, b5, b6,
    e1, e2, e3⟩

/-- The chunk block of `seekTo` on a cursor that is not initialised, when it
returns an error: run again on the cursor with the chunk state the failed run
left, it returns the same error and leaves the same cursor. -/
theorem seekToChunk_again (t : SampleTable) (s2 s1 : SampleIterator) (chunk : Nat)
    (e : status_t) (hinit : s2.mInitialized = false)
    (h : seekToChunk t s2 chunk = some (e, s1)) (he : e ≠ status_t.OK) :
    seekToChunk t
        (s2.withChunkState s1.mCurrentChunkIndex s1.mCurrentChunkOffset
          s1.mCurrentChunkSampleSizes) chunk
      = some (e, s1) := by
  unfold seekToChunk at h ⊢
  have hproj : (s2.withChunkState s1.mCurrentChunkIndex s1.mCurrentChunkOffset
      s1.mCurrentChunkSampleSizes).mInitialized = s2.mInitialized := rfl
  rw [hproj]
  rw [if_pos (Or.inl hinit)] at h ⊢
  cases hg : getChunkOffset t chunk with
  | none => simp [hg] at h
  | some p =>
    obtain ⟨e1, off⟩ := p
    cases e1 with
    | OK =>
      simp only [hg] at h ⊢
      exact h
    | ERROR_END_OF_STREAM =>
      simp only [hg, Option.some.injEq, Prod.mk.injEq] at h ⊢
      obtain ⟨h1, h2⟩ := h
      subst h1
      subst h2
      exact ⟨rfl, rfl⟩
    | ERROR_MALFORMED =>
      simp only [hg, Option.some.injEq, Prod.mk.injEq] at h ⊢
      obtain ⟨h1, h2⟩ := h
      subst h1
      subst h2
      exact ⟨rfl, rfl⟩
    | ERROR_OUT_OF_RANGE =>
      simp only [hg, Option.some.injEq, Prod.mk.injEq] at h ⊢
      obtain ⟨h1, h2⟩ := h
      subst h1
      subst h2
      exact ⟨rfl, rfl⟩
    | ERROR_IO =>
      simp only [hg, Option.some.injEq, Prod.mk.injEq] at h ⊢
      obtain ⟨h1, h2⟩ := h
      subst h1
      subst h2
      exact ⟨rfl, rfl⟩

/-- A repeated `seekTo(i)` on a cursor that is not initialised.  Let
`seekTo(i)` on a cursor that is not initialised pass its head, find the chunk
range, enter the chunk block and return the error `e` from it.  Then the
repeated `seekTo(i)` resets the range and the size cache again, enters the
chunk block again, returns the same error and leaves the same cursor. -/
theorem seekTo_retry_not_initialised (t : SampleTable) (s s2 s1 : SampleIterator)
    (i : Nat) (e : status_t)
    (hi : i < t.mNumSampleSizes)
    (hboxes : ¬ (t.mSampleToChunkOffset < 0 ∨ t.mChunkOffsetOffset < 0
      ∨ t.mSampleSizeOffset < 0 ∨ t.mTimeToSampleCount = 0))
    (hinit : s.mInitialized = false)
    (hrange : seekToChunkRange t s i = some (status_t.OK, s2))
    (hstop : i < s2.mStopChunkSampleIndex) (hspc : s2.mSamplesPerChunk ≠ 0)
    (hchunk : seekToChunk t s2
        (u32 (sub32 i s2.mFirstChunkSampleIndex / s2.mSamplesPerChunk + s2.mFirstChunk))
      = some (e, s1))
    (he : e ≠ status_t.OK) :
    seekTo t s i = some (e, s1) ∧ seekTo t s1 i = some (e, s1) := by
  obtain ⟨r1, r2, r3⟩ := seekToChunkRange_frame t s s2 i _ hrange
  obtain ⟨c1, c2, c3⟩ := seekToChunk_frame t s2 s1 _ _ hchunk
  have hres1 : s1.resolved = s.resolved := c2.trans r2
  have hinit2 : s2.mInitialized = false := by
    have h := congrArg (fun p => p.1) r2
    exact h.trans hinit
  have hinit1 : s1.mInitialized = false := by
    have h := congrArg (fun p => p.1) hres1
    exact h.trans hinit
  have hfirstCall : seekTo t s i = some (e, s1) := by
    rw [seekTo_at_chunk t s s2 i hi hboxes
      (fun h => by rw [hinit] at h; exact Bool.noConfusion h.1) hrange hstop hspc, hchunk]
    cases e with
    | OK => exact absurd rfl he
    | ERROR_END_OF_STREAM => rfl
    | ERROR_MALFORMED => rfl
    | ERROR_OUT_OF_RANGE => rfl
    | ERROR_IO => rfl
  refine ⟨hfirstCall, ?_⟩
  -- the range search of the first call starts from the reset cursor
  have hfind : findChunkRange t s.reset i = some (status_t.OK, s2) := by
    have h := hrange
    unfold seekToChunkRange at h
    simp only at h
    rw [if_pos (Or.inl hinit)] at h
    have h0 : i ≥ s.reset.mStopChunkSampleIndex := Nat.zero_le _
    rw [if_pos h0] at h
    exact h
  -- the reset cursor of the repeated call differs in the chunk state only
  have hreset : s1.reset
      = s.reset.withChunkState s1.mCurrentChunkIndex s1.mCurrentChunkOffset
          s1.mCurrentChunkSampleSizes := by
    apply SampleIterator.eq_of_views
    · exact c1.trans r1
    · exact hres1
    · rfl
    · rfl
    · rfl
  have hrange1 : seekToChunkRange t s1 i
      = some (status_t.OK,
          s2.withChunkState s1.mCurrentChunkIndex s1.mCurrentChunkOffset
            s1.mCurrentChunkSampleSizes) := by
    unfold seekToChunkRange
    simp only
    rw [if_pos (Or.inl hinit1)]
    have h0 : i ≥ s1.reset.mStopChunkSampleIndex := Nat.zero_le _
    rw [if_pos h0, hreset]
    exact findChunkRange_withChunkState t s.reset s2 i _ _ _ _ hfind
  have hchunk1 := seekToChunk_again t s2 s1 _ e hinit2 hchunk he
  rw [seekTo_at_chunk t s1 _ i hi hboxes
    (fun h => by rw [hinit1] at h; exact Bool.noConfusion h.1) hrange1 hstop hspc]
  show (match seekToChunk t
      (s2.withChunkState s1.mCurrentChunkIndex s1.mCurrentChunkOffset
        s1.mCurrentChunkSampleSizes)
      (u32 (sub32 i s2.mFirstChunkSampleIndex / s2.mSamplesPerChunk + s2.mFirstChunk)) with
    | none => none
    | some (status_t.OK, s5) => seekToSample t s5 i
    | some (err, s5) => some (err, s5)) = some (e, s1)
  rw [hchunk1]
  cases e with
  | OK => exact absurd rfl he
  | ERROR_END_OF_STREAM => rfl
  | ERROR_MALFORMED => rfl
  | ERROR_OUT_OF_RANGE => rfl
  | ERROR_IO => rfl

/-- The theorem above at `sizeReadFailTable` and a new cursor: `seekTo(1)`
returns `ERROR_IO` from the chunk block, and so does the repeated
`seekTo(1)`. -/
theorem seekTo_retry_not_initialised_example :
    ∃ s1, seekTo sizeReadFailTable (SampleIterator.create SampleIterator.zero) 1
        = some ( status_t.ERROR_IO, s1) ∧
      seekTo sizeReadFailTable s1 1 = some ( status_t.ERROR_IO, s1) := by
  have hr : ∃ s2, seekToChunkRange sizeReadFailTable (SampleIterator.create SampleIterator.zero) 1
      = some (status_t.OK, s2) ∧ 1 < s2.mStopChunkSampleIndex ∧ s2.mSamplesPerChunk ≠ 0 ∧
      ∃ s1, seekToChunk sizeReadFailTable s2
        (u32 (sub32 1 s2.mFirstChunkSampleIndex / s2.mSamplesPerChunk + s2.mFirstChunk))
        = some ( status_t.ERROR_IO, s1) := by
    refine ⟨_, rfl, by decide, by decide, _, rfl⟩
  obtain ⟨s2, h1, h2, h3, s1, h4⟩ := hr
  exact ⟨s1, seekTo_retry_not_initialised sizeReadFailTable _ s2 s1 1 status_t.ERROR_IO
    (by decide) (by decide) rfl h1 h2 h3 h4 (by decide)⟩

/-! ### Reads of the size cache where the arithmetic does not wrap -/

theorem windowOk_congr (t : SampleTable) (s s1 : SampleIterator)
    (h : s1.sizeCache = s.sizeCache) (hs : WindowOk t s) : WindowOk t s1 := by
  unfold SampleIterator.sizeCache at h
  simp only [Prod.mk.injEq] at h
  obtain ⟨h1, h2, h3⟩ := h
  unfold WindowOk at *
  rw [h1, h2, h3]
  exact hs

theorem windowOk_reset (t : SampleTable) (s : SampleIterator) : WindowOk t s.reset :=
  ⟨Nat.zero_le _, fun _ h => nomatch h⟩

theorem cacheWindowSize_le (t : SampleTable) (sampleIndex : Nat) :
    cacheWindowSize t sampleIndex ≤ kMaxSampleCacheSize := by
  unfold cacheWindowSize
  simp only
  split
  · exact Nat.le_refl _
  · omega

/-- A new cache window keeps the size cache well formed. -/
theorem windowOk_new (t : SampleTable) (s : SampleIterator) (sampleIndex : Nat)
    (hi : sampleIndex < t.mNumSampleSizes) (hs : WindowOk t s) :
    WindowOk t (newSampleCacheWindow t s sampleIndex) := by
  have hsize : (newSampleCacheWindow t s sampleIndex).mSampleCacheSize
      = cacheWindowSize t sampleIndex := rfl
  have hstart : (newSampleCacheWindow t s sampleIndex).mCurrentSampleCacheStartIndex
      = sampleIndex := rfl
  have hcache : (newSampleCacheWindow t s sampleIndex).mSampleCache
      = if cacheWindowSize t sampleIndex ≠ s.mSampleCacheSize
        then some ((List.range (cacheWindowSize t sampleIndex)).map
          (t.uninitialised (cacheWindowSize t sampleIndex)))
        else s.mSampleCache := rfl
  refine ⟨?_, ?_⟩
  · rw [hsize]
    exact cacheWindowSize_le t sampleIndex
  · intro cache hc
    rw [hsize, hstart]
    refine ⟨?_, hi, rfl⟩
    rw [hcache] at hc
    by_cases hne : cacheWindowSize t sampleIndex ≠ s.mSampleCacheSize
    · rw [if_pos hne] at hc
      simp only [Option.some.injEq] at hc
      rw [← hc, List.length_map, List.length_range]
    · rw [if_neg hne] at hc
      rw [not_not.mp hne]
      exact (hs.2 cache hc).1

/-- The `readAt` call that fills the cache leaves a buffer of the same
length. -/
theorem fillSampleCache_length (t : SampleTable) (sampleIndex size : Nat) (cache0 : List Nat)
    (h : cache0.length = size) :
    (fillSampleCache t sampleIndex size cache0).2.length = size := by
  unfold fillSampleCache
  split
  · exact h
  · rename_i bs _
    split
    · rename_i hlt
      simp only [List.length_append, List.length_drop]
      omega
    · rename_i hge
      simp only [List.length_take]
      omega

/-- The cursor with another buffer of the same length. -/
theorem windowOk_setCache (t : SampleTable) (s : SampleIterator) (cache0 cache : List Nat)
    (h0 : s.mSampleCache = some cache0) (hlen : cache.length = cache0.length)
    (hs : WindowOk t s) : WindowOk t { s with mSampleCache := some cache } := by
  obtain ⟨a1, a2, a3⟩ := hs.2 cache0 h0
  refine ⟨hs.1, ?_⟩
  intro c hc
  simp only [Option.some.injEq] at hc
  refine ⟨?_, a2, a3⟩
  rw [← hc, hlen]
  exact a1

/-- `getSampleSizeDirect` keeps the size cache well formed, whatever it
returns. -/
theorem getSampleSizeDirect_windowOk (t : SampleTable) (s s1 : SampleIterator)
    (sampleIndex size : Nat) (r : status_t) (hs : WindowOk t s)
    (h : getSampleSizeDirect t s sampleIndex = some (r, size, s1)) : WindowOk t s1 := by
  unfold getSampleSizeDirect at h
  split at h
  · cases h
    exact hs
  · rename_i hlt
    split at h
    · cases h
      exact hs
    · have hw1 : WindowOk t
          (if readNewSampleCache t s sampleIndex = true then newSampleCacheWindow t s sampleIndex
            else s) := by
        split
        · exact windowOk_new t s sampleIndex (by omega) hs
        · exact hs
      generalize (if readNewSampleCache t s sampleIndex = true
        then newSampleCacheWindow t s sampleIndex else s) = q at h hw1
      simp only at h
      cases hc : q.mSampleCache with
      | none =>
        simp only [hc] at h
        cases h
        exact hw1
      | some cache0 =>
        simp only [hc] at h
        have hlen0 := (hw1.2 cache0 hc).1
        have hload : (if readNewSampleCache t s sampleIndex = true then
            fillSampleCache t sampleIndex q.mSampleCacheSize cache0
            else (true, cache0)).2.length = cache0.length := by
          split
          · rw [fillSampleCache_length t sampleIndex _ cache0 hlen0, hlen0]
          · rfl
        generalize (if readNewSampleCache t s sampleIndex = true then
            fillSampleCache t sampleIndex q.mSampleCacheSize cache0
            else (true, cache0)) = loaded at h hload
        split at h
        · cases h
          exact hw1
        · split at h
          · cases h
            exact windowOk_setCache t q cache0 _ hc hload hw1
          · simp only [Option.map_eq_some'] at h
            obtain ⟨v, _, hv⟩ := h
            cases hv
            exact windowOk_setCache t q cache0 _ hc hload hw1

theorem loadChunkSampleSizes_windowOk (t : SampleTable) (first : Nat) :
    ∀ (remaining i : Nat) (s s1 : SampleIterator) (r : status_t),
      WindowOk t s → loadChunkSampleSizes t first remaining i s = some (r, s1) →
      WindowOk t s1 := by
  intro remaining
  induction remaining with
  | zero =>
    intro i s s1 r hs h
    simp only [loadChunkSampleSizes] at h
    cases h
    exact hs
  | succ n ih =>
    intro i s s1 r hs h
    unfold loadChunkSampleSizes at h
    cases hg : getSampleSizeDirect t s (u32 (first + i)) with
    | none => simp [hg] at h
    | some p =>
      obtain ⟨e, size, s2⟩ := p
      have h2 := getSampleSizeDirect_windowOk t s s2 _ size e hs hg
      cases e with
      | OK =>
        simp only [hg] at h
        refine ih _ _ _ _ ?_ h
        exact windowOk_congr t s2 _ rfl h2
      | ERROR_END_OF_STREAM => simp only [hg] at h; cases h; exact h2
      | ERROR_MALFORMED => simp only [hg] at h; cases h; exact h2
      | ERROR_OUT_OF_RANGE => simp only [hg] at h; cases h; exact h2
      | ERROR_IO => simp only [hg] at h; cases h; exact h2

theorem seekToChunk_windowOk (t : SampleTable) (s s1 : SampleIterator) (chunk : Nat)
    (r : status_t) (hs : WindowOk t s) (h : seekToChunk t s chunk = some (r, s1)) :
    WindowOk t s1 := by
  unfold seekToChunk at h
  split at h
  · cases hg : getChunkOffset t chunk with
    | none => simp [hg] at h
    | some p =>
      obtain ⟨e, off⟩ := p
      cases e with
      | OK =>
        simp only [hg] at h
        refine loadChunkSampleSizes_windowOk t _ _ _ _ _ _ ?_ h
        exact windowOk_congr t s _ rfl hs
      | ERROR_END_OF_STREAM => simp only [hg] at h; cases h; exact windowOk_congr t s _ rfl hs
      | ERROR_MALFORMED => simp only [hg] at h; cases h; exact windowOk_congr t s _ rfl hs
      | ERROR_OUT_OF_RANGE => simp only [hg] at h; cases h; exact windowOk_congr t s _ rfl hs
      | ERROR_IO => simp only [hg] at h; cases h; exact windowOk_congr t s _ rfl hs
  · cases h
    exact hs

theorem seekToChunkRange_windowOk (t : SampleTable) (s s1 : SampleIterator) (sampleIndex : Nat)
    (r : status_t) (hs : WindowOk t s)
    (h : seekToChunkRange t s sampleIndex = some (r, s1)) : WindowOk t s1 := by
  unfold seekToChunkRange at h
  simp only at h
  split at h
  · split at h
    · obtain ⟨_, _, _, f4⟩ := findChunkRange_frame t _ s1 sampleIndex r h
      exact windowOk_congr t _ s1 f4 (windowOk_reset t s)
    · cases h
      exact windowOk_reset t s
  · split at h
    · obtain ⟨_, _, _, f4⟩ := findChunkRange_frame t _ s1 sampleIndex r h
      exact windowOk_congr t _ s1 f4 hs
    · cases h
      exact hs

/-- The function `seekTo` keeps the size cache well formed, whatever it
returns. -/
theorem seekTo_windowOk (t : SampleTable) (s s1 : SampleIterator) (sampleIndex : Nat)
    (r : status_t) (hs : WindowOk t s) (h : seekTo t s sampleIndex = some (r, s1)) :
    WindowOk t s1 := by
  unfold seekTo at h
  split at h
  · cases h; exact hs
  · split at h
    · cases h; exact hs
    · split at h
      · cases h; exact hs
      · cases hr : seekToChunkRange t s sampleIndex with
        | none => simp [hr] at h
        | some p =>
          obtain ⟨e, s2⟩ := p
          have h2 := seekToChunkRange_windowOk t s s2 sampleIndex e hs hr
          cases e with
          | OK =>
            simp only [hr] at h
            split at h
            · cases h
            · split at h
              · cases h
              · cases hc : seekToChunk t s2
                    (u32 (sub32 sampleIndex s2.mFirstChunkSampleIndex / s2.mSamplesPerChunk
                      + s2.mFirstChunk)) with
                | none => simp [hc] at h
                | some p5 =>
                  obtain ⟨e5, s5⟩ := p5
                  have h5 := seekToChunk_windowOk t s2 s5 _ e5 h2 hc
                  cases e5 with
                  | OK =>
                    simp only [hc] at h
                    exact windowOk_congr t s5 s1 (seekToSample_sizeCache t s5 s1 _ r h) h5
                  | ERROR_END_OF_STREAM => simp only [hc] at h; cases h; exact h5
                  | ERROR_MALFORMED => simp only [hc] at h; cases h; exact h5
                  | ERROR_OUT_OF_RANGE => simp only [hc] at h; cases h; exact h5
                  | ERROR_IO => simp only [hc] at h; cases h; exact h5
          | ERROR_END_OF_STREAM => simp only [hr] at h; cases h; exact h2
          | ERROR_MALFORMED => simp only [hr] at h; cases h; exact h2
          | ERROR_OUT_OF_RANGE => simp only [hr] at h; cases h; exact h2
          | ERROR_IO => simp only [hr] at h; cases h; exact h2

/-- Every cursor reached by calls of `seekTo` has a well formed size
cache. -/
theorem reachedByCalls_windowOk (t : SampleTable) (s : SampleIterator)
    (h : ReachedByCalls t s) : WindowOk t s := by
  induction h with
  | fresh junk => exact ⟨Nat.zero_le _, fun _ h => nomatch h⟩
  | call s s1 i r _ hcall ih => exact seekTo_windowOk t s s1 i r ih hcall

theorem readBE_isSome (buf : List Nat) (off : Nat) :
    ∀ (n : Nat), off + n ≤ buf.length → ∃ v, readBE buf off n = some v := by
  intro n
  induction n with
  | zero =>
    intro _
    exact ⟨0, rfl⟩
  | succ n ih =>
    intro h
    obtain ⟨hi, hhi⟩ := ih (by omega)
    obtain ⟨b, hb⟩ := byteAt_isSome buf (off + n) (by omega)
    refine ⟨hi * 256 + b, ?_⟩
    rw [readBE, hhi, hb]

/-- The `switch` of `getSampleSizeDirect` decodes a size when the bytes it
reads lie inside the buffer. -/
theorem decodeSampleSize_isSome (t : SampleTable) (cache : List Nat) (rel : Nat)
    (h : u32 (rel * t.mSampleSizeFieldSize) / 8 + decodedBytes t ≤ cache.length) :
    ∃ v, decodeSampleSize t cache rel = some v := by
  unfold decodeSampleSize
  unfold decodedBytes at h
  simp only
  by_cases h32 : t.mSampleSizeFieldSize = 32
  · rw [if_pos h32] at h ⊢
    exact readBE_isSome cache _ 4 h
  · rw [if_neg h32] at h ⊢
    by_cases h16 : t.mSampleSizeFieldSize = 16
    · rw [if_pos h16] at h ⊢
      exact readBE_isSome cache _ 2 h
    · rw [if_neg h16] at h ⊢
      obtain ⟨b, hb⟩ := byteAt_isSome cache (u32 (rel * t.mSampleSizeFieldSize) / 8) (by omega)
      by_cases h8 : t.mSampleSizeFieldSize = 8
      · rw [if_pos h8]
        exact ⟨b, hb⟩
      · rw [if_neg h8, hb]
        exact ⟨_, rfl⟩

/-- Where the products do not wrap, a sample that passes the window test has
its bytes inside the window. -/
theorem window_test_arith (N w start i : Nat)
    (hw : w = 4 ∨ w = 8 ∨ w = 16 ∨ w = 32) (hN : N * w + 4 < 4294967296)
    (hs : start ≤ i) (hi : i < N)
    (htest : u32 (u32 (sub32 i start * w) + 4) / 8
      < (if u32 (u32 (sub32 N start * w) + 4) / 8 > 4096 then 4096
         else u32 (u32 (sub32 N start * w) + 4) / 8)) :
    u32 (sub32 i start * w) / 8 + (if w = 32 then 4 else if w = 16 then 2 else 1)
      ≤ (if u32 (u32 (sub32 N start * w) + 4) / 8 > 4096 then 4096
         else u32 (u32 (sub32 N start * w) + 4) / 8) := by
  have h1 : sub32 i start = i - start := by
    unfold sub32
    rcases hw with h | h | h | h <;> subst h <;> omega
  have h2 : sub32 N start = N - start := by
    unfold sub32
    rcases hw with h | h | h | h <;> subst h <;> omega
  have h3 : u32 ((i - start) * w) = (i - start) * w := by
    unfold u32
    rcases hw with h | h | h | h <;> subst h <;> omega
  have h4 : u32 ((N - start) * w) = (N - start) * w := by
    unfold u32
    rcases hw with h | h | h | h <;> subst h <;> omega
  have h5 : u32 ((i - start) * w + 4) = (i - start) * w + 4 := by
    unfold u32
    rcases hw with h | h | h | h <;> subst h <;> omega
  have h6 : u32 ((N - start) * w + 4) = (N - start) * w + 4 := by
    unfold u32
    rcases hw with h | h | h | h <;> subst h <;> omega
  rw [h1, h2, h3, h4, h5, h6] at htest
  rw [h1, h2, h3, h4, h6]
  rcases hw with h | h | h | h <;> subst h <;> simp only [Nat.reduceEqDiff, if_false, if_true]
    <;> split at htest <;> split <;> omega

/-- Where the products do not wrap, a new window holds the bytes of its first
sample. -/
theorem window_new_arith (N w i : Nat)
    (hw : w = 4 ∨ w = 8 ∨ w = 16 ∨ w = 32) (hN : N * w + 4 < 4294967296) (hi : i < N) :
    u32 (sub32 i i * w) / 8 + (if w = 32 then 4 else if w = 16 then 2 else 1)
      ≤ (if u32 (u32 (sub32 N i * w) + 4) / 8 > 4096 then 4096
         else u32 (u32 (sub32 N i * w) + 4) / 8) := by
  have h1 : sub32 i i = 0 := by
    unfold sub32
    rcases hw with h | h | h | h <;> subst h <;> omega
  have h2 : sub32 N i = N - i := by
    unfold sub32
    rcases hw with h | h | h | h <;> subst h <;> omega
  have h4 : u32 ((N - i) * w) = (N - i) * w := by
    unfold u32
    rcases hw with h | h | h | h <;> subst h <;> omega
  have h6 : u32 ((N - i) * w + 4) = (N - i) * w + 4 := by
    unfold u32
    rcases hw with h | h | h | h <;> subst h <;> omega
  have h7 : u32 (0 * w) / 8 = 0 := by
    rw [Nat.zero_mul]
    rfl
  rw [h1, h2, h4, h6, h7]
  rcases hw with h | h | h | h <;> subst h <;> simp only [Nat.reduceEqDiff, if_false, if_true]
    <;> split <;> omega

/-- The function `getSampleSizeDirect` for a sample below the sample count of
a table with no default size, when the cache pointer is null after the window
block. -/
theorem getSampleSizeDirect_null (t : SampleTable) (s q : SampleIterator) (i : Nat)
    (hi : i < t.mNumSampleSizes) (hdef : t.mDefaultSampleSize = 0)
    (hq : q = if readNewSampleCache t s i = true then newSampleCacheWindow t s i else s)
    (hc : q.mSampleCache = none) :
    getSampleSizeDirect t s i = some ( status_t.ERROR_IO, 0, q) := by
  subst hq
  have h1 : ¬ (i ≥ t.mNumSampleSizes) := by omega
  have h2 : ¬ (t.mDefaultSampleSize > 0) := by omega
  unfold getSampleSizeDirect
  rw [if_neg h1, if_neg h2]
  simp only [hc]

/-- The function `getSampleSizeDirect` for a sample below the sample count of
a table with no default size and a supported width, when the cache pointer is
not null after the window block. -/
theorem getSampleSizeDirect_cached (t : SampleTable) (s q : SampleIterator) (i : Nat)
    (cache0 : List Nat) (loaded : Bool × List Nat)
    (hw : t.mSampleSizeFieldSize = 4 ∨ t.mSampleSizeFieldSize = 8
      ∨ t.mSampleSizeFieldSize = 16 ∨ t.mSampleSizeFieldSize = 32)
    (hi : i < t.mNumSampleSizes) (hdef : t.mDefaultSampleSize = 0)
    (hq : q = if readNewSampleCache t s i = true then newSampleCacheWindow t s i else s)
    (hc : q.mSampleCache = some cache0)
    (hl : loaded = if readNewSampleCache t s i = true
      then fillSampleCache t i q.mSampleCacheSize cache0 else (true, cache0)) :
    getSampleSizeDirect t s i
      = if loaded.1 = false then
          some ( status_t.ERROR_IO, 0, { q with mSampleCache := some loaded.2 })
        else
          (decodeSampleSize t loaded.2 (sub32 i q.mCurrentSampleCacheStartIndex)).map
            (fun size => (status_t.OK, size, { q with mSampleCache := some loaded.2 })) := by
  subst hq
  subst hl
  have h1 : ¬ (i ≥ t.mNumSampleSizes) := by omega
  have h2 : ¬ (t.mDefaultSampleSize > 0) := by omega
  have h3 : ¬ (t.mSampleSizeFieldSize ≠ 32 ∧ t.mSampleSizeFieldSize ≠ 16 ∧
      t.mSampleSizeFieldSize ≠ 8 ∧ t.mSampleSizeFieldSize ≠ 4) := by
    intro h
    rcases hw with h4 | h4 | h4 | h4
    · exact h.2.2.2 h4
    · exact h.2.2.1 h4
    · exact h.2.1 h4
    · exact h.1 h4
  unfold getSampleSizeDirect
  rw [if_neg h1, if_neg h2]
  simp only [hc]
  rw [if_neg h3]

/-- Where the products of `getSampleSizeDirect` do not wrap, its reads of the
size cache stay inside the window.  Let the table have a supported field
width, no default size and `mNumSampleSizes * mSampleSizeFieldSize + 4` below
`2^32`, and let the size cache of the cursor be well formed.  Then for every
sample below the sample count `getSampleSizeDirect` returns a status; it
leaves the size cache well formed; and when it returns `OK` the cache size is
at most `kMaxSampleCacheSize`, the window starts at or before the sample, the
bytes it decoded, from `cacheReadOffset` on, lie inside the buffer of
`mSampleCacheSize` bytes, and, when the call has set up a new window, the
window starts at the sample and holds the `mSampleCacheSize` bytes the data
source delivered at `sampleCacheFileOffset`. -/
theorem getSampleSizeDirect_in_window (t : SampleTable) (s : SampleIterator) (i : Nat)
    (hw : t.mSampleSizeFieldSize = 4 ∨ t.mSampleSizeFieldSize = 8
      ∨ t.mSampleSizeFieldSize = 16 ∨ t.mSampleSizeFieldSize = 32)
    (hdef : t.mDefaultSampleSize = 0)
    (hN : t.mNumSampleSizes * t.mSampleSizeFieldSize + 4 < 4294967296)
    (hs : WindowOk t s) (hi : i < t.mNumSampleSizes) :
    ∃ r size s1, getSampleSizeDirect t s i = some (r, size, s1) ∧ WindowOk t s1 ∧
      (r = status_t.OK →
        ∃ cache, s1.mSampleCache = some cache ∧ cache.length = s1.mSampleCacheSize ∧
          s1.mSampleCacheSize ≤ kMaxSampleCacheSize ∧
          s1.mCurrentSampleCacheStartIndex ≤ i ∧
          cacheReadOffset t s1 i + decodedBytes t ≤ s1.mSampleCacheSize ∧
          (readNewSampleCache t s i = true →
            s1.mCurrentSampleCacheStartIndex = i ∧
            ∃ bs, t.readAt (sampleCacheFileOffset t i) s1.mSampleCacheSize = some bs ∧
              s1.mSampleCacheSize ≤ bs.length ∧ cache = bs.take s1.mSampleCacheSize)) := by
  have hq : WindowOk t
      (if readNewSampleCache t s i = true then newSampleCacheWindow t s i else s) := by
    split
    · exact windowOk_new t s i hi hs
    · exact hs
  have hbytes :
      (if readNewSampleCache t s i = true then newSampleCacheWindow t s i
        else s).mCurrentSampleCacheStartIndex ≤ i ∧
      ∀ cache0,
        (if readNewSampleCache t s i = true then newSampleCacheWindow t s i
          else s).mSampleCache = some cache0 →
        u32 (sub32 i (if readNewSampleCache t s i = true then newSampleCacheWindow t s i
            else s).mCurrentSampleCacheStartIndex * t.mSampleSizeFieldSize) / 8
          + decodedBytes t
        ≤ (if readNewSampleCache t s i = true then newSampleCacheWindow t s i
            else s).mSampleCacheSize := by
    by_cases hnew : readNewSampleCache t s i = true
    · rw [if_pos hnew]
      refine ⟨Nat.le_refl _, ?_⟩
      intro cache0 _
      exact window_new_arith t.mNumSampleSizes t.mSampleSizeFieldSize i hw hN hi
    · rw [if_neg hnew]
      have hno : ¬ (i < s.mCurrentSampleCacheStartIndex ∨
          u32 (u32 (sub32 i s.mCurrentSampleCacheStartIndex * t.mSampleSizeFieldSize) + 4) / 8
            ≥ s.mSampleCacheSize) := by
        intro h
        apply hnew
        unfold readNewSampleCache
        exact decide_eq_true h
      have hstart : s.mCurrentSampleCacheStartIndex ≤ i := by
        by_contra hc
        exact hno (Or.inl (by omega))
      refine ⟨hstart, ?_⟩
      intro cache0 hc0
      obtain ⟨_, _, a3⟩ := hs.2 cache0 hc0
      have htest : u32 (u32 (sub32 i s.mCurrentSampleCacheStartIndex
          * t.mSampleSizeFieldSize) + 4) / 8 < s.mSampleCacheSize := by
        by_contra hc
        exact hno (Or.inr (by omega))
      rw [a3] at htest ⊢
      exact window_test_arith t.mNumSampleSizes t.mSampleSizeFieldSize
        s.mCurrentSampleCacheStartIndex i hw hN hstart hi htest
  generalize hqdef : (if readNewSampleCache t s i = true then newSampleCacheWindow t s i
    else s) = q at hq hbytes
  cases hc : q.mSampleCache with
  | none =>
    refine ⟨_, _, _, getSampleSizeDirect_null t s q i hi hdef hqdef.symm hc, hq, ?_⟩
    intro h
    cases h
  | some cache0 =>
    obtain ⟨a1, _, _⟩ := hq.2 cache0 hc
    have hlen : (if readNewSampleCache t s i = true
        then fillSampleCache t i q.mSampleCacheSize cache0 else (true, cache0)).2.length
        = q.mSampleCacheSize := by
      split
      · exact fillSampleCache_length t i _ cache0 a1
      · exact a1
    generalize hldef : (if readNewSampleCache t s i = true
      then fillSampleCache t i q.mSampleCacheSize cache0 else (true, cache0)) = loaded at hlen
    have heq := getSampleSizeDirect_cached t s q i cache0 loaded hw hi hdef hqdef.symm hc
      hldef.symm
    have hq1 : WindowOk t { q with mSampleCache := some loaded.2 } :=
      windowOk_setCache t q cache0 _ hc (hlen.trans a1.symm) hq
    by_cases hfail : loaded.1 = false
    · rw [if_pos hfail] at heq
      refine ⟨_, _, _, heq, hq1, ?_⟩
      intro h
      cases h
    · rw [if_neg hfail] at heq
      have hin := hbytes.2 cache0 hc
      obtain ⟨v, hv⟩ := decodeSampleSize_isSome t loaded.2
        (sub32 i q.mCurrentSampleCacheStartIndex) (by rw [hlen]; exact hin)
      rw [hv] at heq
      refine ⟨_, _, _, heq, hq1, ?_⟩
      intro _
      refine ⟨loaded.2, rfl, hlen, hq.1, hbytes.1, hin, ?_⟩
      intro hnew
      rw [if_pos hnew] at hqdef hldef
      have hl1 : loaded.1 = true := by
        cases hb : loaded.1 with
        | false => exact absurd hb hfail
        | true => rfl
      rw [← hldef] at hl1 ⊢
      refine ⟨?_, fillSampleCache_ok t i _ cache0 hl1⟩
      rw [← hqdef]
      rfl

/-- Where `mSampleSizeFieldSize * sampleIndex` does not wrap and the sum stays
in the range of `off64_t`, the byte offset at which a new window is read is
`mSampleSizeOffset + 12 + mSampleSizeFieldSize * sampleIndex / 8`. -/
theorem sampleCacheFileOffset_exact (t : SampleTable) (i : Nat)
    (hN : t.mNumSampleSizes * t.mSampleSizeFieldSize + 4 < 4294967296)
    (hi : i < t.mNumSampleSizes)
    (hoff : 0 ≤ t.mSampleSizeOffset) (hoff1 : t.mSampleSizeOffset < 4611686018427387904) :
    sampleCacheFileOffset t i
      = t.mSampleSizeOffset + 12 + ((t.mSampleSizeFieldSize * i / 8 : Nat) : Int) := by
  have hprod : t.mSampleSizeFieldSize * i < 4294967296 := by
    have h1 : t.mSampleSizeFieldSize * i ≤ t.mSampleSizeFieldSize * t.mNumSampleSizes :=
      Nat.mul_le_mul_left _ (by omega)
    rw [Nat.mul_comm t.mSampleSizeFieldSize t.mNumSampleSizes] at h1
    omega
  unfold sampleCacheFileOffset
  rw [u32_of_lt hprod]
  generalize t.mSampleSizeFieldSize * i = p at hprod
  have h1 : wrap64 (t.mSampleSizeOffset + 12) = t.mSampleSizeOffset + 12 := by
    unfold wrap64
    split <;> omega
  rw [h1]
  unfold wrap64
  split <;> omega

/-- The claim about reads of the size cache, where the arithmetic does not
wrap: for every table with a supported field width, no default size and
`mNumSampleSizes * mSampleSizeFieldSize + 4` below `2^32`, every cursor
reached by calls of `seekTo` and every sample below the sample count,
`getSampleSizeDirect` returns a status, and when that is `OK` the cache size
is at most `kMaxSampleCacheSize` and the bytes decoded lie inside the
window. -/
theorem reachedByCalls_in_window (t : SampleTable) (s : SampleIterator) (i : Nat)
    (hw : t.mSampleSizeFieldSize = 4 ∨ t.mSampleSizeFieldSize = 8
      ∨ t.mSampleSizeFieldSize = 16 ∨ t.mSampleSizeFieldSize = 32)
    (hdef : t.mDefaultSampleSize = 0)
    (hN : t.mNumSampleSizes * t.mSampleSizeFieldSize + 4 < 4294967296)
    (hs : ReachedByCalls t s) (hi : i < t.mNumSampleSizes) :
    ∃ r size s1, getSampleSizeDirect t s i = some (r, size, s1) ∧
      (r = status_t.OK →
        ∃ cache, s1.mSampleCache = some cache ∧ cache.length = s1.mSampleCacheSize ∧
          s1.mSampleCacheSize ≤ kMaxSampleCacheSize ∧
          s1.mCurrentSampleCacheStartIndex ≤ i ∧
          cacheReadOffset t s1 i + decodedBytes t ≤ s1.mSampleCacheSize) := by
  obtain ⟨r, size, s1, h1, _, h3⟩ :=
    getSampleSizeDirect_in_window t s i hw hdef hN (reachedByCalls_windowOk t s hs) hi
  refine ⟨r, size, s1, h1, ?_⟩
  intro hr
  obtain ⟨cache, c1, c2, c3, c4, c5, _⟩ := h3 hr
  exact ⟨cache, c1, c2, c3, c4, c5⟩

/-- The in-window theorem at `chunkedTable` and the cursor `chunkedCursor1`,
which `seekTo(1)` on a new cursor leaves: the hypotheses hold there, for
sample 6. -/
theorem reachedByCalls_in_window_example :
    ∃ r size s1, getSampleSizeDirect chunkedTable chunkedCursor1 6 = some (r, size, s1) ∧
      (r = status_t.OK →
        ∃ cache, s1.mSampleCache = some cache ∧ cache.length = s1.mSampleCacheSize ∧
          s1.mSampleCacheSize ≤ kMaxSampleCacheSize ∧
          s1.mCurrentSampleCacheStartIndex ≤ 6 ∧
          cacheReadOffset chunkedTable s1 6 + decodedBytes chunkedTable
            ≤ s1.mSampleCacheSize) :=
  reachedByCalls_in_window chunkedTable chunkedCursor1 6 (Or.inr (Or.inl rfl)) rfl
    (by decide)
    (ReachedByCalls.call _ _ 1 status_t.OK (ReachedByCalls.fresh SampleIterator.zero)
      chunkedCursor1_seek)
    (by decide)

/-- A window whose read failed stays in use.  Over `sizeReadFailTable`, whose
data source fails every read at the start of the sample sizes, `seekTo(6)` on
a new cursor returns `OK` and `seekTo(1)` then returns `ERROR_IO`: the call
`getSampleSizeDirect(0)` has set up a window of 7 bytes that starts at sample
0, and its read has failed.  The window is registered all the same: on the
cursor left behind, `getSampleSizeDirect(2)` takes sample 2 to be inside the
window, reads nothing and returns `OK` with a size decoded from the buffer as
`new` delivered it (`uninitialised`, which for this table gives zero bytes),
and `seekTo(2)` returns `OK` with the sizes 0, 0 for the chunk of the samples
2 and 3, whose sizes in the table are 3 and 4. -/
theorem getSampleSizeDirect_after_failed_read :
    seekTo sizeReadFailTable sizeReadFailCursor6 1
      = some ( status_t.ERROR_IO, sizeReadFailCursor61) ∧
    sizeReadFailCursor61.sizeCache = (some [0, 0, 0, 0, 0, 0, 0], 7, 0) ∧
    sizeReadFailTable.readAt (sampleCacheFileOffset sizeReadFailTable 0) 7 = none ∧
    readNewSampleCache sizeReadFailTable sizeReadFailCursor61 2 = false ∧
    getSampleSizeDirect sizeReadFailTable sizeReadFailCursor61 2
      = some (status_t.OK, 0, sizeReadFailCursor61) ∧
    seekTo sizeReadFailTable sizeReadFailCursor61 2
      = some (status_t.OK, sizeReadFailCursor612) ∧
    sizeReadFailCursor612.mCurrentChunkSampleSizes = [0, 0] ∧
    (seekTo sizeReadFailTable (SampleIterator.create SampleIterator.zero) 2).map
        (fun p => (p.1, p.2.mCurrentChunkSampleSizes))
      = some (status_t.OK, [3, 4]) := by
  decide

/-- The size decoded after a failed read is what the memory held.  Over
`sizeReadFailStaleTable`, where the buffers `new` hands out hold bytes of
value 171, `seekTo(6)` on a new cursor leaves the same cursor as over
`sizeReadFailTable`; `seekTo(1)` returns `ERROR_IO` and leaves the window of 7
bytes at sample 0 with the buffer as `new` delivered it; and
`getSampleSizeDirect(2)` then returns `OK` with the size 171. -/
theorem getSampleSizeDirect_after_failed_read_stale :
    seekTo sizeReadFailStaleTable (SampleIterator.create SampleIterator.zero) 6
      = some (status_t.OK, sizeReadFailCursor6) ∧
    (seekTo sizeReadFailStaleTable sizeReadFailCursor6 1).map
        (fun p => (p.1, p.2.sizeCache))
      = some ( status_t.ERROR_IO, some [171, 171, 171, 171, 171, 171, 171], 7, 0) ∧
    ((seekTo sizeReadFailStaleTable sizeReadFailCursor6 1).bind
        (fun p => getSampleSizeDirect sizeReadFailStaleTable p.2 2)).map
        (fun p => (p.1, p.2.1))
      = some (status_t.OK, 171) := by
  decide

/-! ### The chunk offset of a far chunk -/

/-- C4: the byte offset is not the table entry of the chunk from chunk
`2^30` on.  `getChunkOffset` multiplies the chunk index by 4 in `uint32_t`,
so for chunk `2^30` it reads the entry of chunk 0.  On `manyChunksTable`
(`2^30 + 1` chunks of one sample of size 1 each, 32-bit chunk offsets)
`seekTo(2^30)` on a new cursor returns `OK`; the sample is the first of chunk
`c = (2^30 - 0) / 1 + 0 = 2^30` of the one run, so no sample of the chunk
precedes it; `mCurrentSampleOffset` is `16843009`, the table entry of chunk
0, while the table entry of chunk `2^30` is `33686018`. -/
theorem seekTo_chunk_offset_wraps :
    seekTo manyChunksTable (SampleIterator.create SampleIterator.zero) 1073741824
      = some (status_t.OK, manyChunksCursor) ∧
    (manyChunksCursor.mFirstChunkSampleIndex, manyChunksCursor.mSamplesPerChunk,
        manyChunksCursor.mFirstChunk) = (0, 1, 0) ∧
    (1073741824 - manyChunksCursor.mFirstChunkSampleIndex) / manyChunksCursor.mSamplesPerChunk
        + manyChunksCursor.mFirstChunk = 1073741824 ∧
    (1073741824 - manyChunksCursor.mFirstChunkSampleIndex) % manyChunksCursor.mSamplesPerChunk
        = 0 ∧
    manyChunksCursor.mCurrentChunkIndex = 1073741824 ∧
    manyChunksCursor.mCurrentSampleOffset = 16843009 ∧
    manyChunksCursor.mCurrentSampleSize = 1 ∧
    getChunkOffset manyChunksTable 1073741824 = some (status_t.OK, 16843009) ∧
    chunkOffsetTableEntry manyChunksTable 1073741824 = some 33686018 ∧
    chunkOffsetTableEntry manyChunksTable 0 = some 16843009 := by
  decide

end android
